import Mathlib

/-!
# leon: directory-major scratch filesystem cleanup

A shallow embedding of the quarantine worklog (`src/lib/leon_worklog.c`), the
eligibility test chain (`src/lib/leon_fstest.c`), the recursive delete
(`src/lib/leon_rm.c`) and the cleanup engine (`src/leon/leon.c`), followed by
theorems about them.

Modelling conventions

* A C string is the list of the characters that precede its terminating NUL.
* The SQLite database behind a worklog is a list of rows kept in insertion
  order.  The INSERT of `leon_worklog_addPath` fails on a UNIQUE constraint
  and when the surroundings make it fail (no space left, an I/O error); the
  next `sqlite3_reset` of the statement returns the code of a failed step.
* The filesystem seen by one scan is a tree whose nodes carry the outcome of
  each system call the program can make on them (lstat, opendir/readdir,
  rename, unlink, rmdir).  Mutating calls are appended to a trace.
* A `float` or `double` is an integer times a power of two, and an operation
  on them gives the exact result rounded to the nearest value of its type,
  ties to even.  The clock readings of the rate limiter are inputs, and a
  call of `usleep` is an output; the passing of time is not modelled.
* Logging has no effect on results and is left out.
-/

namespace Leon

/-! ## Definitions -/

/-- A C string without its terminating NUL. -/
abbrev CString := List Char

/-- The tri-state `leon_result_t` of `leon.h`. -/
inductive leon_result_t where
  | kLeonResultUnknown
  | kLeonResultNo
  | kLeonResultYes
  deriving DecidableEq, Repr

open leon_result_t

/-! ### C library helpers -/

/-- The byte read at index `i` of a C string: the terminating NUL at its end. -/
def charAt (s : CString) (i : Nat) : Char := s.getD i (Char.ofNat 0)

/-- The libc `strncmp`: zero when the first `n` characters agree (or both strings end
before that), otherwise the difference of the first differing characters. -/
def strncmp : CString → CString → Nat → Int
  | _, _, 0 => 0
  | [], [], _ + 1 => 0
  | [], b :: _, _ + 1 => 0 - (b.toNat : Int)
  | a :: _, [], _ + 1 => (a.toNat : Int)
  | a :: as, b :: bs, n + 1 =>
    if a = b then strncmp as bs n else (a.toNat : Int) - (b.toNat : Int)

/-- The libc `isdigit` in the C locale. -/
def isdigit (c : Char) : Bool := decide ('0'.toNat ≤ c.toNat) && decide (c.toNat ≤ '9'.toNat)

/-! ### Worklog (`leon_worklog.c`) -/

def SQLITE_OK : Nat := 0
def SQLITE_FULL : Nat := 13
def SQLITE_CONSTRAINT : Nat := 19
def SQLITE_ROW : Nat := 100
def SQLITE_DONE : Nat := 101

/-- One row of `CREATE TABLE worklog (pathId INTEGER PRIMARY KEY, origPath TEXT UNIQUE NOT NULL,
altPath TEXT UNIQUE NOT NULL)`. -/
structure WorklogRow where
  pathId : Nat
  origPath : CString
  altPath : CString
  deriving DecidableEq, Repr

/-- The state behind a `leon_worklog_ref`: the table as the open transaction sees it, the table
as of the last COMMIT (what a ROLLBACK restores), the `inMemory` and `pathToDb` fields, and the
state of the prepared statement `addStmt`: `addStmtRc` is what the next `sqlite3_reset(addStmt)`
returns, `SQLITE_OK` unless the last `sqlite3_step(addStmt)` failed, then the code it failed
with.  `addStmtFaults` stands for the database's surroundings: the codes that the coming calls
of `sqlite3_step(addStmt)` are made to fail with for want of space or on an I/O error
(`SQLITE_FULL`, `SQLITE_IOERR`), with `SQLITE_OK` for a step that runs as the table has it;
when none is left the steps run as the table has it. -/
structure leon_worklog_t where
  rows : List WorklogRow
  committed : List WorklogRow
  inMemory : Bool
  pathToDb : Option CString
  addStmtRc : Nat
  addStmtFaults : List Nat
  deriving DecidableEq, Repr

/-- The SQL function `leonPathStartsWith(testPath, againstPath)` registered by
`__leon_worklog_init`.  `some v` is `sqlite3_result_int(context, v)`; `none` is the SQL NULL that
SQLite returns when the function sets no result (the branch where `strncmp` is non-zero). -/
def __leon_worklog_sqlite3_pathStartsWith (testPath againstPath : CString) : Option Int :=
  let testPathLen := testPath.length
  let againstPathLen := againstPath.length
  if testPathLen ≥ againstPathLen then
    if strncmp testPath againstPath againstPathLen = 0 then
      if charAt testPath againstPathLen = '/' then some 1 else some 0
    else
      none
  else
    some 0

/-- Truth of the SQL condition `v <> 0` in a WHERE clause: NULL is not true. -/
def sqlNonZero (v : Option Int) : Bool :=
  match v with
  | some x => x != 0
  | none => false

/-- The predicate of `DELETE FROM worklog WHERE leonPathStartsWith(origPath, ?) <> 0`. -/
def leonPathStartsWith (candidate pfx : CString) : Bool :=
  sqlNonZero (__leon_worklog_sqlite3_pathStartsWith candidate pfx)

/-- The rowid SQLite assigns to an INTEGER PRIMARY KEY left out of an INSERT: one more than the
largest in use, 1 on an empty table. -/
def nextPathId (rows : List WorklogRow) : Nat :=
  (rows.foldl (fun m r => max m r.pathId) 0) + 1

/-- A result code that stands for an error: any but `SQLITE_OK`, `SQLITE_ROW` and
`SQLITE_DONE`. -/
def sqliteIsError (rc : Nat) : Bool := rc != SQLITE_OK && rc != SQLITE_ROW && rc != SQLITE_DONE

/-- Stepping `INSERT INTO worklog (origPath, altPath) VALUES (?, ?)`.  `fault` is the error code
that the surroundings make the step fail with, if it is one. -/
def sqlite3_step_addStmt (rows : List WorklogRow) (fault : Nat) (origPath altPath : CString) :
    Nat × List WorklogRow :=
  if sqliteIsError fault then
    (fault, rows)
  else if rows.any (fun r => r.origPath == origPath || r.altPath == altPath) then
    (SQLITE_CONSTRAINT, rows)
  else
    (SQLITE_DONE, rows ++ [⟨nextPathId rows, origPath, altPath⟩])

/-- Stepping `DELETE FROM worklog WHERE leonPathStartsWith(origPath, ?) <> 0`. -/
def sqlite3_step_postAddStmt (rows : List WorklogRow) (origPath : CString) :
    Nat × List WorklogRow :=
  (SQLITE_DONE, rows.filter (fun r => !leonPathStartsWith r.origPath origPath))

/-- The function `leon_worklog_create`: an empty table inside an open transaction. -/
def leon_worklog_create : leon_worklog_t := ⟨[], [], true, none, SQLITE_OK, []⟩

/-- The function `leon_worklog_addPath`: reset the statement, insert the row, then delete the
rows that descend from it.  `sqlite3_reset(addStmt)` returns the code of the last step when that
step failed, and the statement is reset either way; with a code other than `SQLITE_OK` - an
error code, `sqlite3_reset` does not return `SQLITE_DONE` - the binds and the step are skipped,
the test `rc == SQLITE_DONE` fails and so does the call.  Returns the C result and the worklog
afterwards. -/
def leon_worklog_addPath (aWorkLog : leon_worklog_t) (inOrigPath inAltPath : CString) :
    Bool × leon_worklog_t :=
  let origPath := inOrigPath
  let altPath := inAltPath
  let rc := aWorkLog.addStmtRc
  if rc = SQLITE_OK then
    let ins := sqlite3_step_addStmt aWorkLog.rows (aWorkLog.addStmtFaults.headD SQLITE_OK)
      origPath altPath
    if ins.1 = SQLITE_DONE then
      let del := sqlite3_step_postAddStmt ins.2 origPath
      if del.1 ≠ SQLITE_DONE then
        (false, { aWorkLog with rows := del.2, addStmtFaults := aWorkLog.addStmtFaults.tail })
      else
        (true, { aWorkLog with rows := del.2, addStmtFaults := aWorkLog.addStmtFaults.tail })
    else
      (false, { aWorkLog with
        addStmtRc := ins.1, addStmtFaults := aWorkLog.addStmtFaults.tail })
  else
    (false, { aWorkLog with addStmtRc := SQLITE_OK })

/-- A sequence of `leon_worklog_addPath` calls, results ignored. -/
def addPaths (w : leon_worklog_t) : List (CString × CString) → leon_worklog_t
  | [] => w
  | (o, a) :: rest => addPaths (leon_worklog_addPath w o a).2 rest

/-- The live entries of a worklog as (origPath, altPath) pairs. -/
def liveEntries (w : leon_worklog_t) : List (CString × CString) :=
  w.rows.map (fun r => (r.origPath, r.altPath))

/-- The path `q` is `p`, a slash, and anything: `p` is a slash-bounded prefix of `q`. -/
def IsSlashPrefix (p q : CString) : Prop := ∃ rest : CString, q = p ++ '/' :: rest

/-- No live entry's origPath is a slash-bounded prefix of another's. -/
def NoOverlap (w : leon_worklog_t) : Prop :=
  ∀ r₁ ∈ w.rows, ∀ r₂ ∈ w.rows, ¬ IsSlashPrefix r₁.origPath r₂.origPath

/-- Every call of the sequence adds a path that does not descend from an entry live at the time
of the call. -/
def DescendantsFirst : leon_worklog_t → List (CString × CString) → Prop
  | _, [] => True
  | w, (o, a) :: rest =>
    (∀ r ∈ w.rows, ¬ IsSlashPrefix r.origPath o) ∧
      DescendantsFirst (leon_worklog_addPath w o a).2 rest

/-! ### Filesystem snapshot -/

def S_IFMT : Nat := 0o170000
def S_IFSOCK : Nat := 0o140000
def S_IFREG : Nat := 0o100000
def S_IFDIR : Nat := 0o040000
def S_IFIFO : Nat := 0o010000

def DT_UNKNOWN : Nat := 0
def DT_DIR : Nat := 4
def DT_REG : Nat := 8

def EPERM : Nat := 1
def ENOENT : Nat := 2
def EACCES : Nat := 13
def EINVAL : Nat := 22

/-- The fields of `struct stat` that the program reads. -/
structure stat where
  st_mode : Nat
  st_uid : Nat
  st_gid : Nat
  st_size : Int
  st_atime : Int
  st_mtime : Int
  deriving DecidableEq, Repr

/-- The test `(fInfo.st_mode & S_IFMT) == S_IFDIR`. -/
def S_ISDIR (fInfo : stat) : Bool := (fInfo.st_mode &&& S_IFMT) == S_IFDIR

mutual
/-- A filesystem entity with the outcome of every system call the program can make on it.  An
errno of 0 is success.  `st` is what a successful `lstat` stores; `entries` is what `readdir`
returns after a successful `opendir` (and again after `rewinddir`). -/
inductive FsNode where
  | mk (lstatErrno : Nat) (st : stat) (opendirErrno : Nat) (entries : DirEntries)
      (renameErrno unlinkErrno rmdirErrno : Nat) : FsNode
/-- The `struct dirent` sequence of a directory stream, each with the entity it names. -/
inductive DirEntries where
  | nil : DirEntries
  | cons (d_name : CString) (d_type : Nat) (node : FsNode) (rest : DirEntries) : DirEntries
end

def FsNode.lstatErrno : FsNode → Nat
  | .mk e _ _ _ _ _ _ => e

def FsNode.st : FsNode → stat
  | .mk _ s _ _ _ _ _ => s

def FsNode.opendirErrno : FsNode → Nat
  | .mk _ _ e _ _ _ _ => e

def FsNode.entries : FsNode → DirEntries
  | .mk _ _ _ l _ _ _ => l

def FsNode.renameErrno : FsNode → Nat
  | .mk _ _ _ _ e _ _ => e

def FsNode.unlinkErrno : FsNode → Nat
  | .mk _ _ _ _ _ e _ => e

def FsNode.rmdirErrno : FsNode → Nat
  | .mk _ _ _ _ _ _ e => e

/-- One directory entry: name, `d_type`, and the entity. -/
structure Dirent where
  d_name : CString
  d_type : Nat
  node : FsNode

def DirEntries.toList : DirEntries → List Dirent
  | .nil => []
  | .cons n t c rest => ⟨n, t, c⟩ :: rest.toList

/-- A mutating system call as issued, with the errno it ended with (0 on success). -/
inductive Syscall where
  | rename (oldPath newPath : CString) (err : Nat)
  | unlink (path : CString) (err : Nat)
  | rmdir (path : CString) (err : Nat)
  deriving DecidableEq, Repr

/-- The path a call acts on (for a rename, the path renamed). -/
def Syscall.path : Syscall → CString
  | .rename oldPath _ _ => oldPath
  | .unlink path _ => path
  | .rmdir path _ => path

def Syscall.isRename : Syscall → Bool
  | .rename _ _ _ => true
  | _ => false

/-! ### Eligibility test chain (`leon_fstest.c`) -/

/-- A node of `_leon_fstest_stack`; the callback's context pointer is part of the closure. -/
structure leon_fstest_node_t where
  name : CString
  callback : CString → stat → leon_result_t

/-- The three functions that `leon_checkPathFn` can point to. -/
inductive leon_fstest_checkPathFunction where
  | leon_fstest_checkPathModificationTimes
  | leon_fstest_checkPathAccessTimes
  | leon_fstest_checkPathMaxTimes
  deriving DecidableEq, Repr

/-- The fields of `struct tm` used by `__leon_mv_dir_format`. -/
structure tm where
  tm_year : Int
  tm_mon : Int
  tm_mday : Int
  tm_hour : Int
  tm_min : Int
  deriving DecidableEq, Repr

/-- The process-wide state that a scan reads: the globals of `leon.c` and `leon_fstest.c`, the
local time captured by the first `__leon_mv_dir_format`, the build's `_DIRENT_HAVE_D_TYPE`, and
the indeterminate initial contents of the local `fInfo` of the `leon_cleanup_dir` invocation on
a given path. -/
structure Config where
  leon_shouldDryRun : Bool
  leon_shouldKeepGoing : Bool
  leon_checkPathFn : leon_fstest_checkPathFunction
  leon_fstest_excludeRoot : Bool
  leon_fstest_temporalThreshold : Int
  leon_fstest_stack : List leon_fstest_node_t
  now_s : tm
  dirent_have_d_type : Bool
  fInfoInit : CString → stat

/-- The function `leon_stat`: `lstat` into `pathInfo`, which a failed call leaves untouched. -/
def leon_stat (node : FsNode) (pathInfo : stat) : Int × stat :=
  if node.lstatErrno = 0 then (0, node.st) else (-1, pathInfo)

/-- The function `leon_isDirectory`. -/
def leon_isDirectory (node : FsNode) : Bool :=
  let r := leon_stat node ⟨0, 0, 0, 0, 0, 0⟩
  if r.1 = 0 then
    if S_ISDIR r.2 then true else false
  else
    false

/-- The callback loop shared by the three check-path functions:
`while ( node ) { result = node->callback(...); if ( result != kLeonResultYes ) break; ... }`. -/
def leon_fstest_chain (path : CString) (pathInfo : stat) :
    List leon_fstest_node_t → leon_result_t → leon_result_t
  | [], result => result
  | node :: link, _ =>
    let result := node.callback path pathInfo
    if result ≠ kLeonResultYes then result else leon_fstest_chain path pathInfo link result

def leon_fstest_checkPathModificationTimes (cfg : Config) (path : CString) (node : FsNode)
    (pathInfo : stat) : leon_result_t × stat :=
  let r := leon_stat node pathInfo
  if r.1 = 0 then
    let pathInfo := r.2
    if cfg.leon_fstest_excludeRoot && (pathInfo.st_uid == 0 || pathInfo.st_gid == 0) then
      (kLeonResultNo, pathInfo)
    else if pathInfo.st_mtime ≥ cfg.leon_fstest_temporalThreshold then
      (kLeonResultNo, pathInfo)
    else
      (leon_fstest_chain path pathInfo cfg.leon_fstest_stack kLeonResultYes, pathInfo)
  else
    (kLeonResultUnknown, r.2)

def leon_fstest_checkPathAccessTimes (cfg : Config) (path : CString) (node : FsNode)
    (pathInfo : stat) : leon_result_t × stat :=
  let r := leon_stat node pathInfo
  if r.1 = 0 then
    let pathInfo := r.2
    if cfg.leon_fstest_excludeRoot && (pathInfo.st_uid == 0 || pathInfo.st_gid == 0) then
      (kLeonResultNo, pathInfo)
    else if pathInfo.st_atime ≥ cfg.leon_fstest_temporalThreshold then
      (kLeonResultNo, pathInfo)
    else
      (leon_fstest_chain path pathInfo cfg.leon_fstest_stack kLeonResultYes, pathInfo)
  else
    (kLeonResultUnknown, r.2)

def leon_fstest_checkPathMaxTimes (cfg : Config) (path : CString) (node : FsNode)
    (pathInfo : stat) : leon_result_t × stat :=
  let r := leon_stat node pathInfo
  if r.1 = 0 then
    let pathInfo := r.2
    if cfg.leon_fstest_excludeRoot && (pathInfo.st_uid == 0 || pathInfo.st_gid == 0) then
      (kLeonResultNo, pathInfo)
    else
      let lastUpdate :=
        if pathInfo.st_atime < pathInfo.st_mtime then pathInfo.st_mtime else pathInfo.st_atime
      if lastUpdate ≥ cfg.leon_fstest_temporalThreshold then
        (kLeonResultNo, pathInfo)
      else
        (leon_fstest_chain path pathInfo cfg.leon_fstest_stack kLeonResultYes, pathInfo)
  else
    (kLeonResultUnknown, r.2)

/-- The call `leon_checkPathFn(path, &fInfo)` through the configured function pointer. -/
def leon_checkPathFn (cfg : Config) (path : CString) (node : FsNode) (pathInfo : stat) :
    leon_result_t × stat :=
  match cfg.leon_checkPathFn with
  | .leon_fstest_checkPathModificationTimes =>
    leon_fstest_checkPathModificationTimes cfg path node pathInfo
  | .leon_fstest_checkPathAccessTimes => leon_fstest_checkPathAccessTimes cfg path node pathInfo
  | .leon_fstest_checkPathMaxTimes => leon_fstest_checkPathMaxTimes cfg path node pathInfo

/-! ### Paths (`leon_path.c`) -/

/-- The string after `leon_path_push(aPath, cString)`; the matching `leon_path_pop` restores
`aPath`, which the embedding keeps by passing the pushed string down and not back. -/
def leon_path_push (aPath cString : CString) : CString :=
  if cString.length ≠ 0 then aPath ++ '/' :: cString else aPath

/-- The string after `leon_path_pushFormat(aPath, format, ...)`, given the formatted text. -/
def leon_path_pushFormat (aPath formatted : CString) : CString :=
  if formatted.length > 0 then aPath ++ '/' :: formatted else aPath

/-! ### Cleanup engine (`leon.c`) -/

/-- The printf conversion `%0<width>d`. -/
def printf_0d (width : Nat) (v : Int) : CString :=
  if v < 0 then
    let ds := Nat.toDigits 10 v.natAbs
    '-' :: (List.replicate (width - 1 - ds.length) '0' ++ ds)
  else
    let ds := Nat.toDigits 10 v.toNat
    List.replicate (width - ds.length) '0' ++ ds

/-- The text that `__leon_mv_dir_format` puts in front of `%s`:
`".leon%04d%02d%02d%02d%02d-"` of year, month, day, hour and minute. -/
def __leon_mv_dir_format (now_s : tm) : CString :=
  ".leon".toList ++ printf_0d 4 (1900 + now_s.tm_year) ++ printf_0d 2 (1 + now_s.tm_mon) ++
    printf_0d 2 now_s.tm_mday ++ printf_0d 2 now_s.tm_hour ++ printf_0d 2 now_s.tm_min ++ ['-']

/-- The loop `while ( *s && (c < 12) && isdigit(*s) ) { s++; c++; }` of `leon_mv_dir`. -/
def leon_mv_dir_digits : CString → Nat → CString × Nat
  | [], c => ([], c)
  | ch :: s, c =>
    if ch ≠ Char.ofNat 0 && decide (c < 12) && isdigit ch then leon_mv_dir_digits s (c + 1)
    else (ch :: s, c)

/-- The test of `leon_mv_dir` for a name left by a previous run: `.leon`, twelve digits, `-`. -/
def leon_mv_dir_flagged (dirName : CString) : Bool :=
  if strncmp dirName ".leon".toList 5 = 0 then
    let r := leon_mv_dir_digits (dirName.drop 5) 0
    r.2 == 12 && charAt r.1 0 == '-'
  else
    false

/-- What a scan threads through: the worklog and the mutating system calls issued so far. -/
structure ScanState where
  worklog : leon_worklog_t
  trace : List Syscall
  deriving DecidableEq, Repr

/-- The function `leon_mv_dir`.  `renameErrno` is the outcome `rename(2)` has on the directory.
Returns `rc` and the state afterwards. -/
def leon_mv_dir (cfg : Config) (basePath origDirPath dirName : CString) (renameErrno : Nat)
    (s : ScanState) : Int × ScanState :=
  if leon_mv_dir_flagged dirName then
    (0, s)
  else
    let altPath := leon_path_pushFormat basePath (__leon_mv_dir_format cfg.now_s ++ dirName)
    let r : Int × List Syscall :=
      if ! cfg.leon_shouldDryRun then
        ((if renameErrno = 0 then 0 else -1), s.trace ++ [Syscall.rename origDirPath altPath renameErrno])
      else
        (0, s.trace)
    if r.1 = 0 then
      (r.1, ⟨(leon_worklog_addPath s.worklog origDirPath altPath).2, r.2⟩)
    else
      (r.1, ⟨s.worklog, r.2⟩)

/-- The test that skips the entries `.` and `..`. -/
def isDotOrDotDot (d_name : CString) : Bool :=
  charAt d_name 0 == '.' &&
    (charAt d_name 1 == Char.ofNat 0 || (charAt d_name 1 == '.' && charAt d_name 2 == Char.ofNat 0))

/-- The locals that the first loop of `leon_cleanup_dir` updates. -/
structure Loop1State where
  should_delete : leon_result_t
  fInfo : stat
  foundSubdir : Bool
  deriving DecidableEq, Repr

/-- The first loop of `leon_cleanup_dir`:
`while ( (should_delete == kLeonResultYes) && (dirEntity = readdir(dirHandle)) )`. -/
def leon_cleanup_dir_loop1 (cfg : Config) (basePath : CString) :
    DirEntries → Loop1State → Loop1State
  | .nil, l => l
  | .cons d_name _ node rest, l =>
    if l.should_delete ≠ kLeonResultYes then l
    else if isDotOrDotDot d_name then leon_cleanup_dir_loop1 cfg basePath rest l
    else
      let r := leon_checkPathFn cfg (leon_path_push basePath d_name) node l.fInfo
      let tmpResult := r.1
      let fInfo := r.2
      if S_ISDIR fInfo then
        leon_cleanup_dir_loop1 cfg basePath rest ⟨l.should_delete, fInfo, true⟩
      else if tmpResult = kLeonResultNo then
        leon_cleanup_dir_loop1 cfg basePath rest ⟨kLeonResultNo, fInfo, l.foundSubdir⟩
      else
        leon_cleanup_dir_loop1 cfg basePath rest ⟨l.should_delete, fInfo, l.foundSubdir⟩

/-- The test of the second loop for a subdirectory: with `_DIRENT_HAVE_D_TYPE`,
`d_type == DT_DIR || ((d_type == DT_UNKNOWN) && leon_isDirectory(path))`, otherwise
`leon_isDirectory(path)`. -/
def isSubdirEntry (cfg : Config) (d_type : Nat) (node : FsNode) : Bool :=
  if cfg.dirent_have_d_type then
    d_type == DT_DIR || (d_type == DT_UNKNOWN && leon_isDirectory node)
  else
    leon_isDirectory node

/-- Lines 304-309 of `leon.c`: what the parent does with the verdict of a subdirectory.  Returns
the `subdir_result` that line 314 tests, and the state. -/
def leon_cleanup_dir_quarantine (cfg : Config) (basePathCopy basePath d_name : CString)
    (node : FsNode) (r : leon_result_t × ScanState) : leon_result_t × ScanState :=
  if r.1 = kLeonResultYes then
    let m := leon_mv_dir cfg basePathCopy basePath d_name node.renameErrno r.2
    if m.1 ≠ 0 then (kLeonResultNo, m.2) else (r.1, m.2)
  else
    r

mutual
/-- The function `leon_cleanup_dir` on the directory `basePath`, which is the entity `node`. -/
def leon_cleanup_dir (cfg : Config) :
    CString → FsNode → ScanState → leon_result_t × ScanState
  | basePath, .mk _ _ opendirErrno entries _ _ _, s =>
    if opendirErrno ≠ 0 then
      (kLeonResultUnknown, s)
    else
      let l := leon_cleanup_dir_loop1 cfg basePath entries
        ⟨kLeonResultYes, cfg.fInfoInit basePath, false⟩
      if l.foundSubdir then
        leon_cleanup_dir_loop2 cfg basePath entries l.should_delete s
      else
        (l.should_delete, s)
/-- The second loop of `leon_cleanup_dir`, after `rewinddir`: recurse into each subdirectory. -/
def leon_cleanup_dir_loop2 (cfg : Config) :
    CString → DirEntries → leon_result_t → ScanState → leon_result_t × ScanState
  | _, .nil, should_delete, s => (should_delete, s)
  | basePathCopy, .cons d_name d_type node rest, should_delete, s =>
    if isDotOrDotDot d_name then
      leon_cleanup_dir_loop2 cfg basePathCopy rest should_delete s
    else
      let basePath := leon_path_push basePathCopy d_name
      if isSubdirEntry cfg d_type node then
        let r := leon_cleanup_dir_quarantine cfg basePathCopy basePath d_name node
          (leon_cleanup_dir cfg basePath node s)
        leon_cleanup_dir_loop2 cfg basePathCopy rest
          (if r.1 = kLeonResultNo then kLeonResultNo else should_delete) r.2
      else
        leon_cleanup_dir_loop2 cfg basePathCopy rest should_delete s
end

/-! ### Recursive delete (`leon_rm.c`) -/

/-- What a removal reads and writes besides the filesystem: the caller's `*outErr`, the byte
counter `*__leon_rm_totalBytes` (`none` while the pointer is NULL), and the calls issued. -/
structure RmState where
  outErr : Int
  totalBytes : Option Int
  trace : List Syscall
  deriving DecidableEq, Repr

/-- The step "What kind of filesystem entity is it?" of the loops of `leon_rm` and
`leon_rm_interactive`: with `_DIRENT_HAVE_D_TYPE` an entry of type `DT_DIR` is a directory
without a probe, any other entry is probed with `leon_stat`.  Returns `isDir`, `isOkay` and the
local `fInfo`. -/
def leon_rm_entityKind (cfg : Config) (d_type : Nat) (node : FsNode) (fInfo : stat) :
    Bool × Bool × stat :=
  if cfg.dirent_have_d_type && d_type == DT_DIR then
    (true, true, fInfo)
  else
    let r := leon_stat node fInfo
    if r.1 = 0 then (S_ISDIR r.2, true, r.2) else (false, false, r.2)

mutual
/-- The function `leon_rm` on the path `aPath`, which is the entity `node`. -/
def leon_rm (cfg : Config) : CString → FsNode → Bool → RmState → Bool × RmState
  | aPath, .mk lstatErrno st opendirErrno entries _ unlinkErrno rmdirErrno, dryRun, s =>
    if lstatErrno = 0 then
      let fInfo := st
      if S_ISDIR fInfo then
        let lr : Bool × stat × RmState :=
          if opendirErrno = 0 then
            leon_rm_loop cfg aPath entries dryRun fInfo s
          else
            (true, fInfo, { s with outErr := opendirErrno })
        if ! lr.1 then
          (false, lr.2.2)
        else if ! dryRun then
          let fInfo := if lr.2.2.totalBytes.isSome then st else lr.2.1
          let s1 : RmState := { lr.2.2 with trace := lr.2.2.trace ++ [Syscall.rmdir aPath rmdirErrno] }
          if rmdirErrno ≠ 0 && rmdirErrno ≠ ENOENT then
            (false, { s1 with outErr := rmdirErrno })
          else
            (true, { s1 with totalBytes := s1.totalBytes.map fun b => b + fInfo.st_size })
        else
          (true, lr.2.2)
      else if dryRun then
        (false, s)
      else
        let s1 : RmState := { s with trace := s.trace ++ [Syscall.unlink aPath unlinkErrno] }
        if unlinkErrno ≠ 0 && unlinkErrno ≠ ENOENT then
          (false, { s1 with outErr := unlinkErrno })
        else
          (true, { s1 with totalBytes := s1.totalBytes.map fun b => b + fInfo.st_size })
    else
      (false, { s with outErr := lstatErrno })
/-- The loop of `leon_rm` over the entries of a directory.  The Boolean is false when the loop
left the function through `return false`; the `stat` is the local `fInfo`. -/
def leon_rm_loop (cfg : Config) :
    CString → DirEntries → Bool → stat → RmState → Bool × stat × RmState
  | _, .nil, _, fInfo, s => (true, fInfo, s)
  | aPath, .cons d_name d_type node rest, dryRun, fInfo, s =>
    if isDotOrDotDot d_name then
      leon_rm_loop cfg aPath rest dryRun fInfo s
    else
      let path := leon_path_push aPath d_name
      let k := leon_rm_entityKind cfg d_type node fInfo
      let isDir := k.1
      let isOkay := k.2.1
      let fInfo := k.2.2
      if isOkay then
        if isDir then
          let r := leon_rm cfg path node dryRun s
          if ! r.1 then (false, fInfo, r.2)
          else leon_rm_loop cfg aPath rest dryRun fInfo r.2
        else if ! dryRun then
          let s1 : RmState := { s with trace := s.trace ++ [Syscall.unlink path node.unlinkErrno] }
          if node.unlinkErrno ≠ 0 && node.unlinkErrno ≠ ENOENT then
            (false, fInfo, { s1 with outErr := node.unlinkErrno })
          else
            leon_rm_loop cfg aPath rest dryRun fInfo
              { s1 with totalBytes := s1.totalBytes.map fun b => b + fInfo.st_size }
        else
          leon_rm_loop cfg aPath rest dryRun fInfo s
      else
        leon_rm_loop cfg aPath rest dryRun fInfo s
end

/-! ### Draining the worklog and `main` (`leon_worklog.c`, `leon.c`) -/

/-- Stepping `SELECT pathId, origPath, altPath FROM worklog ORDER BY pathId ASC LIMIT 1`. -/
def sqlite3_step_getStmt (rows : List WorklogRow) : Nat × Option WorklogRow :=
  match rows with
  | [] => (SQLITE_DONE, none)
  | r :: rest => (SQLITE_ROW, some (rest.foldl (fun m x => if x.pathId < m.pathId then x else m) r))

/-- Stepping `DELETE FROM worklog WHERE pathId = ?`. -/
def sqlite3_step_postGetStmt (rows : List WorklogRow) (pathId : Nat) : Nat × List WorklogRow :=
  (SQLITE_DONE, rows.filter fun r => r.pathId != pathId)

/-- The function `leon_worklog_getPath`.  Returns the C result, the worklog and `*outAltPath`
afterwards. -/
def leon_worklog_getPath (aWorkLog : leon_worklog_t) (outAltPath : Option CString) :
    Bool × leon_worklog_t × Option CString :=
  let sel := sqlite3_step_getStmt aWorkLog.rows
  match sel.2 with
  | none => (false, aWorkLog, outAltPath)
  | some row =>
    let del := sqlite3_step_postGetStmt aWorkLog.rows row.pathId
    if del.1 ≠ SQLITE_DONE then
      (false, { aWorkLog with rows := del.2 }, some row.altPath)
    else
      (true, { aWorkLog with rows := del.2 }, some row.altPath)

/-- The function `leon_worklog_scanComplete`: ROLLBACK or COMMIT, then BEGIN. -/
def leon_worklog_scanComplete (aWorkLog : leon_worklog_t) (discardChanges : Bool) :
    Bool × leon_worklog_t :=
  if discardChanges then
    (true, { aWorkLog with rows := aWorkLog.committed })
  else
    (true, { aWorkLog with committed := aWorkLog.rows })

/-- The function `leon_worklog_createWithFile` when it succeeds: an extant table is dropped and
recreated. -/
def leon_worklog_createWithFile (aPath : CString) : leon_worklog_t :=
  ⟨[], [], false, some aPath, SQLITE_OK, []⟩

/-- The calls that `leon_worklog_destroy` issues: for a worklog on disk that is not to be kept,
`leon_rm(aWorkLog->pathToDb, false, &errCode)` on the database file `dbFile`. -/
def leon_worklog_destroy (cfg : Config) (aWorkLog : leon_worklog_t) (doNotDelete : Bool)
    (dbFile : FsNode) (trace : List Syscall) : List Syscall :=
  if ! aWorkLog.inMemory then
    if doNotDelete then
      trace
    else
      match aWorkLog.pathToDb with
      | some p => (leon_rm cfg p dbFile false ⟨0, none, trace⟩).2.trace
      | none => trace
  else
    trace

/-- The fields of a worklog that say where its database lives. -/
def leon_worklog_t.handle (w : leon_worklog_t) : Bool × Option CString := (w.inMemory, w.pathToDb)

/-- The locals of `main` that option parsing sets and the scan loop reads. -/
structure MainOptions where
  workLogPath : Option CString
  excludePaths : Option (List CString)
  keepWorkLog : Bool
  workLogOnly : Bool
  allowFiles : Bool

/-- One path argument with what the environment answers for it: `realpath`, the entity at the
canonical path, whether the worklog can be created, the entity at the worklog path when the
worklog is destroyed, and the entity that the drain finds at a quarantine path. -/
structure MainArg where
  realpath : Option CString
  node : FsNode
  worklogCreated : Bool
  workLogFile : FsNode
  atDrain : CString → FsNode

/-- The locals of `main` that the scan loop updates, the calls issued so far, and the value
returned once `main` has returned. -/
structure MainState where
  argn : Nat
  directoryNum : Nat
  rc : Int
  trace : List Syscall
  returned : Option Int

/-- The dry-run flag after option parsing: `static bool leon_shouldDryRun = true`, cleared by
`case 'D'` and by no other option character. -/
def leon_shouldDryRun_afterOptions (opt_chs : List Char) : Bool :=
  opt_chs.foldl (fun flag opt_ch => if opt_ch = 'D' then false else flag) true

/-- The drain of `main`: `while ( leon_worklog_getPath(curWorkLog, &basePath) )`, at most `fuel`
tests of the loop condition. -/
def leon_main_drain (cfg : Config) (atDrain : CString → FsNode) :
    Nat → leon_worklog_t → CString → List Syscall → leon_worklog_t × CString × List Syscall
  | 0, w, basePath, trace => (w, basePath, trace)
  | fuel + 1, w, basePath, trace =>
    let g := leon_worklog_getPath w (some basePath)
    let basePath := g.2.2.getD basePath
    if g.1 then
      if cfg.leon_shouldDryRun then
        leon_main_drain cfg atDrain fuel g.2.1 basePath trace
      else
        let r := leon_rm cfg basePath (atDrain basePath) cfg.leon_shouldDryRun ⟨0, none, trace⟩
        leon_main_drain cfg atDrain fuel g.2.1 basePath r.2.trace
    else
      (g.2.1, basePath, trace)

/-- The path of the worklog for the current argument. -/
def curWorkLogPath (workLogPath : CString) (shouldSuffixWorkLogs : Bool) (directoryNum : Nat) :
    CString :=
  if shouldSuffixWorkLogs then workLogPath ++ '.' :: Nat.toDigits 10 directoryNum
  else workLogPath

/-- Lines 853-875 of `main`: scan the directory unless it is excluded, complete the scan, and
drain the worklog.  Returns the worklog and the calls issued. -/
def leon_main_scanAndDrain (cfg : Config) (opts : MainOptions) (arg : MainArg)
    (basePath : CString) (curWorkLog : leon_worklog_t) (trace : List Syscall) :
    leon_worklog_t × List Syscall :=
  let excluded :=
    match opts.excludePaths with
    | some paths => paths.contains basePath
    | none => false
  if excluded then
    (curWorkLog, trace)
  else
    let c := leon_cleanup_dir cfg basePath arg.node ⟨curWorkLog, trace⟩
    let cleanupResult := c.1
    let w := (leon_worklog_scanComplete c.2.worklog false).2
    if cleanupResult ≠ kLeonResultUnknown then
      if ! opts.workLogOnly then
        let d := leon_main_drain cfg arg.atDrain (w.rows.length + 1) w basePath c.2.trace
        (d.1, d.2.2)
      else
        (w, c.2.trace)
    else
      (w, c.2.trace)

/-- One pass through the body of the scan loop of `main` (lines 801-883). -/
def leon_main_body (cfg : Config) (opts : MainOptions) (shouldSuffixWorkLogs : Bool)
    (arg : MainArg) (st : MainState) : MainState :=
  match arg.realpath with
  | none => { st with argn := st.argn + 1, directoryNum := st.directoryNum + 1 }
  | some canonicalPath =>
    if ! leon_isDirectory arg.node then
      if opts.allowFiles then
        let tmpResult := (leon_checkPathFn cfg canonicalPath arg.node (cfg.fInfoInit canonicalPath)).1
        if tmpResult = kLeonResultYes then
          if cfg.leon_shouldDryRun then
            { st with argn := st.argn + 1, directoryNum := st.directoryNum + 1 }
          else
            { st with
              trace := st.trace ++ [Syscall.unlink canonicalPath arg.node.unlinkErrno],
              argn := st.argn + 1, directoryNum := st.directoryNum + 1 }
        else
          { st with argn := st.argn + 1, directoryNum := st.directoryNum + 1 }
      else
        { st with rc := EINVAL, argn := st.argn + 1, directoryNum := st.directoryNum + 1 }
    else
      let basePath := canonicalPath
      if ! arg.worklogCreated then
        if ! cfg.leon_shouldKeepGoing then { st with returned := some EPERM }
        else st
      else
        let curWorkLog :=
          match opts.workLogPath with
          | some p => leon_worklog_createWithFile (curWorkLogPath p shouldSuffixWorkLogs st.directoryNum)
          | none => leon_worklog_create
        let scanned := leon_main_scanAndDrain cfg opts arg basePath curWorkLog st.trace
        { st with
          trace := leon_worklog_destroy cfg scanned.1 opts.keepWorkLog arg.workLogFile scanned.2,
          argn := st.argn + 1, directoryNum := st.directoryNum + 1 }

/-- The scan loop of `main`: `while ( (! (rc && ! leon_shouldKeepGoing)) && (argn < argc) )`
over the path arguments `argv` (indexed from 0 here), at most `fuel` tests of the loop
condition; then `return rc`. -/
def leon_main_loop (cfg : Config) (opts : MainOptions) (argv : List MainArg) :
    Nat → MainState → MainState
  | 0, st => st
  | fuel + 1, st =>
    if ! (st.rc != 0 && ! cfg.leon_shouldKeepGoing) && decide (st.argn < argv.length) then
      match argv.get? st.argn with
      | some arg =>
        let st1 := leon_main_body cfg opts
          (opts.workLogPath.isSome && decide (argv.length > 1)) arg st
        if st1.returned.isSome then st1 else leon_main_loop cfg opts argv fuel st1
      | none => { st with returned := some st.rc }
    else
      { st with returned := some st.rc }

/-! ### Vocabulary of the specification -/

/-- The configuration with the dry-run flag set to `b`. -/
def Config.withDryRun (cfg : Config) (b : Bool) : Config := { cfg with leon_shouldDryRun := b }

/-- The verdict of `leon_cleanup_dir` on a directory (it does not depend on the worklog). -/
def verdictOf (cfg : Config) (basePath : CString) (node : FsNode) : leon_result_t :=
  (leon_cleanup_dir cfg basePath node ⟨leon_worklog_create, []⟩).1

/-- The verdict of the configured check-path function on an entity. -/
def checkVerdict (cfg : Config) (path : CString) (node : FsNode) : leon_result_t :=
  (leon_checkPathFn cfg path node node.st).1

/-- The return value of `leon_mv_dir` for the entry `d_name` of `basePath` (it does not depend on
the worklog). -/
def mvDirRc (cfg : Config) (basePath d_name : CString) (node : FsNode) : Int :=
  (leon_mv_dir cfg basePath (leon_path_push basePath d_name) d_name node.renameErrno
    ⟨leon_worklog_create, []⟩).1

/-- Every rename in the trace succeeded. -/
def RenamesSucceeded (trace : List Syscall) : Prop :=
  ∀ (o a : CString) (e : Nat), Syscall.rename o a e ∈ trace → e = 0

/-- An entry that the scan sees as a subdirectory in both of its loops: `lstat` succeeds with
type directory, and the second loop's test for a subdirectory holds. -/
def IsScannedSubdir (cfg : Config) (e : Dirent) : Prop :=
  isDotOrDotDot e.d_name = false ∧ isSubdirEntry cfg e.d_type e.node = true ∧
    e.node.lstatErrno = 0 ∧ S_ISDIR e.node.st = true

instance (cfg : Config) (e : Dirent) : Decidable (IsScannedSubdir cfg e) := by
  unfold IsScannedSubdir
  exact inferInstance

/-- Somewhere at or below the directory, `leon_mv_dir` fails on an Eligible subdirectory. -/
inductive RenameFailsBelow (cfg : Config) : CString → FsNode → Prop where
  | here (basePath : CString) (node : FsNode) (e : Dirent) :
      node.opendirErrno = 0 → e ∈ node.entries.toList → IsScannedSubdir cfg e →
      verdictOf cfg (leon_path_push basePath e.d_name) e.node = kLeonResultYes →
      mvDirRc cfg basePath e.d_name e.node ≠ 0 → RenameFailsBelow cfg basePath node
  | above (basePath : CString) (node : FsNode) (e : Dirent) :
      node.opendirErrno = 0 → e ∈ node.entries.toList → IsScannedSubdir cfg e →
      RenameFailsBelow cfg (leon_path_push basePath e.d_name) e.node →
      RenameFailsBelow cfg basePath node

/-- Every entry that the second loop takes for a subdirectory and that can be opened is a
directory according to `lstat`. -/
def ConsistentEntries (cfg : Config) (node : FsNode) : Prop :=
  ∀ e ∈ node.entries.toList, isSubdirEntry cfg e.d_type e.node = true →
    e.node.opendirErrno = 0 → e.node.lstatErrno = 0 ∧ S_ISDIR e.node.st = true

/-! ### Sample configuration and trees -/

def ENOTDIR : Nat := 20

/-- A `struct stat` of the given type, owned by uid and gid 1000, with both timestamps `t`. -/
def sampleStat (mode : Nat) (t : Int) : stat := ⟨mode, 1000, 1000, 0, t, t⟩

/-- A run started 2015-03-04 16:40 with the default options, an empty test chain and the
threshold at time 1000. -/
def sampleCfg (dryRun : Bool) : Config :=
  ⟨dryRun, false, .leon_fstest_checkPathMaxTimes, true, 1000, [], ⟨115, 2, 4, 16, 40⟩, true,
    fun _ => ⟨0, 0, 0, 0, 0, 0⟩⟩

/-- A regular file last used at time 5 (older than the threshold). -/
def oldFile : FsNode := .mk 0 (sampleStat S_IFREG 5) ENOTDIR .nil 0 0 0

/-- A regular file last used at time 5000 (newer than the threshold). -/
def newFile : FsNode := .mk 0 (sampleStat S_IFREG 5000) ENOTDIR .nil 0 0 0

/-- A file on which `lstat` fails with EACCES (its directory lacks search permission). -/
def unreadableFile : FsNode := .mk EACCES ⟨0, 0, 0, 0, 0, 0⟩ EACCES .nil 0 0 0

/-- An old directory with the given entries, on which every call succeeds. -/
def oldDir (entries : DirEntries) : FsNode := .mk 0 (sampleStat S_IFDIR 5) 0 entries 0 0 0

/-- An old directory that cannot be opened. -/
def lockedDir : FsNode := .mk 0 (sampleStat S_IFDIR 5) EACCES .nil 0 0 0

/-- An old, empty directory whose rename fails with EACCES. -/
def stuckDir : FsNode := .mk 0 (sampleStat S_IFDIR 5) 0 .nil EACCES 0 0

/-! ### Eligibility test chain: registration and the callbacks invoked -/

/-- The libc `strcmp`. -/
def strcmp : CString → CString → Int
  | [], [] => 0
  | [], b :: _ => 0 - (b.toNat : Int)
  | a :: _, [] => (a.toNat : Int)
  | a :: as, b :: bs => if a = b then strcmp as bs else (a.toNat : Int) - (b.toNat : Int)

/-- The function `leon_fstest_registerCallback` on the chain `_leon_fstest_stack`: the first node
whose name compares equal gets the new callback (and context) where it stands; without such a
node a new one is linked after the last (its allocation taken to succeed). -/
def leon_fstest_registerCallback (stack : List leon_fstest_node_t) (aName : CString)
    (aCallback : CString → stat → leon_result_t) : List leon_fstest_node_t :=
  match stack with
  | [] => [⟨aName, aCallback⟩]
  | node :: link =>
    if strcmp node.name aName = 0 then
      ⟨node.name, aCallback⟩ :: link
    else
      node :: leon_fstest_registerCallback link aName aCallback

/-- The callback loop of the check-path functions with the nodes whose callback it invokes, in
the order of invocation. -/
def leon_fstest_chain_calls (path : CString) (pathInfo : stat) :
    List leon_fstest_node_t → leon_result_t → leon_result_t × List leon_fstest_node_t
  | [], result => (result, [])
  | node :: link, _ =>
    let result := node.callback path pathInfo
    if result ≠ kLeonResultYes then
      (result, [node])
    else
      let r := leon_fstest_chain_calls path pathInfo link result
      (r.1, node :: r.2)

/-- The function `leon_fstest_checkPathModificationTimes` with the callbacks it invokes. -/
def leon_fstest_checkPathModificationTimes_calls (cfg : Config) (path : CString) (node : FsNode)
    (pathInfo : stat) : leon_result_t × stat × List leon_fstest_node_t :=
  let r := leon_stat node pathInfo
  if r.1 = 0 then
    let pathInfo := r.2
    if cfg.leon_fstest_excludeRoot && (pathInfo.st_uid == 0 || pathInfo.st_gid == 0) then
      (kLeonResultNo, pathInfo, [])
    else if pathInfo.st_mtime ≥ cfg.leon_fstest_temporalThreshold then
      (kLeonResultNo, pathInfo, [])
    else
      let c := leon_fstest_chain_calls path pathInfo cfg.leon_fstest_stack kLeonResultYes
      (c.1, pathInfo, c.2)
  else
    (kLeonResultUnknown, r.2, [])

/-- The function `leon_fstest_checkPathAccessTimes` with the callbacks it invokes. -/
def leon_fstest_checkPathAccessTimes_calls (cfg : Config) (path : CString) (node : FsNode)
    (pathInfo : stat) : leon_result_t × stat × List leon_fstest_node_t :=
  let r := leon_stat node pathInfo
  if r.1 = 0 then
    let pathInfo := r.2
    if cfg.leon_fstest_excludeRoot && (pathInfo.st_uid == 0 || pathInfo.st_gid == 0) then
      (kLeonResultNo, pathInfo, [])
    else if pathInfo.st_atime ≥ cfg.leon_fstest_temporalThreshold then
      (kLeonResultNo, pathInfo, [])
    else
      let c := leon_fstest_chain_calls path pathInfo cfg.leon_fstest_stack kLeonResultYes
      (c.1, pathInfo, c.2)
  else
    (kLeonResultUnknown, r.2, [])

/-- The function `leon_fstest_checkPathMaxTimes` with the callbacks it invokes. -/
def leon_fstest_checkPathMaxTimes_calls (cfg : Config) (path : CString) (node : FsNode)
    (pathInfo : stat) : leon_result_t × stat × List leon_fstest_node_t :=
  let r := leon_stat node pathInfo
  if r.1 = 0 then
    let pathInfo := r.2
    if cfg.leon_fstest_excludeRoot && (pathInfo.st_uid == 0 || pathInfo.st_gid == 0) then
      (kLeonResultNo, pathInfo, [])
    else
      let lastUpdate :=
        if pathInfo.st_atime < pathInfo.st_mtime then pathInfo.st_mtime else pathInfo.st_atime
      if lastUpdate ≥ cfg.leon_fstest_temporalThreshold then
        (kLeonResultNo, pathInfo, [])
      else
        let c := leon_fstest_chain_calls path pathInfo cfg.leon_fstest_stack kLeonResultYes
        (c.1, pathInfo, c.2)
  else
    (kLeonResultUnknown, r.2, [])

/-- The call through `leon_checkPathFn` with the callbacks it invokes. -/
def leon_checkPathFn_calls (cfg : Config) (path : CString) (node : FsNode) (pathInfo : stat) :
    leon_result_t × stat × List leon_fstest_node_t :=
  match cfg.leon_checkPathFn with
  | .leon_fstest_checkPathModificationTimes =>
    leon_fstest_checkPathModificationTimes_calls cfg path node pathInfo
  | .leon_fstest_checkPathAccessTimes =>
    leon_fstest_checkPathAccessTimes_calls cfg path node pathInfo
  | .leon_fstest_checkPathMaxTimes => leon_fstest_checkPathMaxTimes_calls cfg path node pathInfo

/-- The timestamp that governs the age test under each policy: the modification time, the access
time, or the newer of the two. -/
def governingTime (fn : leon_fstest_checkPathFunction) (s : stat) : Int :=
  match fn with
  | .leon_fstest_checkPathModificationTimes => s.st_mtime
  | .leon_fstest_checkPathAccessTimes => s.st_atime
  | .leon_fstest_checkPathMaxTimes => max s.st_atime s.st_mtime

/-- The root exclusion applies to the entity: the flag is set and its uid or gid is 0. -/
def rootExcluded (cfg : Config) (s : stat) : Prop :=
  cfg.leon_fstest_excludeRoot = true ∧ (s.st_uid = 0 ∨ s.st_gid = 0)

/-- A sample callback: No for an entity of the given size, Yes otherwise. -/
def sampleCallback (size : Int) (result : leon_result_t) : CString → stat → leon_result_t :=
  fun _ s => if s.st_size = size then result else kLeonResultYes

/-- The sample configuration with the given test chain. -/
def sampleCfgWith (stack : List leon_fstest_node_t) : Config :=
  { sampleCfg true with leon_fstest_stack := stack }

/-! ### Worklog: reachable states and draining -/

/-- The worklogs that the functions of `leon_worklog.h` produce, whatever failures the
surroundings have in store for the coming steps of `addStmt`. -/
inductive WorklogReachable : leon_worklog_t → Prop where
  | create : WorklogReachable leon_worklog_create
  | createWithFile (aPath : CString) : WorklogReachable (leon_worklog_createWithFile aPath)
  | faults (w : leon_worklog_t) (codes : List Nat) :
      WorklogReachable w → WorklogReachable { w with addStmtFaults := codes }
  | addPath (w : leon_worklog_t) (o a : CString) :
      WorklogReachable w → WorklogReachable (leon_worklog_addPath w o a).2
  | getPath (w : leon_worklog_t) (out : Option CString) :
      WorklogReachable w → WorklogReachable (leon_worklog_getPath w out).2.1
  | scanComplete (w : leon_worklog_t) (discardChanges : Bool) :
      WorklogReachable w → WorklogReachable (leon_worklog_scanComplete w discardChanges).2

/-- A list of rows stands in the order of strictly increasing `pathId`. -/
def RowsInIdOrder (rows : List WorklogRow) : Prop :=
  (rows.map fun r => r.pathId).Pairwise fun a b => a < b

/-- Calls of `leon_worklog_getPath` repeated until one returns false, at most `fuel` of them:
the paths returned, in order, and the worklog left. -/
def leon_worklog_getPaths : Nat → leon_worklog_t → List CString × leon_worklog_t
  | 0, w => ([], w)
  | fuel + 1, w =>
    let g := leon_worklog_getPath w none
    if g.1 then
      let r := leon_worklog_getPaths fuel g.2.1
      (g.2.2.getD [] :: r.1, r.2)
    else
      ([], g.2.1)

/-! ### Recursive delete: outcomes of its calls and their effect on the filesystem -/

/-- The errno a call ended with (0 on success). -/
def Syscall.err : Syscall → Nat
  | .rename _ _ e => e
  | .unlink _ e => e
  | .rmdir _ e => e

/-- The call failed with an error other than ENOENT. -/
def Syscall.failedHard (ev : Syscall) : Prop := ev.err ≠ 0 ∧ ev.err ≠ ENOENT

/-- The effect of one `unlink` or `rmdir` on the set of paths at which something exists, given
the errno the call ended with: a call succeeds only on an existing path with nothing below it
and removes that path; it ends with ENOENT only if nothing exists at the path; a call that fails
changes nothing.  A rename is not a removal. -/
def RemovalStep (fs : List CString) (ev : Syscall) (fs' : List CString) : Prop :=
  ev.isRename = false ∧
    ((ev.err = 0 ∧ ev.path ∈ fs ∧ (∀ q ∈ fs, ¬ IsSlashPrefix ev.path q) ∧
        fs' = fs.filter fun q => q != ev.path) ∨
      (ev.err = ENOENT ∧ ev.path ∉ fs ∧ fs' = fs) ∨
      (ev.err ≠ 0 ∧ ev.err ≠ ENOENT ∧ fs' = fs))

/-- The effect of a sequence of `unlink` and `rmdir` calls. -/
def RemovalRun : List CString → List Syscall → List CString → Prop
  | fs, [], fs' => fs' = fs
  | fs, ev :: rest, fs' => ∃ fs1, RemovalStep fs ev fs1 ∧ RemovalRun fs1 rest fs'

/-- How a removal that started in state `s` and returned `ok` in state `s'` stands with respect
to hard failures: the calls it added to the trace are all free of them, or it returned false
with the first hard failure as its last call and that call's errno in `outErr`. -/
def RmOutcome (ok : Bool) (s s' : RmState) : Prop :=
  ∃ ext, s'.trace = s.trace ++ ext ∧
    ((∀ e ∈ ext, ¬ e.failedHard) ∨
      (ok = false ∧ ∃ pre ev, ext = pre ++ [ev] ∧ (∀ e ∈ pre, ¬ e.failedHard) ∧
        ev.failedHard ∧ s'.outErr = (ev.err : Int)))

/-- An old regular file whose `unlink` fails with EACCES. -/
def stuckFile : FsNode := .mk 0 (sampleStat S_IFREG 5) ENOTDIR .nil 0 EACCES 0

/-- An entity that has vanished: every call on it fails with ENOENT. -/
def goneEntity : FsNode := .mk ENOENT ⟨0, 0, 0, 0, 0, 0⟩ ENOENT .nil ENOENT ENOENT ENOENT

/-! ### Test callbacks of `leon.c` and their registration by `main` -/

/-- The test `leon_hash_containsKey` on a hash with C-string keys, the hash taken as the list of
its keys. -/
def leon_hash_containsKey (theHash : List CString) (theKey : CString) : Bool :=
  theHash.contains theKey

/-- The test `leon_indexset_containsIndex`, the set taken as the list of its members. -/
def leon_indexset_containsIndex (anIndexSet : List Nat) (index : Nat) : Bool :=
  anIndexSet.contains index

/-- The callback `leon_fstest_noSockets`. -/
def leon_fstest_noSockets (_path : CString) (pathInfo : stat) : leon_result_t :=
  if (pathInfo.st_mode &&& S_IFMT) == S_IFSOCK then kLeonResultNo else kLeonResultYes

/-- The callback `leon_fstest_noPipes`. -/
def leon_fstest_noPipes (_path : CString) (pathInfo : stat) : leon_result_t :=
  if (pathInfo.st_mode &&& S_IFMT) == S_IFIFO then kLeonResultNo else kLeonResultYes

/-- The callback `leon_fstest_noSocketsOrPipes`. -/
def leon_fstest_noSocketsOrPipes (_path : CString) (pathInfo : stat) : leon_result_t :=
  if (pathInfo.st_mode &&& S_IFMT) == S_IFSOCK || (pathInfo.st_mode &&& S_IFMT) == S_IFIFO then
    kLeonResultNo
  else
    kLeonResultYes

/-- The callback `leon_fstest_ownedByUid` with the context `excludeUids`. -/
def leon_fstest_ownedByUid (excludeUids : List Nat) (_path : CString) (pathInfo : stat) :
    leon_result_t :=
  if leon_indexset_containsIndex excludeUids pathInfo.st_uid then kLeonResultNo
  else kLeonResultYes

/-- The callback `leon_fstest_ownedByGid` with the context `excludeGids`. -/
def leon_fstest_ownedByGid (excludeGids : List Nat) (_path : CString) (pathInfo : stat) :
    leon_result_t :=
  if leon_indexset_containsIndex excludeGids pathInfo.st_gid then kLeonResultNo
  else kLeonResultYes

/-- The callback `leon_fstest_excludePaths` with the context `excludePaths`. -/
def leon_fstest_excludePaths (excludePaths : List CString) (path : CString) (_pathInfo : stat) :
    leon_result_t :=
  if leon_hash_containsKey excludePaths path then kLeonResultNo else kLeonResultYes

/-- The test chain that `main` builds after option parsing (lines 750-785), from the locals
`ignoreSockets`, `ignorePipes`, `excludePaths`, `excludeUids` and `excludeGids` (`none` for a
NULL container). -/
def leon_main_registerCallbacks (ignoreSockets ignorePipes : Bool)
    (excludePaths : Option (List CString)) (excludeUids excludeGids : Option (List Nat)) :
    List leon_fstest_node_t :=
  let s0 : List leon_fstest_node_t :=
    if ignoreSockets then
      if ignorePipes then []
      else leon_fstest_registerCallback [] "isFIFO".toList leon_fstest_noPipes
    else if ignorePipes then
      leon_fstest_registerCallback [] "isSocket".toList leon_fstest_noSockets
    else
      leon_fstest_registerCallback [] "isPipeOrSocket".toList leon_fstest_noSocketsOrPipes
  let s1 :=
    match excludePaths with
    | some h => leon_fstest_registerCallback s0 "pathExclusions".toList (leon_fstest_excludePaths h)
    | none => s0
  let s2 :=
    match excludeUids with
    | some u => leon_fstest_registerCallback s1 "userExclusions".toList (leon_fstest_ownedByUid u)
    | none => s1
  match excludeGids with
  | some g => leon_fstest_registerCallback s2 "groupExclusions".toList (leon_fstest_ownedByGid g)
  | none => s2

/-- The function `leon_rm_setByteTrackingPointer`: `byteCount` is whether the pointer passed is
non-NULL, and a counter pointed to is set to zero. -/
def leon_rm_setByteTrackingPointer (s : RmState) (byteCount : Bool) : RmState :=
  { s with totalBytes := if byteCount then some 0 else none }

/-- A regular file of the given size, last used at time 5, with the given outcome of `unlink`. -/
def sizedFile (size : Int) (unlinkErrno : Nat) : FsNode :=
  .mk 0 ⟨S_IFREG, 1000, 1000, size, 5, 5⟩ ENOTDIR .nil 0 unlinkErrno 0

/-- A directory of the given size, last used at time 5, owned by `uid`, with the given outcome
of `rmdir`. -/
def sizedDir (size : Int) (uid : Nat) (rmdirErrno : Nat) (entries : DirEntries) : FsNode :=
  .mk 0 ⟨S_IFDIR, uid, 1000, size, 5, 5⟩ 0 entries 0 0 rmdirErrno

/-! ### Interactive recursive delete (`leon_rm.c`) -/

/-- The tri-state `leon_rm_status_t`. -/
inductive leon_rm_status_t where
  | kLeonRMStatusSucceeded
  | kLeonRMStatusFailed
  | kLeonRMStatusDeclined
  deriving DecidableEq, Repr

open leon_rm_status_t

/-- What an interactive removal reads and writes besides the filesystem: `*outErr`, the byte
counter, the calls issued, the paths of the entities the user was asked about (in the order of
the prompts), and the lines still to be read from stdin, each as whether it starts with `y` or
`Y`. -/
structure RmiState where
  outErr : Int
  totalBytes : Option Int
  trace : List Syscall
  prompts : List CString
  stdin : List Bool
  deriving DecidableEq, Repr

/-- The function `__leon_rm_interactivePrompt` for the entity at `path`: prints the prompt and
consumes one line of stdin; at end of input the answer is no. -/
def __leon_rm_interactivePrompt (path : CString) (s : RmiState) : Bool × RmiState :=
  match s.stdin with
  | [] => (false, { s with prompts := s.prompts ++ [path] })
  | yes :: rest => (yes, { s with prompts := s.prompts ++ [path], stdin := rest })

mutual
/-- The function `leon_rm_interactive` on the path `aPath`, which is the entity `node`. -/
def leon_rm_interactive (cfg : Config) :
    CString → FsNode → Bool → Bool → RmiState → leon_rm_status_t × RmiState
  | aPath, .mk lstatErrno st opendirErrno entries _ unlinkErrno rmdirErrno, isRecursive, dryRun, s =>
    if lstatErrno = 0 then
      let fInfo := st
      if S_ISDIR fInfo then
        if isRecursive then
          let lr : leon_rm_status_t × stat × RmiState :=
            if opendirErrno = 0 then
              leon_rm_interactive_loop cfg aPath entries isRecursive dryRun
                kLeonRMStatusSucceeded fInfo s
            else
              (kLeonRMStatusFailed, fInfo, { s with outErr := opendirErrno })
          let dirStatus := lr.1
          if dryRun then
            (dirStatus, lr.2.2)
          else if dirStatus = kLeonRMStatusSucceeded then
            let p := __leon_rm_interactivePrompt aPath lr.2.2
            if p.1 then
              let fInfo := if p.2.totalBytes.isSome then st else lr.2.1
              let s1 : RmiState := { p.2 with trace := p.2.trace ++ [Syscall.rmdir aPath rmdirErrno] }
              if rmdirErrno ≠ 0 && rmdirErrno ≠ ENOENT then
                (kLeonRMStatusFailed, { s1 with outErr := rmdirErrno })
              else
                (dirStatus, { s1 with totalBytes := s1.totalBytes.map fun b => b + fInfo.st_size })
            else
              (kLeonRMStatusDeclined, p.2)
          else
            (dirStatus, lr.2.2)
        else
          (kLeonRMStatusFailed, s)
      else if dryRun then
        (kLeonRMStatusFailed, s)
      else
        let p := __leon_rm_interactivePrompt aPath s
        if p.1 then
          let s1 : RmiState := { p.2 with trace := p.2.trace ++ [Syscall.unlink aPath unlinkErrno] }
          if unlinkErrno ≠ 0 && unlinkErrno ≠ ENOENT then
            (kLeonRMStatusFailed, { s1 with outErr := unlinkErrno })
          else
            (kLeonRMStatusSucceeded,
              { s1 with totalBytes := s1.totalBytes.map fun b => b + fInfo.st_size })
        else
          (kLeonRMStatusDeclined, p.2)
    else
      (kLeonRMStatusFailed, { s with outErr := lstatErrno })
/-- The loop of `leon_rm_interactive` over the entries of a directory,
`while ( (dirStatus != kLeonRMStatusFailed) && (dirEntity = readdir(dirHandle)) )`.  Returns
`dirStatus`, the local `fInfo` and the state. -/
def leon_rm_interactive_loop (cfg : Config) :
    CString → DirEntries → Bool → Bool → leon_rm_status_t → stat → RmiState →
      leon_rm_status_t × stat × RmiState
  | _, .nil, _, _, dirStatus, fInfo, s => (dirStatus, fInfo, s)
  | aPath, .cons d_name d_type node rest, isRecursive, dryRun, dirStatus, fInfo, s =>
    if dirStatus = kLeonRMStatusFailed then
      (dirStatus, fInfo, s)
    else if isDotOrDotDot d_name then
      leon_rm_interactive_loop cfg aPath rest isRecursive dryRun dirStatus fInfo s
    else
      let path := leon_path_push aPath d_name
      let k := leon_rm_entityKind cfg d_type node fInfo
      let isDir := k.1
      let isOkay := k.2.1
      let fInfo := k.2.2
      if isOkay then
        if isDir then
          let r := leon_rm_interactive cfg path node isRecursive dryRun s
          leon_rm_interactive_loop cfg aPath rest isRecursive dryRun r.1 fInfo r.2
        else if dryRun then
          leon_rm_interactive_loop cfg aPath rest isRecursive dryRun dirStatus fInfo s
        else
          let p := __leon_rm_interactivePrompt path s
          if p.1 then
            let s1 : RmiState :=
              { p.2 with trace := p.2.trace ++ [Syscall.unlink path node.unlinkErrno] }
            if node.unlinkErrno ≠ 0 && node.unlinkErrno ≠ ENOENT then
              leon_rm_interactive_loop cfg aPath rest isRecursive dryRun kLeonRMStatusFailed fInfo
                { s1 with outErr := node.unlinkErrno }
            else
              leon_rm_interactive_loop cfg aPath rest isRecursive dryRun dirStatus fInfo
                { s1 with totalBytes := s1.totalBytes.map fun b => b + fInfo.st_size }
          else
            leon_rm_interactive_loop cfg aPath rest isRecursive dryRun kLeonRMStatusDeclined fInfo
              p.2
      else
        leon_rm_interactive_loop cfg aPath rest isRecursive dryRun dirStatus fInfo s
end

def ENOTEMPTY : Nat := 39

/-- The ranges that `localtime_r` gives the fields of `struct tm` that are read: month 0-11, day
1-31, hour 0-23, minute 0-59. -/
def tm.InRange (t : tm) : Prop :=
  (0 ≤ t.tm_mon ∧ t.tm_mon ≤ 11) ∧ (1 ≤ t.tm_mday ∧ t.tm_mday ≤ 31) ∧
    (0 ≤ t.tm_hour ∧ t.tm_hour ≤ 23) ∧ (0 ≤ t.tm_min ∧ t.tm_min ≤ 59)

/-- A string of exactly `n` decimal digits. -/
def IsDigits (n : Nat) (ds : CString) : Prop := ds.length = n ∧ ∀ c ∈ ds, isdigit c = true

/-! ### Floating point (the types `float` and `double` of the source)

A finite value of a binary floating-point type is `m * 2 ^ e` for integers `m` and `e`.  An
operation of the source gives the exact result rounded to the nearest value of the type of the
operation, a tie going to the even significand: 24 bits of significand for `float` and 53 for
`double`, with the unit in the last place no smaller than `2 ^ (-149)` and `2 ^ (-1074)`.
Infinities and NaN have no place here: the operations below do not reach the largest finite
value when the count is a `uint64_t`, the limit is at least `LEON_MINIMUM_RATELIMIT` and the
time is past the lead-in, and a division is by such a limit, by such a time or by 100. -/

/-- A finite floating-point value: `m * 2 ^ e`. -/
structure Fp where
  m : Int
  e : Int
  deriving DecidableEq, Repr

/-- The number a floating-point value stands for. -/
def Fp.toRat (x : Fp) : ℚ := (x.m : ℚ) * (2 : ℚ) ^ x.e

/-- The comparison `a < b` of two floating-point values. -/
def Fp.lt (a b : Fp) : Bool :=
  decide (a.m * 2 ^ (a.e - min a.e b.e).toNat < b.m * 2 ^ (b.e - min a.e b.e).toNat)

/-- The comparison `a <= b` of two floating-point values. -/
def Fp.le (a b : Fp) : Bool :=
  decide (a.m * 2 ^ (a.e - min a.e b.e).toNat ≤ b.m * 2 ^ (b.e - min a.e b.e).toNat)

/-- The position of the leading bit of `n`, found in at most `fuel` halvings. -/
def log2Fuel : Nat → Nat → Nat
  | 0, _ => 0
  | fuel + 1, n => if 2 ≤ n then log2Fuel fuel (n / 2) + 1 else 0

/-- The exponent `k` with `2 ^ k ≤ n / d < 2 ^ (k + 1)`, for positive `n` and `d`. -/
def ratioLog2 (n d : Nat) : Int :=
  let k : Int := (log2Fuel n n : Int) - (log2Fuel d d : Int)
  if 0 ≤ k then
    if d * 2 ^ k.toNat ≤ n then k else k - 1
  else
    if d ≤ n * 2 ^ (-k).toNat then k else k - 1

/-- The integer nearest to `n / d`, the even one of two that are equally near. -/
def roundNearestEven (n d : Nat) : Nat :=
  let q := n / d
  let r := n % d
  if 2 * r < d then q else if d < 2 * r then q + 1 else if q % 2 = 0 then q else q + 1

/-- The value of the type with `prec` bits of significand and least unit in the last place
`2 ^ emin` that is nearest to `n / d`, a tie going to the even significand. -/
def fpRound (prec : Nat) (emin : Int) (n : Int) (d : Nat) : Fp :=
  if n = 0 then
    ⟨0, 0⟩
  else
    let u : Int := max (ratioLog2 n.natAbs d - ((prec : Int) - 1)) emin
    let r : Nat :=
      if 0 ≤ u then roundNearestEven n.natAbs (d * 2 ^ u.toNat)
      else roundNearestEven (n.natAbs * 2 ^ (-u).toNat) d
    if n < 0 then ⟨-(r : Int), u⟩ else ⟨(r : Int), u⟩

/-- Rounding of the exact value `m * 2 ^ e`. -/
def Fp.round (prec : Nat) (emin : Int) (x : Fp) : Fp :=
  if 0 ≤ x.e then fpRound prec emin (x.m * 2 ^ x.e.toNat) 1
  else fpRound prec emin x.m (2 ^ (-x.e).toNat)

/-- The quotient `a / b`, rounded. -/
def Fp.div (prec : Nat) (emin : Int) (a b : Fp) : Fp :=
  let n : Int := if b.m < 0 then -a.m else a.m
  let d : Nat := b.m.natAbs
  if 0 ≤ a.e - b.e then fpRound prec emin (n * 2 ^ (a.e - b.e).toNat) d
  else fpRound prec emin n (d * 2 ^ (b.e - a.e).toNat)

/-- The product `a * b`, rounded. -/
def Fp.mul (prec : Nat) (emin : Int) (a b : Fp) : Fp :=
  Fp.round prec emin ⟨a.m * b.m, a.e + b.e⟩

/-- The sum `a + b`, rounded. -/
def Fp.add (prec : Nat) (emin : Int) (a b : Fp) : Fp :=
  Fp.round prec emin
    ⟨a.m * 2 ^ (a.e - min a.e b.e).toNat + b.m * 2 ^ (b.e - min a.e b.e).toNat, min a.e b.e⟩

/-- The difference `a - b`, rounded. -/
def Fp.sub (prec : Nat) (emin : Int) (a b : Fp) : Fp :=
  Fp.round prec emin
    ⟨a.m * 2 ^ (a.e - min a.e b.e).toNat - b.m * 2 ^ (b.e - min a.e b.e).toNat, min a.e b.e⟩

/-- The conversion `(float)n` of an integer. -/
def float_ofInt (n : Int) : Fp := fpRound 24 (-149) n 1

/-- The operation `a / b` on two `float`s. -/
def float_div (a b : Fp) : Fp := Fp.div 24 (-149) a b

/-- The operation `a - b` on two `float`s. -/
def float_sub (a b : Fp) : Fp := Fp.sub 24 (-149) a b

/-- The conversion of a `double` to `float`, as on assignment to a `float` and on return from a
function of type `float`. -/
def float_ofDouble (x : Fp) : Fp := Fp.round 24 (-149) x

/-- The operation `a * b` on two `double`s (a `float` operand is promoted as it is). -/
def double_mul (a b : Fp) : Fp := Fp.mul 53 (-1074) a b

/-- The operation `a / b` on two `double`s. -/
def double_div (a b : Fp) : Fp := Fp.div 53 (-1074) a b

/-- The operation `a + b` on two `double`s. -/
def double_add (a b : Fp) : Fp := Fp.add 53 (-1074) a b

/-- A value that the type `float` holds: a significand of at most 24 bits, or `2 ^ 24` itself,
at an exponent of at least -149. -/
def Fp.IsFloat (x : Fp) : Prop := x.m.natAbs ≤ 2 ^ 24 ∧ -149 ≤ x.e

/-! ### Rate limiter (`leon_ratelimits.h`, `leon_stat.c`, `leon_rm.c`)

Times are in seconds. -/

/-- The macro `LEON_RATELIMITS_LEADIN_SECONDS`: `(1.0f)`. -/
def LEON_RATELIMITS_LEADIN_SECONDS : Fp := ⟨1, 0⟩

/-- The macro `LEON_MINIMUM_RATELIMIT`: `(1.0f)`. -/
def LEON_MINIMUM_RATELIMIT : Fp := ⟨1, 0⟩

/-- The fields of `struct timeval`. -/
structure timeval where
  tv_sec : Int
  tv_usec : Int
  deriving DecidableEq, Repr

/-- What the clock answers to one call of the rate limiter: the time stored by
`gettimeofday` (`none` when it fails) and the return value of `time(NULL)`. -/
structure ClockReading where
  gettimeofday : Option timeval
  time : Int
  deriving DecidableEq, Repr

/-- The static variables of one rate-limited call site: `__leon_stat_ratelimitIsSet`,
`__leon_stat_ratelimit`, `__leon_stat_inited`, `__leon_stat_start` and `__leon_stat_count` in
`leon_stat.c`, and the `__leon_rm_` ones in `leon_rm.c`.  Without
`LEON_RATELIMITS_USE_TIMEOFDAY` the start is a `time_t`, held in `tv_sec`. -/
structure RateLimitState where
  ratelimitIsSet : Bool
  ratelimit : Fp
  inited : Bool
  start : timeval
  count : Nat
  deriving DecidableEq

/-- The initial values of the static variables of `leon_stat.c`. -/
def leon_stat_statics : RateLimitState := ⟨false, ⟨0, 0⟩, false, ⟨0, 0⟩, 0⟩

/-- The initial values of the static variables of `leon_rm.c`. -/
def leon_rm_statics : RateLimitState := ⟨false, ⟨0, 0⟩, false, ⟨0, 0⟩, 0⟩

/-- The function `leon_stat_ratelimit`. -/
def leon_stat_ratelimit (st : RateLimitState) : Fp := st.ratelimit

/-- The function `leon_stat_setRatelimit`. -/
def leon_stat_setRatelimit (st : RateLimitState) (rateLimit : Fp) : RateLimitState :=
  if Fp.le LEON_MINIMUM_RATELIMIT rateLimit then
    { st with ratelimitIsSet := true, ratelimit := rateLimit }
  else
    { st with ratelimitIsSet := false, ratelimit := ⟨0, 0⟩ }

/-- The function `leon_rm_ratelimit`. -/
def leon_rm_ratelimit (st : RateLimitState) : Fp := st.ratelimit

/-- The function `leon_rm_setRatelimit`. -/
def leon_rm_setRatelimit (st : RateLimitState) (rateLimit : Fp) : RateLimitState :=
  if Fp.le LEON_MINIMUM_RATELIMIT rateLimit then
    { st with ratelimitIsSet := true, ratelimit := rateLimit }
  else
    { st with ratelimitIsSet := false, ratelimit := ⟨0, 0⟩ }

/-- The macro `LEON_DELTA_TIMEVAL(a, b, result)`. -/
def LEON_DELTA_TIMEVAL (a b : timeval) : timeval :=
  let tv_sec := a.tv_sec - b.tv_sec
  let tv_usec := a.tv_usec - b.tv_usec
  if tv_usec < 0 then ⟨tv_sec - 1, tv_usec + 1000000⟩ else ⟨tv_sec, tv_usec⟩

/-- The function `leon_delta_t`, in both of its variants: with `LEON_RATELIMITS_USE_TIMEOFDAY`,
`(float)delta.tv_sec + 1e-6 * (float)delta.tv_usec` computed in `double` and returned as
`float`, or `0.0f` when `gettimeofday` fails; without, `(float)(time(NULL) - startTime)`. -/
def leon_delta_t (useTimeOfDay : Bool) (startTime : timeval) (clock : ClockReading) : Fp :=
  if useTimeOfDay then
    match clock.gettimeofday with
    | some now =>
      let delta := LEON_DELTA_TIMEVAL now startTime
      float_ofDouble
        (double_add (float_ofInt delta.tv_sec)
          (double_mul (fpRound 53 (-1074) 1 1000000) (float_ofInt delta.tv_usec)))
    | none => ⟨0, 0⟩
  else
    float_ofInt (clock.time - startTime.tv_sec)

/-- The conversion `(useconds_t)x` of a `float` to a 32-bit unsigned integer: the value with its
fraction dropped when that fits, and not defined otherwise (`none`). -/
def useconds_t_ofFloat (x : Fp) : Option Nat :=
  let t : Int := if 0 ≤ x.e then x.m * 2 ^ x.e.toNat else Int.tdiv x.m (2 ^ (-x.e).toNat)
  if 0 ≤ t ∧ t < 4294967296 then some t.toNat else none

/-- The expression `((float)count / ratelimit - dt) * (1e6) / 100.0f` of `leon_stat` and
`__leon_rm_entity`, stored in the `float` `delta_t_us`: the delay in microseconds.  The quotient
and the difference are single-precision operations, the product with the `double` constant
`1e6` and the quotient by `100.0f` are double-precision ones. -/
def delta_t_us (count : Nat) (ratelimit dt : Fp) : Fp :=
  float_ofDouble
    (double_div
      (double_mul (float_sub (float_div (float_ofInt count) ratelimit) dt) ⟨1000000, 0⟩)
      ⟨100, 0⟩)

/-- The part of `leon_stat` in front of the `lstat`: the first call stores the clock reading
`startClock` in `__leon_stat_start`; with a limit set the rate is checked against the reading
`nowClock`; then the call is counted (a `uint64_t`, in the build without
`LEON_STAT_MAXINT_GUARD`).  `useTimeOfDay` is whether the build defines
`LEON_RATELIMITS_USE_TIMEOFDAY`.  Returns the static variables afterwards and the `usleep` call
made, if any, as its argument. -/
def leon_stat_throttle (useTimeOfDay : Bool) (st : RateLimitState)
    (startClock nowClock : ClockReading) : RateLimitState × Option (Option Nat) :=
  let st1 : RateLimitState :=
    if ! st.inited then
      let start : timeval :=
        if useTimeOfDay then
          match startClock.gettimeofday with
          | some tv => tv
          | none => ⟨startClock.time, 0⟩
        else
          ⟨startClock.time, 0⟩
      { st with start := start, inited := true }
    else st
  let slept : Option (Option Nat) :=
    if st1.ratelimitIsSet then
      let dt := leon_delta_t useTimeOfDay st1.start nowClock
      if Fp.lt LEON_RATELIMITS_LEADIN_SECONDS dt then
        let cur_rate := float_div (float_ofInt st1.count) dt
        if Fp.lt st1.ratelimit cur_rate then
          let d := delta_t_us st1.count st1.ratelimit dt
          if Fp.lt ⟨10, 0⟩ d then some (useconds_t_ofFloat d) else none
        else none
      else none
    else none
  ({ st1 with count := (st1.count + 1) % 18446744073709551616 }, slept)

/-- The part of `__leon_rm_entity` in front of the `rmdir` or `unlink`, as `leon_stat_throttle`
on the static variables of `leon_rm.c`. -/
def __leon_rm_entity_throttle (useTimeOfDay : Bool) (st : RateLimitState)
    (startClock nowClock : ClockReading) : RateLimitState × Option (Option Nat) :=
  let st1 : RateLimitState :=
    if ! st.inited then
      let start : timeval :=
        if useTimeOfDay then
          match startClock.gettimeofday with
          | some tv => tv
          | none => ⟨startClock.time, 0⟩
        else
          ⟨startClock.time, 0⟩
      { st with start := start, inited := true }
    else st
  let slept : Option (Option Nat) :=
    if st1.ratelimitIsSet then
      let dt := leon_delta_t useTimeOfDay st1.start nowClock
      if Fp.lt LEON_RATELIMITS_LEADIN_SECONDS dt then
        let cur_rate := float_div (float_ofInt st1.count) dt
        if Fp.lt st1.ratelimit cur_rate then
          let d := delta_t_us st1.count st1.ratelimit dt
          if Fp.lt ⟨10, 0⟩ d then some (useconds_t_ofFloat d) else none
        else none
      else none
    else none
  ({ st1 with count := (st1.count + 1) % 18446744073709551616 }, slept)

/-- A sequence of calls of `leon_stat`, one for each pair of clock readings: the static
variables afterwards and what each call did about sleeping. -/
def leon_stat_throttle_calls (useTimeOfDay : Bool) :
    RateLimitState → List (ClockReading × ClockReading) →
      RateLimitState × List (Option (Option Nat))
  | st, [] => (st, [])
  | st, c :: rest =>
    let r := leon_stat_throttle useTimeOfDay st c.1 c.2
    let rs := leon_stat_throttle_calls useTimeOfDay r.1 rest
    (rs.1, r.2 :: rs.2)

/-- A sequence of calls of `__leon_rm_entity`, as `leon_stat_throttle_calls`. -/
def __leon_rm_entity_throttle_calls (useTimeOfDay : Bool) :
    RateLimitState → List (ClockReading × ClockReading) →
      RateLimitState × List (Option (Option Nat))
  | st, [] => (st, [])
  | st, c :: rest =>
    let r := __leon_rm_entity_throttle useTimeOfDay st c.1 c.2
    let rs := __leon_rm_entity_throttle_calls useTimeOfDay r.1 rest
    (rs.1, r.2 :: rs.2)

/-- The time since the first call that a call computes from the clock reading `nowClock`: the
`dt` of `leon_stat` and `__leon_rm_entity`, the first call taking its start from
`startClock`. -/
def elapsed (useTimeOfDay : Bool) (st : RateLimitState) (startClock nowClock : ClockReading) :
    Fp :=
  leon_delta_t useTimeOfDay
    (if st.inited then st.start
      else if useTimeOfDay then
        match startClock.gettimeofday with
        | some tv => tv
        | none => ⟨startClock.time, 0⟩
      else ⟨startClock.time, 0⟩)
    nowClock

/-! ### The path object (`leon_path.c`)

Allocations are taken to succeed, so the capacity of the buffer does not show. -/

/-- The state behind a `leon_path_ref`: the C string in the buffer (`length` is its length) and
the chain of snapshots, the most recent first, each holding the length saved by a push. -/
structure leon_path_t where
  cString : CString
  snapshot : List Nat
  deriving DecidableEq, Repr

/-- The function `leon_path_createWithCString`. -/
def leon_path_createWithCString (cString : CString) : leon_path_t := ⟨cString, []⟩

/-- The function `leon_path_cString`. -/
def leon_path_cString (aPath : leon_path_t) : CString := aPath.cString

/-- The function `leon_path_depth`. -/
def leon_path_depth (aPath : leon_path_t) : Nat := aPath.snapshot.length

/-- The function `leon_path_push` on the path object: for a component of non-zero length, take a
snapshot of the length and copy in a slash and the component. -/
def leon_path_t.push (aPath : leon_path_t) (cString : CString) : leon_path_t :=
  let frag_length := cString.length
  if frag_length ≠ 0 then
    ⟨aPath.cString ++ '/' :: cString, aPath.cString.length :: aPath.snapshot⟩
  else
    aPath

/-- The function `leon_path_pop`: with a snapshot on the chain, cut the string back to the
length it holds and unlink it. -/
def leon_path_pop (aPath : leon_path_t) : leon_path_t :=
  match aPath.snapshot with
  | [] => aPath
  | length :: link => ⟨aPath.cString.take length, link⟩

/-- One call on a path object. -/
inductive PathOp where
  | push (cString : CString)
  | pop
  deriving DecidableEq, Repr

/-- A sequence of calls on a path object. -/
def leon_path_run (aPath : leon_path_t) : List PathOp → leon_path_t
  | [] => aPath
  | .push c :: rest => leon_path_run (aPath.push c) rest
  | .pop :: rest => leon_path_run (leon_path_pop aPath) rest

/-- Balanced sequences of pushes and pops: every pop closes the most recent open push. -/
inductive Balanced : List PathOp → Prop where
  | nil : Balanced []
  | wrap (c : CString) (w : List PathOp) : Balanced w → Balanced (.push c :: (w ++ [.pop]))
  | append (u v : List PathOp) : Balanced u → Balanced v → Balanced (u ++ v)

mutual
/-- The function `leon_rm` with the path object it is given: the result, the path object on
return, and the state. -/
def leon_rm_path (cfg : Config) : leon_path_t → FsNode → Bool → RmState → Bool × leon_path_t × RmState
  | aPath, .mk lstatErrno st opendirErrno entries _ unlinkErrno rmdirErrno, dryRun, s =>
    if lstatErrno = 0 then
      let fInfo := st
      if S_ISDIR fInfo then
        let lr : Bool × leon_path_t × stat × RmState :=
          if opendirErrno = 0 then
            leon_rm_path_loop cfg aPath entries dryRun fInfo s
          else
            (true, aPath, fInfo, { s with outErr := opendirErrno })
        if ! lr.1 then
          (false, lr.2.1, lr.2.2.2)
        else if ! dryRun then
          let fInfo := if lr.2.2.2.totalBytes.isSome then st else lr.2.2.1
          let s1 : RmState :=
            { lr.2.2.2 with
              trace := lr.2.2.2.trace ++ [Syscall.rmdir (leon_path_cString lr.2.1) rmdirErrno] }
          if rmdirErrno ≠ 0 && rmdirErrno ≠ ENOENT then
            (false, lr.2.1, { s1 with outErr := rmdirErrno })
          else
            (true, lr.2.1, { s1 with totalBytes := s1.totalBytes.map fun b => b + fInfo.st_size })
        else
          (true, lr.2.1, lr.2.2.2)
      else if dryRun then
        (false, aPath, s)
      else
        let s1 : RmState :=
          { s with trace := s.trace ++ [Syscall.unlink (leon_path_cString aPath) unlinkErrno] }
        if unlinkErrno ≠ 0 && unlinkErrno ≠ ENOENT then
          (false, aPath, { s1 with outErr := unlinkErrno })
        else
          (true, aPath, { s1 with totalBytes := s1.totalBytes.map fun b => b + fInfo.st_size })
    else
      (false, aPath, { s with outErr := lstatErrno })
/-- The loop of `leon_rm` over the entries of a directory, with the path object. -/
def leon_rm_path_loop (cfg : Config) :
    leon_path_t → DirEntries → Bool → stat → RmState → Bool × leon_path_t × stat × RmState
  | aPath, .nil, _, fInfo, s => (true, aPath, fInfo, s)
  | aPath, .cons d_name d_type node rest, dryRun, fInfo, s =>
    if isDotOrDotDot d_name then
      leon_rm_path_loop cfg aPath rest dryRun fInfo s
    else
      let aPath := aPath.push d_name
      let k := leon_rm_entityKind cfg d_type node fInfo
      let isDir := k.1
      let isOkay := k.2.1
      let fInfo := k.2.2
      if isOkay then
        if isDir then
          let r := leon_rm_path cfg aPath node dryRun s
          if ! r.1 then (false, r.2.1, fInfo, r.2.2)
          else leon_rm_path_loop cfg (leon_path_pop r.2.1) rest dryRun fInfo r.2.2
        else if ! dryRun then
          let s1 : RmState :=
            { s with
              trace := s.trace ++ [Syscall.unlink (leon_path_cString aPath) node.unlinkErrno] }
          if node.unlinkErrno ≠ 0 && node.unlinkErrno ≠ ENOENT then
            (false, leon_path_pop aPath, fInfo, { s1 with outErr := node.unlinkErrno })
          else
            leon_rm_path_loop cfg (leon_path_pop aPath) rest dryRun fInfo
              { s1 with totalBytes := s1.totalBytes.map fun b => b + fInfo.st_size }
        else
          leon_rm_path_loop cfg (leon_path_pop aPath) rest dryRun fInfo s
      else
        leon_rm_path_loop cfg (leon_path_pop aPath) rest dryRun fInfo s
end

/-! ### The index set (`leon_indexset.c`)

Allocations are taken to succeed. -/

def UINT_MAX : Nat := 4294967295

/-- The constant `leon_undefIndex`. -/
def leon_undefIndex : Nat := UINT_MAX

/-- The state behind a `leon_indexset_ref`.  `values` is the part of the array in use, so that
`count` is its length. -/
structure leon_indexset_t where
  min : Nat
  max : Nat
  capacity : Nat
  values : List Nat
  enumIdx : Nat
  enumLastVal : Nat
  deriving DecidableEq, Repr

/-- The function `leon_indexset_createWithRange`. -/
def leon_indexset_createWithRange (low high : Nat) : leon_indexset_t :=
  { min := low,
    max := if high > low then (if high = UINT_MAX then high - 1 else high) else low,
    capacity := 0, values := [], enumIdx := 0, enumLastVal := 0 }

/-- The function `leon_indexset_create`. -/
def leon_indexset_create : leon_indexset_t := leon_indexset_createWithRange 0 (UINT_MAX - 1)

/-- The function `leon_indexset_count`. -/
def leon_indexset_count (anIndexSet : leon_indexset_t) : Nat := anIndexSet.values.length

/-- The function `__leon_indexset_grow` when the allocation succeeds. -/
def __leon_indexset_grow (anIndexSet : leon_indexset_t) : leon_indexset_t :=
  { anIndexSet with capacity := (1 + anIndexSet.capacity / 32) * 32 }

/-- The comparison `__leon_indexset_bsearch`. -/
def __leon_indexset_bsearch (A B : Nat) : Int :=
  if A < B then -1 else if A = B then 0 else 1

/-- The libc `bsearch` over the elements `l` to `u - 1` of `base` with the comparison
`__leon_indexset_bsearch`: the position of a match, if the halving finds one.  `fuel` bounds
the number of halvings. -/
def bsearch (key : Nat) (base : List Nat) : Nat → Nat → Nat → Option Nat
  | 0, _, _ => none
  | fuel + 1, l, u =>
    if l < u then
      let idx := (l + u) / 2
      let comparison := __leon_indexset_bsearch key (base.getD idx 0)
      if comparison < 0 then bsearch key base fuel l idx
      else if comparison > 0 then bsearch key base fuel (idx + 1) u
      else some idx
    else none

/-- The function `leon_indexset_containsIndex` on the index set object. -/
def leon_indexset_t.containsIndex (anIndexSet : leon_indexset_t) (index : Nat) : Bool :=
  if index ≥ anIndexSet.min && index ≤ anIndexSet.max && anIndexSet.values.length != 0 then
    (bsearch index anIndexSet.values (anIndexSet.values.length + 1) 0
      anIndexSet.values.length).isSome
  else
    false

/-- The loop `while ( i < anIndexSet->count )` of `leon_indexset_addIndex` from position `i` over
the values from there on: `none` when it returns true from inside (the value is there), or the
position at which it stops. -/
def leon_indexset_addIndex_scan (index : Nat) : List Nat → Nat → Option Nat
  | [], i => some i
  | v :: rest, i =>
    if v = index then none
    else if v > index then some i
    else leon_indexset_addIndex_scan index rest (i + 1)

/-- The function `leon_indexset_addIndex`: the value returned and the index set afterwards. -/
def leon_indexset_addIndex (anIndexSet : leon_indexset_t) (index : Nat) :
    Bool × leon_indexset_t :=
  if index ≥ anIndexSet.min && index ≤ anIndexSet.max then
    match leon_indexset_addIndex_scan index anIndexSet.values 0 with
    | none => (true, anIndexSet)
    | some i =>
      let grown :=
        if anIndexSet.values.length = anIndexSet.capacity then __leon_indexset_grow anIndexSet
        else anIndexSet
      (false,
        { grown with
          values := anIndexSet.values.take i ++ index :: anIndexSet.values.drop i,
          enumIdx := leon_undefIndex })
  else
    (false, anIndexSet)

/-! ### The hash table (`leon_hash.c`) with C-string keys and values

Allocations are taken to succeed, so the pool of free nodes does not show. -/

def LEON_HASH_BASELINE_CAPACITY : Nat := 33

/-- The function `leon_hash_hashCString` (characters below 128), in 32-bit arithmetic. -/
def leon_hash_hashCString (cString : CString) : Nat :=
  match cString with
  | [] => 0
  | _ :: _ =>
    cString.foldl
      (fun hash c => ((hash + (hash <<< 5) % 4294967296) % 4294967296) ^^^ c.toNat) 5381

/-- A node of a bucket chain: `leon_hash_node_t` less its link. -/
structure leon_hash_node_t where
  key : CString
  value : CString
  deriving DecidableEq, Repr

/-- The state behind a `leon_hash_ref`: the counters and the chain of each bucket. -/
structure leon_hash_t where
  pairCount : Nat
  bucketCount : Nat
  fillCount : Nat
  buckets : List (List leon_hash_node_t)
  deriving DecidableEq, Repr

/-- The function `leon_hash_create` with the C-string key and value callbacks. -/
def leon_hash_create (capacity : Nat) : leon_hash_t :=
  let capacity := if capacity < LEON_HASH_BASELINE_CAPACITY then LEON_HASH_BASELINE_CAPACITY
    else capacity
  ⟨0, capacity, 0, List.replicate capacity []⟩

/-- The function `leon_hash_pairCount`. -/
def leon_hash_pairCount (theHash : leon_hash_t) : Nat := theHash.pairCount

/-- The function `__leon_hash_node_findKey` with the comparison `strcmp`. -/
def __leon_hash_node_findKey : List leon_hash_node_t → CString → Option leon_hash_node_t
  | [], _ => none
  | node :: link, key =>
    let cmpVal := strcmp key node.key
    if cmpVal = 0 then some node
    else if cmpVal > 0 then none
    else __leon_hash_node_findKey link key

/-- The function `leon_hash_valueForKey`; `none` is the NULL it returns for an absent key. -/
def leon_hash_valueForKey (theHash : leon_hash_t) (theKey : CString) : Option CString :=
  let index := leon_hash_hashCString theKey % theHash.bucketCount
  (__leon_hash_node_findKey (theHash.buckets.getD index []) theKey).map fun n => n.value

/-- The walk `while ( bucket && ((cmpVal = cmp(theKey, bucket->key)) < 0) )` of
`leon_hash_setValueForKey`: the number of nodes passed and the last `cmpVal` (-1 when no node
was compared). -/
def leon_hash_setValueForKey_walk (theKey : CString) :
    List leon_hash_node_t → Nat → Int → Nat × Int
  | [], i, cmpVal => (i, cmpVal)
  | bucket :: link, i, _ =>
    let cmpVal := strcmp theKey bucket.key
    if cmpVal < 0 then leon_hash_setValueForKey_walk theKey link (i + 1) cmpVal
    else (i, cmpVal)

/-- The function `leon_hash_setValueForKey`.  Its local `node` is declared without a value and
is not assigned on the path that replaces the value of a key already there, yet the closing
`if ( node )` reads it: `node` is what that read finds, `none` for NULL and `some (b, i)` for a
pointer to node `i` of the chain of bucket `b`. -/
def leon_hash_setValueForKey (theHash : leon_hash_t) (theKey theValue : CString)
    (node : Option (Nat × Nat)) : leon_hash_t :=
  let index := leon_hash_hashCString theKey % theHash.bucketCount
  let chain := theHash.buckets.getD index []
  match chain with
  | [] =>
    { theHash with
      buckets := theHash.buckets.set index [⟨theKey, theValue⟩],
      fillCount := theHash.fillCount + 1,
      pairCount := theHash.pairCount + 1 }
  | _ :: _ =>
    let w := leon_hash_setValueForKey_walk theKey chain 0 (-1)
    if w.2 = 0 then
      let replaced : leon_hash_t :=
        { theHash with
          buckets := theHash.buckets.set index
            (chain.modify (fun n => ⟨n.key, theValue⟩) w.1) }
      match node with
      | none => replaced
      | some (b, i) =>
        { replaced with
          buckets := replaced.buckets.set b
            ((replaced.buckets.getD b []).modify (fun _ => ⟨theKey, theValue⟩) i),
          pairCount := replaced.pairCount + 1 }
    else
      { theHash with
        buckets := theHash.buckets.set index
          (chain.take w.1 ++ ⟨theKey, theValue⟩ :: chain.drop w.1),
        pairCount := theHash.pairCount + 1 }

/-- The number of keys in a hash table. -/
def leon_hash_t.keyCount (theHash : leon_hash_t) : Nat :=
  (theHash.buckets.map List.length).sum

mutual
/-- The number of entities in a tree. -/
def FsNode.size : FsNode → Nat
  | .mk _ _ _ entries _ _ _ => 1 + entries.size
/-- The number of entities in the trees of a listing. -/
def DirEntries.size : DirEntries → Nat
  | .nil => 0
  | .cons _ _ node rest => node.size + rest.size
end

mutual
/-- Every entity of the tree that `lstat` reports as a directory can be opened. -/
def FsNode.Openable : FsNode → Prop
  | .mk lstatErrno st opendirErrno entries _ _ _ =>
    (lstatErrno = 0 → S_ISDIR st = true → opendirErrno = 0) ∧ entries.Openable
/-- Every directory in the trees of a listing can be opened. -/
def DirEntries.Openable : DirEntries → Prop
  | .nil => True
  | .cons _ _ node rest => node.Openable ∧ rest.Openable
end

/-- What `leon_rm` and `leon_rm_interactive` have done alike: the same calls issued, success of
the one exactly with success of the other, no decline, and the answers left on stdin all yes,
at most `size` of the `k` there were having been read. -/
def RmAlike (ok : Bool) (trace : List Syscall) (status : leon_rm_status_t) (si : RmiState)
    (k size : Nat) : Prop :=
  si.trace = trace ∧ (status = kLeonRMStatusSucceeded ↔ ok = true) ∧
    (status = kLeonRMStatusSucceeded ∨ status = kLeonRMStatusFailed) ∧
    ∃ k', si.stdin = List.replicate k' true ∧ k ≤ k' + size

/-- Two `struct stat` values that are the same, or are both of a directory and differ at most in
`st_uid`, `st_gid`, `st_atime` and `st_mtime`. -/
def SameButDirMetaStat (a b : stat) : Prop :=
  a = b ∨ (S_ISDIR a = true ∧ a.st_mode = b.st_mode ∧ a.st_size = b.st_size)

mutual
/-- Two trees that differ at most in the owner, group and timestamps of directories. -/
def FsNode.SameButDirMeta : FsNode → FsNode → Prop
  | .mk l st o es r u m, .mk l' st' o' es' r' u' m' =>
    l = l' ∧ o = o' ∧ r = r' ∧ u = u' ∧ m = m' ∧ SameButDirMetaStat st st' ∧
      es.SameButDirMeta es'
/-- Two listings with the same names and types whose trees differ at most in the owner, group and
timestamps of directories. -/
def DirEntries.SameButDirMeta : DirEntries → DirEntries → Prop
  | .nil, .nil => True
  | .nil, .cons _ _ _ _ => False
  | .cons _ _ _ _, .nil => False
  | .cons n t node rest, .cons n' t' node' rest' =>
    n = n' ∧ t = t' ∧ node.SameButDirMeta node' ∧ rest.SameButDirMeta rest'
end

/-! ### The calls of `leon_worklog_addPath` that a scan makes -/

/-- The arguments of the call of `leon_worklog_addPath` that `leon_mv_dir` makes, if it makes
one: none for a name flagged by a previous run or after a failed rename. -/
def leon_mv_dir_adds (cfg : Config) (basePath origDirPath dirName : CString) (renameErrno : Nat) :
    List (CString × CString) :=
  if leon_mv_dir_flagged dirName then
    []
  else
    let altPath := leon_path_pushFormat basePath (__leon_mv_dir_format cfg.now_s ++ dirName)
    let rc : Int :=
      if ! cfg.leon_shouldDryRun then (if renameErrno = 0 then 0 else -1) else 0
    if rc = 0 then [(origDirPath, altPath)] else []

mutual
/-- The arguments of the calls of `leon_worklog_addPath` made during `leon_cleanup_dir` on the
directory `basePath`, in the order of the calls. -/
def leon_cleanup_dir_adds (cfg : Config) : CString → FsNode → List (CString × CString)
  | basePath, .mk _ _ opendirErrno entries _ _ _ =>
    if opendirErrno ≠ 0 then
      []
    else
      let l := leon_cleanup_dir_loop1 cfg basePath entries
        ⟨kLeonResultYes, cfg.fInfoInit basePath, false⟩
      if l.foundSubdir then leon_cleanup_dir_loop2_adds cfg basePath entries else []
/-- The arguments of the calls of `leon_worklog_addPath` made during the second loop of
`leon_cleanup_dir`. -/
def leon_cleanup_dir_loop2_adds (cfg : Config) : CString → DirEntries → List (CString × CString)
  | _, .nil => []
  | basePathCopy, .cons d_name d_type node rest =>
    if isDotOrDotDot d_name then
      leon_cleanup_dir_loop2_adds cfg basePathCopy rest
    else
      let basePath := leon_path_push basePathCopy d_name
      if isSubdirEntry cfg d_type node then
        leon_cleanup_dir_adds cfg basePath node ++
          (if verdictOf cfg basePath node = kLeonResultYes then
            leon_mv_dir_adds cfg basePathCopy basePath d_name node.renameErrno
          else []) ++
          leon_cleanup_dir_loop2_adds cfg basePathCopy rest
      else
        leon_cleanup_dir_loop2_adds cfg basePathCopy rest
end

/-- A name as a directory holds it: not empty and without a slash. -/
def GoodName (d : CString) : Prop := d ≠ [] ∧ '/' ∉ d

/-- The names of a listing. -/
def DirEntries.names : DirEntries → List CString
  | .nil => []
  | .cons d_name _ _ rest => d_name :: rest.names

mutual
/-- In every listing of the tree the names are names as a directory holds them, each listed
once. -/
def FsNode.WellListed : FsNode → Prop
  | .mk _ _ _ entries _ _ _ => entries.WellListed
/-- The names of the listing are names as a directory holds them, each listed once, and the same
holds in the trees below. -/
def DirEntries.WellListed : DirEntries → Prop
  | .nil => True
  | .cons d_name _ node rest =>
    GoodName d_name ∧ d_name ∉ rest.names ∧ node.WellListed ∧ rest.WellListed
end

/-- The path `x` is neither `q`, nor above it, nor below it. -/
def Apart (x q : CString) : Prop := ¬ IsSlashPrefix x q ∧ x ≠ q ∧ ¬ IsSlashPrefix q x

/-- The path `x` is `q` or lies below it. -/
def AtOrUnder (q x : CString) : Prop := x = q ∨ IsSlashPrefix q x

/-- A pair of a path and the quarantine path that `leon_mv_dir` makes for it: a directory, a
slash and a name, and the same with the run's prefix in front of the name. -/
def QuarantinePair (cfg : Config) (c : CString × CString) : Prop :=
  ∃ X n, GoodName n ∧ c.1 = X ++ '/' :: n ∧ c.2 = X ++ '/' :: (__leon_mv_dir_format cfg.now_s ++ n)

theorem charAt_append_cons (p : CString) (x : Char) (xs : CString) :
    charAt (p ++ x :: xs) p.length = x := by
  induction p with
  | nil => rfl
  | cons c cs ih => simpa [charAt] using ih

theorem charAt_length (p : CString) : charAt p p.length = Char.ofNat 0 := by
  induction p with
  | nil => rfl
  | cons c cs ih => simp [charAt]

theorem strncmp_eq_zero_iff (t a : CString) (h : a.length ≤ t.length) :
    strncmp t a a.length = 0 ↔ a <+: t := by
  induction a generalizing t with
  | nil => simp [strncmp]
  | cons b bs ih =>
    cases t with
    | nil => simp at h
    | cons c cs =>
      simp only [List.length_cons, Nat.add_le_add_iff_right] at h
      by_cases hcb : c = b
      · subst hcb
        simp [strncmp, ih cs h, List.cons_prefix_cons]
      · have hne : (c.toNat : Int) - (b.toNat : Int) ≠ 0 := by
          intro h0
          apply hcb
          apply Char.ext
          apply UInt32.ext
          have : c.toNat = b.toNat := by omega
          exact this
        have hbc : ¬ b = c := fun e => hcb e.symm
        simp [strncmp, hcb, hne, hbc, List.cons_prefix_cons]

theorem leonPathStartsWith_iff (candidate pfx : CString) :
    leonPathStartsWith candidate pfx = true ↔ IsSlashPrefix pfx candidate := by
  unfold leonPathStartsWith __leon_worklog_sqlite3_pathStartsWith IsSlashPrefix
  constructor
  · intro h
    by_cases hlen : candidate.length ≥ pfx.length
    · simp only [hlen, if_true] at h
      by_cases hs : strncmp candidate pfx pfx.length = 0
      · simp only [hs, if_true] at h
        by_cases hc : charAt candidate pfx.length = '/'
        · obtain ⟨r, hr⟩ := (strncmp_eq_zero_iff candidate pfx hlen).1 hs
          subst hr
          cases r with
          | nil =>
            rw [List.append_nil, charAt_length] at hc
            exact absurd hc (by decide)
          | cons x xs =>
            rw [charAt_append_cons] at hc
            exact ⟨xs, by rw [hc]⟩
        · simp [hc, sqlNonZero] at h
      · simp [hs, sqlNonZero] at h
    · simp [hlen, sqlNonZero] at h
  · rintro ⟨rest, rfl⟩
    have hlen : (pfx ++ '/' :: rest).length ≥ pfx.length := by simp
    have hs : strncmp (pfx ++ '/' :: rest) pfx pfx.length = 0 :=
      (strncmp_eq_zero_iff _ _ hlen).2 ⟨_, rfl⟩
    simp only [hlen, hs, charAt_append_cons, if_true, sqlNonZero]
    decide

/-! ### Worklog -/

theorem addPath_of_pending (w : leon_worklog_t) (o a : CString) (h : w.addStmtRc ≠ SQLITE_OK) :
    leon_worklog_addPath w o a = (false, { w with addStmtRc := SQLITE_OK }) := by
  unfold leon_worklog_addPath
  simp [h]

theorem addPath_of_fault (w : leon_worklog_t) (o a : CString) (h : w.addStmtRc = SQLITE_OK)
    (hf : sqliteIsError (w.addStmtFaults.headD SQLITE_OK) = true) :
    leon_worklog_addPath w o a =
      (false, { w with
        addStmtRc := w.addStmtFaults.headD SQLITE_OK,
        addStmtFaults := w.addStmtFaults.tail }) := by
  unfold leon_worklog_addPath sqlite3_step_addStmt
  generalize w.addStmtFaults.headD SQLITE_OK = f at hf ⊢
  have hd : f ≠ SQLITE_DONE := by
    intro he
    rw [he] at hf
    exact absurd hf (by decide)
  simp only [h, hf, if_true, hd, if_false]

theorem addPath_of_constraint (w : leon_worklog_t) (o a : CString) (h : w.addStmtRc = SQLITE_OK)
    (hf : sqliteIsError (w.addStmtFaults.headD SQLITE_OK) = false)
    (hc : (w.rows.any fun r => r.origPath == o || r.altPath == a) = true) :
    leon_worklog_addPath w o a =
      (false, { w with addStmtRc := SQLITE_CONSTRAINT, addStmtFaults := w.addStmtFaults.tail }) := by
  unfold leon_worklog_addPath sqlite3_step_addStmt
  generalize w.addStmtFaults.headD SQLITE_OK = f at hf ⊢
  have hd : SQLITE_CONSTRAINT ≠ SQLITE_DONE := by decide
  simp only [h, hf, hc, if_true, hd, if_false, Bool.false_eq_true]

theorem addPath_of_insert (w : leon_worklog_t) (o a : CString) (h : w.addStmtRc = SQLITE_OK)
    (hf : sqliteIsError (w.addStmtFaults.headD SQLITE_OK) = false)
    (hc : (w.rows.any fun r => r.origPath == o || r.altPath == a) = false) :
    leon_worklog_addPath w o a =
      (true, { w with
        rows := (w.rows ++ [(⟨nextPathId w.rows, o, a⟩ : WorklogRow)]).filter
          fun r => !leonPathStartsWith r.origPath o,
        addStmtFaults := w.addStmtFaults.tail }) := by
  unfold leon_worklog_addPath sqlite3_step_addStmt sqlite3_step_postAddStmt
  generalize w.addStmtFaults.headD SQLITE_OK = f at hf ⊢
  simp only [h, hf, hc, if_true, if_false, Bool.false_eq_true, ne_eq, not_true_eq_false]

/-- The outcomes of `leon_worklog_addPath`: it fails and leaves the tables as they were, or it
inserts the row. -/
theorem addPath_outcome (w : leon_worklog_t) (o a : CString) :
    ((leon_worklog_addPath w o a).1 = false ∧ (leon_worklog_addPath w o a).2.rows = w.rows) ∨
      (w.addStmtRc = SQLITE_OK ∧ sqliteIsError (w.addStmtFaults.headD SQLITE_OK) = false ∧
        (w.rows.any fun r => r.origPath == o || r.altPath == a) = false ∧
        leon_worklog_addPath w o a =
          (true, { w with
            rows := (w.rows ++ [(⟨nextPathId w.rows, o, a⟩ : WorklogRow)]).filter
              fun r => !leonPathStartsWith r.origPath o,
            addStmtFaults := w.addStmtFaults.tail })) := by
  by_cases h : w.addStmtRc = SQLITE_OK
  · cases hf : sqliteIsError (w.addStmtFaults.headD SQLITE_OK) with
    | false =>
      cases hc : (w.rows.any fun r => r.origPath == o || r.altPath == a) with
      | true => left; rw [addPath_of_constraint w o a h hf hc]; exact ⟨rfl, rfl⟩
      | false => right; exact ⟨h, rfl, rfl, addPath_of_insert w o a h hf hc⟩
    | true =>
      left
      rw [addPath_of_fault w o a h hf]
      exact ⟨rfl, rfl⟩
  · left
    rw [addPath_of_pending w o a h]
    exact ⟨rfl, rfl⟩

theorem addPath_rows_of_fail (w : leon_worklog_t) (o a : CString)
    (h : (leon_worklog_addPath w o a).1 = false) :
    (leon_worklog_addPath w o a).2.rows = w.rows := by
  rcases addPath_outcome w o a with h1 | ⟨_, _, _, h1⟩
  · exact h1.2
  · rw [h1] at h
    exact absurd h.symm Bool.false_ne_true

theorem addPath_rows_of_success (w : leon_worklog_t) (o a : CString)
    (h : (leon_worklog_addPath w o a).1 = true) :
    (leon_worklog_addPath w o a).2.rows =
      (w.rows.filter fun r => !leonPathStartsWith r.origPath o) ++
        [⟨nextPathId w.rows, o, a⟩] := by
  rcases addPath_outcome w o a with h1 | ⟨_, _, _, h1⟩
  · rw [h1.1] at h
    exact absurd h (by decide)
  · have hself : leonPathStartsWith o o = false := by
      cases hb : leonPathStartsWith o o with
      | false => rfl
      | true =>
        obtain ⟨rest, hr⟩ := (leonPathStartsWith_iff o o).1 hb
        have := congrArg List.length hr
        simp at this
    rw [h1]
    simp [List.filter_append, hself]

theorem addPath_preserves_noOverlap (w : leon_worklog_t) (o a : CString) (hw : NoOverlap w)
    (hanc : ∀ r ∈ w.rows, ¬ IsSlashPrefix r.origPath o) :
    NoOverlap (leon_worklog_addPath w o a).2 := by
  cases hres : (leon_worklog_addPath w o a).1 with
  | false =>
    unfold NoOverlap
    rw [addPath_rows_of_fail w o a hres]
    exact hw
  | true =>
    have hrows := addPath_rows_of_success w o a hres
    have hmem : ∀ r ∈ (leon_worklog_addPath w o a).2.rows,
        (r ∈ w.rows ∧ ¬ IsSlashPrefix o r.origPath) ∨ r.origPath = o := by
      intro r hr
      rw [hrows] at hr
      rcases List.mem_append.1 hr with h1 | h1
      · left
        rw [List.mem_filter] at h1
        refine ⟨h1.1, fun hp => ?_⟩
        have := (leonPathStartsWith_iff r.origPath o).2 hp
        simp [this] at h1
      · right
        simp at h1
        rw [h1]
    have hno : ¬ IsSlashPrefix o o := by
      rintro ⟨rest, hr⟩
      have := congrArg List.length hr
      simp at this
    intro r₁ h₁ r₂ h₂ hp
    rcases hmem r₁ h₁ with ⟨m₁, _⟩ | e₁
    · rcases hmem r₂ h₂ with ⟨m₂, _⟩ | e₂
      · exact hw r₁ m₁ r₂ m₂ hp
      · rw [e₂] at hp
        exact hanc r₁ m₁ hp
    · rw [e₁] at hp
      rcases hmem r₂ h₂ with ⟨_, n₂⟩ | e₂
      · exact n₂ hp
      · rw [e₂] at hp
        exact hno hp

theorem addPaths_preserves_noOverlap (calls : List (CString × CString)) :
    ∀ w : leon_worklog_t, NoOverlap w → DescendantsFirst w calls → NoOverlap (addPaths w calls) := by
  induction calls with
  | nil => intro w hw _; exact hw
  | cons c rest ih =>
    intro w hw hd
    obtain ⟨o, a⟩ := c
    exact ih _ (addPath_preserves_noOverlap w o a hw hd.1) hd.2

/-- C1 (as stated) fails: adding `/a` and then its descendant `/a/b` to a fresh worklog leaves
both entries live, although `/a` is a slash-bounded prefix of `/a/b`. -/
theorem C1_counterexample :
    ¬ NoOverlap (addPaths leon_worklog_create
        [("/a".toList, "/.leon201503041640-a".toList),
         ("/a/b".toList, "/a/.leon201503041640-b".toList)]) := by
  intro h
  have hrows : (addPaths leon_worklog_create
        [("/a".toList, "/.leon201503041640-a".toList),
         ("/a/b".toList, "/a/.leon201503041640-b".toList)]).rows =
      [⟨1, "/a".toList, "/.leon201503041640-a".toList⟩,
       ⟨2, "/a/b".toList, "/a/.leon201503041640-b".toList⟩] := by decide
  refine h ⟨1, "/a".toList, "/.leon201503041640-a".toList⟩ (by rw [hrows]; simp)
    ⟨2, "/a/b".toList, "/a/.leon201503041640-b".toList⟩ (by rw [hrows]; simp) ?_
  exact ⟨"b".toList, rfl⟩

/-- C1 (amended): for every sequence of `leon_worklog_addPath` calls on a freshly created worklog
in which no call adds a path descending from an entry live at the time of the call, the live
entries afterwards contain no two entries where one origPath is a slash-bounded prefix of the
other. -/
theorem C1_noOverlap_descendants_first (calls : List (CString × CString))
    (h : DescendantsFirst leon_worklog_create calls) :
    NoOverlap (addPaths leon_worklog_create calls) :=
  addPaths_preserves_noOverlap calls leon_worklog_create
    (fun r hr => by simp [leon_worklog_create] at hr) h

theorem C1_noOverlap_descendants_first_witness :
    DescendantsFirst leon_worklog_create
        [("/p/c".toList, "/p/.leon201503041640-c".toList),
         ("/p".toList, "/.leon201503041640-p".toList)] ∧
      NoOverlap (addPaths leon_worklog_create
        [("/p/c".toList, "/p/.leon201503041640-c".toList),
         ("/p".toList, "/.leon201503041640-p".toList)]) :=
  have hd : DescendantsFirst leon_worklog_create
        [("/p/c".toList, "/p/.leon201503041640-c".toList),
         ("/p".toList, "/.leon201503041640-p".toList)] := by
    refine ⟨fun r hr => by simp [leon_worklog_create] at hr, ?_, trivial⟩
    intro r hr
    have hrows : (leon_worklog_addPath leon_worklog_create "/p/c".toList
        "/p/.leon201503041640-c".toList).2.rows =
        [⟨1, "/p/c".toList, "/p/.leon201503041640-c".toList⟩] := by decide
    rw [hrows] at hr
    simp at hr
    subst hr
    rintro ⟨rest, hrest⟩
    have := congrArg List.length hrest
    simp at this
  ⟨hd, C1_noOverlap_descendants_first _ hd⟩

/-- C3: when `leon_worklog_addPath w orig alt` succeeds, the live entries afterwards are the
previous entries whose origPath is not `orig`, a slash, and anything (kept in their order),
followed by the new entry `(orig, alt)`; in particular entries that share only a string prefix
with `orig` are kept. -/
theorem C3_addPath_live_entries (w : leon_worklog_t) (orig alt : CString)
    (h : (leon_worklog_addPath w orig alt).1 = true) :
    (∃ kept : List (CString × CString),
        liveEntries (leon_worklog_addPath w orig alt).2 = kept ++ [(orig, alt)] ∧
        kept.Sublist (liveEntries w) ∧
        ∀ e, e ∈ kept ↔ e ∈ liveEntries w ∧ ¬ IsSlashPrefix orig e.1) ∧
      (∀ e, e ∈ liveEntries (leon_worklog_addPath w orig alt).2 ↔
        (e ∈ liveEntries w ∧ ¬ IsSlashPrefix orig e.1) ∨ e = (orig, alt)) ∧
      (orig, alt) ∈ liveEntries (leon_worklog_addPath w orig alt).2 := by
  have hrows := addPath_rows_of_success w orig alt h
  have hkept : ∀ e, e ∈ ((w.rows.filter fun r => !leonPathStartsWith r.origPath orig).map
        fun r => (r.origPath, r.altPath)) ↔ e ∈ liveEntries w ∧ ¬ IsSlashPrefix orig e.1 := by
    intro e
    simp only [liveEntries, List.mem_map, List.mem_filter]
    constructor
    · rintro ⟨r, ⟨hr, hf⟩, rfl⟩
      refine ⟨⟨r, hr, rfl⟩, fun hp => ?_⟩
      have := (leonPathStartsWith_iff r.origPath orig).2 hp
      simp [this] at hf
    · rintro ⟨⟨r, hr, rfl⟩, hn⟩
      refine ⟨r, ⟨hr, ?_⟩, rfl⟩
      cases hb : leonPathStartsWith r.origPath orig with
      | false => rfl
      | true => exact absurd ((leonPathStartsWith_iff r.origPath orig).1 hb) hn
  have hlive : liveEntries (leon_worklog_addPath w orig alt).2 =
      ((w.rows.filter fun r => !leonPathStartsWith r.origPath orig).map
        fun r => (r.origPath, r.altPath)) ++ [(orig, alt)] := by
    simp [liveEntries, hrows]
  refine ⟨⟨_, hlive, ?_, hkept⟩, ?_, ?_⟩
  · exact (List.filter_sublist _).map _
  · intro e
    rw [hlive, List.mem_append, hkept]
    simp
  · rw [hlive]
    simp

theorem C3_addPath_live_entries_witness :
    (leon_worklog_addPath
        (addPaths leon_worklog_create
          [("/a/b/c".toList, "/a/b/.leon201503041640-c".toList),
           ("/a/b2".toList, "/a/.leon201503041640-b2".toList)])
        "/a/b".toList "/a/.leon201503041640-b".toList).1 = true ∧
      (("/a/b2".toList, "/a/.leon201503041640-b2".toList) ∈
        liveEntries (leon_worklog_addPath
          (addPaths leon_worklog_create
            [("/a/b/c".toList, "/a/b/.leon201503041640-c".toList),
             ("/a/b2".toList, "/a/.leon201503041640-b2".toList)])
          "/a/b".toList "/a/.leon201503041640-b".toList).2) ∧
      (("/a/b/c".toList, "/a/b/.leon201503041640-c".toList) ∉
        liveEntries (leon_worklog_addPath
          (addPaths leon_worklog_create
            [("/a/b/c".toList, "/a/b/.leon201503041640-c".toList),
             ("/a/b2".toList, "/a/.leon201503041640-b2".toList)])
          "/a/b".toList "/a/.leon201503041640-b".toList).2) :=
  have h := (C3_addPath_live_entries
    (addPaths leon_worklog_create
      [("/a/b/c".toList, "/a/b/.leon201503041640-c".toList),
       ("/a/b2".toList, "/a/.leon201503041640-b2".toList)])
    "/a/b".toList "/a/.leon201503041640-b".toList (by decide)).2.1
  ⟨by decide,
   (h _).2 (Or.inl ⟨by decide, fun hp => by
      have := (leonPathStartsWith_iff "/a/b2".toList "/a/b".toList).2 hp
      exact absurd this (by decide)⟩),
   fun hm => by
      rcases (h _).1 hm with ⟨_, hn⟩ | he
      · exact hn ⟨"c".toList, rfl⟩
      · exact absurd he (by decide)⟩

/-- C4: the SQL predicate `leonPathStartsWith(candidate, prefix) <> 0` holds exactly when
`candidate` is `prefix`, a slash, and any (possibly empty) rest; it does not hold when
`candidate = prefix`, nor for `/a/b2` against `/a/b`. -/
theorem C4_leonPathStartsWith_slash_bounded :
    (∀ candidate pfx : CString,
        leonPathStartsWith candidate pfx = true ↔ ∃ rest : CString, candidate = pfx ++ '/' :: rest) ∧
      (∀ p : CString, leonPathStartsWith p p = false) ∧
      leonPathStartsWith "/a/b2".toList "/a/b".toList = false ∧
      leonPathStartsWith "/a/b/".toList "/a/b".toList = true := by
  refine ⟨fun c p => leonPathStartsWith_iff c p, fun p => ?_, by decide, by decide⟩
  cases hb : leonPathStartsWith p p with
  | false => rfl
  | true =>
    obtain ⟨rest, hr⟩ := (leonPathStartsWith_iff p p).1 hb
    have := congrArg List.length hr
    simp at this

/-! ### Cleanup engine: the verdict does not depend on the state -/

theorem mv_dir_rc_indep (cfg : Config) (b o d : CString) (e : Nat) (s s' : ScanState) :
    (leon_mv_dir cfg b o d e s).1 = (leon_mv_dir cfg b o d e s').1 := by
  unfold leon_mv_dir
  by_cases hf : leon_mv_dir_flagged d = true
  · simp [hf]
  · by_cases hd : cfg.leon_shouldDryRun = true
    · simp [hf, hd]
    · by_cases he : e = 0
      · simp [hf, hd, he]
      · simp [hf, hd, he]

theorem quarantine_verdict_indep (cfg : Config) (b o d : CString) (n : FsNode)
    (r r' : leon_result_t × ScanState) (h : r.1 = r'.1) :
    (leon_cleanup_dir_quarantine cfg b o d n r).1 =
      (leon_cleanup_dir_quarantine cfg b o d n r').1 := by
  unfold leon_cleanup_dir_quarantine
  rw [← h]
  by_cases hy : r.1 = kLeonResultYes
  · simp only [hy, if_true]
    rw [mv_dir_rc_indep cfg b o d n.renameErrno r.2 r'.2]
    split <;> rfl
  · simp only [hy, if_false]
    exact h

mutual
theorem cleanup_verdict_indep (cfg : Config) :
    ∀ (p : CString) (n : FsNode) (s s' : ScanState),
      (leon_cleanup_dir cfg p n s).1 = (leon_cleanup_dir cfg p n s').1
  | p, .mk _ _ c entries _ _ _, s, s' => by
    simp only [leon_cleanup_dir]
    split
    · rfl
    · split
      · exact loop2_verdict_indep cfg p entries _ s s'
      · rfl
theorem loop2_verdict_indep (cfg : Config) :
    ∀ (p : CString) (es : DirEntries) (sd : leon_result_t) (s s' : ScanState),
      (leon_cleanup_dir_loop2 cfg p es sd s).1 = (leon_cleanup_dir_loop2 cfg p es sd s').1
  | _, .nil, _, _, _ => by simp [leon_cleanup_dir_loop2]
  | p, .cons d t node rest, sd, s, s' => by
    simp only [leon_cleanup_dir_loop2]
    split
    · exact loop2_verdict_indep cfg p rest _ s s'
    · split
      · have hq := quarantine_verdict_indep cfg p (leon_path_push p d) d node _ _
          (cleanup_verdict_indep cfg (leon_path_push p d) node s s')
        rw [hq]
        exact loop2_verdict_indep cfg p rest _ _ _
      · exact loop2_verdict_indep cfg p rest _ s s'
end

theorem cleanup_verdict_eq (cfg : Config) (p : CString) (n : FsNode) (s : ScanState) :
    (leon_cleanup_dir cfg p n s).1 = verdictOf cfg p n :=
  cleanup_verdict_indep cfg p n s _

theorem mv_dir_rc_eq (cfg : Config) (b d : CString) (n : FsNode) (s : ScanState) :
    (leon_mv_dir cfg b (leon_path_push b d) d n.renameErrno s).1 = mvDirRc cfg b d n :=
  mv_dir_rc_indep cfg b _ d _ s _

/-- The verdict that line 314 tests, in terms of the subdirectory's verdict and the return
value of `leon_mv_dir`. -/
theorem quarantine_verdict (cfg : Config) (b d : CString) (n : FsNode) (s : ScanState) :
    (leon_cleanup_dir_quarantine cfg b (leon_path_push b d) d n
        (leon_cleanup_dir cfg (leon_path_push b d) n s)).1 =
      if verdictOf cfg (leon_path_push b d) n = kLeonResultYes then
        (if mvDirRc cfg b d n ≠ 0 then kLeonResultNo else kLeonResultYes)
      else verdictOf cfg (leon_path_push b d) n := by
  unfold leon_cleanup_dir_quarantine
  rw [cleanup_verdict_eq]
  by_cases hy : verdictOf cfg (leon_path_push b d) n = kLeonResultYes
  · simp only [hy, if_true]
    rw [mv_dir_rc_eq]
    split <;> rfl
  · simp only [hy, if_false]
    exact cleanup_verdict_eq cfg _ n s

/-! ### Cleanup engine: the two loops -/

theorem loop1_stops (cfg : Config) (p : CString) (es : DirEntries) (l : Loop1State)
    (h : l.should_delete ≠ kLeonResultYes) : leon_cleanup_dir_loop1 cfg p es l = l := by
  cases es with
  | nil => simp [leon_cleanup_dir_loop1]
  | cons d t n rest => simp [leon_cleanup_dir_loop1, h]

theorem loop2_keeps_no (cfg : Config) :
    ∀ (p : CString) (es : DirEntries) (s : ScanState),
      (leon_cleanup_dir_loop2 cfg p es kLeonResultNo s).1 = kLeonResultNo
  | _, .nil, _ => by simp [leon_cleanup_dir_loop2]
  | p, .cons d t node rest, s => by
    simp only [leon_cleanup_dir_loop2]
    split
    · exact loop2_keeps_no cfg p rest s
    · split
      · simp only [ite_self]
        exact loop2_keeps_no cfg p rest _
      · exact loop2_keeps_no cfg p rest s

/-- A check-path verdict of No comes with a successful `lstat` that has refreshed `fInfo`. -/
theorem checkPath_no_fresh (cfg : Config) (p : CString) (n : FsNode) (f : stat)
    (h : (leon_checkPathFn cfg p n f).1 = kLeonResultNo) :
    n.lstatErrno = 0 ∧ (leon_checkPathFn cfg p n f).2 = n.st := by
  by_cases hl : n.lstatErrno = 0
  · refine ⟨hl, ?_⟩
    unfold leon_checkPathFn leon_fstest_checkPathModificationTimes
      leon_fstest_checkPathAccessTimes leon_fstest_checkPathMaxTimes leon_stat
    cases cfg.leon_checkPathFn <;> simp only [hl, if_true] <;> (repeat' split) <;> rfl
  · exfalso
    revert h
    unfold leon_checkPathFn leon_fstest_checkPathModificationTimes
      leon_fstest_checkPathAccessTimes leon_fstest_checkPathMaxTimes leon_stat
    cases cfg.leon_checkPathFn <;> simp [hl]

/-- After a successful `lstat` the check-path result does not depend on the old `fInfo`. -/
theorem checkPath_fresh (cfg : Config) (p : CString) (n : FsNode) (f f' : stat)
    (hl : n.lstatErrno = 0) : leon_checkPathFn cfg p n f = leon_checkPathFn cfg p n f' := by
  unfold leon_checkPathFn leon_fstest_checkPathModificationTimes
    leon_fstest_checkPathAccessTimes leon_fstest_checkPathMaxTimes leon_stat
  cases cfg.leon_checkPathFn <;> simp only [hl, if_true]

theorem checkPath_snd_of_lstat (cfg : Config) (p : CString) (n : FsNode) (f : stat)
    (hl : n.lstatErrno = 0) : (leon_checkPathFn cfg p n f).2 = n.st := by
  unfold leon_checkPathFn leon_fstest_checkPathModificationTimes
    leon_fstest_checkPathAccessTimes leon_fstest_checkPathMaxTimes leon_stat
  cases cfg.leon_checkPathFn <;> simp only [hl, if_true] <;> (repeat' split) <;> rfl

/-- An entry that disqualifies its directory in the first loop: not `.` or `..`, not a
directory, and a check-path verdict of No. -/
theorem loop1_no_of_file (cfg : Config) (p : CString) :
    ∀ (es : DirEntries) (l : Loop1State) (e : Dirent), e ∈ es.toList →
      isDotOrDotDot e.d_name = false → S_ISDIR e.node.st = false →
      checkVerdict cfg (leon_path_push p e.d_name) e.node = kLeonResultNo →
      l.should_delete = kLeonResultYes ∨ l.should_delete = kLeonResultNo →
      (leon_cleanup_dir_loop1 cfg p es l).should_delete = kLeonResultNo
  | .nil, _, e, he, _, _, _, _ => by simp [DirEntries.toList] at he
  | .cons d t n rest, l, e, he, hdot, hdir, hno, hl => by
    rcases hl with hy | hn
    · simp only [leon_cleanup_dir_loop1, hy, ne_eq, not_true_eq_false, if_false]
      simp only [DirEntries.toList, List.mem_cons] at he
      rcases he with rfl | hrest
      · simp only at hdot hdir hno
        have hfr := checkPath_no_fresh cfg (leon_path_push p d) n n.st hno
        have hsame := checkPath_fresh cfg (leon_path_push p d) n l.fInfo n.st hfr.1
        rw [hdot, hsame, hfr.2, hdir]
        simp only [Bool.false_eq_true, if_false]
        unfold checkVerdict at hno
        rw [hno]
        simp only [if_true]
        rw [loop1_stops cfg p rest _ (by simp)]
      · split
        · exact loop1_no_of_file cfg p rest _ e hrest hdot hdir hno (Or.inl hy)
        · split
          · exact loop1_no_of_file cfg p rest _ e hrest hdot hdir hno (Or.inl rfl)
          · split
            · exact loop1_no_of_file cfg p rest _ e hrest hdot hdir hno (Or.inr rfl)
            · exact loop1_no_of_file cfg p rest _ e hrest hdot hdir hno (Or.inl rfl)
    · rw [loop1_stops cfg p _ l (by rw [hn]; decide)]
      exact hn

theorem loop1_sd_cases (cfg : Config) (p : CString) :
    ∀ (es : DirEntries) (l : Loop1State),
      l.should_delete = kLeonResultYes ∨ l.should_delete = kLeonResultNo →
      (leon_cleanup_dir_loop1 cfg p es l).should_delete = kLeonResultYes ∨
        (leon_cleanup_dir_loop1 cfg p es l).should_delete = kLeonResultNo
  | .nil, l, h => by simpa [leon_cleanup_dir_loop1] using h
  | .cons d t n rest, l, h => by
    simp only [leon_cleanup_dir_loop1]
    split
    · exact h
    · split
      · exact loop1_sd_cases cfg p rest l h
      · split
        · exact loop1_sd_cases cfg p rest _ h
        · split
          · exact loop1_sd_cases cfg p rest _ (Or.inr rfl)
          · exact loop1_sd_cases cfg p rest _ h

theorem loop1_found_mono (cfg : Config) (p : CString) :
    ∀ (es : DirEntries) (l : Loop1State), l.foundSubdir = true →
      (leon_cleanup_dir_loop1 cfg p es l).foundSubdir = true
  | .nil, l, h => by simpa [leon_cleanup_dir_loop1] using h
  | .cons d t n rest, l, h => by
    simp only [leon_cleanup_dir_loop1]
    split
    · exact h
    · split
      · exact loop1_found_mono cfg p rest l h
      · split
        · exact loop1_found_mono cfg p rest _ rfl
        · split
          · exact loop1_found_mono cfg p rest _ h
          · exact loop1_found_mono cfg p rest _ h

/-- When the first loop runs to the end without a disqualifying file, it has noticed every
entry that `lstat` reports as a directory. -/
theorem loop1_found (cfg : Config) (p : CString) :
    ∀ (es : DirEntries) (l : Loop1State) (e : Dirent), e ∈ es.toList →
      isDotOrDotDot e.d_name = false → e.node.lstatErrno = 0 → S_ISDIR e.node.st = true →
      (leon_cleanup_dir_loop1 cfg p es l).should_delete = kLeonResultYes →
      (leon_cleanup_dir_loop1 cfg p es l).foundSubdir = true
  | .nil, _, e, he, _, _, _, _ => by simp [DirEntries.toList] at he
  | .cons d t n rest, l, e, he, hdot, hl, hdir, hy => by
    simp only [leon_cleanup_dir_loop1] at hy ⊢
    simp only [DirEntries.toList, List.mem_cons] at he
    split at hy
    · rename_i hne
      exact absurd hy hne
    · rename_i hsd
      split at hy
      · rename_i hd
        rcases he with rfl | hrest
        · simp only at hdot
          rw [hdot] at hd
          exact absurd hd (by decide)
        · simp only [hsd, hd, if_false, if_true]
          exact loop1_found cfg p rest l e hrest hdot hl hdir hy
      · rename_i hd
        simp only [hsd, hd, if_false]
        split at hy
        · rename_i hS
          simp only [hS, if_true]
          exact loop1_found_mono cfg p rest _ rfl
        · rename_i hS
          simp only [hS, if_false]
          split at hy
          · rw [loop1_stops cfg p rest _ (by simp)] at hy
            simp at hy
          · rename_i hN
            simp only [hN, if_false]
            rcases he with rfl | hrest
            · simp only at hl hdir
              rw [checkPath_snd_of_lstat cfg _ _ _ hl] at hS
              exact absurd hdir hS
            · exact loop1_found cfg p rest _ e hrest hdot hl hdir hy

/-- The disqualifying outcomes of line 304-314 for a subdirectory: its verdict is No, or it is
Yes and `leon_mv_dir` returns non-zero. -/
theorem quarantine_no_iff (cfg : Config) (b d : CString) (n : FsNode) (s : ScanState) :
    (leon_cleanup_dir_quarantine cfg b (leon_path_push b d) d n
        (leon_cleanup_dir cfg (leon_path_push b d) n s)).1 = kLeonResultNo ↔
      verdictOf cfg (leon_path_push b d) n = kLeonResultNo ∨
        (verdictOf cfg (leon_path_push b d) n = kLeonResultYes ∧ mvDirRc cfg b d n ≠ 0) := by
  rw [quarantine_verdict]
  by_cases hy : verdictOf cfg (leon_path_push b d) n = kLeonResultYes
  · by_cases hm : mvDirRc cfg b d n = 0
    · simp [hy, hm]
    · simp [hy, hm]
  · simp [hy]

theorem loop2_no_of_subdir (cfg : Config) (p : CString) :
    ∀ (es : DirEntries) (sd : leon_result_t) (s : ScanState) (e : Dirent), e ∈ es.toList →
      isDotOrDotDot e.d_name = false → isSubdirEntry cfg e.d_type e.node = true →
      (verdictOf cfg (leon_path_push p e.d_name) e.node = kLeonResultNo ∨
        (verdictOf cfg (leon_path_push p e.d_name) e.node = kLeonResultYes ∧
          mvDirRc cfg p e.d_name e.node ≠ 0)) →
      (leon_cleanup_dir_loop2 cfg p es sd s).1 = kLeonResultNo
  | .nil, _, _, e, he, _, _, _ => by simp [DirEntries.toList] at he
  | .cons d t n rest, sd, s, e, he, hdot, hsub, hq => by
    simp only [leon_cleanup_dir_loop2]
    simp only [DirEntries.toList, List.mem_cons] at he
    rcases he with rfl | hrest
    · simp only at hdot hsub hq
      simp only [hdot, hsub, Bool.false_eq_true, if_false, if_true]
      rw [(quarantine_no_iff cfg p d n s).2 hq]
      simp only [if_true]
      exact loop2_keeps_no cfg p rest _
    · split
      · exact loop2_no_of_subdir cfg p rest _ _ e hrest hdot hsub hq
      · split
        · exact loop2_no_of_subdir cfg p rest _ _ e hrest hdot hsub hq
        · exact loop2_no_of_subdir cfg p rest _ _ e hrest hdot hsub hq

/-- A scanned subdirectory that ends up disqualified disqualifies its directory. -/
theorem cleanup_no_of_subdir (cfg : Config) (p : CString) (node : FsNode) (s : ScanState)
    (e : Dirent) (hopen : node.opendirErrno = 0) (he : e ∈ node.entries.toList)
    (hsub : IsScannedSubdir cfg e)
    (hq : verdictOf cfg (leon_path_push p e.d_name) e.node = kLeonResultNo ∨
      (verdictOf cfg (leon_path_push p e.d_name) e.node = kLeonResultYes ∧
        mvDirRc cfg p e.d_name e.node ≠ 0)) :
    (leon_cleanup_dir cfg p node s).1 = kLeonResultNo := by
  obtain ⟨a, b, c, entries, r, u, m⟩ := node
  simp only [FsNode.opendirErrno] at hopen
  simp only [FsNode.entries] at he
  simp only [leon_cleanup_dir, hopen, ne_eq, not_true_eq_false, if_false]
  obtain ⟨hdot, hs, hl, hdir⟩ := hsub
  rcases loop1_sd_cases cfg p entries ⟨kLeonResultYes, cfg.fInfoInit p, false⟩ (Or.inl rfl)
    with hy | hn
  · have hf := loop1_found cfg p entries _ e he hdot hl hdir hy
    simp only [hf, if_true]
    exact loop2_no_of_subdir cfg p entries _ s e he hdot hs hq
  · split
    · rw [hn]
      exact loop2_keeps_no cfg p entries s
    · exact hn

theorem renameFailsBelow_no (cfg : Config) (p : CString) (node : FsNode)
    (h : RenameFailsBelow cfg p node) : verdictOf cfg p node = kLeonResultNo := by
  induction h with
  | here basePath node e hopen he hsub hy hrc =>
    exact cleanup_no_of_subdir cfg basePath node _ e hopen he hsub (Or.inr ⟨hy, hrc⟩)
  | above basePath node e hopen he hsub _ ih =>
    exact cleanup_no_of_subdir cfg basePath node _ e hopen he hsub (Or.inl ih)

theorem mv_dir_worklog_of_fail (cfg : Config) (b o d : CString) (e : Nat) (s : ScanState)
    (h : (leon_mv_dir cfg b o d e s).1 ≠ 0) : (leon_mv_dir cfg b o d e s).2.worklog = s.worklog := by
  unfold leon_mv_dir at h ⊢
  by_cases hf : leon_mv_dir_flagged d = true
  · simp [hf]
  · by_cases hd : cfg.leon_shouldDryRun = true
    · simp [hf, hd] at h
    · by_cases he : e = 0
      · simp [hf, hd, he] at h
      · simp [hf, hd, he]

/-! ### Verdicts of the cleanup engine -/

/-- C7 (as stated) fails: the directory `/s/d` holds one regular file on which `lstat` fails, so
its check-path verdict is Unknown, yet `leon_cleanup_dir` returns Yes for `/s/d` and the scan of
`/s` renames it. -/
theorem C7_counterexample :
    checkVerdict (sampleCfg false) "/s/d/f".toList unreadableFile = kLeonResultUnknown ∧
      (leon_cleanup_dir (sampleCfg false) "/s/d".toList
          (oldDir (.cons "f".toList DT_REG unreadableFile .nil))
          ⟨leon_worklog_create, []⟩).1 = kLeonResultYes ∧
      (leon_cleanup_dir (sampleCfg false) "/s".toList
          (oldDir (.cons "d".toList DT_DIR
            (oldDir (.cons "f".toList DT_REG unreadableFile .nil)) .nil))
          ⟨leon_worklog_create, []⟩).2.trace =
        [Syscall.rename "/s/d".toList "/s/.leon201503041640-d".toList 0] := by
  decide

/-- C7 (amended): a directory that can be opened and lists a non-directory entry whose check-path
verdict is No gets No from `leon_cleanup_dir`, and the parent's second loop goes on to its
remaining entries from the state this directory's own scan left, without renaming or queuing
it, its own verdict now No. -/
theorem C7_file_no_disqualifies (cfg : Config) (basePath : CString) (node : FsNode)
    (e : Dirent) (hopen : node.opendirErrno = 0) (he : e ∈ node.entries.toList)
    (hdot : isDotOrDotDot e.d_name = false) (hfile : S_ISDIR e.node.st = false)
    (hno : checkVerdict cfg (leon_path_push basePath e.d_name) e.node = kLeonResultNo) :
    (∀ s : ScanState, (leon_cleanup_dir cfg basePath node s).1 = kLeonResultNo) ∧
      ∀ (parentPath d_name : CString) (d_type : Nat) (rest : DirEntries)
        (should_delete : leon_result_t) (s : ScanState),
        basePath = leon_path_push parentPath d_name → isDotOrDotDot d_name = false →
        isSubdirEntry cfg d_type node = true →
        leon_cleanup_dir_loop2 cfg parentPath (.cons d_name d_type node rest) should_delete s =
          leon_cleanup_dir_loop2 cfg parentPath rest kLeonResultNo
            (leon_cleanup_dir cfg basePath node s).2 := by
  have hv : ∀ s : ScanState, (leon_cleanup_dir cfg basePath node s).1 = kLeonResultNo := by
    intro s
    obtain ⟨a, b, c, entries, r, u, m⟩ := node
    simp only [FsNode.opendirErrno] at hopen
    simp only [FsNode.entries] at he
    simp only [leon_cleanup_dir, hopen, ne_eq, not_true_eq_false, if_false]
    have h1 := loop1_no_of_file cfg basePath entries ⟨kLeonResultYes, cfg.fInfoInit basePath, false⟩
      e he hdot hfile hno (Or.inl rfl)
    split
    · rw [h1]
      exact loop2_keeps_no cfg basePath entries s
    · exact h1
  refine ⟨hv, ?_⟩
  intro parentPath d_name d_type rest sd s hp hd hs
  subst hp
  simp only [leon_cleanup_dir_loop2, hd, hs, Bool.false_eq_true, if_false, if_true]
  have hq : leon_cleanup_dir_quarantine cfg parentPath (leon_path_push parentPath d_name) d_name
      node (leon_cleanup_dir cfg (leon_path_push parentPath d_name) node s) =
      leon_cleanup_dir cfg (leon_path_push parentPath d_name) node s := by
    unfold leon_cleanup_dir_quarantine
    simp [hv s]
  rw [hq, hv s]
  simp

theorem C7_file_no_disqualifies_witness :
    checkVerdict (sampleCfg false) "/scratch/u/mixed/new.txt".toList newFile = kLeonResultNo ∧
      (leon_cleanup_dir (sampleCfg false) "/scratch/u/mixed".toList
        (oldDir (.cons "old.txt".toList DT_REG oldFile (.cons "new.txt".toList DT_REG newFile .nil)))
        ⟨leon_worklog_create, []⟩).1 = kLeonResultNo :=
  ⟨by decide,
   (C7_file_no_disqualifies (sampleCfg false) "/scratch/u/mixed".toList
    (oldDir (.cons "old.txt".toList DT_REG oldFile (.cons "new.txt".toList DT_REG newFile .nil)))
    ⟨"new.txt".toList, DT_REG, newFile⟩ (by decide)
    (List.mem_cons_of_mem _ (List.mem_cons_self _ _)) (by decide) (by decide) (by decide)).1
    ⟨leon_worklog_create, []⟩⟩

/-- C8 (the code at the failing input): with the disqualifying file listed before the
subdirectory, the scan of `/s` never enters `/s/old` and queues nothing; with the same two
entries listed the other way round, `/s/old` is queued. -/
theorem C8_listing_order_decides_recursion :
    leon_cleanup_dir (sampleCfg true) "/s".toList
        (oldDir (.cons "new.txt".toList DT_REG newFile
          (.cons "old".toList DT_DIR (oldDir .nil) .nil)))
        ⟨leon_worklog_create, []⟩ = (kLeonResultNo, ⟨leon_worklog_create, []⟩) ∧
      liveEntries (leon_cleanup_dir (sampleCfg true) "/s".toList
        (oldDir (.cons "old".toList DT_DIR (oldDir .nil)
          (.cons "new.txt".toList DT_REG newFile .nil)))
        ⟨leon_worklog_create, []⟩).2.worklog =
        [("/s/old".toList, "/s/.leon201503041640-old".toList)] := by
  decide

/-- C9: when `leon_mv_dir` returns non-zero it leaves the worklog as it was, and a directory at
or below which `leon_mv_dir` fails on an Eligible subdirectory gets No from
`leon_cleanup_dir`, as does every scanned ancestor of it. -/
theorem C9_rename_failure_propagates (cfg : Config) (basePath : CString) (node : FsNode)
    (h : RenameFailsBelow cfg basePath node) :
    (∀ s : ScanState, (leon_cleanup_dir cfg basePath node s).1 = kLeonResultNo) ∧
      ∀ (b o d : CString) (e : Nat) (s : ScanState),
        (leon_mv_dir cfg b o d e s).1 ≠ 0 → (leon_mv_dir cfg b o d e s).2.worklog = s.worklog := by
  refine ⟨fun s => ?_, fun b o d e s hrc => mv_dir_worklog_of_fail cfg b o d e s hrc⟩
  rw [cleanup_verdict_eq]
  exact renameFailsBelow_no cfg basePath node h

theorem C9_rename_failure_propagates_witness :
    RenameFailsBelow (sampleCfg false) "/s".toList
        (oldDir (.cons "p".toList DT_DIR (oldDir (.cons "stuck".toList DT_DIR stuckDir .nil)) .nil)) ∧
      (leon_cleanup_dir (sampleCfg false) "/s".toList
        (oldDir (.cons "p".toList DT_DIR (oldDir (.cons "stuck".toList DT_DIR stuckDir .nil)) .nil))
        ⟨leon_worklog_create, []⟩).1 = kLeonResultNo :=
  have h : RenameFailsBelow (sampleCfg false) "/s".toList
      (oldDir (.cons "p".toList DT_DIR (oldDir (.cons "stuck".toList DT_DIR stuckDir .nil)) .nil)) :=
    RenameFailsBelow.above _ _ ⟨"p".toList, DT_DIR, oldDir (.cons "stuck".toList DT_DIR stuckDir .nil)⟩
      (by decide) (List.mem_cons_self _ _) (by decide)
      (RenameFailsBelow.here _ _ ⟨"stuck".toList, DT_DIR, stuckDir⟩
        (by decide) (List.mem_cons_self _ _) (by decide) (by decide) (by decide))
  ⟨h, (C9_rename_failure_propagates _ _ _ h).1 ⟨leon_worklog_create, []⟩⟩

/-- C10: `leon_cleanup_dir` on a directory that cannot be opened returns Unknown and leaves the
worklog (and the trace) as they were; the parent's second loop then goes on to its remaining
entries with its own verdict and state unchanged: no rename, no worklog entry. -/
theorem C10_unopenable_directory (cfg : Config) (basePath : CString) (node : FsNode)
    (h : node.opendirErrno ≠ 0) :
    (∀ s : ScanState, leon_cleanup_dir cfg basePath node s = (kLeonResultUnknown, s)) ∧
      ∀ (parentPath d_name : CString) (d_type : Nat) (rest : DirEntries)
        (should_delete : leon_result_t) (s : ScanState),
        leon_cleanup_dir_loop2 cfg parentPath (.cons d_name d_type node rest) should_delete s =
          leon_cleanup_dir_loop2 cfg parentPath rest should_delete s := by
  have hu : ∀ (p : CString) (s : ScanState),
      leon_cleanup_dir cfg p node s = (kLeonResultUnknown, s) := by
    intro p s
    obtain ⟨a, b, c, entries, r, u, m⟩ := node
    simp only [FsNode.opendirErrno] at h
    simp [leon_cleanup_dir, h]
  refine ⟨hu basePath, ?_⟩
  intro parentPath d_name d_type rest sd s
  simp only [leon_cleanup_dir_loop2]
  split
  · rfl
  · split
    · rw [hu]
      simp [leon_cleanup_dir_quarantine]
    · rfl

theorem C10_unopenable_directory_witness :
    lockedDir.opendirErrno ≠ 0 ∧
      leon_cleanup_dir (sampleCfg false) "/s/locked".toList lockedDir ⟨leon_worklog_create, []⟩ =
        (kLeonResultUnknown, ⟨leon_worklog_create, []⟩) ∧
      leon_cleanup_dir_loop2 (sampleCfg false) "/s".toList
          (.cons "locked".toList DT_DIR lockedDir (.cons "old".toList DT_DIR (oldDir .nil) .nil))
          kLeonResultYes ⟨leon_worklog_create, []⟩ =
        leon_cleanup_dir_loop2 (sampleCfg false) "/s".toList
          (.cons "old".toList DT_DIR (oldDir .nil) .nil) kLeonResultYes ⟨leon_worklog_create, []⟩ :=
  ⟨by decide,
   (C10_unopenable_directory (sampleCfg false) "/s/locked".toList lockedDir (by decide)).1 _,
   (C10_unopenable_directory (sampleCfg false) "/s/locked".toList lockedDir (by decide)).2
     _ _ _ _ _ _⟩

theorem loop1_yes_of_all (cfg : Config) (p : CString) :
    ∀ (es : DirEntries) (l : Loop1State), l.should_delete = kLeonResultYes →
      (∀ e ∈ es.toList, isDotOrDotDot e.d_name = false → S_ISDIR e.node.st = false →
        checkVerdict cfg (leon_path_push p e.d_name) e.node ≠ kLeonResultNo) →
      (leon_cleanup_dir_loop1 cfg p es l).should_delete = kLeonResultYes
  | .nil, l, hy, _ => by simpa [leon_cleanup_dir_loop1] using hy
  | .cons d t n rest, l, hy, hall => by
    have hrest : ∀ e ∈ rest.toList, isDotOrDotDot e.d_name = false → S_ISDIR e.node.st = false →
        checkVerdict cfg (leon_path_push p e.d_name) e.node ≠ kLeonResultNo :=
      fun e he => hall e (by simp [DirEntries.toList, he])
    simp only [leon_cleanup_dir_loop1, hy, ne_eq, not_true_eq_false, if_false]
    split
    · exact loop1_yes_of_all cfg p rest l hy hrest
    · rename_i hd
      split
      · exact loop1_yes_of_all cfg p rest _ rfl hrest
      · rename_i hS
        split
        · rename_i hN
          exfalso
          have hfr := checkPath_no_fresh cfg (leon_path_push p d) n l.fInfo hN
          rw [hfr.2] at hS
          refine hall ⟨d, t, n⟩ (by simp [DirEntries.toList]) (by simpa using hd) (by simpa using hS) ?_
          unfold checkVerdict
          rw [← checkPath_fresh cfg (leon_path_push p d) n l.fInfo n.st hfr.1]
          exact hN
        · exact loop1_yes_of_all cfg p rest _ rfl hrest

theorem loop2_yes_sd (cfg : Config) (p : CString) :
    ∀ (es : DirEntries) (sd : leon_result_t) (s : ScanState),
      (leon_cleanup_dir_loop2 cfg p es sd s).1 = kLeonResultYes → sd = kLeonResultYes
  | .nil, _, _, h => by simpa [leon_cleanup_dir_loop2] using h
  | .cons d t n rest, sd, s, h => by
    simp only [leon_cleanup_dir_loop2] at h
    split at h
    · exact loop2_yes_sd cfg p rest sd s h
    · split at h
      · have := loop2_yes_sd cfg p rest _ _ h
        split at this
        · exact absurd this (by decide)
        · exact this
      · exact loop2_yes_sd cfg p rest sd s h

theorem loop2_yes_of_all (cfg : Config) (p : CString) :
    ∀ (es : DirEntries) (s : ScanState),
      (∀ e ∈ es.toList, isDotOrDotDot e.d_name = false → isSubdirEntry cfg e.d_type e.node = true →
        ¬ (verdictOf cfg (leon_path_push p e.d_name) e.node = kLeonResultNo ∨
          (verdictOf cfg (leon_path_push p e.d_name) e.node = kLeonResultYes ∧
            mvDirRc cfg p e.d_name e.node ≠ 0))) →
      (leon_cleanup_dir_loop2 cfg p es kLeonResultYes s).1 = kLeonResultYes
  | .nil, _, _ => by simp [leon_cleanup_dir_loop2]
  | .cons d t n rest, s, hall => by
    have hrest : ∀ e ∈ rest.toList, isDotOrDotDot e.d_name = false →
        isSubdirEntry cfg e.d_type e.node = true →
        ¬ (verdictOf cfg (leon_path_push p e.d_name) e.node = kLeonResultNo ∨
          (verdictOf cfg (leon_path_push p e.d_name) e.node = kLeonResultYes ∧
            mvDirRc cfg p e.d_name e.node ≠ 0)) :=
      fun e he => hall e (by simp [DirEntries.toList, he])
    simp only [leon_cleanup_dir_loop2]
    split
    · exact loop2_yes_of_all cfg p rest s hrest
    · rename_i hd
      split
      · rename_i hs
        have hq := hall ⟨d, t, n⟩ (by simp [DirEntries.toList]) (by simpa using hd) hs
        rw [← quarantine_no_iff cfg p d n s] at hq
        simp only [hq, if_false]
        exact loop2_yes_of_all cfg p rest _ hrest
      · exact loop2_yes_of_all cfg p rest s hrest

theorem verdictOf_unopenable (cfg : Config) (p : CString) (node : FsNode)
    (h : node.opendirErrno ≠ 0) : verdictOf cfg p node = kLeonResultUnknown := by
  obtain ⟨a, b, c, entries, r, u, m⟩ := node
  simp only [FsNode.opendirErrno] at h
  simp [verdictOf, leon_cleanup_dir, h]

/-- C2 (as stated) fails: `/s/p` holds one subdirectory that cannot be opened, whose verdict is
Unknown and which is neither renamed nor queued, yet `leon_cleanup_dir` returns Yes for
`/s/p`. -/
theorem C2_counterexample :
    leon_cleanup_dir (sampleCfg false) "/s/p".toList
        (oldDir (.cons "locked".toList DT_DIR lockedDir .nil)) ⟨leon_worklog_create, []⟩ =
        (kLeonResultYes, ⟨leon_worklog_create, []⟩) ∧
      verdictOf (sampleCfg false) "/s/p/locked".toList lockedDir = kLeonResultUnknown := by
  decide

/-- C2 (amended): where every entry that the second loop takes for a subdirectory and that can be
opened is a directory according to `lstat`, `leon_cleanup_dir` returns Yes for a directory if
and only if the directory can be opened, no direct non-directory entry gets No from the
configured check-path function, and every direct subdirectory either gets Unknown or gets Yes
with `leon_mv_dir` returning 0 for it. -/
theorem C2_eligible_iff (cfg : Config) (basePath : CString) (node : FsNode) (s : ScanState)
    (hcons : ConsistentEntries cfg node) :
    (leon_cleanup_dir cfg basePath node s).1 = kLeonResultYes ↔
      node.opendirErrno = 0 ∧
      (∀ e ∈ node.entries.toList, isDotOrDotDot e.d_name = false → S_ISDIR e.node.st = false →
        checkVerdict cfg (leon_path_push basePath e.d_name) e.node ≠ kLeonResultNo) ∧
      (∀ e ∈ node.entries.toList, isDotOrDotDot e.d_name = false →
        isSubdirEntry cfg e.d_type e.node = true →
        verdictOf cfg (leon_path_push basePath e.d_name) e.node = kLeonResultUnknown ∨
          (verdictOf cfg (leon_path_push basePath e.d_name) e.node = kLeonResultYes ∧
            mvDirRc cfg basePath e.d_name e.node = 0)) := by
  have hconv : ∀ (v : leon_result_t) (rc : Int),
      ¬ (v = kLeonResultNo ∨ (v = kLeonResultYes ∧ rc ≠ 0)) ↔
        (v = kLeonResultUnknown ∨ (v = kLeonResultYes ∧ rc = 0)) := by
    intro v rc
    cases v <;> simp
  obtain ⟨a, b, c, entries, r, u, m⟩ := node
  simp only [FsNode.opendirErrno, FsNode.entries]
  simp only [ConsistentEntries, FsNode.entries] at hcons
  by_cases hopen : c = 0
  · simp only [leon_cleanup_dir, hopen, ne_eq, not_true_eq_false, if_false, true_and]
    have hsd := loop1_sd_cases cfg basePath entries
      ⟨kLeonResultYes, cfg.fInfoInit basePath, false⟩ (Or.inl rfl)
    constructor
    · intro hyes
      have h1 : (leon_cleanup_dir_loop1 cfg basePath entries
          ⟨kLeonResultYes, cfg.fInfoInit basePath, false⟩).should_delete = kLeonResultYes := by
        split at hyes
        · exact loop2_yes_sd cfg basePath entries _ s hyes
        · exact hyes
      refine ⟨fun e he hdot hfile hno => ?_, fun e he hdot hsub => ?_⟩
      · have := loop1_no_of_file cfg basePath entries
          ⟨kLeonResultYes, cfg.fInfoInit basePath, false⟩ e he hdot hfile hno (Or.inl rfl)
        rw [h1] at this
        exact absurd this (by decide)
      · rw [← hconv]
        intro hq
        by_cases hf : (leon_cleanup_dir_loop1 cfg basePath entries
            ⟨kLeonResultYes, cfg.fInfoInit basePath, false⟩).foundSubdir = true
        · simp only [hf, if_true] at hyes
          rw [loop2_no_of_subdir cfg basePath entries _ s e he hdot hsub hq] at hyes
          exact absurd hyes (by decide)
        · by_cases ho : e.node.opendirErrno = 0
          · obtain ⟨hl, hdir⟩ := hcons e he hsub ho
            exact hf (loop1_found cfg basePath entries _ e he hdot hl hdir h1)
          · have hu := verdictOf_unopenable cfg (leon_path_push basePath e.d_name) e.node ho
            rw [hu] at hq
            simp at hq
    · rintro ⟨hfiles, hsubs⟩
      have h1 := loop1_yes_of_all cfg basePath entries
        ⟨kLeonResultYes, cfg.fInfoInit basePath, false⟩ rfl hfiles
      split
      · rw [h1]
        exact loop2_yes_of_all cfg basePath entries s
          (fun e he hdot hsub => (hconv _ _).2 (hsubs e he hdot hsub))
      · exact h1
  · simp [leon_cleanup_dir, hopen]

theorem C2_eligible_iff_witness :
    ConsistentEntries (sampleCfg true) (oldDir (.cons "old.txt".toList DT_REG oldFile
        (.cons "child".toList DT_DIR (oldDir .nil) .nil))) ∧
      (leon_cleanup_dir (sampleCfg true) "/scratch/u/parent".toList
        (oldDir (.cons "old.txt".toList DT_REG oldFile
          (.cons "child".toList DT_DIR (oldDir .nil) .nil)))
        ⟨leon_worklog_create, []⟩).1 = kLeonResultYes :=
  have hc : ConsistentEntries (sampleCfg true) (oldDir (.cons "old.txt".toList DT_REG oldFile
      (.cons "child".toList DT_DIR (oldDir .nil) .nil))) := by
    intro e he
    simp only [oldDir, FsNode.entries, DirEntries.toList, List.mem_cons, List.mem_singleton,
      List.not_mem_nil, or_false] at he
    rcases he with rfl | rfl
    · intro h
      exact absurd h (by decide)
    · intro _ _
      exact ⟨by decide, by decide⟩
  ⟨hc, (C2_eligible_iff (sampleCfg true) "/scratch/u/parent".toList _ ⟨leon_worklog_create, []⟩
    hc).2 ⟨by decide, by
      intro e he
      simp only [oldDir, FsNode.entries, DirEntries.toList, List.mem_cons, List.mem_singleton,
        List.not_mem_nil, or_false] at he
      rcases he with rfl | rfl
      · intro _ _
        decide
      · intro _ h
        exact absurd h (by decide), by
      intro e he
      simp only [oldDir, FsNode.entries, DirEntries.toList, List.mem_cons, List.mem_singleton,
        List.not_mem_nil, or_false] at he
      rcases he with rfl | rfl
      · intro _ h
        exact absurd h (by decide)
      · intro _ _
        exact Or.inr ⟨by decide, by decide⟩⟩⟩

/-! ### Dry run against real run -/

theorem mv_dir_trace_prefix (cfg : Config) (b o d : CString) (e : Nat) (s : ScanState) :
    ∃ ext, (leon_mv_dir cfg b o d e s).2.trace = s.trace ++ ext := by
  unfold leon_mv_dir
  by_cases hf : leon_mv_dir_flagged d = true
  · exact ⟨[], by simp [hf]⟩
  · by_cases hd : cfg.leon_shouldDryRun = true
    · exact ⟨[], by simp [hf, hd]⟩
    · by_cases he : e = 0
      · exact ⟨[Syscall.rename o
          (leon_path_pushFormat b (__leon_mv_dir_format cfg.now_s ++ d)) e], by simp [hf, hd, he]⟩
      · exact ⟨[Syscall.rename o
          (leon_path_pushFormat b (__leon_mv_dir_format cfg.now_s ++ d)) e], by simp [hf, hd, he]⟩

theorem quarantine_trace_prefix (cfg : Config) (b o d : CString) (n : FsNode)
    (r : leon_result_t × ScanState) :
    ∃ ext, (leon_cleanup_dir_quarantine cfg b o d n r).2.trace = r.2.trace ++ ext := by
  unfold leon_cleanup_dir_quarantine
  split
  · dsimp only
    split
    · exact mv_dir_trace_prefix cfg b o d _ _
    · exact mv_dir_trace_prefix cfg b o d _ _
  · exact ⟨[], by simp⟩

mutual
theorem cleanup_trace_prefix (cfg : Config) :
    ∀ (p : CString) (n : FsNode) (s : ScanState),
      ∃ ext, (leon_cleanup_dir cfg p n s).2.trace = s.trace ++ ext
  | p, .mk _ _ c entries _ _ _, s => by
    simp only [leon_cleanup_dir]
    split
    · exact ⟨[], by simp⟩
    · split
      · exact loop2_trace_prefix cfg p entries _ s
      · exact ⟨[], by simp⟩
theorem loop2_trace_prefix (cfg : Config) :
    ∀ (p : CString) (es : DirEntries) (sd : leon_result_t) (s : ScanState),
      ∃ ext, (leon_cleanup_dir_loop2 cfg p es sd s).2.trace = s.trace ++ ext
  | _, .nil, _, s => ⟨[], by simp [leon_cleanup_dir_loop2]⟩
  | p, .cons d t node rest, sd, s => by
    simp only [leon_cleanup_dir_loop2]
    split
    · exact loop2_trace_prefix cfg p rest _ s
    · split
      · obtain ⟨e1, h1⟩ := cleanup_trace_prefix cfg (leon_path_push p d) node s
        obtain ⟨e2, h2⟩ := quarantine_trace_prefix cfg p (leon_path_push p d) d node
          (leon_cleanup_dir cfg (leon_path_push p d) node s)
        obtain ⟨e3, h3⟩ := loop2_trace_prefix cfg p rest
          (if (leon_cleanup_dir_quarantine cfg p (leon_path_push p d) d node
            (leon_cleanup_dir cfg (leon_path_push p d) node s)).1 = kLeonResultNo
            then kLeonResultNo else sd)
          (leon_cleanup_dir_quarantine cfg p (leon_path_push p d) d node
            (leon_cleanup_dir cfg (leon_path_push p d) node s)).2
        exact ⟨e1 ++ e2 ++ e3, by rw [h3, h2, h1]; simp⟩
      · exact loop2_trace_prefix cfg p rest _ s
end

theorem renamesSucceeded_of_prefix (t ext : List Syscall) (h : RenamesSucceeded (t ++ ext)) :
    RenamesSucceeded t :=
  fun o a e hm => h o a e (List.mem_append_left _ hm)

theorem loop1_withDryRun (cfg : Config) (b : Bool) (p : CString) :
    ∀ (es : DirEntries) (l : Loop1State),
      leon_cleanup_dir_loop1 (cfg.withDryRun b) p es l = leon_cleanup_dir_loop1 cfg p es l
  | .nil, l => by simp [leon_cleanup_dir_loop1]
  | .cons d t n rest, l => by
    simp only [leon_cleanup_dir_loop1]
    have hc : ∀ f, leon_checkPathFn (cfg.withDryRun b) (leon_path_push p d) n f =
        leon_checkPathFn cfg (leon_path_push p d) n f := fun _ => rfl
    simp only [hc, loop1_withDryRun cfg b p rest]

/-- The quarantine step of a real run whose rename succeeds equals that of a dry run. -/
theorem quarantine_dry_real (cfg : Config) (b o d : CString) (n : FsNode)
    (rr rd : leon_result_t × ScanState) (hv : rr.1 = rd.1) (hw : rr.2.worklog = rd.2.worklog)
    (hok : RenamesSucceeded (leon_cleanup_dir_quarantine (cfg.withDryRun false) b o d n rr).2.trace) :
    (leon_cleanup_dir_quarantine (cfg.withDryRun false) b o d n rr).1 =
        (leon_cleanup_dir_quarantine (cfg.withDryRun true) b o d n rd).1 ∧
      (leon_cleanup_dir_quarantine (cfg.withDryRun false) b o d n rr).2.worklog =
        (leon_cleanup_dir_quarantine (cfg.withDryRun true) b o d n rd).2.worklog := by
  unfold leon_cleanup_dir_quarantine at hok ⊢
  rw [← hv]
  by_cases hy : rr.1 = kLeonResultYes
  · simp only [hy, if_true] at hok ⊢
    unfold leon_mv_dir at hok ⊢
    by_cases hf : leon_mv_dir_flagged d = true
    · simp [hf, hw]
    · simp only [hf, Config.withDryRun, Bool.false_eq_true, if_false, Bool.not_false,
        Bool.not_true, if_true] at hok ⊢
      by_cases he : n.renameErrno = 0
      · simp [he, hw]
      · exfalso
        apply he
        simp only [he, if_false] at hok
        refine hok o (leon_path_pushFormat b (__leon_mv_dir_format cfg.now_s ++ d)) _ ?_
        simp
  · simp only [hy, if_false]
    exact ⟨hv, hw⟩

mutual
theorem cleanup_dry_real (cfg : Config) :
    ∀ (p : CString) (n : FsNode) (sr sd : ScanState), sr.worklog = sd.worklog →
      RenamesSucceeded (leon_cleanup_dir (cfg.withDryRun false) p n sr).2.trace →
      (leon_cleanup_dir (cfg.withDryRun false) p n sr).1 =
          (leon_cleanup_dir (cfg.withDryRun true) p n sd).1 ∧
        (leon_cleanup_dir (cfg.withDryRun false) p n sr).2.worklog =
          (leon_cleanup_dir (cfg.withDryRun true) p n sd).2.worklog
  | p, .mk _ _ c entries _ _ _, sr, sd, hw, hok => by
    simp only [leon_cleanup_dir, loop1_withDryRun] at hok ⊢
    have hfi : ∀ b, (cfg.withDryRun b).fInfoInit p = cfg.fInfoInit p := fun _ => rfl
    simp only [hfi] at hok ⊢
    split
    · exact ⟨rfl, hw⟩
    · rename_i hc
      simp only [hc, if_false] at hok
      split
      · rename_i hf
        simp only [hf, if_true] at hok
        exact loop2_dry_real cfg p entries _ sr sd hw hok
      · exact ⟨rfl, hw⟩
theorem loop2_dry_real (cfg : Config) :
    ∀ (p : CString) (es : DirEntries) (v : leon_result_t) (sr sd : ScanState),
      sr.worklog = sd.worklog →
      RenamesSucceeded (leon_cleanup_dir_loop2 (cfg.withDryRun false) p es v sr).2.trace →
      (leon_cleanup_dir_loop2 (cfg.withDryRun false) p es v sr).1 =
          (leon_cleanup_dir_loop2 (cfg.withDryRun true) p es v sd).1 ∧
        (leon_cleanup_dir_loop2 (cfg.withDryRun false) p es v sr).2.worklog =
          (leon_cleanup_dir_loop2 (cfg.withDryRun true) p es v sd).2.worklog
  | _, .nil, _, _, _, hw, _ => by simp [leon_cleanup_dir_loop2, hw]
  | p, .cons d t node rest, v, sr, sd, hw, hok => by
    have hsub : ∀ b, isSubdirEntry (cfg.withDryRun b) t node = isSubdirEntry cfg t node :=
      fun _ => rfl
    simp only [leon_cleanup_dir_loop2, hsub] at hok ⊢
    split
    · rename_i hd
      simp only [hd, if_true] at hok
      exact loop2_dry_real cfg p rest v sr sd hw hok
    · rename_i hd
      simp only [hd, if_false] at hok
      split
      · rename_i hs
        simp only [hs, if_true] at hok
        obtain ⟨e3, h3⟩ := loop2_trace_prefix (cfg.withDryRun false) p rest
          (if (leon_cleanup_dir_quarantine (cfg.withDryRun false) p (leon_path_push p d) d node
            (leon_cleanup_dir (cfg.withDryRun false) (leon_path_push p d) node sr)).1 = kLeonResultNo
            then kLeonResultNo else v)
          (leon_cleanup_dir_quarantine (cfg.withDryRun false) p (leon_path_push p d) d node
            (leon_cleanup_dir (cfg.withDryRun false) (leon_path_push p d) node sr)).2
        have hokq := renamesSucceeded_of_prefix _ e3 (h3 ▸ hok)
        obtain ⟨e2, h2⟩ := quarantine_trace_prefix (cfg.withDryRun false) p (leon_path_push p d) d
          node (leon_cleanup_dir (cfg.withDryRun false) (leon_path_push p d) node sr)
        have hokc := renamesSucceeded_of_prefix _ e2 (h2 ▸ hokq)
        have ih := cleanup_dry_real cfg (leon_path_push p d) node sr sd hw hokc
        have hq := quarantine_dry_real cfg p (leon_path_push p d) d node _ _ ih.1 ih.2 hokq
        rw [← hq.1]
        rw [hq.1] at hok
        rw [← hq.1] at hok
        exact loop2_dry_real cfg p rest _ _ _ hq.2 hok
      · rename_i hs
        simp only [hs, if_false] at hok
        exact loop2_dry_real cfg p rest v sr sd hw hok
end

/-- C5 (as stated) fails: `/s` holds one old, empty directory whose rename fails.  The dry run
returns Yes for `/s` and queues `/s/stuck`; the real run returns No and queues nothing. -/
theorem C5_counterexample :
    leon_cleanup_dir ((sampleCfg true).withDryRun true) "/s".toList
        (oldDir (.cons "stuck".toList DT_DIR stuckDir .nil)) ⟨leon_worklog_create, []⟩ =
        (kLeonResultYes, ⟨⟨[⟨1, "/s/stuck".toList, "/s/.leon201503041640-stuck".toList⟩], [],
          true, none, SQLITE_OK, []⟩, []⟩) ∧
      leon_cleanup_dir ((sampleCfg true).withDryRun false) "/s".toList
        (oldDir (.cons "stuck".toList DT_DIR stuckDir .nil)) ⟨leon_worklog_create, []⟩ =
        (kLeonResultNo, ⟨leon_worklog_create,
          [Syscall.rename "/s/stuck".toList "/s/.leon201503041640-stuck".toList EACCES]⟩) := by
  decide

/-- C5 (amended): for every tree and configuration in which every rename that the real run
attempts succeeds, scanning with `leon_shouldDryRun` true and false yields the same verdict from
`leon_cleanup_dir` and the same worklog. -/
theorem C5_dry_run_equivalence (cfg : Config) (basePath : CString) (node : FsNode)
    (w : leon_worklog_t)
    (h : RenamesSucceeded (leon_cleanup_dir (cfg.withDryRun false) basePath node ⟨w, []⟩).2.trace) :
    (leon_cleanup_dir (cfg.withDryRun true) basePath node ⟨w, []⟩).1 =
        (leon_cleanup_dir (cfg.withDryRun false) basePath node ⟨w, []⟩).1 ∧
      (leon_cleanup_dir (cfg.withDryRun true) basePath node ⟨w, []⟩).2.worklog =
        (leon_cleanup_dir (cfg.withDryRun false) basePath node ⟨w, []⟩).2.worklog := by
  have := cleanup_dry_real cfg basePath node ⟨w, []⟩ ⟨w, []⟩ rfl h
  exact ⟨this.1.symm, this.2.symm⟩

theorem C5_dry_run_equivalence_witness :
    RenamesSucceeded (leon_cleanup_dir ((sampleCfg true).withDryRun false) "/scratch/u".toList
        (oldDir (.cons "parent".toList DT_DIR
          (oldDir (.cons "child".toList DT_DIR (oldDir .nil) .nil)) .nil))
        ⟨leon_worklog_create, []⟩).2.trace ∧
      (leon_cleanup_dir ((sampleCfg true).withDryRun true) "/scratch/u".toList
        (oldDir (.cons "parent".toList DT_DIR
          (oldDir (.cons "child".toList DT_DIR (oldDir .nil) .nil)) .nil))
        ⟨leon_worklog_create, []⟩).2.worklog =
      (leon_cleanup_dir ((sampleCfg true).withDryRun false) "/scratch/u".toList
        (oldDir (.cons "parent".toList DT_DIR
          (oldDir (.cons "child".toList DT_DIR (oldDir .nil) .nil)) .nil))
        ⟨leon_worklog_create, []⟩).2.worklog :=
  have h : RenamesSucceeded (leon_cleanup_dir ((sampleCfg true).withDryRun false)
      "/scratch/u".toList
      (oldDir (.cons "parent".toList DT_DIR
        (oldDir (.cons "child".toList DT_DIR (oldDir .nil) .nil)) .nil))
      ⟨leon_worklog_create, []⟩).2.trace := by
    have ht : (leon_cleanup_dir ((sampleCfg true).withDryRun false) "/scratch/u".toList
        (oldDir (.cons "parent".toList DT_DIR
          (oldDir (.cons "child".toList DT_DIR (oldDir .nil) .nil)) .nil))
        ⟨leon_worklog_create, []⟩).2.trace =
        [Syscall.rename "/scratch/u/parent/child".toList
            "/scratch/u/parent/.leon201503041640-child".toList 0,
          Syscall.rename "/scratch/u/parent".toList
            "/scratch/u/.leon201503041640-parent".toList 0] := by decide
    rw [ht]
    intro o a e hm
    simp only [List.mem_cons, List.mem_singleton, List.not_mem_nil, or_false,
      Syscall.rename.injEq] at hm
    rcases hm with ⟨_, _, h3⟩ | ⟨_, _, h3⟩ <;> exact h3
  ⟨h, (C5_dry_run_equivalence _ _ _ _ h).2⟩

/-! ### Dry run: no mutating call -/

theorem mv_dir_dry_trace (cfg : Config) (h : cfg.leon_shouldDryRun = true) (b o d : CString)
    (e : Nat) (s : ScanState) : (leon_mv_dir cfg b o d e s).2.trace = s.trace := by
  unfold leon_mv_dir
  by_cases hf : leon_mv_dir_flagged d = true
  · simp [hf]
  · simp [hf, h]

theorem quarantine_dry_trace (cfg : Config) (h : cfg.leon_shouldDryRun = true) (b o d : CString)
    (n : FsNode) (r : leon_result_t × ScanState) :
    (leon_cleanup_dir_quarantine cfg b o d n r).2.trace = r.2.trace := by
  unfold leon_cleanup_dir_quarantine
  split
  · dsimp only
    split
    · exact mv_dir_dry_trace cfg h _ _ _ _ _
    · exact mv_dir_dry_trace cfg h _ _ _ _ _
  · rfl

mutual
theorem cleanup_dry_trace (cfg : Config) (h : cfg.leon_shouldDryRun = true) :
    ∀ (p : CString) (n : FsNode) (s : ScanState), (leon_cleanup_dir cfg p n s).2.trace = s.trace
  | p, .mk _ _ c entries _ _ _, s => by
    simp only [leon_cleanup_dir]
    split
    · rfl
    · split
      · exact loop2_dry_trace cfg h p entries _ s
      · rfl
theorem loop2_dry_trace (cfg : Config) (h : cfg.leon_shouldDryRun = true) :
    ∀ (p : CString) (es : DirEntries) (sd : leon_result_t) (s : ScanState),
      (leon_cleanup_dir_loop2 cfg p es sd s).2.trace = s.trace
  | _, .nil, _, _ => by simp [leon_cleanup_dir_loop2]
  | p, .cons d t node rest, sd, s => by
    simp only [leon_cleanup_dir_loop2]
    split
    · exact loop2_dry_trace cfg h p rest _ s
    · split
      · rw [loop2_dry_trace cfg h p rest, quarantine_dry_trace cfg h,
          cleanup_dry_trace cfg h _ node s]
      · exact loop2_dry_trace cfg h p rest _ s
end

mutual
theorem rm_dry (cfg : Config) :
    ∀ (p : CString) (n : FsNode) (s : RmState),
      (leon_rm cfg p n true s).2.trace = s.trace ∧
        (leon_rm cfg p n true s).2.totalBytes = s.totalBytes
  | p, .mk l st c entries _ u m, s => by
    simp only [leon_rm]
    split
    · split
      · split
        · have ih := rm_loop_dry cfg p entries st s
          split
          · exact ih
          · simp only [Bool.not_true, Bool.false_eq_true, if_false]
            exact ih
        · simp
      · simp
    · simp
theorem rm_loop_dry (cfg : Config) :
    ∀ (p : CString) (es : DirEntries) (f : stat) (s : RmState),
      (leon_rm_loop cfg p es true f s).2.2.trace = s.trace ∧
        (leon_rm_loop cfg p es true f s).2.2.totalBytes = s.totalBytes
  | _, .nil, _, _ => by simp [leon_rm_loop]
  | p, .cons d t node rest, f, s => by
    simp only [leon_rm_loop]
    split
    · exact rm_loop_dry cfg p rest f s
    · split
      · split
        · have ih := rm_dry cfg (leon_path_push p d) node s
          split
          · exact ih
          · have ih2 := rm_loop_dry cfg p rest (leon_rm_entityKind cfg t node f).2.2
              (leon_rm cfg (leon_path_push p d) node true s).2
            exact ⟨ih2.1.trans ih.1, ih2.2.trans ih.2⟩
        · simp only [Bool.not_true, Bool.false_eq_true, if_false]
          exact rm_loop_dry cfg p rest _ s
      · exact rm_loop_dry cfg p rest _ s
end

theorem drain_dry_trace (cfg : Config) (h : cfg.leon_shouldDryRun = true)
    (atDrain : CString → FsNode) :
    ∀ (fuel : Nat) (w : leon_worklog_t) (b : CString) (trace : List Syscall),
      (leon_main_drain cfg atDrain fuel w b trace).2.2 = trace
  | 0, _, _, _ => rfl
  | fuel + 1, w, b, trace => by
    simp only [leon_main_drain, h, if_true]
    split
    · exact drain_dry_trace cfg h atDrain fuel _ _ trace
    · rfl

theorem scanAndDrain_dry_trace (cfg : Config) (h : cfg.leon_shouldDryRun = true)
    (opts : MainOptions) (arg : MainArg) (basePath : CString) (w : leon_worklog_t)
    (trace : List Syscall) : (leon_main_scanAndDrain cfg opts arg basePath w trace).2 = trace := by
  unfold leon_main_scanAndDrain
  dsimp only
  split
  · rfl
  · split
    · split
      · rw [drain_dry_trace cfg h]
        exact cleanup_dry_trace cfg h _ _ _
      · exact cleanup_dry_trace cfg h _ _ _
    · exact cleanup_dry_trace cfg h _ _ _

theorem destroy_kept (cfg : Config) (w : leon_worklog_t) (dbFile : FsNode) (trace : List Syscall) :
    leon_worklog_destroy cfg w true dbFile trace = trace := by
  unfold leon_worklog_destroy
  split <;> simp

/-! The `inMemory` and `pathToDb` fields of a worklog never change. -/

theorem addPath_handle (w : leon_worklog_t) (o a : CString) :
    (leon_worklog_addPath w o a).2.handle = w.handle := by
  unfold leon_worklog_addPath
  dsimp only
  split
  · split <;> rfl
  · rfl

theorem mv_dir_handle (cfg : Config) (b o d : CString) (e : Nat) (s : ScanState) :
    (leon_mv_dir cfg b o d e s).2.worklog.handle = s.worklog.handle := by
  unfold leon_mv_dir
  by_cases hf : leon_mv_dir_flagged d = true
  · simp [hf]
  · by_cases hd : cfg.leon_shouldDryRun = true
    · simp [hf, hd, addPath_handle]
    · by_cases he : e = 0
      · simp [hf, hd, he, addPath_handle]
      · simp [hf, hd, he]

theorem quarantine_handle (cfg : Config) (b o d : CString) (n : FsNode)
    (r : leon_result_t × ScanState) :
    (leon_cleanup_dir_quarantine cfg b o d n r).2.worklog.handle = r.2.worklog.handle := by
  unfold leon_cleanup_dir_quarantine
  split
  · dsimp only
    split
    · exact mv_dir_handle cfg _ _ _ _ _
    · exact mv_dir_handle cfg _ _ _ _ _
  · rfl

mutual
theorem cleanup_handle (cfg : Config) :
    ∀ (p : CString) (n : FsNode) (s : ScanState),
      (leon_cleanup_dir cfg p n s).2.worklog.handle = s.worklog.handle
  | p, .mk _ _ c entries _ _ _, s => by
    simp only [leon_cleanup_dir]
    split
    · rfl
    · split
      · exact loop2_handle cfg p entries _ s
      · rfl
theorem loop2_handle (cfg : Config) :
    ∀ (p : CString) (es : DirEntries) (sd : leon_result_t) (s : ScanState),
      (leon_cleanup_dir_loop2 cfg p es sd s).2.worklog.handle = s.worklog.handle
  | _, .nil, _, _ => by simp [leon_cleanup_dir_loop2]
  | p, .cons d t node rest, sd, s => by
    simp only [leon_cleanup_dir_loop2]
    split
    · exact loop2_handle cfg p rest _ s
    · split
      · rw [loop2_handle cfg p rest, quarantine_handle cfg, cleanup_handle cfg _ node s]
      · exact loop2_handle cfg p rest _ s
end

theorem getPath_handle (w : leon_worklog_t) (out : Option CString) :
    (leon_worklog_getPath w out).2.1.handle = w.handle := by
  unfold leon_worklog_getPath
  dsimp only
  split
  · rfl
  · split <;> rfl

theorem drain_handle (cfg : Config) (atDrain : CString → FsNode) :
    ∀ (fuel : Nat) (w : leon_worklog_t) (b : CString) (trace : List Syscall),
      (leon_main_drain cfg atDrain fuel w b trace).1.handle = w.handle
  | 0, _, _, _ => rfl
  | fuel + 1, w, b, trace => by
    simp only [leon_main_drain]
    split
    · split
      · rw [drain_handle cfg atDrain fuel]
        exact getPath_handle w _
      · rw [drain_handle cfg atDrain fuel]
        exact getPath_handle w _
    · exact getPath_handle w _

theorem scanAndDrain_handle (cfg : Config) (opts : MainOptions) (arg : MainArg)
    (basePath : CString) (w : leon_worklog_t) (trace : List Syscall) :
    (leon_main_scanAndDrain cfg opts arg basePath w trace).1.handle = w.handle := by
  have hsc : ∀ x : leon_worklog_t, (leon_worklog_scanComplete x false).2.handle = x.handle :=
    fun _ => rfl
  unfold leon_main_scanAndDrain
  dsimp only
  split
  · rfl
  · split
    · split
      · rw [drain_handle, hsc]
        exact cleanup_handle cfg _ _ _
      · rw [hsc]
        exact cleanup_handle cfg _ _ _
    · rw [hsc]
      exact cleanup_handle cfg _ _ _

theorem scanAndDrain_inMemory (cfg : Config) (opts : MainOptions) (arg : MainArg)
    (basePath : CString) (w : leon_worklog_t) (trace : List Syscall) :
    (leon_main_scanAndDrain cfg opts arg basePath w trace).1.inMemory = w.inMemory :=
  congrArg Prod.fst (scanAndDrain_handle cfg opts arg basePath w trace)

theorem scanAndDrain_pathToDb (cfg : Config) (opts : MainOptions) (arg : MainArg)
    (basePath : CString) (w : leon_worklog_t) (trace : List Syscall) :
    (leon_main_scanAndDrain cfg opts arg basePath w trace).1.pathToDb = w.pathToDb :=
  congrArg Prod.snd (scanAndDrain_handle cfg opts arg basePath w trace)

theorem destroy_inMemory (cfg : Config) (w : leon_worklog_t) (keep : Bool) (dbFile : FsNode)
    (trace : List Syscall) (h : w.inMemory = true) :
    leon_worklog_destroy cfg w keep dbFile trace = trace := by
  unfold leon_worklog_destroy
  simp [h]

/-! The calls of `leon_rm` act on its path and on paths below it. -/

theorem prefix_push (p d : CString) : p <+: leon_path_push p d := by
  unfold leon_path_push
  split
  · exact List.prefix_append _ _
  · exact List.prefix_refl _

theorem atOrUnder_push (p d x : CString) (h : AtOrUnder (leon_path_push p d) x) :
    AtOrUnder p x := by
  unfold leon_path_push at h
  split at h
  · rcases h with h | ⟨rest, h⟩
    · exact Or.inr ⟨d, h⟩
    · exact Or.inr ⟨d ++ '/' :: rest, by rw [h]; simp⟩
  · exact h

mutual
theorem rm_trace_under (cfg : Config) :
    ∀ (p : CString) (n : FsNode) (dry : Bool) (s : RmState) (ev : Syscall),
      ev ∈ (leon_rm cfg p n dry s).2.trace →
      ev ∈ s.trace ∨ (AtOrUnder p ev.path ∧ ev.isRename = false)
  | p, .mk l st c entries _ u m, dry, s, ev => by
    have hloop := rm_loop_trace_under cfg p entries dry st s ev
    simp only [leon_rm]
    split
    · split
      · split
        · split
          · exact hloop
          · split
            · split
              · intro h
                simp only [List.mem_append, List.mem_singleton] at h
                rcases h with h | rfl
                · exact hloop h
                · exact Or.inr ⟨Or.inl rfl, rfl⟩
              · intro h
                simp only [List.mem_append, List.mem_singleton] at h
                rcases h with h | rfl
                · exact hloop h
                · exact Or.inr ⟨Or.inl rfl, rfl⟩
            · exact hloop
        · simp only [Bool.not_true, Bool.false_eq_true, if_false]
          split
          · split
            · intro h
              simp only [List.mem_append, List.mem_singleton] at h
              rcases h with h | rfl
              · exact Or.inl h
              · exact Or.inr ⟨Or.inl rfl, rfl⟩
            · intro h
              simp only [List.mem_append, List.mem_singleton] at h
              rcases h with h | rfl
              · exact Or.inl h
              · exact Or.inr ⟨Or.inl rfl, rfl⟩
          · exact fun h => Or.inl h
      · split
        · exact fun h => Or.inl h
        · split
          · intro h
            simp only [List.mem_append, List.mem_singleton] at h
            rcases h with h | rfl
            · exact Or.inl h
            · exact Or.inr ⟨Or.inl rfl, rfl⟩
          · intro h
            simp only [List.mem_append, List.mem_singleton] at h
            rcases h with h | rfl
            · exact Or.inl h
            · exact Or.inr ⟨Or.inl rfl, rfl⟩
    · exact fun h => Or.inl h
theorem rm_loop_trace_under (cfg : Config) :
    ∀ (p : CString) (es : DirEntries) (dry : Bool) (f : stat) (s : RmState) (ev : Syscall),
      ev ∈ (leon_rm_loop cfg p es dry f s).2.2.trace →
      ev ∈ s.trace ∨ (AtOrUnder p ev.path ∧ ev.isRename = false)
  | _, .nil, _, _, _, _ => by
    simp only [leon_rm_loop]
    exact fun h => Or.inl h
  | p, .cons d t node rest, dry, f, s, ev => by
    have hchild : ev ∈ (leon_rm cfg (leon_path_push p d) node dry s).2.trace →
        ev ∈ s.trace ∨ (AtOrUnder p ev.path ∧ ev.isRename = false) := by
      intro h
      rcases rm_trace_under cfg (leon_path_push p d) node dry s ev h with h | ⟨h1, h2⟩
      · exact Or.inl h
      · exact Or.inr ⟨atOrUnder_push p d _ h1, h2⟩
    simp only [leon_rm_loop]
    split
    · exact rm_loop_trace_under cfg p rest dry f s ev
    · split
      · split
        · split
          · exact hchild
          · intro h
            rcases rm_loop_trace_under cfg p rest dry _ _ ev h with h | h
            · exact hchild h
            · exact Or.inr h
        · split
          · split
            · intro h
              simp only [List.mem_append, List.mem_singleton] at h
              rcases h with h | rfl
              · exact Or.inl h
              · exact Or.inr ⟨atOrUnder_push p d _ (Or.inl rfl), rfl⟩
            · intro h
              rcases rm_loop_trace_under cfg p rest dry _ _ ev h with h | h
              · simp only [List.mem_append, List.mem_singleton] at h
                rcases h with h | rfl
                · exact Or.inl h
                · exact Or.inr ⟨atOrUnder_push p d _ (Or.inl rfl), rfl⟩
              · exact Or.inr h
          · exact rm_loop_trace_under cfg p rest dry _ s ev
      · exact rm_loop_trace_under cfg p rest dry _ s ev
end

theorem prefix_curWorkLogPath (wlp : CString) (suffix : Bool) (num : Nat) :
    wlp <+: curWorkLogPath wlp suffix num := by
  unfold curWorkLogPath
  split
  · exact List.prefix_append _ _
  · exact List.prefix_refl _

theorem destroy_trace_under (cfg : Config) (w : leon_worklog_t) (keep : Bool) (dbFile : FsNode)
    (trace : List Syscall) (ev : Syscall) (h : ev ∈ leon_worklog_destroy cfg w keep dbFile trace) :
    ev ∈ trace ∨ (keep = false ∧ ∃ p, w.pathToDb = some p ∧ AtOrUnder p ev.path ∧ ev.isRename = false) := by
  unfold leon_worklog_destroy at h
  split at h
  · split at h
    · exact Or.inl h
    · rename_i hk
      split at h
      · rename_i p hp
        rcases rm_trace_under cfg p dbFile false ⟨0, none, trace⟩ ev h with h | h
        · exact Or.inl h
        · exact Or.inr ⟨by simpa using hk, p, hp, h⟩
      · exact Or.inl h
  · exact Or.inl h

theorem main_body_dry_trace (cfg : Config) (h : cfg.leon_shouldDryRun = true)
    (opts : MainOptions) (hw : opts.workLogPath = none ∨ opts.keepWorkLog = true)
    (suffix : Bool) (arg : MainArg) (st : MainState) :
    (leon_main_body cfg opts suffix arg st).trace = st.trace := by
  unfold leon_main_body
  split
  · rfl
  · split
    · split
      · dsimp only
        split
        · simp [h]
        · rfl
      · rfl
    · dsimp only
      split
      · split <;> rfl
      · dsimp only
        rcases hw with hn | hk
        · rw [destroy_inMemory]
          · exact scanAndDrain_dry_trace cfg h _ _ _ _ _
          · rw [scanAndDrain_inMemory, hn]
            rfl
        · rw [hk, destroy_kept]
          exact scanAndDrain_dry_trace cfg h _ _ _ _ _

theorem main_loop_dry_trace (cfg : Config) (h : cfg.leon_shouldDryRun = true)
    (opts : MainOptions) (hw : opts.workLogPath = none ∨ opts.keepWorkLog = true)
    (argv : List MainArg) :
    ∀ (fuel : Nat) (st : MainState), (leon_main_loop cfg opts argv fuel st).trace = st.trace
  | 0, _ => rfl
  | fuel + 1, st => by
    simp only [leon_main_loop]
    split
    · split
      · split
        · exact main_body_dry_trace cfg h opts hw _ _ st
        · rw [main_loop_dry_trace cfg h opts hw argv fuel]
          exact main_body_dry_trace cfg h opts hw _ _ st
      · rfl
    · rfl

theorem main_body_dry_under (cfg : Config) (h : cfg.leon_shouldDryRun = true)
    (opts : MainOptions) (suffix : Bool) (arg : MainArg) (st : MainState) (ev : Syscall)
    (hev : ev ∈ (leon_main_body cfg opts suffix arg st).trace) :
    ev ∈ st.trace ∨ (opts.keepWorkLog = false ∧
      ∃ wlp suffix num, opts.workLogPath = some wlp ∧
        AtOrUnder (curWorkLogPath wlp suffix num) ev.path ∧ ev.isRename = false) := by
  unfold leon_main_body at hev
  split at hev
  · exact Or.inl hev
  · split at hev
    · split at hev
      · dsimp only at hev
        split at hev
        · simp only [h, if_true] at hev
          exact Or.inl hev
        · exact Or.inl hev
      · exact Or.inl hev
    · dsimp only at hev
      split at hev
      · split at hev <;> exact Or.inl hev
      · dsimp only at hev
        rcases destroy_trace_under cfg _ _ _ _ ev hev with hin | ⟨hk, p, hp, hpre, hnr⟩
        · rw [scanAndDrain_dry_trace cfg h] at hin
          exact Or.inl hin
        · rw [scanAndDrain_pathToDb] at hp
          cases hwl : opts.workLogPath with
          | none =>
            rw [hwl] at hp
            simp [leon_worklog_create] at hp
          | some wlp =>
            rw [hwl] at hp
            simp only [leon_worklog_createWithFile, Option.some.injEq] at hp
            refine Or.inr ⟨hk, wlp, suffix, st.directoryNum, rfl, ?_, hnr⟩
            rw [← hp] at hpre
            exact hpre

theorem main_loop_dry_under (cfg : Config) (h : cfg.leon_shouldDryRun = true)
    (opts : MainOptions) (argv : List MainArg) (ev : Syscall) :
    ∀ (fuel : Nat) (st : MainState), ev ∈ (leon_main_loop cfg opts argv fuel st).trace →
      ev ∈ st.trace ∨ (opts.keepWorkLog = false ∧
        ∃ wlp suffix num, opts.workLogPath = some wlp ∧
          AtOrUnder (curWorkLogPath wlp suffix num) ev.path ∧ ev.isRename = false)
  | 0, _, hev => Or.inl hev
  | fuel + 1, st, hev => by
    simp only [leon_main_loop] at hev
    split at hev
    · split at hev
      · split at hev
        · exact main_body_dry_under cfg h opts _ _ st ev hev
        · rcases main_loop_dry_under cfg h opts argv ev fuel _ hev with h1 | h1
          · exact main_body_dry_under cfg h opts _ _ st ev h1
          · exact Or.inr h1
      · exact Or.inl hev
    · exact Or.inl hev

theorem shouldDryRun_fold (opt_chs : List Char) :
    ∀ flag : Bool, (opt_chs.foldl (fun flag opt_ch => if opt_ch = 'D' then false else flag) flag
      = true) ↔ (flag = true ∧ 'D' ∉ opt_chs) := by
  induction opt_chs with
  | nil => intro flag; simp
  | cons c cs ih =>
    intro flag
    simp only [List.foldl_cons, List.mem_cons, not_or]
    rw [ih]
    by_cases hc : c = 'D'
    · simp [hc]
    · have hc2 : ¬ 'D' = c := fun e => hc e.symm
      simp [hc, hc2]

/-- C6 (as stated) fails: in a dry run with the worklog on disk at `/s/wl`, inside the scanned
directory `/s`, and not kept, `leon_worklog_destroy` removes the database file with
`leon_rm(pathToDb, false, ...)`: the run issues an unlink on a file of the scanned tree. -/
theorem C6_counterexample :
    (sampleCfg true).leon_shouldDryRun = true ∧
      (leon_main_loop (sampleCfg true) ⟨some "/s/wl".toList, none, false, false, false⟩
        [⟨some "/s".toList, oldDir (.cons "wl".toList DT_REG newFile .nil), true, newFile,
          fun _ => oldDir .nil⟩] 3 ⟨0, 1, 0, [], none⟩).trace =
        [Syscall.unlink "/s/wl".toList 0] := by
  decide

/-- C6 (amended): the dry-run flag is set unless option `D` was given, and with the flag set
`leon_cleanup_dir` issues no call, the scan and drain of an argument issue no call, and a
complete run with the worklog in memory or kept issues no rename, unlink or rmdir for any number
of passes through the scan loop; with a worklog on disk that is not kept the only calls issued
are those by which `leon_worklog_destroy` removes the database: none is a rename and each is on
the path of the worklog of some pass or on a path below it; `leon_rm` with `dryRun` true issues
no call and leaves the byte counter as it was. -/
theorem C6_dry_run_issues_no_mutation (cfg : Config) (h : cfg.leon_shouldDryRun = true) :
    (∀ opt_chs : List Char, leon_shouldDryRun_afterOptions opt_chs = true ↔ 'D' ∉ opt_chs) ∧
      (∀ (p : CString) (n : FsNode) (s : ScanState),
        (leon_cleanup_dir cfg p n s).2.trace = s.trace) ∧
      (∀ (opts : MainOptions) (arg : MainArg) (basePath : CString) (w : leon_worklog_t)
        (trace : List Syscall), (leon_main_scanAndDrain cfg opts arg basePath w trace).2 = trace) ∧
      (∀ (opts : MainOptions) (argv : List MainArg) (fuel : Nat) (st : MainState),
        opts.workLogPath = none ∨ opts.keepWorkLog = true →
        (leon_main_loop cfg opts argv fuel st).trace = st.trace) ∧
      (∀ (opts : MainOptions) (argv : List MainArg) (fuel : Nat) (st : MainState) (ev : Syscall),
        ev ∈ (leon_main_loop cfg opts argv fuel st).trace →
        ev ∈ st.trace ∨ (opts.keepWorkLog = false ∧
          ∃ wlp suffix num, opts.workLogPath = some wlp ∧
            AtOrUnder (curWorkLogPath wlp suffix num) ev.path ∧ ev.isRename = false)) ∧
      (∀ (p : CString) (n : FsNode) (s : RmState),
        (leon_rm cfg p n true s).2.trace = s.trace ∧
          (leon_rm cfg p n true s).2.totalBytes = s.totalBytes) := by
  refine ⟨fun o => ?_, cleanup_dry_trace cfg h, scanAndDrain_dry_trace cfg h, ?_, ?_, rm_dry cfg⟩
  · unfold leon_shouldDryRun_afterOptions
    rw [shouldDryRun_fold]
    simp
  · intro opts argv fuel st hw
    exact main_loop_dry_trace cfg h opts hw argv fuel st
  · intro opts argv fuel st ev hev
    exact main_loop_dry_under cfg h opts argv ev fuel st hev

theorem C6_dry_run_issues_no_mutation_witness :
    (sampleCfg true).leon_shouldDryRun = true ∧
      (leon_main_loop (sampleCfg true) ⟨none, none, false, false, false⟩
        [⟨some "/scratch/u".toList,
          oldDir (.cons "old".toList DT_DIR (oldDir (.cons "f".toList DT_REG oldFile .nil)) .nil),
          true, oldFile, fun _ => oldDir .nil⟩] 3 ⟨0, 1, 0, [], none⟩).trace = [] :=
  ⟨rfl, (C6_dry_run_issues_no_mutation (sampleCfg true) rfl).2.2.2.1 _ _ 3 ⟨0, 1, 0, [], none⟩
    (Or.inl rfl)⟩

/-! ### Eligibility test chain -/

theorem chain_calls_fst (p : CString) (i : stat) :
    ∀ (stack : List leon_fstest_node_t) (r : leon_result_t),
      (leon_fstest_chain_calls p i stack r).1 = leon_fstest_chain p i stack r
  | [], _ => rfl
  | n :: link, r => by
    simp only [leon_fstest_chain_calls, leon_fstest_chain]
    split
    · rfl
    · exact chain_calls_fst p i link _

theorem checkPath_calls_fst (cfg : Config) (p : CString) (n : FsNode) (f : stat) :
    (leon_checkPathFn_calls cfg p n f).1 = (leon_checkPathFn cfg p n f).1 ∧
      (leon_checkPathFn_calls cfg p n f).2.1 = (leon_checkPathFn cfg p n f).2 := by
  unfold leon_checkPathFn_calls leon_checkPathFn leon_fstest_checkPathModificationTimes_calls
    leon_fstest_checkPathAccessTimes_calls leon_fstest_checkPathMaxTimes_calls
    leon_fstest_checkPathModificationTimes leon_fstest_checkPathAccessTimes
    leon_fstest_checkPathMaxTimes
  cases cfg.leon_checkPathFn <;> dsimp only <;> (repeat' split) <;>
    first
      | exact ⟨rfl, rfl⟩
      | exact ⟨chain_calls_fst _ _ _ _, rfl⟩

theorem chain_calls_all_yes (p : CString) (i : stat) :
    ∀ (stack : List leon_fstest_node_t) (r : leon_result_t),
      (∀ n ∈ stack, n.callback p i = kLeonResultYes) →
      leon_fstest_chain_calls p i stack kLeonResultYes = (kLeonResultYes, stack) ∧
        (stack ≠ [] → leon_fstest_chain_calls p i stack r = (kLeonResultYes, stack))
  | [], _, _ => ⟨rfl, fun h => absurd rfl h⟩
  | n :: link, r, h => by
    have hn : n.callback p i = kLeonResultYes := h n (List.mem_cons_self _ _)
    have hl : ∀ m ∈ link, m.callback p i = kLeonResultYes :=
      fun m hm => h m (List.mem_cons_of_mem _ hm)
    have ih := (chain_calls_all_yes p i link kLeonResultYes hl).1
    have key : ∀ r0, leon_fstest_chain_calls p i (n :: link) r0 = (kLeonResultYes, n :: link) := by
      intro r0
      simp only [leon_fstest_chain_calls, hn, ne_eq, not_true_eq_false, if_false, ih]
    exact ⟨key _, fun _ => key _⟩

theorem chain_calls_first_non_yes (p : CString) (i : stat) :
    ∀ (pre : List leon_fstest_node_t) (n : leon_fstest_node_t) (post : List leon_fstest_node_t)
      (r : leon_result_t), (∀ m ∈ pre, m.callback p i = kLeonResultYes) →
      n.callback p i ≠ kLeonResultYes →
      leon_fstest_chain_calls p i (pre ++ n :: post) r = (n.callback p i, pre ++ [n])
  | [], n, post, r, _, hn => by
    simp only [List.nil_append, leon_fstest_chain_calls, hn, ne_eq, not_false_eq_true, if_true]
  | m :: pre, n, post, r, h, hn => by
    have hm : m.callback p i = kLeonResultYes := h m (List.mem_cons_self _ _)
    have hp : ∀ x ∈ pre, x.callback p i = kLeonResultYes :=
      fun x hx => h x (List.mem_cons_of_mem _ hx)
    have ih := chain_calls_first_non_yes p i pre n post kLeonResultYes hp hn
    show leon_fstest_chain_calls p i (m :: (pre ++ n :: post)) r = (n.callback p i, m :: (pre ++ [n]))
    simp only [leon_fstest_chain_calls, hm, ne_eq, not_true_eq_false, if_false]
    rw [ih]

theorem lastUpdate_eq_max (a m : Int) : (if a < m then m else a) = max a m := by
  by_cases h : a < m
  · simp [h, max_eq_right (le_of_lt h)]
  · simp [h, max_eq_left (not_lt.1 h)]

theorem rootExcluded_iff (cfg : Config) (s : stat) :
    (cfg.leon_fstest_excludeRoot && (s.st_uid == 0 || s.st_gid == 0)) = true ↔
      rootExcluded cfg s := by
  simp [rootExcluded]

/-- The three check-path functions after a successful probe: No (and no callback) under the root
exclusion or with a governing timestamp at or above the threshold, the callback loop
otherwise. -/
theorem checkPath_calls_of_lstat (cfg : Config) (p : CString) (n : FsNode) (f : stat)
    (hl : n.lstatErrno = 0) :
    leon_checkPathFn_calls cfg p n f =
      if (cfg.leon_fstest_excludeRoot && (n.st.st_uid == 0 || n.st.st_gid == 0)) = true then
        (kLeonResultNo, n.st, [])
      else if governingTime cfg.leon_checkPathFn n.st ≥ cfg.leon_fstest_temporalThreshold then
        (kLeonResultNo, n.st, [])
      else
        ((leon_fstest_chain_calls p n.st cfg.leon_fstest_stack kLeonResultYes).1, n.st,
          (leon_fstest_chain_calls p n.st cfg.leon_fstest_stack kLeonResultYes).2) := by
  unfold leon_checkPathFn_calls leon_fstest_checkPathModificationTimes_calls
    leon_fstest_checkPathAccessTimes_calls leon_fstest_checkPathMaxTimes_calls leon_stat
    governingTime
  cases cfg.leon_checkPathFn <;> simp only [hl, if_true, lastUpdate_eq_max]

/-- C12: for each of the three check-path functions, when the probe succeeds and the root and age
tests pass, the result is Yes if every registered callback returns Yes (an empty chain
included), all of them having been invoked in registration order; otherwise it is the result of
the first callback in registration order that returns something other than Yes, and the
callbacks invoked are those up to and including that one. -/
theorem C12_chain_first_non_yes (cfg : Config) (path : CString) (node : FsNode) (pathInfo : stat)
    (hl : node.lstatErrno = 0) (hroot : ¬ rootExcluded cfg node.st)
    (hage : governingTime cfg.leon_checkPathFn node.st < cfg.leon_fstest_temporalThreshold) :
    ((∀ n ∈ cfg.leon_fstest_stack, n.callback path node.st = kLeonResultYes) →
        (leon_checkPathFn cfg path node pathInfo).1 = kLeonResultYes ∧
          (leon_checkPathFn_calls cfg path node pathInfo).2.2 = cfg.leon_fstest_stack) ∧
      (∀ (pre : List leon_fstest_node_t) (n : leon_fstest_node_t)
        (post : List leon_fstest_node_t), cfg.leon_fstest_stack = pre ++ n :: post →
        (∀ m ∈ pre, m.callback path node.st = kLeonResultYes) →
        n.callback path node.st ≠ kLeonResultYes →
        (leon_checkPathFn cfg path node pathInfo).1 = n.callback path node.st ∧
          (leon_checkPathFn_calls cfg path node pathInfo).2.2 = pre ++ [n]) := by
  have hfst := (checkPath_calls_fst cfg path node pathInfo).1
  have hr : ¬ (cfg.leon_fstest_excludeRoot && (node.st.st_uid == 0 || node.st.st_gid == 0)) = true :=
    fun h => hroot ((rootExcluded_iff cfg node.st).1 h)
  have ha : ¬ governingTime cfg.leon_checkPathFn node.st ≥ cfg.leon_fstest_temporalThreshold :=
    not_le.2 hage
  have hc := checkPath_calls_of_lstat cfg path node pathInfo hl
  simp only [hr, ha, if_false] at hc
  rw [← hfst, hc]
  refine ⟨fun hall => ?_, fun pre n post hst hpre hn => ?_⟩
  · rw [(chain_calls_all_yes path node.st _ kLeonResultYes hall).1]
    exact ⟨rfl, rfl⟩
  · rw [hst, chain_calls_first_non_yes path node.st pre n post _ hpre hn]
    exact ⟨rfl, rfl⟩

theorem C12_chain_first_non_yes_witness :
    oldFile.lstatErrno = 0 ∧
      (leon_checkPathFn
        (sampleCfgWith [⟨"a".toList, sampleCallback 7 kLeonResultNo⟩,
          ⟨"b".toList, sampleCallback 0 kLeonResultUnknown⟩,
          ⟨"c".toList, sampleCallback 0 kLeonResultNo⟩])
        "/s/f".toList oldFile oldFile.st).1 = kLeonResultUnknown ∧
      ((leon_checkPathFn_calls
        (sampleCfgWith [⟨"a".toList, sampleCallback 7 kLeonResultNo⟩,
          ⟨"b".toList, sampleCallback 0 kLeonResultUnknown⟩,
          ⟨"c".toList, sampleCallback 0 kLeonResultNo⟩])
        "/s/f".toList oldFile oldFile.st).2.2.map fun n => n.name) = ["a".toList, "b".toList] :=
  have h := (C12_chain_first_non_yes
    (sampleCfgWith [⟨"a".toList, sampleCallback 7 kLeonResultNo⟩,
      ⟨"b".toList, sampleCallback 0 kLeonResultUnknown⟩,
      ⟨"c".toList, sampleCallback 0 kLeonResultNo⟩])
    "/s/f".toList oldFile oldFile.st (by decide)
    (by unfold rootExcluded; decide) (by decide)).2
      [⟨"a".toList, sampleCallback 7 kLeonResultNo⟩]
      ⟨"b".toList, sampleCallback 0 kLeonResultUnknown⟩
      [⟨"c".toList, sampleCallback 0 kLeonResultNo⟩] rfl
      (by
        intro m hm
        simp only [List.mem_singleton] at hm
        subst hm
        decide)
      (by decide)
  ⟨by decide, h.1, by rw [h.2]; rfl⟩

/-- C13: for each of the three check-path functions, if the probe of the path fails the result
is Unknown and no registered callback is invoked. -/
theorem C13_probe_failure_unknown (cfg : Config) (path : CString) (node : FsNode)
    (pathInfo : stat) (h : node.lstatErrno ≠ 0) :
    (leon_checkPathFn cfg path node pathInfo).1 = kLeonResultUnknown ∧
      (leon_checkPathFn_calls cfg path node pathInfo).1 = kLeonResultUnknown ∧
      (leon_checkPathFn_calls cfg path node pathInfo).2.2 = [] := by
  have hfst := (checkPath_calls_fst cfg path node pathInfo).1
  rw [← hfst]
  unfold leon_checkPathFn_calls leon_fstest_checkPathModificationTimes_calls
    leon_fstest_checkPathAccessTimes_calls leon_fstest_checkPathMaxTimes_calls leon_stat
  cases cfg.leon_checkPathFn <;> simp [h]

theorem C13_probe_failure_unknown_witness :
    unreadableFile.lstatErrno ≠ 0 ∧
      (leon_checkPathFn (sampleCfgWith [⟨"a".toList, sampleCallback 0 kLeonResultNo⟩])
        "/s/f".toList unreadableFile oldFile.st).1 = kLeonResultUnknown :=
  ⟨by decide, (C13_probe_failure_unknown _ _ _ _ (by decide)).1⟩

/-- C14: for each of the three check-path functions, when `leon_fstest_excludeRoot` is true and
the probed entity has uid 0 or gid 0, the result is No whatever its timestamps and the
registered callbacks, none of which is invoked. -/
theorem C14_root_exclusion_first (cfg : Config) (path : CString) (node : FsNode)
    (pathInfo : stat) (hl : node.lstatErrno = 0) (hx : cfg.leon_fstest_excludeRoot = true)
    (hid : node.st.st_uid = 0 ∨ node.st.st_gid = 0) :
    (leon_checkPathFn cfg path node pathInfo).1 = kLeonResultNo ∧
      (leon_checkPathFn_calls cfg path node pathInfo).1 = kLeonResultNo ∧
      (leon_checkPathFn_calls cfg path node pathInfo).2.2 = [] := by
  have hfst := (checkPath_calls_fst cfg path node pathInfo).1
  have hr : (cfg.leon_fstest_excludeRoot && (node.st.st_uid == 0 || node.st.st_gid == 0)) = true :=
    (rootExcluded_iff cfg node.st).2 ⟨hx, hid⟩
  have hc := checkPath_calls_of_lstat cfg path node pathInfo hl
  simp only [hr, if_true] at hc
  rw [← hfst, hc]
  exact ⟨rfl, rfl, rfl⟩

theorem C14_root_exclusion_first_witness :
    (sampleCfgWith [⟨"a".toList, sampleCallback 0 kLeonResultUnknown⟩]).leon_fstest_excludeRoot
        = true ∧
      (leon_checkPathFn (sampleCfgWith [⟨"a".toList, sampleCallback 0 kLeonResultUnknown⟩])
        "/s/rootfile".toList (.mk 0 ⟨S_IFREG, 0, 1000, 0, 5, 5⟩ ENOTDIR .nil 0 0 0)
        oldFile.st).1 = kLeonResultNo :=
  ⟨rfl, (C14_root_exclusion_first _ _ (.mk 0 ⟨S_IFREG, 0, 1000, 0, 5, 5⟩ ENOTDIR .nil 0 0 0) _
    (by decide) rfl (Or.inl (by decide))).1⟩

/-- C15: under each policy a probed entity whose governing timestamp (modification time, access
time, or the newer of the two) is at or above `leon_fstest_temporalThreshold`, equality
included, gets No with no callback invoked; with the timestamp strictly below the threshold
(and no root exclusion) the result and the callbacks invoked are those of the callback loop. -/
theorem C15_age_test_strict (cfg : Config) (path : CString) (node : FsNode) (pathInfo : stat)
    (hl : node.lstatErrno = 0) :
    (governingTime cfg.leon_checkPathFn node.st ≥ cfg.leon_fstest_temporalThreshold →
        (leon_checkPathFn cfg path node pathInfo).1 = kLeonResultNo ∧
          (leon_checkPathFn_calls cfg path node pathInfo).2.2 = []) ∧
      (governingTime cfg.leon_checkPathFn node.st = cfg.leon_fstest_temporalThreshold →
        (leon_checkPathFn cfg path node pathInfo).1 = kLeonResultNo) ∧
      (governingTime cfg.leon_checkPathFn node.st < cfg.leon_fstest_temporalThreshold →
        ¬ rootExcluded cfg node.st →
        (leon_checkPathFn cfg path node pathInfo).1 =
            leon_fstest_chain path node.st cfg.leon_fstest_stack kLeonResultYes ∧
          (leon_checkPathFn_calls cfg path node pathInfo).2.2 =
            (leon_fstest_chain_calls path node.st cfg.leon_fstest_stack kLeonResultYes).2) := by
  have hfst := (checkPath_calls_fst cfg path node pathInfo).1
  have hc := checkPath_calls_of_lstat cfg path node pathInfo hl
  have hge : governingTime cfg.leon_checkPathFn node.st ≥ cfg.leon_fstest_temporalThreshold →
      (leon_checkPathFn cfg path node pathInfo).1 = kLeonResultNo ∧
        (leon_checkPathFn_calls cfg path node pathInfo).2.2 = [] := by
    intro hg
    rw [← hfst, hc]
    by_cases hr : (cfg.leon_fstest_excludeRoot &&
        (node.st.st_uid == 0 || node.st.st_gid == 0)) = true
    · rw [if_pos hr]
      exact ⟨rfl, rfl⟩
    · rw [if_neg hr, if_pos hg]
      exact ⟨rfl, rfl⟩
  refine ⟨hge, fun he => (hge (le_of_eq he.symm)).1, fun hlt hroot => ?_⟩
  have hr : ¬ (cfg.leon_fstest_excludeRoot && (node.st.st_uid == 0 || node.st.st_gid == 0)) = true :=
    fun h => hroot ((rootExcluded_iff cfg node.st).1 h)
  have ha : ¬ governingTime cfg.leon_checkPathFn node.st ≥ cfg.leon_fstest_temporalThreshold :=
    not_le.2 hlt
  simp only [hr, ha, if_false] at hc
  rw [← hfst, hc]
  exact ⟨chain_calls_fst _ _ _ _, rfl⟩

theorem C15_age_test_strict_witness :
    governingTime (sampleCfg true).leon_checkPathFn (sampleStat S_IFREG 1000) =
        (sampleCfg true).leon_fstest_temporalThreshold ∧
      (leon_checkPathFn (sampleCfg true) "/s/f".toList
        (.mk 0 (sampleStat S_IFREG 1000) ENOTDIR .nil 0 0 0) oldFile.st).1 = kLeonResultNo ∧
      (leon_checkPathFn (sampleCfg true) "/s/f".toList
        (.mk 0 (sampleStat S_IFREG 999) ENOTDIR .nil 0 0 0) oldFile.st).1 = kLeonResultYes :=
  ⟨by decide,
   (C15_age_test_strict (sampleCfg true) "/s/f".toList
    (.mk 0 (sampleStat S_IFREG 1000) ENOTDIR .nil 0 0 0) oldFile.st (by decide)).2.1 (by decide),
   ((C15_age_test_strict (sampleCfg true) "/s/f".toList
    (.mk 0 (sampleStat S_IFREG 999) ENOTDIR .nil 0 0 0) oldFile.st (by decide)).2.2 (by decide)
      (by unfold rootExcluded; decide)).1.trans (by decide)⟩

theorem strcmp_self (a : CString) : strcmp a a = 0 := by
  induction a with
  | nil => rfl
  | cons c cs ih => simp [strcmp, ih]

theorem strcmp_eq_zero_iff (a b : CString) (ha : ∀ c ∈ a, c ≠ Char.ofNat 0)
    (hb : ∀ c ∈ b, c ≠ Char.ofNat 0) : strcmp a b = 0 ↔ a = b := by
  have hz : ∀ c : Char, c ≠ Char.ofNat 0 → (c.toNat : Int) ≠ 0 := by
    intro c hc h0
    apply hc
    apply Char.ext
    apply UInt32.ext
    have : c.toNat = 0 := by omega
    exact this
  induction a generalizing b with
  | nil =>
    cases b with
    | nil => simp [strcmp]
    | cons d ds =>
      have := hz d (hb d (List.mem_cons_self _ _))
      simp only [strcmp, zero_sub, neg_eq_zero]
      simp [this]
  | cons c cs ih =>
    cases b with
    | nil =>
      have := hz c (ha c (List.mem_cons_self _ _))
      simp [strcmp, this]
    | cons d ds =>
      by_cases hcd : c = d
      · subst hcd
        simp only [strcmp, if_true, List.cons.injEq, true_and]
        exact ih ds (fun x hx => ha x (List.mem_cons_of_mem _ hx))
          (fun x hx => hb x (List.mem_cons_of_mem _ hx))
      · have hne : (c.toNat : Int) - (d.toNat : Int) ≠ 0 := by
          intro h0
          apply hcd
          apply Char.ext
          apply UInt32.ext
          have : c.toNat = d.toNat := by omega
          exact this
        simp [strcmp, hcd, hne]

theorem register_first_match (aName : CString) (cb : CString → stat → leon_result_t) :
    ∀ (pre : List leon_fstest_node_t) (n : leon_fstest_node_t) (post : List leon_fstest_node_t),
      (∀ m ∈ pre, strcmp m.name aName ≠ 0) → strcmp n.name aName = 0 →
      leon_fstest_registerCallback (pre ++ n :: post) aName cb = pre ++ ⟨n.name, cb⟩ :: post
  | [], n, post, _, hn => by
    simp [leon_fstest_registerCallback, hn]
  | m :: pre, n, post, hpre, hn => by
    have hm : strcmp m.name aName ≠ 0 := hpre m (List.mem_cons_self _ _)
    have ih := register_first_match aName cb pre n post
      (fun x hx => hpre x (List.mem_cons_of_mem _ hx)) hn
    show leon_fstest_registerCallback (m :: (pre ++ n :: post)) aName cb = m :: (pre ++ _ :: post)
    simp only [leon_fstest_registerCallback, hm, if_false]
    rw [ih]

theorem register_no_match (aName : CString) (cb : CString → stat → leon_result_t) :
    ∀ stack : List leon_fstest_node_t, (∀ m ∈ stack, strcmp m.name aName ≠ 0) →
      leon_fstest_registerCallback stack aName cb = stack ++ [⟨aName, cb⟩]
  | [], _ => rfl
  | m :: rest, h => by
    have hm : strcmp m.name aName ≠ 0 := h m (List.mem_cons_self _ _)
    have ih := register_no_match aName cb rest (fun x hx => h x (List.mem_cons_of_mem _ hx))
    simp only [leon_fstest_registerCallback, hm, if_false, ih, List.cons_append]

theorem exists_first_match (aName : CString) :
    ∀ stack : List leon_fstest_node_t, (∃ m ∈ stack, strcmp m.name aName = 0) →
      ∃ pre n post, stack = pre ++ n :: post ∧ (∀ m ∈ pre, strcmp m.name aName ≠ 0) ∧
        strcmp n.name aName = 0
  | [], h => by
    obtain ⟨m, hm, _⟩ := h
    simp at hm
  | x :: rest, h => by
    by_cases hx : strcmp x.name aName = 0
    · exact ⟨[], x, rest, rfl, fun m hm => by simp at hm, hx⟩
    · obtain ⟨m, hm, hm0⟩ := h
      have hmr : m ∈ rest := by
        rcases List.mem_cons.1 hm with rfl | h'
        · exact absurd hm0 hx
        · exact h'
      obtain ⟨pre, n, post, hst, hpre, hn⟩ := exists_first_match aName rest ⟨m, hmr, hm0⟩
      refine ⟨x :: pre, n, post, by rw [hst]; rfl, ?_, hn⟩
      intro y hy
      rcases List.mem_cons.1 hy with rfl | h'
      · exact hx
      · exact hpre y h'

/-- C16: `leon_fstest_registerCallback` with a name that compares equal to the name of an entry
of the chain gives the first such entry the new callback and context where it stands, every
other entry, the number of entries and their order (the list of names) staying as they were;
with a name that no entry has, the chain afterwards is the old chain followed by the new entry.
Names compare equal exactly when they are the same string. -/
theorem C16_register_replace_or_append (stack : List leon_fstest_node_t) (aName : CString)
    (aCallback : CString → stat → leon_result_t) :
    (∀ (pre : List leon_fstest_node_t) (n : leon_fstest_node_t) (post : List leon_fstest_node_t),
        stack = pre ++ n :: post → (∀ m ∈ pre, strcmp m.name aName ≠ 0) →
        strcmp n.name aName = 0 →
        leon_fstest_registerCallback stack aName aCallback =
          pre ++ ⟨n.name, aCallback⟩ :: post) ∧
      ((∃ m ∈ stack, strcmp m.name aName = 0) →
        (leon_fstest_registerCallback stack aName aCallback).length = stack.length ∧
          ((leon_fstest_registerCallback stack aName aCallback).map fun n => n.name) =
            stack.map fun n => n.name) ∧
      ((∀ m ∈ stack, strcmp m.name aName ≠ 0) →
        leon_fstest_registerCallback stack aName aCallback = stack ++ [⟨aName, aCallback⟩]) ∧
      (∀ a b : CString, (∀ c ∈ a, c ≠ Char.ofNat 0) → (∀ c ∈ b, c ≠ Char.ofNat 0) →
        (strcmp a b = 0 ↔ a = b)) := by
  refine ⟨?_, ?_, register_no_match aName aCallback stack, strcmp_eq_zero_iff⟩
  · intro pre n post hst hpre hn
    rw [hst]
    exact register_first_match aName aCallback pre n post hpre hn
  · intro hex
    obtain ⟨pre, n, post, hst, hpre, hn⟩ := exists_first_match aName stack hex
    rw [hst, register_first_match aName aCallback pre n post hpre hn]
    simp

theorem C16_register_replace_or_append_witness :
    ((leon_fstest_registerCallback
        [⟨"isPipeOrSocket".toList, sampleCallback 0 kLeonResultNo⟩,
          ⟨"userExclusions".toList, sampleCallback 1 kLeonResultNo⟩]
        "isPipeOrSocket".toList (sampleCallback 2 kLeonResultNo)).map fun n => n.name) =
        ["isPipeOrSocket".toList, "userExclusions".toList] ∧
      ((leon_fstest_registerCallback
        [⟨"isPipeOrSocket".toList, sampleCallback 0 kLeonResultNo⟩,
          ⟨"userExclusions".toList, sampleCallback 1 kLeonResultNo⟩]
        "groupExclusions".toList (sampleCallback 2 kLeonResultNo)).map fun n => n.name) =
        ["isPipeOrSocket".toList, "userExclusions".toList, "groupExclusions".toList] :=
  ⟨((C16_register_replace_or_append
      [⟨"isPipeOrSocket".toList, sampleCallback 0 kLeonResultNo⟩,
        ⟨"userExclusions".toList, sampleCallback 1 kLeonResultNo⟩]
      "isPipeOrSocket".toList (sampleCallback 2 kLeonResultNo)).2.1
      ⟨_, List.mem_cons_self _ _, by decide⟩).2,
   by
    rw [(C16_register_replace_or_append
      [⟨"isPipeOrSocket".toList, sampleCallback 0 kLeonResultNo⟩,
        ⟨"userExclusions".toList, sampleCallback 1 kLeonResultNo⟩]
      "groupExclusions".toList (sampleCallback 2 kLeonResultNo)).2.2.1 (by
        intro m hm
        simp only [List.mem_cons, List.mem_singleton, List.not_mem_nil, or_false] at hm
        rcases hm with rfl | rfl <;> decide)]
    rfl⟩

/-! ### Worklog: draining in insertion order -/

theorem foldl_max_ge (rows : List WorklogRow) :
    ∀ m : Nat, m ≤ rows.foldl (fun m r => max m r.pathId) m ∧
      ∀ r ∈ rows, r.pathId ≤ rows.foldl (fun m r => max m r.pathId) m := by
  induction rows with
  | nil => intro m; simp
  | cons x xs ih =>
    intro m
    simp only [List.foldl_cons, List.mem_cons]
    obtain ⟨h1, h2⟩ := ih (max m x.pathId)
    refine ⟨le_trans (le_max_left _ _) h1, ?_⟩
    rintro r (rfl | hr)
    · exact le_trans (le_max_right _ _) h1
    · exact h2 r hr

theorem lt_nextPathId (rows : List WorklogRow) (r : WorklogRow) (h : r ∈ rows) :
    r.pathId < nextPathId rows := by
  unfold nextPathId
  exact Nat.lt_succ_of_le ((foldl_max_ge rows 0).2 r h)

theorem rowsInIdOrder_filter (rows : List WorklogRow) (f : WorklogRow → Bool)
    (h : RowsInIdOrder rows) : RowsInIdOrder (rows.filter f) := by
  unfold RowsInIdOrder at *
  exact h.sublist ((List.filter_sublist _).map _)

theorem addPath_rowsInIdOrder (w : leon_worklog_t) (o a : CString)
    (h : RowsInIdOrder w.rows) : RowsInIdOrder (leon_worklog_addPath w o a).2.rows := by
  cases hres : (leon_worklog_addPath w o a).1 with
  | false => rw [addPath_rows_of_fail w o a hres]; exact h
  | true =>
    rw [addPath_rows_of_success w o a hres]
    unfold RowsInIdOrder at *
    rw [List.map_append, List.pairwise_append]
    refine ⟨h.sublist ((List.filter_sublist _).map _), by simp, ?_⟩
    intro x hx y hy
    simp only [List.map_cons, List.map_nil, List.mem_singleton] at hy
    subst hy
    obtain ⟨r, hr, rfl⟩ := List.mem_map.1 hx
    exact lt_nextPathId w.rows r (List.mem_filter.1 hr).1

theorem getPath_rows_sublist (w : leon_worklog_t) (out : Option CString) :
    (leon_worklog_getPath w out).2.1.rows.Sublist w.rows ∧
      (leon_worklog_getPath w out).2.1.committed = w.committed := by
  unfold leon_worklog_getPath sqlite3_step_postGetStmt
  dsimp only
  split
  · exact ⟨List.Sublist.refl _, rfl⟩
  · split
    · exact ⟨List.filter_sublist _, rfl⟩
    · exact ⟨List.filter_sublist _, rfl⟩

theorem addPath_committed (w : leon_worklog_t) (o a : CString) :
    (leon_worklog_addPath w o a).2.committed = w.committed := by
  unfold leon_worklog_addPath
  dsimp only
  split
  · split <;> rfl
  · rfl

theorem reachable_rowsInIdOrder (w : leon_worklog_t) (h : WorklogReachable w) :
    RowsInIdOrder w.rows ∧ RowsInIdOrder w.committed := by
  induction h with
  | create => exact ⟨List.Pairwise.nil, List.Pairwise.nil⟩
  | createWithFile p => exact ⟨List.Pairwise.nil, List.Pairwise.nil⟩
  | faults w codes _ ih => exact ih
  | addPath w o a _ ih =>
    exact ⟨addPath_rowsInIdOrder w o a ih.1, by rw [addPath_committed]; exact ih.2⟩
  | getPath w out _ ih =>
    obtain ⟨hs, hc⟩ := getPath_rows_sublist w out
    refine ⟨?_, by rw [hc]; exact ih.2⟩
    unfold RowsInIdOrder at *
    exact ih.1.sublist (hs.map _)
  | scanComplete w d _ ih =>
    unfold leon_worklog_scanComplete
    split
    · exact ⟨ih.2, ih.2⟩
    · exact ⟨ih.1, ih.1⟩

theorem getStmt_min_head (r : WorklogRow) :
    ∀ rest : List WorklogRow, (∀ x ∈ rest, r.pathId < x.pathId) →
      rest.foldl (fun m x => if x.pathId < m.pathId then x else m) r = r
  | [], _ => rfl
  | y :: ys, h => by
    have hy : ¬ y.pathId < r.pathId := not_lt.2 (le_of_lt (h y (List.mem_cons_self _ _)))
    simp only [List.foldl_cons, hy, if_false]
    exact getStmt_min_head r ys (fun x hx => h x (List.mem_cons_of_mem _ hx))

theorem rowsInIdOrder_head (r : WorklogRow) (rest : List WorklogRow)
    (h : RowsInIdOrder (r :: rest)) : ∀ x ∈ rest, r.pathId < x.pathId := by
  unfold RowsInIdOrder at h
  simp only [List.map_cons, List.pairwise_cons, List.mem_map] at h
  exact fun x hx => h.1 x.pathId ⟨x, hx, rfl⟩

theorem getPath_of_cons (w : leon_worklog_t) (out : Option CString) (r : WorklogRow)
    (rest : List WorklogRow) (hrows : w.rows = r :: rest) (h : RowsInIdOrder w.rows) :
    leon_worklog_getPath w out = (true, { w with rows := rest }, some r.altPath) := by
  have hlt := rowsInIdOrder_head r rest (hrows ▸ h)
  have hfilter : (r :: rest).filter (fun x => x.pathId != r.pathId) = rest := by
    rw [List.filter_cons]
    simp only [bne_self_eq_false, Bool.false_eq_true, if_false]
    apply List.filter_eq_self.2
    intro x hx
    have := hlt x hx
    simp only [bne_iff_ne, ne_eq]
    omega
  unfold leon_worklog_getPath sqlite3_step_getStmt sqlite3_step_postGetStmt
  rw [hrows]
  simp only [getStmt_min_head r rest hlt, hfilter, SQLITE_DONE, ne_eq, not_true_eq_false,
    if_false]

theorem getPath_of_nil (w : leon_worklog_t) (out : Option CString) (hrows : w.rows = []) :
    leon_worklog_getPath w out = (false, w, out) := by
  unfold leon_worklog_getPath sqlite3_step_getStmt
  rw [hrows]

theorem getPaths_drains :
    ∀ (rows : List WorklogRow) (w : leon_worklog_t), w.rows = rows → RowsInIdOrder rows →
      ∀ fuel, rows.length < fuel →
      leon_worklog_getPaths fuel w = (rows.map fun r => r.altPath, { w with rows := [] })
  | [], w, hrows, _, fuel, hf => by
    obtain ⟨n, rfl⟩ : ∃ n, fuel = n + 1 := ⟨fuel - 1, by simp at hf; omega⟩
    simp only [leon_worklog_getPaths, getPath_of_nil w none hrows, Bool.false_eq_true, if_false,
      List.map_nil]
    rw [← hrows]
  | r :: rest, w, hrows, hord, fuel, hf => by
    obtain ⟨n, rfl⟩ : ∃ n, fuel = n + 1 := ⟨fuel - 1, by simp at hf; omega⟩
    have hrest : RowsInIdOrder rest := by
      unfold RowsInIdOrder at *
      simp only [List.map_cons, List.pairwise_cons] at hord
      exact hord.2
    have ih := getPaths_drains rest { w with rows := rest } rfl hrest n (by simp at hf; omega)
    simp only [leon_worklog_getPaths, getPath_of_cons w none r rest hrows (hrows ▸ hord), if_true,
      ih, Option.getD_some, List.map_cons]

/-- C17: on a worklog produced by the worklog functions the rows stand in insertion order with
strictly increasing pathIds; `leon_worklog_getPath` on an empty worklog returns false and
changes nothing; otherwise it returns true with the altPath of the first row, the one added
earliest and of smallest pathId, and removes that row and no other; repeated calls return the
altPaths in insertion order and leave the worklog empty. -/
theorem C17_getPath_oldest_first (w : leon_worklog_t) (hw : WorklogReachable w) :
    RowsInIdOrder w.rows ∧
      (∀ out : Option CString, w.rows = [] → leon_worklog_getPath w out = (false, w, out)) ∧
      (∀ (out : Option CString) (r : WorklogRow) (rest : List WorklogRow), w.rows = r :: rest →
        leon_worklog_getPath w out = (true, { w with rows := rest }, some r.altPath) ∧
          ∀ x ∈ rest, r.pathId < x.pathId) ∧
      (∀ fuel, w.rows.length < fuel →
        leon_worklog_getPaths fuel w = (w.rows.map fun r => r.altPath, { w with rows := [] })) ∧
      (∀ o a : CString, (leon_worklog_addPath w o a).1 = true →
        ∃ kept newRow, (leon_worklog_addPath w o a).2.rows = kept ++ [newRow] ∧
          kept.Sublist w.rows ∧ newRow.origPath = o ∧ newRow.altPath = a ∧
          ∀ x ∈ kept, x.pathId < newRow.pathId) := by
  have hord := (reachable_rowsInIdOrder w hw).1
  refine ⟨hord, fun out h => getPath_of_nil w out h, ?_, ?_, ?_⟩
  · intro out r rest hrows
    exact ⟨getPath_of_cons w out r rest hrows hord, rowsInIdOrder_head r rest (hrows ▸ hord)⟩
  · intro fuel hf
    exact getPaths_drains w.rows w rfl hord fuel hf
  · intro o a hs
    refine ⟨_, _, addPath_rows_of_success w o a hs, List.filter_sublist _, rfl, rfl, ?_⟩
    intro x hx
    exact lt_nextPathId w.rows x (List.mem_filter.1 hx).1

theorem C17_getPath_oldest_first_witness :
    WorklogReachable (addPaths leon_worklog_create
        [("/s/b".toList, "/s/.leon201503041640-b".toList),
         ("/s/a".toList, "/s/.leon201503041640-a".toList)]) ∧
      leon_worklog_getPaths 3 (addPaths leon_worklog_create
        [("/s/b".toList, "/s/.leon201503041640-b".toList),
         ("/s/a".toList, "/s/.leon201503041640-a".toList)]) =
        (["/s/.leon201503041640-b".toList, "/s/.leon201503041640-a".toList],
          leon_worklog_create) :=
  have h : WorklogReachable (addPaths leon_worklog_create
      [("/s/b".toList, "/s/.leon201503041640-b".toList),
       ("/s/a".toList, "/s/.leon201503041640-a".toList)]) :=
    WorklogReachable.addPath _ _ _ (WorklogReachable.addPath _ _ _ WorklogReachable.create)
  ⟨h, ((C17_getPath_oldest_first _ h).2.2.2.1 3 (by decide)).trans (by decide)⟩

/-! ### Worklog write failures during a scan -/

/-- C11 (the code at the failing input): `/s` holds the Eligible directories `a`, `b` and `c`,
and the database of the worklog runs full at the second INSERT.  The call of
`leon_worklog_addPath` for `/s/b` fails on its step and the call for `/s/c` on the reset of the
statement; `leon_mv_dir` drops both results and `main` completes the scan with `discardChanges`
false.  With `--worklog-only` the entry of `/s/a` is committed; in a real run all three
directories are renamed, the entry of `/s/a` is committed and drained and its directory
removed.  In general the rows that the scan leaves are committed as they are. -/
theorem C11_failed_addPath_still_committed :
    (leon_worklog_addPath
        (leon_worklog_addPath
          { leon_worklog_create with addStmtFaults := [SQLITE_OK, SQLITE_FULL] }
          "/s/a".toList "/s/.leon201503041640-a".toList).2
        "/s/b".toList "/s/.leon201503041640-b".toList).1 = false ∧
      (leon_worklog_addPath
        (leon_worklog_addPath
          (leon_worklog_addPath
            { leon_worklog_create with addStmtFaults := [SQLITE_OK, SQLITE_FULL] }
            "/s/a".toList "/s/.leon201503041640-a".toList).2
          "/s/b".toList "/s/.leon201503041640-b".toList).2
        "/s/c".toList "/s/.leon201503041640-c".toList).1 = false ∧
      (leon_main_scanAndDrain (sampleCfg true) ⟨none, none, false, true, false⟩
        ⟨some "/s".toList,
          oldDir (.cons "a".toList DT_DIR (oldDir .nil) (.cons "b".toList DT_DIR (oldDir .nil)
            (.cons "c".toList DT_DIR (oldDir .nil) .nil))),
          true, oldFile, fun _ => oldDir .nil⟩
        "/s".toList { leon_worklog_create with addStmtFaults := [SQLITE_OK, SQLITE_FULL] }
        []).1.committed =
        [⟨1, "/s/a".toList, "/s/.leon201503041640-a".toList⟩] ∧
      leon_main_scanAndDrain (sampleCfg false) ⟨none, none, false, false, false⟩
        ⟨some "/s".toList,
          oldDir (.cons "a".toList DT_DIR (oldDir .nil) (.cons "b".toList DT_DIR (oldDir .nil)
            (.cons "c".toList DT_DIR (oldDir .nil) .nil))),
          true, oldFile, fun _ => oldDir .nil⟩
        "/s".toList { leon_worklog_create with addStmtFaults := [SQLITE_OK, SQLITE_FULL] } [] =
        (⟨[], [⟨1, "/s/a".toList, "/s/.leon201503041640-a".toList⟩], true, none, SQLITE_OK, []⟩,
          [Syscall.rename "/s/a".toList "/s/.leon201503041640-a".toList 0,
           Syscall.rename "/s/b".toList "/s/.leon201503041640-b".toList 0,
           Syscall.rename "/s/c".toList "/s/.leon201503041640-c".toList 0,
           Syscall.rmdir "/s/.leon201503041640-a".toList 0]) ∧
      (∀ (cfg : Config) (opts : MainOptions) (arg : MainArg) (basePath : CString)
        (w : leon_worklog_t) (trace : List Syscall),
        opts.excludePaths = none → opts.workLogOnly = true →
        (leon_main_scanAndDrain cfg opts arg basePath w trace).1.committed =
          (leon_cleanup_dir cfg basePath arg.node ⟨w, trace⟩).2.worklog.rows) := by
  refine ⟨by decide, by decide, by decide, by decide, ?_⟩
  intro cfg opts arg basePath w trace hx ho
  unfold leon_main_scanAndDrain leon_worklog_scanComplete
  simp [hx, ho]

/-! ### Recursive delete: hard failures -/

theorem rmOutcome_same_trace (ok : Bool) (s s' : RmState) (h : s'.trace = s.trace) :
    RmOutcome ok s s' :=
  ⟨[], by simp [h], Or.inl (fun e he => by simp at he)⟩

theorem rmOutcome_false (ok : Bool) (s s' : RmState) (h : RmOutcome ok s s') :
    RmOutcome false s s' := by
  obtain ⟨ext, ht, hg | ⟨_, hb⟩⟩ := h
  · exact ⟨ext, ht, Or.inl hg⟩
  · exact ⟨ext, ht, Or.inr ⟨rfl, hb⟩⟩

theorem rmOutcome_good_of_true (s s' : RmState) (h : RmOutcome true s s') :
    ∃ ext, s'.trace = s.trace ++ ext ∧ ∀ e ∈ ext, ¬ e.failedHard := by
  obtain ⟨ext, ht, hg | ⟨hf, _⟩⟩ := h
  · exact ⟨ext, ht, hg⟩
  · exact absurd hf (by decide)

theorem rmOutcome_trans (ok : Bool) (s s1 s2 : RmState)
    (h1 : ∃ ext, s1.trace = s.trace ++ ext ∧ ∀ e ∈ ext, ¬ e.failedHard)
    (h2 : RmOutcome ok s1 s2) : RmOutcome ok s s2 := by
  obtain ⟨e1, ht1, hg1⟩ := h1
  obtain ⟨e2, ht2, hg2 | ⟨hf, pre, ev, hext, hpre, hev, herr⟩⟩ := h2
  · refine ⟨e1 ++ e2, by rw [ht2, ht1, List.append_assoc], Or.inl ?_⟩
    intro e he
    rcases List.mem_append.1 he with h | h
    · exact hg1 e h
    · exact hg2 e h
  · refine ⟨e1 ++ e2, by rw [ht2, ht1, List.append_assoc],
      Or.inr ⟨hf, e1 ++ pre, ev, by rw [hext, List.append_assoc], ?_, hev, herr⟩⟩
    intro e he
    rcases List.mem_append.1 he with h | h
    · exact hg1 e h
    · exact hpre e h

/-- Appending one removal call to a state reached without hard failure: the call's own outcome
decides. -/
theorem rmOutcome_step (s s0 : RmState) (ev : Syscall) (out : Int) (tb : Option Int)
    (h0 : ∃ ext, s0.trace = s.trace ++ ext ∧ ∀ e ∈ ext, ¬ e.failedHard) :
    (ev.failedHard → RmOutcome false s ⟨(ev.err : Int), tb, s0.trace ++ [ev]⟩) ∧
      (¬ ev.failedHard → ∀ ok, RmOutcome ok s ⟨out, tb, s0.trace ++ [ev]⟩) := by
  obtain ⟨e0, ht0, hg0⟩ := h0
  constructor
  · intro hev
    exact ⟨e0 ++ [ev], by simp [ht0], Or.inr ⟨rfl, e0, ev, rfl, hg0, hev, rfl⟩⟩
  · intro hev ok
    refine ⟨e0 ++ [ev], by simp [ht0], Or.inl ?_⟩
    intro e he
    rcases List.mem_append.1 he with h | h
    · exact hg0 e h
    · simp only [List.mem_singleton] at h
      rw [h]
      exact hev

theorem failedHard_iff (e : Nat) (ev : Syscall) (he : ev.err = e) :
    (decide (e ≠ 0) && decide (e ≠ ENOENT)) = true ↔ ev.failedHard := by
  unfold Syscall.failedHard
  rw [he]
  simp

mutual
theorem rm_outcome (cfg : Config) :
    ∀ (p : CString) (n : FsNode) (dry : Bool) (s : RmState),
      RmOutcome (leon_rm cfg p n dry s).1 s (leon_rm cfg p n dry s).2
  | p, .mk l st c entries _ u m, dry, s => by
    have hloop := rm_loop_outcome cfg p entries dry st s
    have hrm := failedHard_iff m (Syscall.rmdir p m) rfl
    have hun := failedHard_iff u (Syscall.unlink p u) rfl
    simp only [leon_rm]
    split
    · split
      · split
        · split
          · exact rmOutcome_false _ _ _ hloop
          · rename_i hok
            have hgood := rmOutcome_good_of_true s _
              (by simpa using (show (leon_rm_loop cfg p entries dry st s).1 = true by
                simpa using hok) ▸ hloop)
            split
            · split
              · rename_i hh
                exact (rmOutcome_step s _ (Syscall.rmdir p m) 0 _ hgood).1 (hrm.1 hh)
              · rename_i hh
                exact (rmOutcome_step s _ (Syscall.rmdir p m) _ _ hgood).2
                  (fun hf => hh (hrm.2 hf)) true
            · obtain ⟨ext, ht, hg⟩ := hgood
              exact ⟨ext, ht, Or.inl hg⟩
        · simp only [Bool.not_true, Bool.false_eq_true, if_false]
          have hgood : ∃ ext, (⟨(c : Int), s.totalBytes, s.trace⟩ : RmState).trace = s.trace ++ ext ∧
              ∀ e ∈ ext, ¬ e.failedHard := ⟨[], by simp, fun e he => by simp at he⟩
          split
          · split
            · rename_i hh
              exact (rmOutcome_step s _ (Syscall.rmdir p m) 0 _ hgood).1 (hrm.1 hh)
            · rename_i hh
              exact (rmOutcome_step s _ (Syscall.rmdir p m) _ _ hgood).2
                (fun hf => hh (hrm.2 hf)) true
          · exact rmOutcome_same_trace _ _ _ rfl
      · have hgood : ∃ ext, s.trace = s.trace ++ ext ∧ ∀ e ∈ ext, ¬ e.failedHard :=
          ⟨[], by simp, fun e he => by simp at he⟩
        split
        · exact rmOutcome_same_trace _ _ _ rfl
        · split
          · rename_i hh
            exact (rmOutcome_step s s (Syscall.unlink p u) 0 _ hgood).1 (hun.1 hh)
          · rename_i hh
            exact (rmOutcome_step s s (Syscall.unlink p u) _ _ hgood).2
              (fun hf => hh (hun.2 hf)) true
    · exact rmOutcome_same_trace _ _ _ rfl
theorem rm_loop_outcome (cfg : Config) :
    ∀ (p : CString) (es : DirEntries) (dry : Bool) (f : stat) (s : RmState),
      RmOutcome (leon_rm_loop cfg p es dry f s).1 s (leon_rm_loop cfg p es dry f s).2.2
  | _, .nil, _, _, s => by
    simp only [leon_rm_loop]
    exact rmOutcome_same_trace _ _ _ rfl
  | p, .cons d t node rest, dry, f, s => by
    have hun := failedHard_iff node.unlinkErrno
      (Syscall.unlink (leon_path_push p d) node.unlinkErrno) rfl
    have hgood : ∃ ext, s.trace = s.trace ++ ext ∧ ∀ e ∈ ext, ¬ e.failedHard :=
      ⟨[], by simp, fun e he => by simp at he⟩
    simp only [leon_rm_loop]
    split
    · exact rm_loop_outcome cfg p rest dry f s
    · split
      · split
        · have hchild := rm_outcome cfg (leon_path_push p d) node dry s
          split
          · exact rmOutcome_false _ _ _ hchild
          · rename_i hok
            have hg := rmOutcome_good_of_true s _
              (by simpa using (show (leon_rm cfg (leon_path_push p d) node dry s).1 = true by
                simpa using hok) ▸ hchild)
            exact rmOutcome_trans _ s _ _ hg (rm_loop_outcome cfg p rest dry _ _)
        · split
          · split
            · rename_i hh
              exact (rmOutcome_step s s _ 0 _ hgood).1 (hun.1 hh)
            · rename_i hh
              have h1 := (rmOutcome_step s s (Syscall.unlink (leon_path_push p d) node.unlinkErrno)
                s.outErr (s.totalBytes.map fun b => b + (leon_rm_entityKind cfg t node f).2.2.st_size)
                hgood).2 (fun hf => hh (hun.2 hf)) true
              have hg := rmOutcome_good_of_true s _ h1
              exact rmOutcome_trans _ s _ _ hg (rm_loop_outcome cfg p rest dry _ _)
          · exact rm_loop_outcome cfg p rest dry _ s
      · exact rm_loop_outcome cfg p rest dry _ s
end

/-- C18: if an unlink or rmdir issued by `leon_rm` with `dryRun` false fails with an error other
than ENOENT, then `leon_rm` returns false, `*outErr` is that errno, and the failed call is the
last call issued (the calls before it all succeeded or ended with ENOENT). -/
theorem C18_hard_failure_aborts (cfg : Config) (aPath : CString) (node : FsNode) (outErr0 : Int)
    (totalBytes : Option Int) (ev : Syscall)
    (hev : ev ∈ (leon_rm cfg aPath node false ⟨outErr0, totalBytes, []⟩).2.trace)
    (h0 : ev.err ≠ 0) (h1 : ev.err ≠ ENOENT) :
    ev.isRename = false ∧
      (leon_rm cfg aPath node false ⟨outErr0, totalBytes, []⟩).1 = false ∧
      (leon_rm cfg aPath node false ⟨outErr0, totalBytes, []⟩).2.outErr = (ev.err : Int) ∧
      ∃ pre, (leon_rm cfg aPath node false ⟨outErr0, totalBytes, []⟩).2.trace = pre ++ [ev] ∧
        ∀ e ∈ pre, e.err = 0 ∨ e.err = ENOENT := by
  have hren : ev.isRename = false := by
    rcases rm_trace_under cfg aPath node false ⟨outErr0, totalBytes, []⟩ ev hev with h | h
    · simp at h
    · exact h.2
  obtain ⟨ext, ht, hg | ⟨hf, pre, ev', hext, hpre, hev', herr⟩⟩ :=
    rm_outcome cfg aPath node false ⟨outErr0, totalBytes, []⟩
  · simp only [List.nil_append] at ht
    rw [ht] at hev
    exact absurd ⟨h0, h1⟩ (hg ev hev)
  · simp only [List.nil_append] at ht
    rw [ht, hext] at hev
    have hlast : ev = ev' := by
      rcases List.mem_append.1 hev with h | h
      · exact absurd ⟨h0, h1⟩ (hpre ev h)
      · simpa using h
    subst hlast
    refine ⟨hren, hf, herr, pre, by rw [ht, hext], ?_⟩
    intro e he
    have := hpre e he
    unfold Syscall.failedHard at this
    by_cases hz : e.err = 0
    · exact Or.inl hz
    · right
      by_contra hne
      exact this ⟨hz, hne⟩

theorem C18_hard_failure_aborts_witness :
    Syscall.unlink "/q/stuck".toList EACCES ∈
        (leon_rm (sampleCfg false) "/q".toList
          (oldDir (.cons "gone".toList DT_REG
            (.mk 0 (sampleStat S_IFREG 5) ENOTDIR .nil 0 ENOENT 0)
            (.cons "stuck".toList DT_REG stuckFile (.cons "f".toList DT_REG oldFile .nil))))
          false ⟨0, none, []⟩).2.trace ∧
      (leon_rm (sampleCfg false) "/q".toList
          (oldDir (.cons "gone".toList DT_REG
            (.mk 0 (sampleStat S_IFREG 5) ENOTDIR .nil 0 ENOENT 0)
            (.cons "stuck".toList DT_REG stuckFile (.cons "f".toList DT_REG oldFile .nil))))
          false ⟨0, none, []⟩).1 = false ∧
      (leon_rm (sampleCfg false) "/q".toList
          (oldDir (.cons "gone".toList DT_REG
            (.mk 0 (sampleStat S_IFREG 5) ENOTDIR .nil 0 ENOENT 0)
            (.cons "stuck".toList DT_REG stuckFile (.cons "f".toList DT_REG oldFile .nil))))
          false ⟨0, none, []⟩).2.outErr = 13 :=
  have hm : Syscall.unlink "/q/stuck".toList EACCES ∈
      (leon_rm (sampleCfg false) "/q".toList
        (oldDir (.cons "gone".toList DT_REG
          (.mk 0 (sampleStat S_IFREG 5) ENOTDIR .nil 0 ENOENT 0)
          (.cons "stuck".toList DT_REG stuckFile (.cons "f".toList DT_REG oldFile .nil))))
        false ⟨0, none, []⟩).2.trace := by decide
  have h := C18_hard_failure_aborts (sampleCfg false) "/q".toList _ 0 none _ hm
    (by decide) (by decide)
  ⟨hm, h.2.1, h.2.2.1⟩

/-! ### Recursive delete: entities that have vanished -/

/-- C19 (the code at the failing input): `/q` lists `gone`, of type `DT_DIR`, which has vanished
(every call on it ends with ENOENT), and then the file `f`.  `leon_rm` returns false with ENOENT
in `*outErr` and issues no call: `f` is not unlinked and `/q` is not removed.  With the same
entry listed with type `DT_UNKNOWN`, or with a file whose unlink ends with ENOENT, the entry is
passed over, `f` and `/q` are removed, and the result is true. -/
theorem C19_vanished_subdirectory_fails :
    leon_rm (sampleCfg false) "/q".toList
        (oldDir (.cons "gone".toList DT_DIR goneEntity (.cons "f".toList DT_REG oldFile .nil)))
        false ⟨0, none, []⟩ = (false, ⟨2, none, []⟩) ∧
      leon_rm (sampleCfg false) "/q".toList
        (oldDir (.cons "gone".toList DT_UNKNOWN goneEntity (.cons "f".toList DT_REG oldFile .nil)))
        false ⟨0, none, []⟩ =
        (true, ⟨0, none, [Syscall.unlink "/q/f".toList 0, Syscall.rmdir "/q".toList 0]⟩) ∧
      leon_rm (sampleCfg false) "/q".toList
        (oldDir (.cons "gone".toList DT_REG
          (.mk 0 (sampleStat S_IFREG 5) ENOTDIR .nil 0 ENOENT 0)
          (.cons "f".toList DT_REG oldFile .nil)))
        false ⟨0, none, []⟩ =
        (true, ⟨0, none, [Syscall.unlink "/q/gone".toList ENOENT, Syscall.unlink "/q/f".toList 0,
          Syscall.rmdir "/q".toList 0]⟩) := by
  decide

/-! ### Recursive delete: what a result of true means -/

/-- When `leon_rm` with `dryRun` false returns true, the last call it issued is the unlink or
rmdir of its own path, and that call succeeded or ended with ENOENT. -/
theorem rm_true_last (cfg : Config) (p : CString) (n : FsNode) (s : RmState)
    (h : (leon_rm cfg p n false s).1 = true) :
    ∃ pre ev, (leon_rm cfg p n false s).2.trace = pre ++ [ev] ∧ ev.path = p ∧
      ev.isRename = false ∧ (ev.err = 0 ∨ ev.err = ENOENT) := by
  obtain ⟨l, st, c, entries, r, u, m⟩ := n
  have herr : ∀ e : Nat, ¬ (decide (e ≠ 0) && decide (e ≠ ENOENT)) = true →
      (e = 0 ∨ e = ENOENT) := by
    intro e he
    by_cases hz : e = 0
    · exact Or.inl hz
    · right
      by_contra hne
      exact he (by simp [hz, hne])
  simp only [leon_rm] at h ⊢
  split at h
  · split at h
    · split at h
      · split at h
        · exact absurd h Bool.false_ne_true
        · rename_i h1 h2 h3 h4
          simp only [h1, h2, h3, h4, if_true, if_false, Bool.not_false] at h ⊢
          split at h
          · exact absurd h Bool.false_ne_true
          · rename_i h5
            simp only [h5, if_false]
            exact ⟨_, Syscall.rmdir p m, rfl, rfl, rfl, herr m h5⟩
      · rename_i h1 h2 h3
        simp only [h1, h2, h3, if_true, if_false, Bool.not_true, Bool.not_false,
          Bool.false_eq_true] at h ⊢
        split at h
        · exact absurd h Bool.false_ne_true
        · rename_i h5
          simp only [h5, if_false]
          exact ⟨_, Syscall.rmdir p m, rfl, rfl, rfl, herr m h5⟩
    · rename_i h1 h2
      simp only [h1, h2, if_true, if_false, Bool.false_eq_true] at h ⊢
      split at h
      · exact absurd h Bool.false_ne_true
      · rename_i h5
        simp only [h5, if_false]
        exact ⟨_, Syscall.unlink p u, rfl, rfl, rfl, herr u h5⟩
  · exact absurd h Bool.false_ne_true

theorem removalStep_keeps (p : CString) (fs fs1 : List CString) (ev : Syscall)
    (hstep : RemovalStep fs ev fs1) (hinv : ∀ q ∈ fs, IsSlashPrefix p q → p ∈ fs) :
    ∀ q ∈ fs1, IsSlashPrefix p q → p ∈ fs1 := by
  obtain ⟨_, ⟨_, _, hnone, rfl⟩ | ⟨_, _, rfl⟩ | ⟨_, _, rfl⟩⟩ := hstep
  · intro q hq hpq
    have hqfs : q ∈ fs := (List.mem_filter.1 hq).1
    refine List.mem_filter.2 ⟨hinv q hqfs hpq, ?_⟩
    simp only [bne_iff_ne, ne_eq]
    intro hpe
    exact hnone q hqfs (hpe ▸ hpq)
  · exact hinv
  · exact hinv

theorem removalRun_append (pre : List Syscall) (ev : Syscall) :
    ∀ fs fs' : List CString, RemovalRun fs (pre ++ [ev]) fs' →
      ∃ fs1, RemovalRun fs pre fs1 ∧ RemovalStep fs1 ev fs' := by
  induction pre with
  | nil =>
    intro fs fs' h
    obtain ⟨fs1, hs, hr⟩ := h
    simp only [RemovalRun] at hr
    subst hr
    exact ⟨fs, rfl, hs⟩
  | cons x xs ih =>
    intro fs fs' h
    obtain ⟨fs1, hs, hr⟩ := h
    obtain ⟨fs2, hr2, hs2⟩ := ih fs1 fs' hr
    exact ⟨fs2, ⟨fs1, hs, hr2⟩, hs2⟩

theorem removalRun_keeps (p : CString) (trace : List Syscall) :
    ∀ fs fs' : List CString, RemovalRun fs trace fs' →
      (∀ q ∈ fs, IsSlashPrefix p q → p ∈ fs) → ∀ q ∈ fs', IsSlashPrefix p q → p ∈ fs' := by
  induction trace with
  | nil =>
    intro fs fs' h hinv
    simp only [RemovalRun] at h
    subst h
    exact hinv
  | cons x xs ih =>
    intro fs fs' h hinv
    obtain ⟨fs1, hs, hr⟩ := h
    exact ih fs1 fs' hr (removalStep_keeps p fs fs1 x hs hinv)

/-- C20: from any filesystem state in which something exists below `aPath` only if something
exists at `aPath`, and with every unlink and rmdir having the effect its outcome stands for, a
`leon_rm` with `dryRun` false that returns true leaves nothing at `aPath` and nothing below
it. -/
theorem C20_rm_true_removes (cfg : Config) (aPath : CString) (node : FsNode) (outErr0 : Int)
    (totalBytes : Option Int) (fs fs' : List CString)
    (hfs : ∀ q ∈ fs, IsSlashPrefix aPath q → aPath ∈ fs)
    (hrun : RemovalRun fs (leon_rm cfg aPath node false ⟨outErr0, totalBytes, []⟩).2.trace fs')
    (htrue : (leon_rm cfg aPath node false ⟨outErr0, totalBytes, []⟩).1 = true) :
    aPath ∉ fs' ∧ ∀ q ∈ fs', ¬ IsSlashPrefix aPath q := by
  obtain ⟨pre, ev, htr, hpath, _, herr⟩ := rm_true_last cfg aPath node _ htrue
  rw [htr] at hrun
  obtain ⟨fs1, hr1, hstep⟩ := removalRun_append pre ev fs fs' hrun
  have hinv := removalRun_keeps aPath pre fs fs1 hr1 hfs
  obtain ⟨_, ⟨_, _, hnone, rfl⟩ | ⟨_, hnot, rfl⟩ | ⟨hz, hne, _⟩⟩ := hstep
  · rw [hpath] at hnone
    refine ⟨fun hm => ?_, fun q hq => hnone q (List.mem_filter.1 hq).1⟩
    have := (List.mem_filter.1 hm).2
    simp [hpath] at this
  · rw [hpath] at hnot
    exact ⟨hnot, fun q hq hpq => hnot (hinv q hq hpq)⟩
  · rcases herr with h | h
    · exact absurd h hz
    · exact absurd h hne

theorem C20_rm_true_removes_witness :
    RemovalRun ["/q".toList, "/q/d".toList, "/q/d/f".toList, "/other".toList]
        (leon_rm (sampleCfg false) "/q".toList
          (oldDir (.cons "d".toList DT_DIR (oldDir (.cons "f".toList DT_REG oldFile .nil)) .nil))
          false ⟨0, none, []⟩).2.trace ["/other".toList] ∧
      (leon_rm (sampleCfg false) "/q".toList
          (oldDir (.cons "d".toList DT_DIR (oldDir (.cons "f".toList DT_REG oldFile .nil)) .nil))
          false ⟨0, none, []⟩).1 = true ∧
      "/q".toList ∉ ["/other".toList] :=
  have hnp : ∀ a b : CString, leonPathStartsWith b a = false → ¬ IsSlashPrefix a b :=
    fun a b h hp => by
      rw [(leonPathStartsWith_iff b a).2 hp] at h
      exact absurd h (by decide)
  have ht : (leon_rm (sampleCfg false) "/q".toList
      (oldDir (.cons "d".toList DT_DIR (oldDir (.cons "f".toList DT_REG oldFile .nil)) .nil))
      false ⟨0, none, []⟩).2.trace =
      [Syscall.unlink "/q/d/f".toList 0, Syscall.rmdir "/q/d".toList 0,
        Syscall.rmdir "/q".toList 0] := by decide
  have hrun : RemovalRun ["/q".toList, "/q/d".toList, "/q/d/f".toList, "/other".toList]
      (leon_rm (sampleCfg false) "/q".toList
        (oldDir (.cons "d".toList DT_DIR (oldDir (.cons "f".toList DT_REG oldFile .nil)) .nil))
        false ⟨0, none, []⟩).2.trace ["/other".toList] := by
    rw [ht]
    refine ⟨["/q".toList, "/q/d".toList, "/other".toList], ⟨rfl, Or.inl ⟨rfl, by decide, ?_, by decide⟩⟩,
      ["/q".toList, "/other".toList], ⟨rfl, Or.inl ⟨rfl, by decide, ?_, by decide⟩⟩,
      ["/other".toList], ⟨rfl, Or.inl ⟨rfl, by decide, ?_, by decide⟩⟩, rfl⟩
    · intro q hq
      simp only [List.mem_cons, List.mem_singleton, List.not_mem_nil, or_false] at hq
      rcases hq with rfl | rfl | rfl | rfl <;> exact hnp _ _ (by decide)
    · intro q hq
      simp only [List.mem_cons, List.mem_singleton, List.not_mem_nil, or_false] at hq
      rcases hq with rfl | rfl | rfl <;> exact hnp _ _ (by decide)
    · intro q hq
      simp only [List.mem_cons, List.mem_singleton, List.not_mem_nil, or_false] at hq
      rcases hq with rfl | rfl <;> exact hnp _ _ (by decide)
  ⟨hrun, by decide,
   (C20_rm_true_removes (sampleCfg false) "/q".toList _ 0 none _ _
      (fun q hq _ => List.mem_cons_self _ _) hrun (by decide)).1⟩

/-! ### Recursive delete: the byte counter -/

/-- C21 (the code at the failing input): with byte tracking just enabled, `/q` (4096 bytes) lists
the file `gone` (700 bytes at the probe), whose unlink ends with ENOENT, and the file `f`
(5 bytes), which is removed.  `leon_rm` returns true with the counter at 4801: the 700 bytes of
the entity that was already gone are counted.  When every removal succeeds the counter is the
sum of the sizes, and a removal that fails with another error adds nothing. -/
theorem C21_enoent_counts_bytes :
    leon_rm (sampleCfg false) "/q".toList
        (sizedDir 4096 1000 0
          (.cons "gone".toList DT_REG (sizedFile 700 ENOENT)
            (.cons "f".toList DT_REG (sizedFile 5 0) .nil)))
        false (leon_rm_setByteTrackingPointer ⟨0, some 99, []⟩ true) =
        (true, ⟨0, some 4801,
          [Syscall.unlink "/q/gone".toList ENOENT, Syscall.unlink "/q/f".toList 0,
            Syscall.rmdir "/q".toList 0]⟩) ∧
      leon_rm (sampleCfg false) "/q".toList
        (sizedDir 4096 1000 0
          (.cons "g".toList DT_REG (sizedFile 700 0)
            (.cons "f".toList DT_REG (sizedFile 5 0) .nil)))
        false (leon_rm_setByteTrackingPointer ⟨0, some 99, []⟩ true) =
        (true, ⟨0, some 4801,
          [Syscall.unlink "/q/g".toList 0, Syscall.unlink "/q/f".toList 0,
            Syscall.rmdir "/q".toList 0]⟩) ∧
      leon_rm (sampleCfg false) "/q".toList
        (sizedDir 4096 1000 0
          (.cons "f".toList DT_REG (sizedFile 5 0)
            (.cons "stuck".toList DT_REG (sizedFile 700 EACCES) .nil)))
        false (leon_rm_setByteTrackingPointer ⟨0, some 99, []⟩ true) =
        (false, ⟨13, some 5,
          [Syscall.unlink "/q/f".toList 0, Syscall.unlink "/q/stuck".toList EACCES]⟩) := by
  decide

/-! ### Interactive delete: a declined entry -/

/-- C22 (the code at the failing input): `/q` lists the file `f` and then the empty directory
`d`; the user answers no for `f`, yes for `d`, and yes for `/q`.  The status returned for `d`
overwrites the Declined status left by `f`, so the prompt for `/q` itself is shown and its
rmdir is attempted (and fails, `f` being still there): the result is Failed.  With the
subdirectory listed before the declined file the result is Declined and `/q` is not
prompted for. -/
theorem C22_decline_overwritten :
    leon_rm_interactive (sampleCfg false) "/q".toList
        (sizedDir 0 1000 ENOTEMPTY
          (.cons "f".toList DT_REG oldFile (.cons "d".toList DT_DIR (oldDir .nil) .nil)))
        true false ⟨0, none, [], [], [false, true, true]⟩ =
        (kLeonRMStatusFailed,
          ⟨39, none, [Syscall.rmdir "/q/d".toList 0, Syscall.rmdir "/q".toList ENOTEMPTY],
            ["/q/f".toList, "/q/d".toList, "/q".toList], []⟩) ∧
      leon_rm_interactive (sampleCfg false) "/q".toList
        (sizedDir 0 1000 ENOTEMPTY
          (.cons "d".toList DT_DIR (oldDir .nil) (.cons "f".toList DT_REG oldFile .nil)))
        true false ⟨0, none, [], [], [true, false, true]⟩ =
        (kLeonRMStatusDeclined,
          ⟨0, none, [Syscall.rmdir "/q/d".toList 0],
            ["/q/d".toList, "/q/f".toList], [true]⟩) := by
  decide

/-! ### Exclusions and directories -/

/-- C23 (the code at the failing input): `main` runs with `-D -e /s/keep` on `/s`, which holds
the directory `keep` with one aged-out file `f`.  The check of `/s/keep` answers No, but for a
directory the first loop drops the answer: `/s/keep` is renamed, queued and removed with its
content.  Given as the argument itself, the same directory is not scanned at all; and an
excluded file keeps its directory in place. -/
theorem C23_excluded_directory_removed :
    (leon_checkPathFn
        { sampleCfg false with
          leon_fstest_stack :=
            leon_main_registerCallbacks false false (some ["/s/keep".toList]) none none }
        "/s/keep".toList (oldDir (.cons "f".toList DT_REG oldFile .nil)) ⟨0, 0, 0, 0, 0, 0⟩).1 =
        kLeonResultNo ∧
      leon_main_scanAndDrain
        { sampleCfg false with
          leon_fstest_stack :=
            leon_main_registerCallbacks false false (some ["/s/keep".toList]) none none }
        ⟨none, some ["/s/keep".toList], false, false, false⟩
        ⟨some "/s".toList,
          oldDir (.cons "keep".toList DT_DIR (oldDir (.cons "f".toList DT_REG oldFile .nil)) .nil),
          true, oldFile, fun _ => oldDir (.cons "f".toList DT_REG oldFile .nil)⟩
        "/s".toList leon_worklog_create [] =
        (⟨[], [⟨1, "/s/keep".toList, "/s/.leon201503041640-keep".toList⟩], true, none, SQLITE_OK, []⟩,
          [Syscall.rename "/s/keep".toList "/s/.leon201503041640-keep".toList 0,
            Syscall.unlink "/s/.leon201503041640-keep/f".toList 0,
            Syscall.rmdir "/s/.leon201503041640-keep".toList 0]) ∧
      leon_main_scanAndDrain
        { sampleCfg false with
          leon_fstest_stack :=
            leon_main_registerCallbacks false false (some ["/s/keep".toList]) none none }
        ⟨none, some ["/s/keep".toList], false, false, false⟩
        ⟨some "/s/keep".toList, oldDir (.cons "f".toList DT_REG oldFile .nil),
          true, oldFile, fun _ => oldDir .nil⟩
        "/s/keep".toList leon_worklog_create [] = (leon_worklog_create, []) ∧
      leon_main_scanAndDrain
        { sampleCfg false with
          leon_fstest_stack :=
            leon_main_registerCallbacks false false (some ["/s/keep/f".toList]) none none }
        ⟨none, some ["/s/keep/f".toList], false, false, false⟩
        ⟨some "/s".toList,
          oldDir (.cons "keep".toList DT_DIR (oldDir (.cons "f".toList DT_REG oldFile .nil)) .nil),
          true, oldFile, fun _ => oldDir .nil⟩
        "/s".toList leon_worklog_create [] = (leon_worklog_create, []) := by
  decide

/-- C24 (the code at the failing input): under the default root exclusion and `-E 2000`, `/s`
holds the directory `r` owned by uid 0 and the directory `u` owned by uid 2000, each with one
aged-out file of an ordinary user.  The check of either directory answers No, yet both are
renamed and queued.  A file owned by root or by uid 2000 keeps its directory in place. -/
theorem C24_excluded_owner_directory_renamed :
    (leon_checkPathFn
        { sampleCfg false with
          leon_fstest_stack := leon_main_registerCallbacks false false none (some [2000]) none }
        "/s/r".toList (sizedDir 0 0 0 (.cons "f".toList DT_REG oldFile .nil))
        ⟨0, 0, 0, 0, 0, 0⟩).1 = kLeonResultNo ∧
      (leon_checkPathFn
        { sampleCfg false with
          leon_fstest_stack := leon_main_registerCallbacks false false none (some [2000]) none }
        "/s/u".toList (sizedDir 0 2000 0 (.cons "f".toList DT_REG oldFile .nil))
        ⟨0, 0, 0, 0, 0, 0⟩).1 = kLeonResultNo ∧
      leon_cleanup_dir
        { sampleCfg false with
          leon_fstest_stack := leon_main_registerCallbacks false false none (some [2000]) none }
        "/s".toList
        (oldDir
          (.cons "r".toList DT_DIR (sizedDir 0 0 0 (.cons "f".toList DT_REG oldFile .nil))
            (.cons "u".toList DT_DIR (sizedDir 0 2000 0 (.cons "f".toList DT_REG oldFile .nil))
              .nil)))
        ⟨leon_worklog_create, []⟩ =
        (kLeonResultYes,
          ⟨⟨[⟨1, "/s/r".toList, "/s/.leon201503041640-r".toList⟩,
              ⟨2, "/s/u".toList, "/s/.leon201503041640-u".toList⟩], [], true, none, SQLITE_OK, []⟩,
            [Syscall.rename "/s/r".toList "/s/.leon201503041640-r".toList 0,
              Syscall.rename "/s/u".toList "/s/.leon201503041640-u".toList 0]⟩) ∧
      leon_cleanup_dir
        { sampleCfg false with
          leon_fstest_stack := leon_main_registerCallbacks false false none (some [2000]) none }
        "/s".toList
        (oldDir
          (.cons "r".toList DT_DIR
            (oldDir (.cons "f".toList DT_REG
              (.mk 0 ⟨S_IFREG, 0, 1000, 0, 5, 5⟩ ENOTDIR .nil 0 0 0) .nil))
            (.cons "u".toList DT_DIR
              (oldDir (.cons "f".toList DT_REG
                (.mk 0 ⟨S_IFREG, 2000, 1000, 0, 5, 5⟩ ENOTDIR .nil 0 0 0) .nil))
              .nil)))
        ⟨leon_worklog_create, []⟩ = (kLeonResultNo, ⟨leon_worklog_create, []⟩) := by
  decide

/-! ### Quarantine names -/

theorem isdigit_digitChar (m : Nat) (h : m < 10) : isdigit (Nat.digitChar m) = true := by
  interval_cases m <;> decide

theorem isdigit_ne_nul (c : Char) (h : isdigit c = true) : c ≠ Char.ofNat 0 := by
  intro hc
  subst hc
  exact absurd h (by decide)

theorem toDigitsCore_digits (fuel : Nat) :
    ∀ (n k : Nat) (ds : List Char), n < fuel → n < 10 ^ (k + 1) →
      ∃ pre, Nat.toDigitsCore 10 fuel n ds = pre ++ ds ∧ pre.length ≤ k + 1 ∧
        ∀ c ∈ pre, isdigit c = true := by
  induction fuel with
  | zero => intro n k ds h; omega
  | succ fuel ih =>
    intro n k ds hf hk
    have hd : isdigit (Nat.digitChar (n % 10)) = true :=
      isdigit_digitChar _ (Nat.mod_lt _ (by decide))
    by_cases h0 : n / 10 = 0
    · refine ⟨[Nat.digitChar (n % 10)], ?_, by simp, ?_⟩
      · simp [Nat.toDigitsCore, h0]
      · intro c hc
        rw [List.mem_singleton.1 hc]
        exact hd
    · cases k with
      | zero =>
        exfalso
        apply h0
        have : n < 10 := by simpa using hk
        omega
      | succ k =>
        have hn : n / 10 < 10 ^ (k + 1) := by
          rw [Nat.div_lt_iff_lt_mul (by decide)]
          calc n < 10 ^ (k + 1 + 1) := hk
            _ = 10 ^ (k + 1) * 10 := by rw [Nat.pow_succ]
        have hfuel : n / 10 < fuel := by omega
        obtain ⟨pre, he, hl, hall⟩ := ih (n / 10) k (Nat.digitChar (n % 10) :: ds) hfuel hn
        refine ⟨pre ++ [Nat.digitChar (n % 10)], ?_, ?_, ?_⟩
        · simp [Nat.toDigitsCore, h0, he]
        · simp only [List.length_append, List.length_singleton]
          omega
        · intro c hc
          rcases List.mem_append.1 hc with h | h
          · exact hall c h
          · rw [List.mem_singleton.1 h]
            exact hd

theorem printf_0d_digits (k : Nat) (v : Int) (h0 : 0 ≤ v) (hk : v < 10 ^ (k + 1)) :
    IsDigits (k + 1) (printf_0d (k + 1) v) := by
  have hv : ¬ v < 0 := by omega
  have hn : v.toNat < 10 ^ (k + 1) := by
    have : ((v.toNat : Nat) : Int) < ((10 ^ (k + 1) : Nat) : Int) := by
      rw [Int.toNat_of_nonneg h0]
      exact_mod_cast hk
    exact_mod_cast this
  obtain ⟨pre, he, hl, hall⟩ :=
    toDigitsCore_digits (v.toNat + 1) v.toNat k [] (Nat.lt_succ_self _) hn
  have he2 : Nat.toDigits 10 v.toNat = pre := by
    simpa [Nat.toDigits] using he
  unfold printf_0d IsDigits
  simp only [hv, if_false]
  rw [he2]
  constructor
  · simp only [List.length_append, List.length_replicate]
    omega
  · intro c hc
    rcases List.mem_append.1 hc with h | h
    · rw [(List.mem_replicate.1 h).2]
      decide
    · exact hall c h

theorem isDigits_append (m n : Nat) (a b : CString) (ha : IsDigits m a) (hb : IsDigits n b) :
    IsDigits (m + n) (a ++ b) := by
  refine ⟨by simp [ha.1, hb.1], ?_⟩
  intro c hc
  rcases List.mem_append.1 hc with h | h
  · exact ha.2 c h
  · exact hb.2 c h

theorem mv_dir_digits_run (x : Char) (rest : CString) :
    ∀ (ds : CString) (c : Nat), (∀ ch ∈ ds, isdigit ch = true) → c + ds.length = 12 →
      leon_mv_dir_digits (ds ++ x :: rest) c = (x :: rest, 12) := by
  intro ds
  induction ds with
  | nil =>
    intro c _ hc
    have hc12 : c = 12 := by simpa using hc
    subst hc12
    simp [leon_mv_dir_digits]
  | cons d ds ih =>
    intro c hall hc
    have hd : isdigit d = true := hall d (List.mem_cons_self _ _)
    have hnul : d ≠ Char.ofNat 0 := isdigit_ne_nul d hd
    have hlen : c < 12 := by
      simp only [List.length_cons] at hc
      omega
    have hrec := ih (c + 1) (fun ch h => hall ch (List.mem_cons_of_mem _ h))
      (by simp only [List.length_cons] at hc; omega)
    simp only [List.cons_append, leon_mv_dir_digits]
    simp only [List.cons_append] at hrec
    simp [hnul, hlen, hd, hrec]

theorem mv_dir_digits_split :
    ∀ (s : CString) (c : Nat), ∃ ds, s = ds ++ (leon_mv_dir_digits s c).1 ∧
      (leon_mv_dir_digits s c).2 = c + ds.length ∧ ∀ ch ∈ ds, isdigit ch = true := by
  intro s
  induction s with
  | nil => intro c; exact ⟨[], by simp [leon_mv_dir_digits]⟩
  | cons d s ih =>
    intro c
    by_cases hcond : (d ≠ Char.ofNat 0 && decide (c < 12) && isdigit d) = true
    · obtain ⟨ds, h1, h2, h3⟩ := ih (c + 1)
      have hd : isdigit d = true := by
        simp only [Bool.and_eq_true] at hcond
        exact hcond.2
      refine ⟨d :: ds, ?_, ?_, ?_⟩
      · simp only [leon_mv_dir_digits, hcond, if_true, List.cons_append]
        rw [← h1]
      · simp only [leon_mv_dir_digits, hcond, if_true, List.length_cons]
        omega
      · intro ch hch
        rcases List.mem_cons.1 hch with h | h
        · rw [h]; exact hd
        · exact h3 ch h
    · exact ⟨[], by simp only [leon_mv_dir_digits, hcond]; simp⟩

theorem strncmp_zero_length (a : CString) (hnz : ∀ c ∈ a, c.toNat ≠ 0) :
    ∀ t : CString, strncmp t a a.length = 0 → a.length ≤ t.length := by
  induction a with
  | nil => intro t _; simp
  | cons b bs ih =>
    intro t h
    cases t with
    | nil =>
      exfalso
      have hb : b.toNat ≠ 0 := hnz b (List.mem_cons_self _ _)
      simp only [List.length_cons, strncmp] at h
      omega
    | cons c cs =>
      by_cases hcb : c = b
      · subst hcb
        simp only [List.length_cons, strncmp, if_true] at h
        have := ih (fun x hx => hnz x (List.mem_cons_of_mem _ hx)) cs h
        simp only [List.length_cons]
        omega
      · exfalso
        simp only [List.length_cons, strncmp, hcb, if_false] at h
        apply hcb
        apply Char.ext
        apply UInt32.ext
        have : c.toNat = b.toNat := by omega
        exact this

theorem strncmp_leon_iff (d : CString) :
    strncmp d ".leon".toList 5 = 0 ↔ ∃ t, d = ".leon".toList ++ t := by
  have key : ∀ hlen : (".leon".toList).length ≤ d.length,
      (strncmp d ".leon".toList 5 = 0 ↔ ".leon".toList <+: d) :=
    fun hlen => strncmp_eq_zero_iff d ".leon".toList hlen
  constructor
  · intro h
    have hlen := strncmp_zero_length ".leon".toList (by decide) d h
    obtain ⟨t, ht⟩ := (key hlen).1 h
    exact ⟨t, ht.symm⟩
  · rintro ⟨t, rfl⟩
    exact (key (by simp)).2 ⟨t, rfl⟩

theorem mv_dir_flagged_iff (d : CString) :
    leon_mv_dir_flagged d = true ↔
      ∃ ds rest, d = ".leon".toList ++ ds ++ '-' :: rest ∧ IsDigits 12 ds := by
  constructor
  · intro h
    unfold leon_mv_dir_flagged at h
    by_cases hs : strncmp d ".leon".toList 5 = 0
    · simp only [hs, if_true, Bool.and_eq_true, beq_iff_eq] at h
      obtain ⟨t, rfl⟩ := (strncmp_leon_iff d).1 hs
      have hdrop : (".leon".toList ++ t).drop 5 = t := rfl
      rw [hdrop] at h
      obtain ⟨ds, h1, h2, h3⟩ := mv_dir_digits_split t 0
      rw [h.1] at h2
      cases hr : (leon_mv_dir_digits t 0).1 with
      | nil =>
        rw [hr] at h
        exact absurd h.2 (by decide)
      | cons x rest =>
        rw [hr] at h h1
        have hx : x = '-' := by simpa [charAt] using h.2
        subst hx
        refine ⟨ds, rest, ?_, ?_, h3⟩
        · rw [List.append_assoc, ← h1]
        · omega
    · rw [if_neg hs] at h
      exact absurd h (by decide)
  · rintro ⟨ds, rest, rfl, hlen, hall⟩
    unfold leon_mv_dir_flagged
    have hs : strncmp (".leon".toList ++ ds ++ '-' :: rest) ".leon".toList 5 = 0 :=
      (strncmp_leon_iff _).2 ⟨ds ++ '-' :: rest, by simp⟩
    have hdrop : (".leon".toList ++ ds ++ '-' :: rest).drop 5 = ds ++ '-' :: rest := by
      rw [List.append_assoc]
      rfl
    rw [if_pos hs, hdrop, mv_dir_digits_run '-' rest ds 0 hall (by omega)]
    rfl

theorem mv_dir_format_digits (now_s : tm) (hr : now_s.InRange)
    (hy : 0 ≤ 1900 + now_s.tm_year ∧ 1900 + now_s.tm_year ≤ 9999) :
    ∃ ds, __leon_mv_dir_format now_s = ".leon".toList ++ ds ++ ['-'] ∧ IsDigits 12 ds := by
  obtain ⟨⟨m0, m1⟩, ⟨d0, d1⟩, ⟨h0, h1⟩, ⟨n0, n1⟩⟩ := hr
  have e1 := printf_0d_digits 3 (1900 + now_s.tm_year) hy.1 (by norm_num; omega)
  have e2 := printf_0d_digits 1 (1 + now_s.tm_mon) (by omega) (by norm_num; omega)
  have e3 := printf_0d_digits 1 now_s.tm_mday (by omega) (by norm_num; omega)
  have e4 := printf_0d_digits 1 now_s.tm_hour (by omega) (by norm_num; omega)
  have e5 := printf_0d_digits 1 now_s.tm_min (by omega) (by norm_num; omega)
  refine ⟨_, ?_, isDigits_append _ _ _ _ (isDigits_append _ _ _ _
    (isDigits_append _ _ _ _ (isDigits_append _ _ _ _ e1 e2) e3) e4) e5⟩
  simp [__leon_mv_dir_format, List.append_assoc]

/-- C25: for a run whose local start time has a year from 0 to 9999 (and month, day, hour and
minute as `localtime_r` gives them) and every directory name `d`, the basename that
`leon_mv_dir` renames `d` to, the run's `.leonYYYYMMDDhhmm-` followed by `d`, passes the
flagged-by-previous-run test, and `leon_mv_dir` on a directory of that name, in any run, returns
0 and leaves the worklog and the filesystem as they are. -/
theorem C25_quarantine_name_recognised (now_s : tm) (hr : now_s.InRange)
    (hy : 0 ≤ 1900 + now_s.tm_year ∧ 1900 + now_s.tm_year ≤ 9999) (d : CString) :
    leon_mv_dir_flagged (__leon_mv_dir_format now_s ++ d) = true ∧
      (∀ (cfg : Config) (basePath origDirPath : CString) (renameErrno : Nat) (s : ScanState),
        leon_mv_dir cfg basePath origDirPath (__leon_mv_dir_format now_s ++ d) renameErrno s =
          (0, s)) ∧
      (∀ (cfg : Config) (basePath origDirPath : CString) (renameErrno : Nat) (s : ScanState),
        cfg.now_s = now_s → leon_mv_dir_flagged d = false → cfg.leon_shouldDryRun = false →
        (leon_mv_dir cfg basePath origDirPath d renameErrno s).2.trace =
          s.trace ++ [Syscall.rename origDirPath
            (basePath ++ '/' :: (__leon_mv_dir_format now_s ++ d)) renameErrno]) := by
  obtain ⟨ds, hfmt, hds⟩ := mv_dir_format_digits now_s hr hy
  have hflag : leon_mv_dir_flagged (__leon_mv_dir_format now_s ++ d) = true := by
    rw [mv_dir_flagged_iff]
    exact ⟨ds, d, by rw [hfmt]; simp, hds⟩
  refine ⟨hflag, ?_, ?_⟩
  · intro cfg basePath origDirPath renameErrno s
    simp only [leon_mv_dir, hflag, if_true]
  · intro cfg basePath origDirPath renameErrno s hnow hd hdry
    have hlen : (__leon_mv_dir_format now_s ++ d).length > 0 := by
      rw [hfmt]
      simp
    simp only [leon_mv_dir, hd, hdry, hnow, leon_path_pushFormat, hlen, if_true,
      Bool.false_eq_true, if_false, Bool.not_false]
    split <;> rfl

theorem C25_quarantine_name_recognised_witness :
    (sampleCfg false).now_s.InRange ∧
      leon_mv_dir_flagged (__leon_mv_dir_format (sampleCfg false).now_s ++ "keep".toList) =
        true :=
  have hr : (sampleCfg false).now_s.InRange := by
    unfold tm.InRange
    decide
  ⟨hr, (C25_quarantine_name_recognised (sampleCfg false).now_s hr (by decide)
    "keep".toList).1⟩

/-- C26: `leon_mv_dir` takes a directory name for flagged by a previous run exactly when the name
is `.leon`, twelve decimal digits, `-`, and anything after that.  For such a name it returns 0
with the worklog and the filesystem untouched.  For every other name it goes on: in a dry run
it records the directory in the worklog and returns 0; otherwise it calls rename, and records
the directory and returns 0 when the rename succeeded, or returns the failure of the rename
without recording. -/
theorem C26_flagged_exactly (cfg : Config) (basePath origDirPath dirName : CString)
    (renameErrno : Nat) (s : ScanState) :
    (leon_mv_dir_flagged dirName = true ↔
        ∃ ds rest, dirName = ".leon".toList ++ ds ++ '-' :: rest ∧ IsDigits 12 ds) ∧
      (leon_mv_dir_flagged dirName = true →
        leon_mv_dir cfg basePath origDirPath dirName renameErrno s = (0, s)) ∧
      (leon_mv_dir_flagged dirName = false → cfg.leon_shouldDryRun = true →
        leon_mv_dir cfg basePath origDirPath dirName renameErrno s =
          (0, ⟨(leon_worklog_addPath s.worklog origDirPath
            (leon_path_pushFormat basePath (__leon_mv_dir_format cfg.now_s ++ dirName))).2,
            s.trace⟩)) ∧
      (leon_mv_dir_flagged dirName = false → cfg.leon_shouldDryRun = false → renameErrno = 0 →
        leon_mv_dir cfg basePath origDirPath dirName renameErrno s =
          (0, ⟨(leon_worklog_addPath s.worklog origDirPath
            (leon_path_pushFormat basePath (__leon_mv_dir_format cfg.now_s ++ dirName))).2,
            s.trace ++ [Syscall.rename origDirPath
              (leon_path_pushFormat basePath (__leon_mv_dir_format cfg.now_s ++ dirName)) 0]⟩)) ∧
      (leon_mv_dir_flagged dirName = false → cfg.leon_shouldDryRun = false → renameErrno ≠ 0 →
        leon_mv_dir cfg basePath origDirPath dirName renameErrno s =
          (-1, ⟨s.worklog,
            s.trace ++ [Syscall.rename origDirPath
              (leon_path_pushFormat basePath (__leon_mv_dir_format cfg.now_s ++ dirName))
              renameErrno]⟩)) := by
  refine ⟨mv_dir_flagged_iff dirName, ?_, ?_, ?_, ?_⟩
  · intro h
    simp only [leon_mv_dir, h, if_true]
  · intro h hdry
    simp [leon_mv_dir, h, hdry]
  · intro h hdry he
    simp [leon_mv_dir, h, hdry, he]
  · intro h hdry he
    simp [leon_mv_dir, h, hdry, he]

theorem C26_flagged_exactly_witness :
    leon_mv_dir_flagged ".leon201503041640-keep".toList = true ∧
      leon_mv_dir_flagged ".leon2015030416401-keep".toList = false ∧
      leon_mv_dir (sampleCfg false) "/s".toList "/s/.leon201503041640-keep".toList
        ".leon201503041640-keep".toList 0 ⟨leon_worklog_create, []⟩ =
        (0, ⟨leon_worklog_create, []⟩) :=
  ⟨by decide, by decide,
    (C26_flagged_exactly (sampleCfg false) "/s".toList "/s/.leon201503041640-keep".toList
      ".leon201503041640-keep".toList 0 ⟨leon_worklog_create, []⟩).2.1 (by decide)⟩

/-! ### Floating point: rounding keeps the order -/

/-! ### Floating point: rounding keeps the order -/

theorem log2Fuel_bounds :
    ∀ (fuel n : Nat), n ≤ fuel → 0 < n →
      2 ^ log2Fuel fuel n ≤ n ∧ n < 2 ^ (log2Fuel fuel n + 1)
  | 0, n, h, h0 => by omega
  | fuel + 1, n, h, h0 => by
    simp only [log2Fuel]
    split
    · rename_i h2
      have ih := log2Fuel_bounds fuel (n / 2) (by omega) (by omega)
      constructor
      · calc 2 ^ (log2Fuel fuel (n / 2) + 1) = 2 ^ log2Fuel fuel (n / 2) * 2 := by
              rw [Nat.pow_succ]
          _ ≤ n / 2 * 2 := Nat.mul_le_mul_right _ ih.1
          _ ≤ n := Nat.div_mul_le_self n 2
      · have h3 : n / 2 + 1 ≤ 2 ^ (log2Fuel fuel (n / 2) + 1) := ih.2
        calc n < (n / 2 + 1) * 2 := by omega
          _ ≤ 2 ^ (log2Fuel fuel (n / 2) + 1) * 2 := Nat.mul_le_mul_right _ h3
          _ = 2 ^ (log2Fuel fuel (n / 2) + 1 + 1) := (Nat.pow_succ _ _).symm
    · constructor
      · simp
        omega
      · simp
        omega

theorem zpow_toNat (k : Int) (hk : 0 ≤ k) : ((2 ^ k.toNat : Nat) : ℚ) = (2 : ℚ) ^ k := by
  rw [Nat.cast_pow, Nat.cast_ofNat, ← zpow_natCast, Int.toNat_of_nonneg hk]

theorem two_zpow_pos (k : Int) : (0 : ℚ) < (2 : ℚ) ^ k := zpow_pos (by norm_num) k

theorem ratioLog2_le (n d : Nat) (hn : 0 < n) (hd : 0 < d) :
    (2 : ℚ) ^ ratioLog2 n d ≤ (n : ℚ) / d := by
  have hdq : (0 : ℚ) < d := by exact_mod_cast hd
  have bn := log2Fuel_bounds n n (le_refl _) hn
  have bd := log2Fuel_bounds d d (le_refl _) hd
  have hlow : (2 : ℚ) ^ ((log2Fuel n n : Int) - (log2Fuel d d : Int) - 1) ≤ (n : ℚ) / d := by
    rw [le_div_iff₀ hdq]
    have h1 : ((2 ^ log2Fuel n n : Nat) : ℚ) ≤ n := by exact_mod_cast bn.1
    have h2 : (d : ℚ) ≤ ((2 ^ (log2Fuel d d + 1) : Nat) : ℚ) := by exact_mod_cast le_of_lt bd.2
    rw [Nat.cast_pow, Nat.cast_ofNat, ← zpow_natCast] at h1 h2
    calc (2 : ℚ) ^ ((log2Fuel n n : Int) - (log2Fuel d d : Int) - 1) * d
        ≤ (2 : ℚ) ^ ((log2Fuel n n : Int) - (log2Fuel d d : Int) - 1) *
            (2 : ℚ) ^ ((log2Fuel d d + 1 : Nat) : Int) :=
          mul_le_mul_of_nonneg_left h2 (le_of_lt (two_zpow_pos _))
      _ = (2 : ℚ) ^ (log2Fuel n n : Int) := by
          rw [← zpow_add₀ (by norm_num : (2 : ℚ) ≠ 0)]
          congr 1
          push_cast
          ring
      _ ≤ n := h1
  unfold ratioLog2
  simp only
  split
  · rename_i hk
    split
    · rename_i hc
      rw [le_div_iff₀ hdq, ← zpow_toNat _ hk]
      have : ((d * 2 ^ ((log2Fuel n n : Int) - (log2Fuel d d : Int)).toNat : Nat) : ℚ) ≤ n := by
        exact_mod_cast hc
      rw [Nat.cast_mul] at this
      linarith [this]
    · exact hlow
  · rename_i hk
    split
    · rename_i hc
      have hk2 : 0 ≤ -((log2Fuel n n : Int) - (log2Fuel d d : Int)) := by omega
      have h1 : ((d : Nat) : ℚ) ≤
          ((n * 2 ^ (-((log2Fuel n n : Int) - (log2Fuel d d : Int))).toNat : Nat) : ℚ) := by
        exact_mod_cast hc
      rw [Nat.cast_mul, zpow_toNat _ hk2, zpow_neg] at h1
      rw [le_div_iff₀ hdq]
      have hp := two_zpow_pos ((log2Fuel n n : Int) - (log2Fuel d d : Int))
      calc (2 : ℚ) ^ ((log2Fuel n n : Int) - (log2Fuel d d : Int)) * d
          ≤ (2 : ℚ) ^ ((log2Fuel n n : Int) - (log2Fuel d d : Int)) *
              (n * ((2 : ℚ) ^ ((log2Fuel n n : Int) - (log2Fuel d d : Int)))⁻¹) :=
            mul_le_mul_of_nonneg_left h1 (le_of_lt hp)
        _ = n := by field_simp
    · exact hlow

theorem roundNearestEven_ge (n d K : Nat) (h : K * d ≤ n) (hd : 0 < d) :
    K ≤ roundNearestEven n d := by
  have hq : K ≤ n / d := (Nat.le_div_iff_mul_le hd).2 h
  unfold roundNearestEven
  simp only
  split
  · exact hq
  · split
    · omega
    · split <;> omega

theorem roundNearestEven_le (n d K : Nat) (h : n ≤ K * d) (hd : 0 < d) :
    roundNearestEven n d ≤ K := by
  have hdm := Nat.div_add_mod n d
  have hml := Nat.mod_lt n hd
  have hq : n / d ≤ K := by
    by_contra hc
    have h1 : K + 1 ≤ n / d := by omega
    have h2 : (K + 1) * d ≤ n / d * d := Nat.mul_le_mul_right _ h1
    have h3 : n / d * d ≤ n := Nat.div_mul_le_self n d
    have h4 : (K + 1) * d = K * d + d := by ring
    omega
  by_cases hr : n % d = 0
  · unfold roundNearestEven
    simp only [hr, Nat.mul_zero, hd, if_true]
    exact hq
  · have hlt : n / d < K := by
      rcases Nat.lt_or_ge (n / d) K with h1 | h1
      · exact h1
      · exfalso
        have h2 : K = n / d := le_antisymm h1 hq
        rw [h2] at h
        have h3 : d * (n / d) = n / d * d := Nat.mul_comm _ _
        omega
    unfold roundNearestEven
    simp only
    split
    · omega
    · split
      · omega
      · split <;> omega

theorem zpow_sub_mul (a b : Int) : (2 : ℚ) ^ (a - b) * (2 : ℚ) ^ b = (2 : ℚ) ^ a := by
  rw [← zpow_add₀ (by norm_num : (2 : ℚ) ≠ 0)]
  congr 1
  ring

/-- The rounded significand at the unit `2 ^ u` lies between the integers that bound
`n / d` at that unit. -/
theorem scaled_round_le (n d K : Nat) (u : Int) (hd : 0 < d)
    (h : (n : ℚ) / d ≤ (K : ℚ) * (2 : ℚ) ^ u) :
    (if 0 ≤ u then roundNearestEven n (d * 2 ^ u.toNat)
      else roundNearestEven (n * 2 ^ (-u).toNat) d) ≤ K := by
  have hdq : (0 : ℚ) < d := by exact_mod_cast hd
  rw [div_le_iff₀ hdq] at h
  split
  · rename_i hu
    refine roundNearestEven_le _ _ K ?_ (Nat.mul_pos hd (Nat.pow_pos (by norm_num)))
    have : (n : ℚ) ≤ ((K * (d * 2 ^ u.toNat) : Nat) : ℚ) := by
      rw [Nat.cast_mul, Nat.cast_mul, zpow_toNat u hu]
      linarith [h]
    exact_mod_cast this
  · rename_i hu
    have hu2 : 0 ≤ -u := by omega
    refine roundNearestEven_le _ _ K ?_ hd
    have hp := two_zpow_pos (-u)
    have : ((n * 2 ^ (-u).toNat : Nat) : ℚ) ≤ ((K * d : Nat) : ℚ) := by
      rw [Nat.cast_mul, Nat.cast_mul, zpow_toNat (-u) hu2]
      calc (n : ℚ) * (2 : ℚ) ^ (-u) ≤ ((K : ℚ) * (2 : ℚ) ^ u * d) * (2 : ℚ) ^ (-u) :=
            mul_le_mul_of_nonneg_right h (le_of_lt hp)
        _ = (K : ℚ) * d * ((2 : ℚ) ^ u * (2 : ℚ) ^ (-u)) := by ring
        _ = (K : ℚ) * d := by
            rw [← zpow_add₀ (by norm_num : (2 : ℚ) ≠ 0)]
            simp
    exact_mod_cast this

theorem scaled_round_ge (n d K : Nat) (u : Int) (hd : 0 < d)
    (h : (K : ℚ) * (2 : ℚ) ^ u ≤ (n : ℚ) / d) :
    K ≤ (if 0 ≤ u then roundNearestEven n (d * 2 ^ u.toNat)
      else roundNearestEven (n * 2 ^ (-u).toNat) d) := by
  have hdq : (0 : ℚ) < d := by exact_mod_cast hd
  rw [le_div_iff₀ hdq] at h
  split
  · rename_i hu
    refine roundNearestEven_ge _ _ K ?_ (Nat.mul_pos hd (Nat.pow_pos (by norm_num)))
    have : ((K * (d * 2 ^ u.toNat) : Nat) : ℚ) ≤ (n : ℚ) := by
      rw [Nat.cast_mul, Nat.cast_mul, zpow_toNat u hu]
      linarith [h]
    exact_mod_cast this
  · rename_i hu
    have hu2 : 0 ≤ -u := by omega
    refine roundNearestEven_ge _ _ K ?_ hd
    have hp := two_zpow_pos (-u)
    have : ((K * d : Nat) : ℚ) ≤ ((n * 2 ^ (-u).toNat : Nat) : ℚ) := by
      rw [Nat.cast_mul, Nat.cast_mul, zpow_toNat (-u) hu2]
      calc (K : ℚ) * d = (K : ℚ) * d * ((2 : ℚ) ^ u * (2 : ℚ) ^ (-u)) := by
            rw [← zpow_add₀ (by norm_num : (2 : ℚ) ≠ 0)]
            simp
        _ = ((K : ℚ) * (2 : ℚ) ^ u * d) * (2 : ℚ) ^ (-u) := by ring
        _ ≤ (n : ℚ) * (2 : ℚ) ^ (-u) := mul_le_mul_of_nonneg_right h (le_of_lt hp)
    exact_mod_cast this

theorem fpRound_of_pos (prec : Nat) (emin : Int) (n : Int) (d : Nat) (hn : 0 < n) :
    fpRound prec emin n d =
      ⟨((if 0 ≤ max (ratioLog2 n.natAbs d - ((prec : Int) - 1)) emin then
          roundNearestEven n.natAbs
            (d * 2 ^ (max (ratioLog2 n.natAbs d - ((prec : Int) - 1)) emin).toNat)
        else
          roundNearestEven
            (n.natAbs * 2 ^ (-(max (ratioLog2 n.natAbs d - ((prec : Int) - 1)) emin)).toNat)
            d : Nat) : Int),
        max (ratioLog2 n.natAbs d - ((prec : Int) - 1)) emin⟩ := by
  unfold fpRound
  have h0 : n ≠ 0 := by omega
  have h1 : ¬ n < 0 := by omega
  simp only [h0, h1, if_false]

theorem fpRound_zero (prec : Nat) (emin : Int) (d : Nat) : fpRound prec emin 0 d = ⟨0, 0⟩ := by
  unfold fpRound
  simp

theorem fpRound_nonneg (prec : Nat) (emin : Int) (n : Int) (d : Nat) (hn : 0 ≤ n) :
    0 ≤ (fpRound prec emin n d).m := by
  rcases lt_or_eq_of_le hn with h | h
  · rw [fpRound_of_pos prec emin n d h]
    exact Int.ofNat_nonneg _
  · rw [← h, fpRound_zero]

theorem toRat_nonneg (x : Fp) (h : 0 ≤ x.m) : 0 ≤ x.toRat := by
  unfold Fp.toRat
  exact mul_nonneg (by exact_mod_cast h) (le_of_lt (two_zpow_pos _))

theorem toRat_le_pow (prec : Nat) (R : Fp) (hR : R.m.natAbs ≤ 2 ^ prec) :
    R.toRat ≤ (2 : ℚ) ^ ((prec : Int) + R.e) := by
  unfold Fp.toRat
  have h1 : (R.m : ℚ) ≤ ((2 ^ prec : Nat) : ℚ) := by
    have : R.m ≤ ((2 ^ prec : Nat) : Int) := by
      have := Int.le_natAbs (a := R.m)
      omega
    exact_mod_cast this
  rw [Nat.cast_pow, Nat.cast_ofNat, ← zpow_natCast] at h1
  rw [zpow_add₀ (by norm_num : (2 : ℚ) ≠ 0)]
  exact mul_le_mul_of_nonneg_right h1 (le_of_lt (two_zpow_pos _))

/-- Rounding does not pass a value of the type from below: what is at most `R` rounds to at
most `R`. -/
theorem fpRound_le (prec : Nat) (emin : Int) (n : Int) (d : Nat) (R : Fp) (hp : 1 ≤ prec)
    (hn : 0 ≤ n) (hd : 0 < d) (hR : R.m.natAbs ≤ 2 ^ prec) (hRe : emin ≤ R.e)
    (h : (n : ℚ) / d ≤ R.toRat) : (fpRound prec emin n d).toRat ≤ R.toRat := by
  rcases lt_or_eq_of_le hn with hpos | hz
  · have hdq : (0 : ℚ) < d := by exact_mod_cast hd
    obtain ⟨a, rfl⟩ : ∃ a : Nat, n = (a : Int) := ⟨n.toNat, by omega⟩
    have ha : 0 < a := by exact_mod_cast hpos
    have hx : (0 : ℚ) < (a : ℚ) / d := div_pos (by exact_mod_cast ha) hdq
    have hlog := ratioLog2_le a d ha hd
    rw [fpRound_of_pos prec emin _ d hpos]
    simp only [Int.natAbs_ofNat, Int.cast_natCast] at h ⊢
    generalize hu : max (ratioLog2 a d - ((prec : Int) - 1)) emin = u
    have hRpos : 0 < R.m := by
      by_contra hc
      have : R.toRat ≤ 0 := by
        unfold Fp.toRat
        exact mul_nonpos_of_nonpos_of_nonneg (by exact_mod_cast (not_lt.1 hc))
          (le_of_lt (two_zpow_pos _))
      linarith
    show ((_ : Nat) : ℚ) * (2 : ℚ) ^ u ≤ R.toRat
    simp only [Fp.toRat, Int.cast_natCast]
    by_cases hcase : u ≤ R.e
    · have hk : (((R.m.toNat * 2 ^ (R.e - u).toNat : Nat) : ℚ)) * (2 : ℚ) ^ u =
          (R.m : ℚ) * (2 : ℚ) ^ R.e := by
        rw [Nat.cast_mul, zpow_toNat _ (by omega), mul_assoc, zpow_sub_mul]
        congr 1
        have : ((R.m.toNat : Int) : ℚ) = (R.m : ℚ) := by
          rw [Int.toNat_of_nonneg (le_of_lt hRpos)]
        exact_mod_cast this
      have := scaled_round_le a d (R.m.toNat * 2 ^ (R.e - u).toNat) u hd
        (by rw [hk]; exact h)
      calc ((_ : Nat) : ℚ) * (2 : ℚ) ^ u
          ≤ ((R.m.toNat * 2 ^ (R.e - u).toNat : Nat) : ℚ) * (2 : ℚ) ^ u :=
            mul_le_mul_of_nonneg_right (by exact_mod_cast this) (le_of_lt (two_zpow_pos _))
        _ = (R.m : ℚ) * (2 : ℚ) ^ R.e := hk
    · have hue : u = ratioLog2 a d - ((prec : Int) - 1) := by
        rcases max_choice (ratioLog2 a d - ((prec : Int) - 1)) emin with hm | hm
        · rw [← hu, hm]
        · rw [hm] at hu
          omega
      have hk : (((2 ^ (prec - 1) : Nat) : ℚ)) * (2 : ℚ) ^ u = (2 : ℚ) ^ ratioLog2 a d := by
        rw [Nat.cast_pow, Nat.cast_ofNat, ← zpow_natCast,
          ← zpow_add₀ (by norm_num : (2 : ℚ) ≠ 0)]
        congr 1
        rw [hue]
        have : ((prec - 1 : Nat) : Int) = (prec : Int) - 1 := by omega
        rw [this]
        ring
      have hRle : (R.m : ℚ) * (2 : ℚ) ^ R.e ≤ (2 : ℚ) ^ ratioLog2 a d := by
        have h1 := toRat_le_pow prec R hR
        unfold Fp.toRat at h1
        refine le_trans h1 (zpow_le_zpow_right₀ (by norm_num) ?_)
        omega
      have := scaled_round_le a d (2 ^ (prec - 1)) u hd
        (by rw [hk]; exact le_trans h hRle)
      calc ((_ : Nat) : ℚ) * (2 : ℚ) ^ u
          ≤ ((2 ^ (prec - 1) : Nat) : ℚ) * (2 : ℚ) ^ u :=
            mul_le_mul_of_nonneg_right (by exact_mod_cast this) (le_of_lt (two_zpow_pos _))
        _ = (2 : ℚ) ^ ratioLog2 a d := hk
        _ ≤ (a : ℚ) / d := hlog
        _ ≤ (R.m : ℚ) * (2 : ℚ) ^ R.e := h
  · rw [← hz, fpRound_zero]
    rw [← hz] at h
    simp only [Int.cast_zero, zero_div] at h
    simpa [Fp.toRat] using h

/-- Rounding does not pass a value of the type from above: what is at least `R` rounds to at
least `R`. -/
theorem fpRound_ge (prec : Nat) (emin : Int) (n : Int) (d : Nat) (R : Fp) (hp : 1 ≤ prec)
    (hn : 0 ≤ n) (hd : 0 < d) (hR : R.m.natAbs ≤ 2 ^ prec) (hRe : emin ≤ R.e)
    (h : R.toRat ≤ (n : ℚ) / d) : R.toRat ≤ (fpRound prec emin n d).toRat := by
  rcases lt_or_eq_of_le hn with hpos | hz
  · have hdq : (0 : ℚ) < d := by exact_mod_cast hd
    by_cases hRpos : 0 < R.m
    · obtain ⟨a, rfl⟩ : ∃ a : Nat, n = (a : Int) := ⟨n.toNat, by omega⟩
      have ha : 0 < a := by exact_mod_cast hpos
      have hlog := ratioLog2_le a d ha hd
      rw [fpRound_of_pos prec emin _ d hpos]
      simp only [Int.natAbs_ofNat, Int.cast_natCast] at h ⊢
      generalize hu : max (ratioLog2 a d - ((prec : Int) - 1)) emin = u
      show R.toRat ≤ ((_ : Nat) : ℚ) * (2 : ℚ) ^ u
      simp only [Fp.toRat, Int.cast_natCast] at h ⊢
      by_cases hcase : u ≤ R.e
      · have hk : (((R.m.toNat * 2 ^ (R.e - u).toNat : Nat) : ℚ)) * (2 : ℚ) ^ u =
            (R.m : ℚ) * (2 : ℚ) ^ R.e := by
          rw [Nat.cast_mul, zpow_toNat _ (by omega), mul_assoc, zpow_sub_mul]
          congr 1
          have : ((R.m.toNat : Int) : ℚ) = (R.m : ℚ) := by
            rw [Int.toNat_of_nonneg (le_of_lt hRpos)]
          exact_mod_cast this
        have := scaled_round_ge a d (R.m.toNat * 2 ^ (R.e - u).toNat) u hd
          (by rw [hk]; exact h)
        calc (R.m : ℚ) * (2 : ℚ) ^ R.e
            = ((R.m.toNat * 2 ^ (R.e - u).toNat : Nat) : ℚ) * (2 : ℚ) ^ u := hk.symm
          _ ≤ ((_ : Nat) : ℚ) * (2 : ℚ) ^ u :=
            mul_le_mul_of_nonneg_right (by exact_mod_cast this) (le_of_lt (two_zpow_pos _))
      · have hue : u = ratioLog2 a d - ((prec : Int) - 1) := by
          rcases max_choice (ratioLog2 a d - ((prec : Int) - 1)) emin with hm | hm
          · rw [← hu, hm]
          · rw [hm] at hu
            omega
        have hk : (((2 ^ (prec - 1) : Nat) : ℚ)) * (2 : ℚ) ^ u = (2 : ℚ) ^ ratioLog2 a d := by
          rw [Nat.cast_pow, Nat.cast_ofNat, ← zpow_natCast,
            ← zpow_add₀ (by norm_num : (2 : ℚ) ≠ 0)]
          congr 1
          rw [hue]
          have : ((prec - 1 : Nat) : Int) = (prec : Int) - 1 := by omega
          rw [this]
          ring
        have hRle : (R.m : ℚ) * (2 : ℚ) ^ R.e ≤ (2 : ℚ) ^ ratioLog2 a d := by
          have h1 := toRat_le_pow prec R hR
          unfold Fp.toRat at h1
          refine le_trans h1 (zpow_le_zpow_right₀ (by norm_num) ?_)
          omega
        have := scaled_round_ge a d (2 ^ (prec - 1)) u hd (by rw [hk]; exact hlog)
        calc (R.m : ℚ) * (2 : ℚ) ^ R.e ≤ (2 : ℚ) ^ ratioLog2 a d := hRle
          _ = ((2 ^ (prec - 1) : Nat) : ℚ) * (2 : ℚ) ^ u := hk.symm
          _ ≤ ((_ : Nat) : ℚ) * (2 : ℚ) ^ u :=
            mul_le_mul_of_nonneg_right (by exact_mod_cast this) (le_of_lt (two_zpow_pos _))
    · have h1 : R.toRat ≤ 0 := by
        unfold Fp.toRat
        exact mul_nonpos_of_nonpos_of_nonneg (by exact_mod_cast (not_lt.1 hRpos))
          (le_of_lt (two_zpow_pos _))
      exact le_trans h1 (toRat_nonneg _ (fpRound_nonneg prec emin n d hn))
  · rw [← hz, fpRound_zero]
    rw [← hz] at h
    simp only [Int.cast_zero, zero_div] at h
    simpa [Fp.toRat] using h

theorem toRat_scaled (x : Fp) (e : Int) (h : e ≤ x.e) :
    x.toRat = ((x.m * 2 ^ (x.e - e).toNat : Int) : ℚ) * (2 : ℚ) ^ e := by
  unfold Fp.toRat
  rw [Int.cast_mul, Int.cast_pow, Int.cast_ofNat, ← zpow_natCast,
    Int.toNat_of_nonneg (by omega), mul_assoc, zpow_sub_mul]

theorem Fp.lt_iff (a b : Fp) : Fp.lt a b = true ↔ a.toRat < b.toRat := by
  unfold Fp.lt
  rw [decide_eq_true_iff, toRat_scaled a (min a.e b.e) (min_le_left _ _),
    toRat_scaled b (min a.e b.e) (min_le_right _ _),
    mul_lt_mul_right (two_zpow_pos _)]
  exact Int.cast_lt.symm

theorem Fp.le_iff (a b : Fp) : Fp.le a b = true ↔ a.toRat ≤ b.toRat := by
  unfold Fp.le
  rw [decide_eq_true_iff, toRat_scaled a (min a.e b.e) (min_le_left _ _),
    toRat_scaled b (min a.e b.e) (min_le_right _ _),
    mul_le_mul_right (two_zpow_pos _)]
  exact Int.cast_le.symm

theorem Fp.lt_false_iff (a b : Fp) : Fp.lt a b = false ↔ b.toRat ≤ a.toRat := by
  rw [← not_lt, ← Fp.lt_iff]
  simp

theorem Fp.le_false_iff (a b : Fp) : Fp.le a b = false ↔ b.toRat < a.toRat := by
  rw [← not_le, ← Fp.le_iff]
  simp

/-- What `Fp.round` rounds. -/
theorem Fp.round_eq (prec : Nat) (emin : Int) (x : Fp) :
    ∃ (n : Int) (d : Nat), 0 < d ∧ Fp.round prec emin x = fpRound prec emin n d ∧
      (n : ℚ) / d = x.toRat ∧ (0 ≤ x.m → 0 ≤ n) := by
  unfold Fp.round
  split
  · rename_i h
    refine ⟨x.m * 2 ^ x.e.toNat, 1, by norm_num, rfl, ?_, fun hm => ?_⟩
    · rw [toRat_scaled x 0 h]
      simp
    · exact mul_nonneg hm (pow_nonneg (by norm_num) _)
  · rename_i h
    refine ⟨x.m, 2 ^ (-x.e).toNat, Nat.pow_pos (by norm_num), rfl, ?_, fun hm => hm⟩
    unfold Fp.toRat
    rw [zpow_toNat _ (by omega), zpow_neg, div_eq_mul_inv, inv_inv]

/-- What `Fp.div` rounds, for a positive divisor. -/
theorem Fp.div_eq (prec : Nat) (emin : Int) (a b : Fp) (hb : 0 < b.m) :
    ∃ (n : Int) (d : Nat), 0 < d ∧ Fp.div prec emin a b = fpRound prec emin n d ∧
      (n : ℚ) / d = a.toRat / b.toRat ∧ (0 ≤ a.m → 0 ≤ n) := by
  have hbq : (0 : ℚ) < (b.m : ℚ) := by exact_mod_cast hb
  have hnab : ((b.m.natAbs : Nat) : ℚ) = (b.m : ℚ) := by
    have h1 : ((b.m.natAbs : Nat) : Int) = b.m := Int.natAbs_of_nonneg (le_of_lt hb)
    rw [← Int.cast_natCast, h1]
  have hneg : ¬ b.m < 0 := by omega
  unfold Fp.div
  simp only [hneg, if_false]
  split
  · rename_i h
    refine ⟨a.m * 2 ^ (a.e - b.e).toNat, b.m.natAbs, Int.natAbs_pos.2 (by omega), rfl, ?_,
      fun hm => mul_nonneg hm (pow_nonneg (by norm_num) _)⟩
    unfold Fp.toRat
    rw [hnab, Int.cast_mul, Int.cast_pow, Int.cast_ofNat, ← zpow_natCast,
      Int.toNat_of_nonneg h, zpow_sub₀ (by norm_num : (2 : ℚ) ≠ 0)]
    have hp := two_zpow_pos b.e
    rw [div_eq_div_iff (ne_of_gt hbq) (ne_of_gt (mul_pos hbq hp))]
    field_simp
    ring
  · rename_i h
    refine ⟨a.m, b.m.natAbs * 2 ^ (b.e - a.e).toNat,
      Nat.mul_pos (Int.natAbs_pos.2 (by omega)) (Nat.pow_pos (by norm_num)), rfl, ?_,
      fun hm => hm⟩
    unfold Fp.toRat
    rw [Nat.cast_mul, hnab, zpow_toNat _ (by omega), zpow_sub₀ (by norm_num : (2 : ℚ) ≠ 0)]
    have hp := two_zpow_pos b.e
    have hp2 := two_zpow_pos a.e
    rw [div_eq_div_iff (ne_of_gt (mul_pos hbq (div_pos hp hp2))) (ne_of_gt (mul_pos hbq hp))]
    field_simp
    ring

theorem Fp.round_nonneg (prec : Nat) (emin : Int) (x : Fp) (h : 0 ≤ x.m) :
    0 ≤ (Fp.round prec emin x).m := by
  obtain ⟨n, d, _, he, _, hn⟩ := Fp.round_eq prec emin x
  rw [he]
  exact fpRound_nonneg prec emin n d (hn h)

theorem Fp.div_nonneg (prec : Nat) (emin : Int) (a b : Fp) (ha : 0 ≤ a.m) (hb : 0 < b.m) :
    0 ≤ (Fp.div prec emin a b).m := by
  obtain ⟨n, d, _, he, _, hn⟩ := Fp.div_eq prec emin a b hb
  rw [he]
  exact fpRound_nonneg prec emin n d (hn ha)

/-- A single-precision quotient above a `float` is the rounding of an exact quotient above
it. -/
theorem float_div_gt (a b R : Fp) (ha : 0 ≤ a.m) (hb : 0 < b.m) (hR : R.IsFloat)
    (h : Fp.lt R (float_div a b) = true) : R.toRat < a.toRat / b.toRat := by
  obtain ⟨n, d, hd, he, hv, hn⟩ := Fp.div_eq 24 (-149) a b hb
  by_contra hc
  have hle : (n : ℚ) / d ≤ R.toRat := by
    rw [hv]
    exact not_lt.1 hc
  have := fpRound_le 24 (-149) n d R (by norm_num) (hn ha) hd hR.1 hR.2 hle
  rw [Fp.lt_iff] at h
  unfold float_div at h
  rw [he] at h
  linarith

/-- A single-precision quotient is not below a `float` that the exact quotient is not below. -/
theorem float_div_ge (a b R : Fp) (ha : 0 ≤ a.m) (hb : 0 < b.m) (hR : R.IsFloat)
    (h : R.toRat ≤ a.toRat / b.toRat) : R.toRat ≤ (float_div a b).toRat := by
  obtain ⟨n, d, hd, he, hv, hn⟩ := Fp.div_eq 24 (-149) a b hb
  unfold float_div
  rw [he]
  exact fpRound_ge 24 (-149) n d R (by norm_num) (hn ha) hd hR.1 hR.2 (by rw [hv]; exact h)

/-- An integer of at most 24 bits is a `float` as it is. -/
theorem float_ofInt_exact (n : Nat) (h : n ≤ 2 ^ 24) : (float_ofInt n).toRat = (n : ℚ) := by
  have hR : (⟨(n : Int), 0⟩ : Fp).toRat = (n : ℚ) := by simp [Fp.toRat]
  have hx : (((n : Int) : ℚ)) / ((1 : Nat) : ℚ) = (⟨(n : Int), 0⟩ : Fp).toRat := by
    rw [hR]
    simp
  unfold float_ofInt
  refine le_antisymm ?_ ?_
  · rw [← hR]
    exact fpRound_le 24 (-149) n 1 ⟨n, 0⟩ (by norm_num) (Int.ofNat_nonneg _) (by norm_num)
      (by simpa using h) (by norm_num) (le_of_eq hx)
  · rw [← hR]
    exact fpRound_ge 24 (-149) n 1 ⟨n, 0⟩ (by norm_num) (Int.ofNat_nonneg _) (by norm_num)
      (by simpa using h) (by norm_num) (le_of_eq hx.symm)

theorem float_ofInt_nonneg (n : Int) (h : 0 ≤ n) : 0 ≤ (float_ofInt n).m :=
  fpRound_nonneg 24 (-149) n 1 h

/-- What rounding gives is a value of the type. -/
theorem ratioLog2_lt (n d : Nat) (hn : 0 < n) (hd : 0 < d) :
    (n : ℚ) / d < (2 : ℚ) ^ (ratioLog2 n d + 1) := by
  have hdq : (0 : ℚ) < d := by exact_mod_cast hd
  have bn := log2Fuel_bounds n n (le_refl _) hn
  have bd := log2Fuel_bounds d d (le_refl _) hd
  have hup : (n : ℚ) / d < (2 : ℚ) ^ ((log2Fuel n n : Int) - (log2Fuel d d : Int) + 1) := by
    rw [div_lt_iff₀ hdq]
    have h1 : (n : ℚ) < ((2 ^ (log2Fuel n n + 1) : Nat) : ℚ) := by exact_mod_cast bn.2
    have h2 : ((2 ^ log2Fuel d d : Nat) : ℚ) ≤ (d : ℚ) := by exact_mod_cast bd.1
    rw [Nat.cast_pow, Nat.cast_ofNat, ← zpow_natCast] at h1 h2
    calc (n : ℚ) < (2 : ℚ) ^ ((log2Fuel n n + 1 : Nat) : Int) := h1
      _ = (2 : ℚ) ^ ((log2Fuel n n : Int) - (log2Fuel d d : Int) + 1) *
            (2 : ℚ) ^ ((log2Fuel d d : Nat) : Int) := by
          rw [← zpow_add₀ (by norm_num : (2 : ℚ) ≠ 0)]
          congr 1
          push_cast
          ring
      _ ≤ (2 : ℚ) ^ ((log2Fuel n n : Int) - (log2Fuel d d : Int) + 1) * d :=
          mul_le_mul_of_nonneg_left h2 (le_of_lt (two_zpow_pos _))
  unfold ratioLog2
  simp only
  split
  · rename_i hk
    split
    · exact hup
    · rename_i hc
      rw [sub_add_cancel, div_lt_iff₀ hdq, ← zpow_toNat _ hk]
      have : (n : ℚ) < ((d * 2 ^ ((log2Fuel n n : Int) - (log2Fuel d d : Int)).toNat : Nat) : ℚ) := by
        exact_mod_cast not_le.1 hc
      rw [Nat.cast_mul] at this
      linarith [this]
  · rename_i hk
    split
    · exact hup
    · rename_i hc
      have hk2 : 0 ≤ -((log2Fuel n n : Int) - (log2Fuel d d : Int)) := by omega
      have h1 : ((n * 2 ^ (-((log2Fuel n n : Int) - (log2Fuel d d : Int))).toNat : Nat) : ℚ) <
          ((d : Nat) : ℚ) := by
        exact_mod_cast not_le.1 hc
      rw [Nat.cast_mul, zpow_toNat _ hk2, zpow_neg] at h1
      rw [sub_add_cancel, div_lt_iff₀ hdq]
      have hp := two_zpow_pos ((log2Fuel n n : Int) - (log2Fuel d d : Int))
      calc (n : ℚ) = (2 : ℚ) ^ ((log2Fuel n n : Int) - (log2Fuel d d : Int)) *
              (n * ((2 : ℚ) ^ ((log2Fuel n n : Int) - (log2Fuel d d : Int)))⁻¹) := by
            field_simp
        _ < (2 : ℚ) ^ ((log2Fuel n n : Int) - (log2Fuel d d : Int)) * d :=
            mul_lt_mul_of_pos_left h1 hp

/-- What rounding gives is a value of the type. -/
theorem fpRound_isFloat (n : Int) (d : Nat) (hn : 0 ≤ n) (hd : 0 < d) :
    (fpRound 24 (-149) n d).IsFloat := by
  rcases lt_or_eq_of_le hn with hpos | hz
  · obtain ⟨a, rfl⟩ : ∃ a : Nat, n = (a : Int) := ⟨n.toNat, by omega⟩
    have ha : 0 < a := by exact_mod_cast hpos
    have hup := ratioLog2_lt a d ha hd
    rw [fpRound_of_pos 24 (-149) _ d hpos]
    simp only [Int.natAbs_ofNat]
    generalize hu : max (ratioLog2 a d - (((24 : Nat) : Int) - 1)) (-149) = u
    have hu1 : ratioLog2 a d - (((24 : Nat) : Int) - 1) ≤ u := hu ▸ le_max_left _ _
    have hu2 : (-149 : Int) ≤ u := hu ▸ le_max_right _ _
    refine ⟨?_, hu2⟩
    simp only [Int.natAbs_ofNat]
    refine scaled_round_le a d (2 ^ 24) u hd ?_
    have h1 : (2 : ℚ) ^ (ratioLog2 a d + 1) ≤ (2 : ℚ) ^ ((24 : Int) + u) :=
      zpow_le_zpow_right₀ (by norm_num) (by push_cast at hu1; omega)
    have h3 : (2 : ℚ) ^ ((24 : Int) + u) = (2 : ℚ) ^ (24 : Int) * (2 : ℚ) ^ u :=
      zpow_add₀ (by norm_num : (2 : ℚ) ≠ 0) _ _
    rw [h3] at h1
    have h2 : (((2 ^ 24 : Nat) : ℚ)) = (2 : ℚ) ^ (24 : Int) := by norm_num
    rw [h2]
    exact le_of_lt (lt_of_lt_of_le hup h1)
  · rw [← hz, fpRound_zero]
    exact ⟨by decide, by decide⟩

theorem fpRound_of_neg (prec : Nat) (emin : Int) (n : Int) (d : Nat) (hn : n < 0) :
    fpRound prec emin n d =
      ⟨-(fpRound prec emin (-n) d).m, (fpRound prec emin (-n) d).e⟩ := by
  have h1 : n ≠ 0 := by omega
  have h2 : -n ≠ 0 := by omega
  have h3 : ¬ -n < 0 := by omega
  unfold fpRound
  simp only [h1, h2, h3, hn, if_true, if_false, Int.natAbs_neg]

theorem fpRound_isFloat_all (n : Int) (d : Nat) (hd : 0 < d) :
    (fpRound 24 (-149) n d).IsFloat := by
  rcases lt_or_le n 0 with h | h
  · rw [fpRound_of_neg 24 (-149) n d h]
    have := fpRound_isFloat (-n) d (by omega) hd
    exact ⟨by simpa [Fp.IsFloat] using this.1, this.2⟩
  · exact fpRound_isFloat n d h hd

theorem float_ofDouble_isFloat (x : Fp) : (float_ofDouble x).IsFloat := by
  obtain ⟨n, d, hd, he, _, _⟩ := Fp.round_eq 24 (-149) x
  unfold float_ofDouble
  rw [he]
  exact fpRound_isFloat_all n d hd

theorem leon_delta_t_isFloat (useTimeOfDay : Bool) (startTime : timeval) (clock : ClockReading) :
    (leon_delta_t useTimeOfDay startTime clock).IsFloat := by
  unfold leon_delta_t
  split
  · split
    · exact float_ofDouble_isFloat _
    · exact ⟨by decide, by decide⟩
  · exact fpRound_isFloat_all _ 1 (by norm_num)

theorem toRat_pos_iff (x : Fp) : 0 < x.toRat ↔ 0 < x.m := by
  unfold Fp.toRat
  constructor
  · intro h
    by_contra hc
    have : (x.m : ℚ) * (2 : ℚ) ^ x.e ≤ 0 :=
      mul_nonpos_of_nonpos_of_nonneg (by exact_mod_cast (not_lt.1 hc))
        (le_of_lt (two_zpow_pos _))
    linarith
  · intro h
    exact mul_pos (by exact_mod_cast h) (two_zpow_pos _)

theorem toRat_nonneg_iff (x : Fp) : 0 ≤ x.toRat ↔ 0 ≤ x.m := by
  unfold Fp.toRat
  constructor
  · intro h
    by_contra hc
    have : (x.m : ℚ) * (2 : ℚ) ^ x.e < 0 :=
      mul_neg_of_neg_of_pos (by exact_mod_cast (not_le.1 hc)) (two_zpow_pos _)
    linarith
  · intro h
    exact mul_nonneg (by exact_mod_cast h) (le_of_lt (two_zpow_pos _))

theorem leadin_toRat : LEON_RATELIMITS_LEADIN_SECONDS.toRat = 1 := by
  simp [LEON_RATELIMITS_LEADIN_SECONDS, Fp.toRat]

theorem minimum_toRat : LEON_MINIMUM_RATELIMIT.toRat = 1 := by
  simp [LEON_MINIMUM_RATELIMIT, Fp.toRat]

/-- The single-precision difference of a value and one not above it is not negative. -/
theorem float_sub_nonneg (a b : Fp) (h : b.toRat ≤ a.toRat) : 0 ≤ (float_sub a b).m := by
  unfold float_sub Fp.sub
  refine Fp.round_nonneg 24 (-149) _ ?_
  simp only
  rw [toRat_scaled a (min a.e b.e) (min_le_left _ _),
    toRat_scaled b (min a.e b.e) (min_le_right _ _),
    mul_le_mul_right (two_zpow_pos _)] at h
  have : b.m * 2 ^ (b.e - min a.e b.e).toNat ≤ a.m * 2 ^ (a.e - min a.e b.e).toNat := by
    exact_mod_cast h
  omega

/-- The delay computed is not negative when the rate computed is above the limit. -/
theorem delta_t_us_nonneg (count : Nat) (R dt : Fp) (hR : R.IsFloat) (hdt : dt.IsFloat)
    (hR1 : 0 < R.m) (hdt1 : 0 < dt.m)
    (hrate : R.toRat < (float_div (float_ofInt count) dt).toRat) :
    0 ≤ (delta_t_us count R dt).m := by
  have hc := float_ofInt_nonneg count (Int.ofNat_nonneg _)
  have h1 := float_div_gt (float_ofInt count) dt R hc hdt1 hR ((Fp.lt_iff _ _).2 hrate)
  have hRq := (toRat_pos_iff R).2 hR1
  have hdq := (toRat_pos_iff dt).2 hdt1
  have h2 : dt.toRat ≤ (float_ofInt count).toRat / R.toRat := by
    rw [lt_div_iff₀ hdq] at h1
    rw [le_div_iff₀ hRq]
    linarith
  have h3 := float_div_ge (float_ofInt count) R dt hc hR1 hdt h2
  have h4 := float_sub_nonneg (float_div (float_ofInt count) R) dt h3
  unfold delta_t_us float_ofDouble double_div double_mul Fp.mul
  refine Fp.round_nonneg 24 (-149) _ (Fp.div_nonneg 53 (-1074) _ _ ?_ (by decide))
  exact Fp.round_nonneg 53 (-1074) _ (mul_nonneg h4 (by decide))

/-- The conversion to `useconds_t` drops the fraction. -/
theorem useconds_t_ofFloat_floor (x : Fp) (h0 : 0 ≤ x.m) (h : x.toRat < 4294967296) :
    ∃ us : Nat, useconds_t_ofFloat x = some us ∧ (us : ℚ) ≤ x.toRat ∧ x.toRat < (us : ℚ) + 1 := by
  unfold useconds_t_ofFloat
  by_cases he : 0 ≤ x.e
  · have hv : x.toRat = ((x.m * 2 ^ x.e.toNat : Int) : ℚ) := by
      rw [toRat_scaled x 0 he]
      simp
    have hnn : 0 ≤ x.m * 2 ^ x.e.toNat := mul_nonneg h0 (pow_nonneg (by norm_num) _)
    have hlt : x.m * 2 ^ x.e.toNat < 4294967296 := by
      rw [hv] at h
      exact_mod_cast h
    simp only [he, if_true, hnn, hlt, and_self]
    refine ⟨_, rfl, ?_, ?_⟩
    · rw [hv]
      have : (((x.m * 2 ^ x.e.toNat).toNat : Int) : ℚ) = ((x.m * 2 ^ x.e.toNat : Int) : ℚ) := by
        rw [Int.toNat_of_nonneg hnn]
      rw [← this]
      norm_cast
    · rw [hv]
      have : (((x.m * 2 ^ x.e.toNat).toNat : Int) : ℚ) = ((x.m * 2 ^ x.e.toNat : Int) : ℚ) := by
        rw [Int.toNat_of_nonneg hnn]
      have h2 : (((x.m * 2 ^ x.e.toNat).toNat : Nat) : ℚ) = ((x.m * 2 ^ x.e.toNat : Int) : ℚ) := by
        rw [← this]
        norm_cast
      rw [h2]
      linarith
  · have hk : 0 ≤ -x.e := by omega
    have hpos : (0 : Int) < 2 ^ (-x.e).toNat := pow_pos (by norm_num) _
    have hv : x.toRat = (x.m : ℚ) / ((2 ^ (-x.e).toNat : Int) : ℚ) := by
      unfold Fp.toRat
      rw [Int.cast_pow, Int.cast_ofNat, ← zpow_natCast, Int.toNat_of_nonneg hk, zpow_neg,
        div_eq_mul_inv, inv_inv]
    have hq : Int.tdiv x.m (2 ^ (-x.e).toNat) = x.m / 2 ^ (-x.e).toNat :=
      Int.tdiv_eq_ediv h0 (le_of_lt hpos)
    have hdm := Int.ediv_add_emod x.m (2 ^ (-x.e).toNat)
    have hm0 := Int.emod_nonneg x.m (ne_of_gt hpos)
    have hm1 := Int.emod_lt_of_pos x.m hpos
    have hqnn : 0 ≤ x.m / 2 ^ (-x.e).toNat := Int.ediv_nonneg h0 (le_of_lt hpos)
    have hpq : (0 : ℚ) < ((2 ^ (-x.e).toNat : Int) : ℚ) := by exact_mod_cast hpos
    have hle : ((x.m / 2 ^ (-x.e).toNat : Int) : ℚ) ≤ x.toRat := by
      rw [hv, le_div_iff₀ hpq]
      have : x.m / 2 ^ (-x.e).toNat * 2 ^ (-x.e).toNat ≤ x.m := by
        have := Int.mul_comm (2 ^ (-x.e).toNat) (x.m / 2 ^ (-x.e).toNat)
        omega
      exact_mod_cast this
    have hlt2 : x.toRat < ((x.m / 2 ^ (-x.e).toNat : Int) : ℚ) + 1 := by
      rw [hv, div_lt_iff₀ hpq]
      have : x.m < (x.m / 2 ^ (-x.e).toNat + 1) * 2 ^ (-x.e).toNat := by
        have h1 : (x.m / 2 ^ (-x.e).toNat + 1) * 2 ^ (-x.e).toNat =
            2 ^ (-x.e).toNat * (x.m / 2 ^ (-x.e).toNat) + 2 ^ (-x.e).toNat := by ring
        omega
      exact_mod_cast this
    have hlt3 : x.m / 2 ^ (-x.e).toNat < 4294967296 := by
      have : ((x.m / 2 ^ (-x.e).toNat : Int) : ℚ) < 4294967296 := lt_of_le_of_lt hle h
      exact_mod_cast this
    simp only [he, if_false, hq, hqnn, hlt3, and_self, if_true]
    have hcast : (((x.m / 2 ^ (-x.e).toNat).toNat : Nat) : ℚ) =
        ((x.m / 2 ^ (-x.e).toNat : Int) : ℚ) := by
      have : (((x.m / 2 ^ (-x.e).toNat).toNat : Int) : ℚ) =
          ((x.m / 2 ^ (-x.e).toNat : Int) : ℚ) := by
        rw [Int.toNat_of_nonneg hqnn]
      rw [← this]
      norm_cast
    exact ⟨_, rfl, by rw [hcast]; exact hle, by rw [hcast]; exact hlt2⟩

/-! ### Rate limiter -/

theorem rm_setRatelimit_eq (st : RateLimitState) (r : Fp) :
    leon_rm_setRatelimit st r = leon_stat_setRatelimit st r := rfl

theorem rm_entity_throttle_eq (useTimeOfDay : Bool) (st : RateLimitState)
    (startClock nowClock : ClockReading) :
    __leon_rm_entity_throttle useTimeOfDay st startClock nowClock =
      leon_stat_throttle useTimeOfDay st startClock nowClock :=
  rfl

theorem rm_entity_throttle_calls_eq (useTimeOfDay : Bool)
    (clocks : List (ClockReading × ClockReading)) :
    ∀ st, __leon_rm_entity_throttle_calls useTimeOfDay st clocks =
      leon_stat_throttle_calls useTimeOfDay st clocks := by
  induction clocks with
  | nil => intro st; rfl
  | cons c rest ih =>
    intro st
    simp only [__leon_rm_entity_throttle_calls, leon_stat_throttle_calls, rm_entity_throttle_eq, ih]

theorem throttle_limit_kept (useTimeOfDay : Bool) (st : RateLimitState)
    (startClock nowClock : ClockReading) :
    (leon_stat_throttle useTimeOfDay st startClock nowClock).1.ratelimitIsSet =
        st.ratelimitIsSet ∧
      (leon_stat_throttle useTimeOfDay st startClock nowClock).1.ratelimit = st.ratelimit := by
  unfold leon_stat_throttle
  by_cases h : st.inited = true <;> simp [h]

theorem throttle_unset (useTimeOfDay : Bool) (st : RateLimitState)
    (startClock nowClock : ClockReading) (h : st.ratelimitIsSet = false) :
    (leon_stat_throttle useTimeOfDay st startClock nowClock).2 = none := by
  unfold leon_stat_throttle
  by_cases hi : st.inited = true <;> simp [h, hi]

theorem throttle_calls_unset (useTimeOfDay : Bool)
    (clocks : List (ClockReading × ClockReading)) :
    ∀ st : RateLimitState, st.ratelimitIsSet = false →
      ∀ a ∈ (leon_stat_throttle_calls useTimeOfDay st clocks).2, a = none := by
  induction clocks with
  | nil => intro st _ a ha; simp [leon_stat_throttle_calls] at ha
  | cons c rest ih =>
    intro st h a ha
    simp only [leon_stat_throttle_calls, List.mem_cons] at ha
    rcases ha with ha | ha
    · rw [ha]
      exact throttle_unset useTimeOfDay st c.1 c.2 h
    · exact ih _ ((throttle_limit_kept useTimeOfDay st c.1 c.2).1.trans h) a ha

theorem throttle_slept_iff (useTimeOfDay : Bool) (st : RateLimitState)
    (startClock nowClock : ClockReading) :
    (leon_stat_throttle useTimeOfDay st startClock nowClock).2 =
      if st.ratelimitIsSet = true ∧
          LEON_RATELIMITS_LEADIN_SECONDS.toRat <
            (elapsed useTimeOfDay st startClock nowClock).toRat ∧
          st.ratelimit.toRat <
            (float_div (float_ofInt st.count)
              (elapsed useTimeOfDay st startClock nowClock)).toRat ∧
          10 < (delta_t_us st.count st.ratelimit
            (elapsed useTimeOfDay st startClock nowClock)).toRat then
        some (useconds_t_ofFloat
          (delta_t_us st.count st.ratelimit (elapsed useTimeOfDay st startClock nowClock)))
      else none := by
  have h10 : ∀ x : Fp, (10 < x.toRat) ↔ Fp.lt ⟨10, 0⟩ x = true := by
    intro x
    rw [Fp.lt_iff]
    simp [Fp.toRat]
  simp only [← Fp.lt_iff, h10]
  unfold leon_stat_throttle elapsed
  cases hi : st.inited <;> cases h1 : st.ratelimitIsSet <;>
    simp only [Bool.not_true, Bool.not_false, Bool.false_eq_true, if_false, if_true, true_and,
      false_and] <;>
    generalize leon_delta_t useTimeOfDay _ nowClock = dt <;>
    by_cases h2 : Fp.lt LEON_RATELIMITS_LEADIN_SECONDS dt = true <;>
    by_cases h3 : Fp.lt st.ratelimit (float_div (float_ofInt st.count) dt) = true <;>
    by_cases h4 : Fp.lt ⟨10, 0⟩ (delta_t_us st.count st.ratelimit dt) = true <;>
    simp [h1, h2, h3, h4]

theorem fpRound_exact (prec : Nat) (emin : Int) (n : Int) (d : Nat) (R : Fp) (hp : 1 ≤ prec)
    (hn : 0 ≤ n) (hd : 0 < d) (hR : R.m.natAbs ≤ 2 ^ prec) (hRe : emin ≤ R.e)
    (h : (n : ℚ) / d = R.toRat) : (fpRound prec emin n d).toRat = R.toRat :=
  le_antisymm (fpRound_le prec emin n d R hp hn hd hR hRe (le_of_eq h))
    (fpRound_ge prec emin n d R hp hn hd hR hRe (le_of_eq h.symm))

/-- Rounding leaves a value of the type as it is. -/
theorem Fp.round_exact (prec : Nat) (emin : Int) (x R : Fp) (hp : 1 ≤ prec) (h0 : 0 ≤ x.m)
    (hR : R.m.natAbs ≤ 2 ^ prec) (hRe : emin ≤ R.e) (h : x.toRat = R.toRat) :
    (Fp.round prec emin x).toRat = R.toRat := by
  obtain ⟨n, d, hd, he, hv, hn⟩ := Fp.round_eq prec emin x
  rw [he]
  exact fpRound_exact prec emin n d R hp (hn h0) hd hR hRe (hv.trans h)

/-- A quotient that is a value of the type is not rounded. -/
theorem Fp.div_exact (prec : Nat) (emin : Int) (a b R : Fp) (hp : 1 ≤ prec) (ha : 0 ≤ a.m)
    (hb : 0 < b.m) (hR : R.m.natAbs ≤ 2 ^ prec) (hRe : emin ≤ R.e)
    (h : a.toRat / b.toRat = R.toRat) : (Fp.div prec emin a b).toRat = R.toRat := by
  obtain ⟨n, d, hd, he, hv, hn⟩ := Fp.div_eq prec emin a b hb
  rw [he]
  exact fpRound_exact prec emin n d R hp (hn ha) hd hR hRe (hv.trans h)

theorem toRat_sub (a b : Fp) :
    (⟨a.m * 2 ^ (a.e - min a.e b.e).toNat - b.m * 2 ^ (b.e - min a.e b.e).toNat,
      min a.e b.e⟩ : Fp).toRat = a.toRat - b.toRat := by
  rw [toRat_scaled a (min a.e b.e) (min_le_left _ _),
    toRat_scaled b (min a.e b.e) (min_le_right _ _)]
  unfold Fp.toRat
  simp only
  push_cast
  ring

theorem toRat_mul (a b : Fp) : (⟨a.m * b.m, a.e + b.e⟩ : Fp).toRat = a.toRat * b.toRat := by
  unfold Fp.toRat
  simp only
  rw [zpow_add₀ (by norm_num : (2 : ℚ) ≠ 0)]
  push_cast
  ring

/-- The delay computed is the delay of the formula when the quotient `count / R`, the difference
from `dt` and the delay in microseconds are `float` values `Q`, `S` and `D`, so that nothing
is rounded. -/
theorem delta_t_us_exact (count : Nat) (R dt Q S D : Fp) (hc : count ≤ 2 ^ 24) (hR : 0 < R.m)
    (hQ : Q.IsFloat) (hS : S.IsFloat) (hD : D.IsFloat)
    (hq : Q.toRat = (count : ℚ) / R.toRat) (hs : S.toRat = Q.toRat - dt.toRat)
    (hs0 : 0 ≤ S.toRat) (hd : D.toRat = S.toRat * 10000) :
    (delta_t_us count R dt).toRat = ((count : ℚ) / R.toRat - dt.toRat) * 10000 := by
  have e1 : (float_div (float_ofInt count) R).toRat = Q.toRat :=
    Fp.div_exact 24 (-149) _ R Q (by norm_num) (float_ofInt_nonneg count (Int.ofNat_nonneg _)) hR
      hQ.1 hQ.2 (by rw [float_ofInt_exact count hc, hq])
  have e2 : (float_sub (float_div (float_ofInt count) R) dt).toRat = S.toRat := by
    unfold float_sub Fp.sub
    refine Fp.round_exact 24 (-149) _ S (by norm_num) ?_ hS.1 hS.2 ?_
    · rw [← toRat_nonneg_iff, toRat_sub, e1, ← hs]
      exact hs0
    · rw [toRat_sub, e1, ← hs]
  have n2 : 0 ≤ (float_sub (float_div (float_ofInt count) R) dt).m := by
    rw [← toRat_nonneg_iff, e2]
    exact hs0
  have hSm : S.m.natAbs ≤ 2 ^ 24 := hS.1
  have e3 : (double_mul (float_sub (float_div (float_ofInt count) R) dt) ⟨1000000, 0⟩).toRat =
      S.toRat * 1000000 := by
    unfold double_mul Fp.mul
    have hv : (⟨S.m * 1000000, S.e⟩ : Fp).toRat = S.toRat * 1000000 := by
      unfold Fp.toRat
      simp only
      push_cast
      ring
    rw [← hv]
    refine Fp.round_exact 53 (-1074) _ _ (by norm_num) (mul_nonneg n2 (by decide)) ?_ ?_ ?_
    · simp only [Int.natAbs_mul]
      have : (1000000 : Int).natAbs = 1000000 := rfl
      rw [this]
      calc S.m.natAbs * 1000000 ≤ 2 ^ 24 * 1000000 := Nat.mul_le_mul_right _ hSm
        _ ≤ 2 ^ 53 := by norm_num
    · have := hS.2
      simp only
      omega
    · rw [toRat_mul, e2, hv]
      simp [Fp.toRat]
  have n3 : 0 ≤ (double_mul (float_sub (float_div (float_ofInt count) R) dt) ⟨1000000, 0⟩).m :=
    Fp.round_nonneg 53 (-1074) _ (mul_nonneg n2 (by decide))
  have e4 : (double_div
      (double_mul (float_sub (float_div (float_ofInt count) R) dt) ⟨1000000, 0⟩) ⟨100, 0⟩).toRat =
      S.toRat * 10000 := by
    unfold double_div
    have hv : (⟨S.m * 10000, S.e⟩ : Fp).toRat = S.toRat * 10000 := by
      unfold Fp.toRat
      simp only
      push_cast
      ring
    rw [← hv]
    refine Fp.div_exact 53 (-1074) _ _ _ (by norm_num) n3 (by decide) ?_ ?_ ?_
    · simp only [Int.natAbs_mul]
      have : (10000 : Int).natAbs = 10000 := rfl
      rw [this]
      calc S.m.natAbs * 10000 ≤ 2 ^ 24 * 10000 := Nat.mul_le_mul_right _ hSm
        _ ≤ 2 ^ 53 := by norm_num
    · have := hS.2
      simp only
      omega
    · rw [e3, hv]
      have : (⟨100, 0⟩ : Fp).toRat = 100 := by simp [Fp.toRat]
      rw [this]
      ring
  have n4 : 0 ≤ (double_div
      (double_mul (float_sub (float_div (float_ofInt count) R) dt) ⟨1000000, 0⟩) ⟨100, 0⟩).m :=
    Fp.div_nonneg 53 (-1074) _ _ n3 (by decide)
  have e5 : (delta_t_us count R dt).toRat = D.toRat := by
    unfold delta_t_us float_ofDouble
    exact Fp.round_exact 24 (-149) _ D (by norm_num) n4 hD.1 hD.2 (by rw [e4, hd])
  rw [e5, hd, hs, hq]

/-- C27: after `leon_stat_setRatelimit(r)` or `leon_rm_setRatelimit(r)` with `r` below
`LEON_MINIMUM_RATELIMIT` (1.0), and in the initial state, the limit reported is 0.0 and no call
in any sequence of calls sleeps, whatever the count and the clock readings, in either build
variant; with `r` at or above the minimum the limit reported is `r`. -/
theorem C27_unset_limit_never_delays (useTimeOfDay : Bool) (st : RateLimitState) (r : Fp)
    (clocks : List (ClockReading × ClockReading)) :
    (r.toRat < LEON_MINIMUM_RATELIMIT.toRat →
        leon_stat_ratelimit (leon_stat_setRatelimit st r) = ⟨0, 0⟩ ∧
        leon_rm_ratelimit (leon_rm_setRatelimit st r) = ⟨0, 0⟩ ∧
        (∀ a ∈ (leon_stat_throttle_calls useTimeOfDay (leon_stat_setRatelimit st r) clocks).2,
          a = none) ∧
        (∀ a ∈ (__leon_rm_entity_throttle_calls useTimeOfDay (leon_rm_setRatelimit st r)
          clocks).2, a = none)) ∧
      (leon_stat_ratelimit leon_stat_statics = ⟨0, 0⟩ ∧
        leon_rm_ratelimit leon_rm_statics = ⟨0, 0⟩ ∧
        (∀ a ∈ (leon_stat_throttle_calls useTimeOfDay leon_stat_statics clocks).2, a = none) ∧
        (∀ a ∈ (__leon_rm_entity_throttle_calls useTimeOfDay leon_rm_statics clocks).2,
          a = none)) ∧
      (LEON_MINIMUM_RATELIMIT.toRat ≤ r.toRat →
        leon_stat_ratelimit (leon_stat_setRatelimit st r) = r ∧
        leon_rm_ratelimit (leon_rm_setRatelimit st r) = r) ∧
      LEON_MINIMUM_RATELIMIT.toRat = 1 ∧ Fp.toRat ⟨0, 0⟩ = 0 := by
  refine ⟨?_, ⟨rfl, rfl, ?_, ?_⟩, ?_, minimum_toRat, by simp [Fp.toRat]⟩
  · intro hr
    have hn : Fp.le LEON_MINIMUM_RATELIMIT r = false := (Fp.le_false_iff _ _).2 hr
    have hset : (leon_stat_setRatelimit st r).ratelimitIsSet = false := by
      simp [leon_stat_setRatelimit, hn]
    refine ⟨by simp [leon_stat_ratelimit, leon_stat_setRatelimit, hn],
      by simp [leon_rm_ratelimit, leon_rm_setRatelimit, hn], ?_, ?_⟩
    · exact throttle_calls_unset useTimeOfDay clocks _ hset
    · rw [rm_entity_throttle_calls_eq, rm_setRatelimit_eq]
      exact throttle_calls_unset useTimeOfDay clocks _ hset
  · exact throttle_calls_unset useTimeOfDay clocks _ rfl
  · rw [rm_entity_throttle_calls_eq]
    exact throttle_calls_unset useTimeOfDay clocks _ rfl
  · intro hr
    have hn : Fp.le LEON_MINIMUM_RATELIMIT r = true := (Fp.le_iff _ _).2 hr
    exact ⟨by simp [leon_stat_ratelimit, leon_stat_setRatelimit, hn],
      by simp [leon_rm_ratelimit, leon_rm_setRatelimit, hn]⟩

theorem C27_unset_limit_never_delays_witness :
    (Fp.toRat ⟨1, -1⟩ < LEON_MINIMUM_RATELIMIT.toRat ∧
        leon_stat_ratelimit
          (leon_stat_setRatelimit ⟨true, ⟨10, 0⟩, true, ⟨0, 0⟩, 4000⟩ ⟨1, -1⟩) = ⟨0, 0⟩ ∧
        (∀ a ∈ (leon_stat_throttle_calls false
          (leon_stat_setRatelimit ⟨true, ⟨10, 0⟩, true, ⟨0, 0⟩, 4000⟩ ⟨1, -1⟩)
          [(⟨none, 0⟩, ⟨none, 2⟩), (⟨none, 0⟩, ⟨none, 3⟩)]).2, a = none)) ∧
      (LEON_MINIMUM_RATELIMIT.toRat ≤ Fp.toRat ⟨10, 0⟩ ∧
        leon_stat_ratelimit (leon_stat_setRatelimit leon_stat_statics ⟨10, 0⟩) = ⟨10, 0⟩) :=
  have h1 : Fp.toRat ⟨1, -1⟩ < LEON_MINIMUM_RATELIMIT.toRat :=
    (Fp.lt_iff _ _).1 (by decide)
  have h2 : LEON_MINIMUM_RATELIMIT.toRat ≤ Fp.toRat ⟨10, 0⟩ :=
    (Fp.le_iff _ _).1 (by decide)
  ⟨⟨h1, ((C27_unset_limit_never_delays false ⟨true, ⟨10, 0⟩, true, ⟨0, 0⟩, 4000⟩ ⟨1, -1⟩
      [(⟨none, 0⟩, ⟨none, 2⟩), (⟨none, 0⟩, ⟨none, 3⟩)]).1 h1).1,
      ((C27_unset_limit_never_delays false ⟨true, ⟨10, 0⟩, true, ⟨0, 0⟩, 4000⟩ ⟨1, -1⟩
      [(⟨none, 0⟩, ⟨none, 2⟩), (⟨none, 0⟩, ⟨none, 3⟩)]).1 h1).2.2.1⟩,
    ⟨h2, ((C27_unset_limit_never_delays false leon_stat_statics ⟨10, 0⟩ []).2.2.1 h2).1⟩⟩

/-- C28 as written fails: with the limit 999 set and 16780203 = 999 * 16797 calls counted
16797 seconds after the first call the rate `count / dt` is the limit itself, not above it, and
yet `leon_stat` and `__leon_rm_entity` call `usleep(19)`: `(float)count` is 16780204, so the
rate computed in single precision is above 999.  The build that reads the time with
`gettimeofday` does the same. -/
theorem C28_counterexample :
    (leon_stat_throttle false ⟨true, ⟨999, 0⟩, true, ⟨0, 0⟩, 16780203⟩ ⟨none, 0⟩
        ⟨none, 16797⟩).2 = some (some 19) ∧
      (__leon_rm_entity_throttle false ⟨true, ⟨999, 0⟩, true, ⟨0, 0⟩, 16780203⟩ ⟨none, 0⟩
        ⟨none, 16797⟩).2 = some (some 19) ∧
      (leon_stat_throttle true ⟨true, ⟨999, 0⟩, true, ⟨0, 0⟩, 16780203⟩ ⟨some ⟨0, 0⟩, 0⟩
        ⟨some ⟨16797, 0⟩, 16797⟩).2 = some (some 19) ∧
      (elapsed false ⟨true, ⟨999, 0⟩, true, ⟨0, 0⟩, 16780203⟩ ⟨none, 0⟩
        ⟨none, 16797⟩).toRat = 16797 ∧
      (elapsed true ⟨true, ⟨999, 0⟩, true, ⟨0, 0⟩, 16780203⟩ ⟨some ⟨0, 0⟩, 0⟩
        ⟨some ⟨16797, 0⟩, 16797⟩).toRat = 16797 ∧
      Fp.toRat ⟨999, 0⟩ = 999 ∧
      ((16780203 : Nat) : ℚ) / 16797 = 999 ∧
      (float_ofInt (16780203 : Nat)).toRat = 16780204 := by
  have e1 : elapsed false ⟨true, ⟨999, 0⟩, true, ⟨0, 0⟩, 16780203⟩ ⟨none, 0⟩ ⟨none, 16797⟩ =
      ⟨8600064, -9⟩ := by decide
  have e2 : elapsed true ⟨true, ⟨999, 0⟩, true, ⟨0, 0⟩, 16780203⟩ ⟨some ⟨0, 0⟩, 0⟩
      ⟨some ⟨16797, 0⟩, 16797⟩ = ⟨8600064, -9⟩ := by decide
  have e3 : float_ofInt (16780203 : Nat) = ⟨8390102, 1⟩ := by decide
  refine ⟨by decide, by decide, by decide, ?_, ?_, ?_, ?_, ?_⟩
  · rw [e1]
    norm_num [Fp.toRat]
  · rw [e2]
    norm_num [Fp.toRat]
  · norm_num [Fp.toRat]
  · norm_num
  · rw [e3]
    norm_num [Fp.toRat]

/-- C28 (amended): with a limit set, a call of `leon_stat` or of `__leon_rm_entity` calls
`usleep` only if the time `dt` since the first call, as the call computes it, is strictly more
than the lead-in of one second and the rate the call computes in single precision,
`(float)count / dt`, is strictly above the limit; then the limit is strictly below
`(float)count / dt` without the rounding of the quotient, and strictly below `count / dt` itself
when the count is at most `2 ^ 24`, so that `(float)count` is the count.  In particular no call
sleeps with `dt` at most the lead-in. -/
theorem C28_sleep_only_past_leadin_over_limit (useTimeOfDay : Bool) (st : RateLimitState)
    (startClock nowClock : ClockReading) (a : Option Nat)
    (h : (leon_stat_throttle useTimeOfDay st startClock nowClock).2 = some a ∨
      (__leon_rm_entity_throttle useTimeOfDay st startClock nowClock).2 = some a) :
    st.ratelimitIsSet = true ∧
      LEON_RATELIMITS_LEADIN_SECONDS.toRat <
        (elapsed useTimeOfDay st startClock nowClock).toRat ∧
      LEON_RATELIMITS_LEADIN_SECONDS.toRat = 1 ∧
      st.ratelimit.toRat <
        (float_div (float_ofInt st.count) (elapsed useTimeOfDay st startClock nowClock)).toRat ∧
      (st.ratelimit.IsFloat →
        st.ratelimit.toRat <
          (float_ofInt st.count).toRat / (elapsed useTimeOfDay st startClock nowClock).toRat) ∧
      (st.ratelimit.IsFloat → st.count ≤ 2 ^ 24 →
        st.ratelimit.toRat <
          (st.count : ℚ) / (elapsed useTimeOfDay st startClock nowClock).toRat) := by
  have h1 : (leon_stat_throttle useTimeOfDay st startClock nowClock).2 = some a := by
    rcases h with h | h
    · exact h
    · rw [rm_entity_throttle_eq] at h
      exact h
  rw [throttle_slept_iff] at h1
  split at h1
  · rename_i hc
    have hpos : 0 < (elapsed useTimeOfDay st startClock nowClock).m := by
      rw [← toRat_pos_iff]
      have := hc.2.1
      rw [leadin_toRat] at this
      linarith
    have hgt : st.ratelimit.IsFloat →
        st.ratelimit.toRat <
          (float_ofInt st.count).toRat / (elapsed useTimeOfDay st startClock nowClock).toRat :=
      fun hR => float_div_gt _ _ _ (float_ofInt_nonneg st.count (Int.ofNat_nonneg _)) hpos hR
        ((Fp.lt_iff _ _).2 hc.2.2.1)
    refine ⟨hc.1, hc.2.1, leadin_toRat, hc.2.2.1, hgt, fun hR hcount => ?_⟩
    have := hgt hR
    rw [float_ofInt_exact st.count hcount] at this
    exact this
  · exact absurd h1 (by simp)

set_option maxRecDepth 100000 in
theorem C28_sleep_only_past_leadin_over_limit_witness :
    (leon_stat_throttle false ⟨true, ⟨10, 0⟩, true, ⟨0, 0⟩, 40⟩ ⟨none, 0⟩ ⟨none, 2⟩).2 =
        some (some 20000) ∧
      LEON_RATELIMITS_LEADIN_SECONDS.toRat <
        (elapsed false ⟨true, ⟨10, 0⟩, true, ⟨0, 0⟩, 40⟩ ⟨none, 0⟩ ⟨none, 2⟩).toRat ∧
      Fp.toRat ⟨10, 0⟩ <
        ((40 : Nat) : ℚ) /
          (elapsed false ⟨true, ⟨10, 0⟩, true, ⟨0, 0⟩, 40⟩ ⟨none, 0⟩ ⟨none, 2⟩).toRat ∧
      (leon_stat_throttle_calls true (leon_stat_setRatelimit leon_stat_statics ⟨10, 0⟩)
        [(⟨some ⟨100, 0⟩, 100⟩, ⟨some ⟨100, 0⟩, 100⟩),
          (⟨some ⟨100, 0⟩, 100⟩, ⟨some ⟨100, 100000⟩, 100⟩),
          (⟨some ⟨100, 0⟩, 100⟩, ⟨some ⟨100, 200000⟩, 100⟩),
          (⟨some ⟨100, 0⟩, 100⟩, ⟨some ⟨100, 300000⟩, 100⟩),
          (⟨some ⟨100, 0⟩, 100⟩, ⟨some ⟨100, 400000⟩, 100⟩)]).2 =
        [none, none, none, none, none] ∧
      (leon_stat_throttle false ⟨true, ⟨10, 0⟩, true, ⟨0, 0⟩, 20⟩ ⟨none, 0⟩ ⟨none, 2⟩).2 =
        none ∧
      (leon_stat_throttle true ⟨true, ⟨10, 0⟩, true, ⟨100, 0⟩, 20⟩ ⟨some ⟨100, 0⟩, 100⟩
        ⟨some ⟨102, 0⟩, 102⟩).2 = none :=
  have h : (leon_stat_throttle false ⟨true, ⟨10, 0⟩, true, ⟨0, 0⟩, 40⟩ ⟨none, 0⟩
      ⟨none, 2⟩).2 = some (some 20000) := by decide
  ⟨h,
    (C28_sleep_only_past_leadin_over_limit false ⟨true, ⟨10, 0⟩, true, ⟨0, 0⟩, 40⟩ ⟨none, 0⟩
      ⟨none, 2⟩ (some 20000) (Or.inl h)).2.1,
    (C28_sleep_only_past_leadin_over_limit false ⟨true, ⟨10, 0⟩, true, ⟨0, 0⟩, 40⟩ ⟨none, 0⟩
      ⟨none, 2⟩ (some 20000) (Or.inl h)).2.2.2.2.2 ⟨by decide, by decide⟩ (by decide),
    by decide, by decide, by decide⟩

/-- C29 as written fails.  With the limit 10 set and 21 calls counted 2 seconds after the first
call the delay of the formula is 1000 microseconds and the code calls `usleep(999)`:
`21.0f / 10.0f` is rounded below 2.1.  With the limit 385 and 50463107 calls counted 131073
seconds after the first call the rate computed is above the limit and the delay of the formula
is more than 51 microseconds, yet the delay computed is 0 - not strictly positive - and the code
does not sleep.  With the limit 1000 and 8001 calls counted after 8 seconds the delay of the
formula is 10 microseconds, not more, and the code calls `usleep(10)`. -/
theorem C29_counterexample :
    ((leon_stat_throttle false ⟨true, ⟨10, 0⟩, true, ⟨0, 0⟩, 21⟩ ⟨none, 0⟩ ⟨none, 2⟩).2 =
        some (some 999) ∧
      (elapsed false ⟨true, ⟨10, 0⟩, true, ⟨0, 0⟩, 21⟩ ⟨none, 0⟩ ⟨none, 2⟩).toRat = 2 ∧
      (((21 : Nat) : ℚ) / 10 - 2) / 100 * 1000000 = 1000) ∧
    ((leon_stat_throttle false ⟨true, ⟨385, 0⟩, true, ⟨0, 0⟩, 50463107⟩ ⟨none, 0⟩
        ⟨none, 131073⟩).2 = none ∧
      (elapsed false ⟨true, ⟨385, 0⟩, true, ⟨0, 0⟩, 50463107⟩ ⟨none, 0⟩
        ⟨none, 131073⟩).toRat = 131073 ∧
      Fp.lt LEON_RATELIMITS_LEADIN_SECONDS
        (elapsed false ⟨true, ⟨385, 0⟩, true, ⟨0, 0⟩, 50463107⟩ ⟨none, 0⟩ ⟨none, 131073⟩) =
        true ∧
      Fp.lt ⟨385, 0⟩ (float_div (float_ofInt (50463107 : Nat))
        (elapsed false ⟨true, ⟨385, 0⟩, true, ⟨0, 0⟩, 50463107⟩ ⟨none, 0⟩ ⟨none, 131073⟩)) =
        true ∧
      (385 : ℚ) < ((50463107 : Nat) : ℚ) / 131073 ∧
      delta_t_us 50463107 ⟨385, 0⟩
        (elapsed false ⟨true, ⟨385, 0⟩, true, ⟨0, 0⟩, 50463107⟩ ⟨none, 0⟩ ⟨none, 131073⟩) =
        ⟨0, 0⟩ ∧
      (51 : ℚ) < (((50463107 : Nat) : ℚ) / 385 - 131073) / 100 * 1000000) ∧
    ((leon_stat_throttle false ⟨true, ⟨1000, 0⟩, true, ⟨0, 0⟩, 8001⟩ ⟨none, 0⟩ ⟨none, 8⟩).2 =
        some (some 10) ∧
      (elapsed false ⟨true, ⟨1000, 0⟩, true, ⟨0, 0⟩, 8001⟩ ⟨none, 0⟩ ⟨none, 8⟩).toRat = 8 ∧
      (((8001 : Nat) : ℚ) / 1000 - 8) / 100 * 1000000 = 10) := by
  have e1 : elapsed false ⟨true, ⟨10, 0⟩, true, ⟨0, 0⟩, 21⟩ ⟨none, 0⟩ ⟨none, 2⟩ =
      ⟨8388608, -22⟩ := by decide
  have e2 : elapsed false ⟨true, ⟨385, 0⟩, true, ⟨0, 0⟩, 50463107⟩ ⟨none, 0⟩ ⟨none, 131073⟩ =
      ⟨8388672, -6⟩ := by decide
  have e3 : elapsed false ⟨true, ⟨1000, 0⟩, true, ⟨0, 0⟩, 8001⟩ ⟨none, 0⟩ ⟨none, 8⟩ =
      ⟨8388608, -20⟩ := by decide
  refine ⟨⟨by decide, ?_, by norm_num⟩, ⟨by decide, ?_, by decide, by decide, by norm_num,
    by decide, by norm_num⟩, ⟨by decide, ?_, by norm_num⟩⟩
  · rw [e1]
    norm_num [Fp.toRat]
  · rw [e2]
    norm_num [Fp.toRat]
  · rw [e3]
    norm_num [Fp.toRat]

/-- C29 (amended): when a limit `R` of at least `LEON_MINIMUM_RATELIMIT` is set, the time `dt`
since the first call is past the lead-in and the rate computed, `(float)count / dt` in single
precision, is above the limit, the delay computed, `delta_t_us` - the formula
`((count / R) - dt) / 100` seconds evaluated in floating point, in microseconds - is not
negative; `usleep` is called exactly when the delay computed is more than 10 microseconds, with
that delay converted to `useconds_t` as its argument, which below `2 ^ 32` microseconds is the
delay computed less its fraction of a microsecond; when the count is at most `2 ^ 24` and the
quotient `count / R`, its difference from `dt` and the delay in microseconds are `float` values,
so that nothing is rounded, the delay computed is `((count / R) - dt) / 100` seconds, for which
`R = count / (dt + 100 * delay)`; and at a rate `count / dt` twice the limit, with such a count
and `dt / 100` in microseconds a `float` value, the delay is `dt / 100` and the call sleeps.
`__leon_rm_entity` does the same as `leon_stat`. -/
theorem C29_delay_formula (useTimeOfDay : Bool) (st : RateLimitState)
    (startClock nowClock : ClockReading)
    (hset : st.ratelimitIsSet = true) (hR : st.ratelimit.IsFloat)
    (hlim : LEON_MINIMUM_RATELIMIT.toRat ≤ st.ratelimit.toRat)
    (hdt : LEON_RATELIMITS_LEADIN_SECONDS.toRat <
      (elapsed useTimeOfDay st startClock nowClock).toRat)
    (hrate : st.ratelimit.toRat <
      (float_div (float_ofInt st.count) (elapsed useTimeOfDay st startClock nowClock)).toRat) :
    0 ≤ (delta_t_us st.count st.ratelimit
        (elapsed useTimeOfDay st startClock nowClock)).toRat ∧
      ((leon_stat_throttle useTimeOfDay st startClock nowClock).2 ≠ none ↔
        10 < (delta_t_us st.count st.ratelimit
          (elapsed useTimeOfDay st startClock nowClock)).toRat) ∧
      (10 < (delta_t_us st.count st.ratelimit
          (elapsed useTimeOfDay st startClock nowClock)).toRat →
        (leon_stat_throttle useTimeOfDay st startClock nowClock).2 =
          some (useconds_t_ofFloat
            (delta_t_us st.count st.ratelimit
              (elapsed useTimeOfDay st startClock nowClock)))) ∧
      (10 < (delta_t_us st.count st.ratelimit
          (elapsed useTimeOfDay st startClock nowClock)).toRat →
        (delta_t_us st.count st.ratelimit
          (elapsed useTimeOfDay st startClock nowClock)).toRat < 4294967296 →
        ∃ us : Nat, (leon_stat_throttle useTimeOfDay st startClock nowClock).2 =
            some (some us) ∧
          (us : ℚ) ≤ (delta_t_us st.count st.ratelimit
            (elapsed useTimeOfDay st startClock nowClock)).toRat ∧
          (delta_t_us st.count st.ratelimit
            (elapsed useTimeOfDay st startClock nowClock)).toRat < (us : ℚ) + 1) ∧
      (∀ Q S D : Fp, st.count ≤ 2 ^ 24 → Q.IsFloat → S.IsFloat → D.IsFloat →
        Q.toRat = (st.count : ℚ) / st.ratelimit.toRat →
        S.toRat = Q.toRat - (elapsed useTimeOfDay st startClock nowClock).toRat →
        D.toRat = S.toRat * 10000 →
        (delta_t_us st.count st.ratelimit
            (elapsed useTimeOfDay st startClock nowClock)).toRat / 1000000 =
          ((st.count : ℚ) / st.ratelimit.toRat -
            (elapsed useTimeOfDay st startClock nowClock).toRat) / 100 ∧
        st.ratelimit.toRat =
          (st.count : ℚ) / ((elapsed useTimeOfDay st startClock nowClock).toRat +
            100 * ((delta_t_us st.count st.ratelimit
              (elapsed useTimeOfDay st startClock nowClock)).toRat / 1000000))) ∧
      (∀ D : Fp, st.count ≤ 2 ^ 24 → D.IsFloat →
        (st.count : ℚ) / (elapsed useTimeOfDay st startClock nowClock).toRat =
          2 * st.ratelimit.toRat →
        D.toRat = (elapsed useTimeOfDay st startClock nowClock).toRat * 10000 →
        (delta_t_us st.count st.ratelimit
            (elapsed useTimeOfDay st startClock nowClock)).toRat / 1000000 =
          (elapsed useTimeOfDay st startClock nowClock).toRat / 100 ∧
        (leon_stat_throttle useTimeOfDay st startClock nowClock).2 ≠ none) ∧
      __leon_rm_entity_throttle useTimeOfDay st startClock nowClock =
        leon_stat_throttle useTimeOfDay st startClock nowClock := by
  have hdtF : (elapsed useTimeOfDay st startClock nowClock).IsFloat := by
    unfold elapsed
    exact leon_delta_t_isFloat _ _ _
  have hslept := throttle_slept_iff useTimeOfDay st startClock nowClock
  generalize elapsed useTimeOfDay st startClock nowClock = dt at hdt hrate hdtF hslept ⊢
  have hRpos : 0 < st.ratelimit.m := by
    rw [← toRat_pos_iff]
    rw [minimum_toRat] at hlim
    linarith
  have hdtpos : 0 < dt.m := by
    rw [← toRat_pos_iff]
    rw [leadin_toRat] at hdt
    linarith
  have hRq : 0 < st.ratelimit.toRat := (toRat_pos_iff _).2 hRpos
  have hdq : 0 < dt.toRat := (toRat_pos_iff _).2 hdtpos
  have hnn : 0 ≤ (delta_t_us st.count st.ratelimit dt).toRat :=
    (toRat_nonneg_iff _).2
      (delta_t_us_nonneg st.count st.ratelimit dt hR hdtF hRpos hdtpos hrate)
  have hexact : ∀ Q S D : Fp, st.count ≤ 2 ^ 24 → Q.IsFloat → S.IsFloat → D.IsFloat →
      Q.toRat = (st.count : ℚ) / st.ratelimit.toRat →
      S.toRat = Q.toRat - dt.toRat →
      D.toRat = S.toRat * 10000 →
      (delta_t_us st.count st.ratelimit dt).toRat / 1000000 =
          ((st.count : ℚ) / st.ratelimit.toRat - dt.toRat) / 100 ∧
        st.ratelimit.toRat =
          (st.count : ℚ) / (dt.toRat +
            100 * ((delta_t_us st.count st.ratelimit dt).toRat / 1000000)) := by
    intro Q S D hc hQ hS hD hq hs hd
    have hgt : st.ratelimit.toRat < (st.count : ℚ) / dt.toRat := by
      have := float_div_gt (float_ofInt st.count) dt st.ratelimit
        (float_ofInt_nonneg st.count (Int.ofNat_nonneg _)) hdtpos hR ((Fp.lt_iff _ _).2 hrate)
      rw [float_ofInt_exact st.count hc] at this
      exact this
    have h1 : st.ratelimit.toRat * dt.toRat < (st.count : ℚ) := (lt_div_iff₀ hdq).1 hgt
    have hcpos : (0 : ℚ) < (st.count : ℚ) := lt_trans (mul_pos hRq hdq) h1
    have h2 : dt.toRat < (st.count : ℚ) / st.ratelimit.toRat := by
      rw [lt_div_iff₀ hRq]
      linarith
    have hs0 : 0 ≤ S.toRat := by
      rw [hs, hq]
      linarith
    have he := delta_t_us_exact st.count st.ratelimit dt Q S D hc hRpos hQ hS hD hq hs hs0 hd
    refine ⟨by rw [he]; ring, ?_⟩
    have e : dt.toRat + 100 * ((delta_t_us st.count st.ratelimit dt).toRat / 1000000) =
        (st.count : ℚ) / st.ratelimit.toRat := by
      rw [he]
      ring
    rw [e]
    have hc0 : (st.count : ℚ) ≠ 0 := ne_of_gt hcpos
    have hR0 : st.ratelimit.toRat ≠ 0 := ne_of_gt hRq
    field_simp
  refine ⟨hnn, ?_, ?_, ?_, hexact, ?_, rfl⟩
  · rw [hslept]
    constructor
    · intro h
      by_contra hc
      apply h
      rw [if_neg]
      exact fun hh => hc hh.2.2.2
    · intro h
      rw [if_pos ⟨hset, hdt, hrate, h⟩]
      simp
  · intro h
    rw [hslept, if_pos ⟨hset, hdt, hrate, h⟩]
  · intro h hlt
    obtain ⟨us, hus, h1, h2⟩ :=
      useconds_t_ofFloat_floor _ ((toRat_nonneg_iff _).1 hnn) hlt
    exact ⟨us, by rw [hslept, if_pos ⟨hset, hdt, hrate, h⟩, hus], h1, h2⟩
  · intro D hc hD h2 hd
    have hcnt : (st.count : ℚ) = 2 * st.ratelimit.toRat * dt.toRat :=
      (div_eq_iff (ne_of_gt hdq)).1 h2
    have hQv : (⟨dt.m, dt.e + 1⟩ : Fp).toRat = 2 * dt.toRat := by
      unfold Fp.toRat
      simp only
      rw [zpow_add₀ (by norm_num : (2 : ℚ) ≠ 0)]
      ring
    have hQ : (⟨dt.m, dt.e + 1⟩ : Fp).IsFloat := by
      refine ⟨hdtF.1, ?_⟩
      have := hdtF.2
      simp only
      omega
    have hq : (⟨dt.m, dt.e + 1⟩ : Fp).toRat = (st.count : ℚ) / st.ratelimit.toRat := by
      rw [hQv, hcnt]
      field_simp
      ring
    have hs : dt.toRat = (⟨dt.m, dt.e + 1⟩ : Fp).toRat - dt.toRat := by
      rw [hQv]
      ring
    have he := (hexact ⟨dt.m, dt.e + 1⟩ dt D hc hQ hdtF hD hq hs hd).1
    have hv : (delta_t_us st.count st.ratelimit dt).toRat / 1000000 = dt.toRat / 100 := by
      rw [he, ← hq, hQv]
      ring
    refine ⟨hv, ?_⟩
    have h10 : 10 < (delta_t_us st.count st.ratelimit dt).toRat := by
      have : (delta_t_us st.count st.ratelimit dt).toRat = dt.toRat * 10000 := by
        field_simp at hv
        linarith
      rw [this]
      rw [leadin_toRat] at hdt
      linarith
    rw [hslept, if_pos ⟨hset, hdt, hrate, h10⟩]
    simp

theorem C29_delay_formula_witness :
    (LEON_RATELIMITS_LEADIN_SECONDS.toRat <
        (elapsed false ⟨true, ⟨10, 0⟩, true, ⟨0, 0⟩, 40⟩ ⟨none, 0⟩ ⟨none, 2⟩).toRat ∧
      Fp.toRat ⟨10, 0⟩ <
        (float_div (float_ofInt (40 : Nat))
          (elapsed false ⟨true, ⟨10, 0⟩, true, ⟨0, 0⟩, 40⟩ ⟨none, 0⟩ ⟨none, 2⟩)).toRat) ∧
      ((delta_t_us 40 ⟨10, 0⟩
          (elapsed false ⟨true, ⟨10, 0⟩, true, ⟨0, 0⟩, 40⟩ ⟨none, 0⟩ ⟨none, 2⟩)).toRat /
            1000000 =
          (elapsed false ⟨true, ⟨10, 0⟩, true, ⟨0, 0⟩, 40⟩ ⟨none, 0⟩ ⟨none, 2⟩).toRat / 100 ∧
        (leon_stat_throttle false ⟨true, ⟨10, 0⟩, true, ⟨0, 0⟩, 40⟩ ⟨none, 0⟩ ⟨none, 2⟩).2 ≠
          none) ∧
      (leon_stat_throttle false ⟨true, ⟨10, 0⟩, true, ⟨0, 0⟩, 40⟩ ⟨none, 0⟩ ⟨none, 2⟩).2 =
        some (some 20000) ∧
      (elapsed false ⟨true, ⟨10, 0⟩, true, ⟨0, 0⟩, 40⟩ ⟨none, 0⟩ ⟨none, 2⟩).toRat = 2 :=
  have hdt : LEON_RATELIMITS_LEADIN_SECONDS.toRat <
      (elapsed false ⟨true, ⟨10, 0⟩, true, ⟨0, 0⟩, 40⟩ ⟨none, 0⟩ ⟨none, 2⟩).toRat :=
    (Fp.lt_iff _ _).1 (by decide)
  have hrate : Fp.toRat ⟨10, 0⟩ <
      (float_div (float_ofInt (40 : Nat))
        (elapsed false ⟨true, ⟨10, 0⟩, true, ⟨0, 0⟩, 40⟩ ⟨none, 0⟩ ⟨none, 2⟩)).toRat :=
    (Fp.lt_iff _ _).1 (by decide)
  have he : (elapsed false ⟨true, ⟨10, 0⟩, true, ⟨0, 0⟩, 40⟩ ⟨none, 0⟩ ⟨none, 2⟩).toRat = 2 := by
    have : elapsed false ⟨true, ⟨10, 0⟩, true, ⟨0, 0⟩, 40⟩ ⟨none, 0⟩ ⟨none, 2⟩ =
        ⟨8388608, -22⟩ := by decide
    rw [this]
    norm_num [Fp.toRat]
  ⟨⟨hdt, hrate⟩,
    (C29_delay_formula false ⟨true, ⟨10, 0⟩, true, ⟨0, 0⟩, 40⟩ ⟨none, 0⟩ ⟨none, 2⟩ rfl
      ⟨by decide, by decide⟩ ((Fp.le_iff _ _).1 (by decide)) hdt hrate).2.2.2.2.2.1
      ⟨20000, 0⟩ (by decide) ⟨by decide, by decide⟩
      (by rw [he]; norm_num [Fp.toRat]) (by rw [he]; norm_num [Fp.toRat]),
    by decide, he⟩

/-! ### The three timestamp policies and the socket and FIFO callbacks -/

theorem checkPath_of_pass (cfg : Config) (p : CString) (n : FsNode) (f : stat)
    (hl : n.lstatErrno = 0) (hroot : ¬ rootExcluded cfg n.st)
    (hage : governingTime cfg.leon_checkPathFn n.st < cfg.leon_fstest_temporalThreshold) :
    (leon_checkPathFn cfg p n f).1 =
      leon_fstest_chain p n.st cfg.leon_fstest_stack kLeonResultYes := by
  have hr : ¬ (cfg.leon_fstest_excludeRoot && (n.st.st_uid == 0 || n.st.st_gid == 0)) = true :=
    fun h => hroot ((rootExcluded_iff cfg n.st).1 h)
  rw [← (checkPath_calls_fst cfg p n f).1, checkPath_calls_of_lstat cfg p n f hl, if_neg hr,
    if_neg (not_le.2 hage)]
  exact chain_calls_fst p n.st _ _

theorem registerCallbacks_chain (ignoreSockets ignorePipes : Bool)
    (excludePaths : Option (List CString)) (excludeUids excludeGids : Option (List Nat))
    (path : CString) (pathInfo : stat) :
    leon_fstest_chain path pathInfo
        (leon_main_registerCallbacks ignoreSockets ignorePipes excludePaths excludeUids
          excludeGids) kLeonResultYes =
      if ((pathInfo.st_mode &&& S_IFMT) = S_IFSOCK ∧ ignoreSockets = false) ∨
          ((pathInfo.st_mode &&& S_IFMT) = S_IFIFO ∧ ignorePipes = false) then
        kLeonResultNo
      else
        leon_fstest_chain path pathInfo
          (leon_main_registerCallbacks true true excludePaths excludeUids excludeGids)
          kLeonResultYes := by
  have hne : S_IFSOCK ≠ S_IFIFO := by decide
  have n1 : strcmp "isFIFO".toList "pathExclusions".toList ≠ 0 := by decide
  have n2 : strcmp "isFIFO".toList "userExclusions".toList ≠ 0 := by decide
  have n3 : strcmp "isFIFO".toList "groupExclusions".toList ≠ 0 := by decide
  have n4 : strcmp "isSocket".toList "pathExclusions".toList ≠ 0 := by decide
  have n5 : strcmp "isSocket".toList "userExclusions".toList ≠ 0 := by decide
  have n6 : strcmp "isSocket".toList "groupExclusions".toList ≠ 0 := by decide
  have n7 : strcmp "isPipeOrSocket".toList "pathExclusions".toList ≠ 0 := by decide
  have n8 : strcmp "isPipeOrSocket".toList "userExclusions".toList ≠ 0 := by decide
  have n9 : strcmp "isPipeOrSocket".toList "groupExclusions".toList ≠ 0 := by decide
  by_cases hs : (pathInfo.st_mode &&& S_IFMT) = S_IFSOCK
  · have hf : ¬ (pathInfo.st_mode &&& S_IFMT) = S_IFIFO := fun h => hne (hs.symm.trans h)
    cases ignoreSockets <;> cases ignorePipes <;> cases excludePaths <;> cases excludeUids <;>
      cases excludeGids <;>
      simp [leon_main_registerCallbacks, leon_fstest_registerCallback, leon_fstest_chain,
        leon_fstest_noSockets, leon_fstest_noPipes, leon_fstest_noSocketsOrPipes, hs, hf, hne,
        n1, n2, n3, n4, n5, n6, n7, n8, n9]
  · by_cases hf : (pathInfo.st_mode &&& S_IFMT) = S_IFIFO
    · cases ignoreSockets <;> cases ignorePipes <;> cases excludePaths <;> cases excludeUids <;>
        cases excludeGids <;>
        simp [leon_main_registerCallbacks, leon_fstest_registerCallback, leon_fstest_chain,
          leon_fstest_noSockets, leon_fstest_noPipes, leon_fstest_noSocketsOrPipes, hs, hf,
          hne.symm, n1, n2, n3, n4, n5, n6, n7, n8, n9]
    · cases ignoreSockets <;> cases ignorePipes <;> cases excludePaths <;> cases excludeUids <;>
        cases excludeGids <;>
        simp [leon_main_registerCallbacks, leon_fstest_registerCallback, leon_fstest_chain,
          leon_fstest_noSockets, leon_fstest_noPipes, leon_fstest_noSocketsOrPipes, hs, hf,
          n1, n2, n3, n4, n5, n6, n7, n8, n9]

/-- C39: with the chain that `main` registers for the options `ignoreSockets` and `ignorePipes`
and for any path, user and group exclusions, an entity that passes the probe, the root test and
the age test gets No when it is a socket and `ignoreSockets` is off or it is a FIFO and
`ignorePipes` is off, and in every other case the verdict it gets with both options on, that is
without a socket or FIFO callback in the chain.  So an entity that is eligible but for these
callbacks gets No exactly in the two cases named and Yes otherwise, and without exclusions every
entity is eligible but for them. -/
theorem C39_socket_fifo_policy (cfg : Config) (ignoreSockets ignorePipes : Bool)
    (excludePaths : Option (List CString)) (excludeUids excludeGids : Option (List Nat))
    (path : CString) (node : FsNode) (pathInfo : stat)
    (hstack : cfg.leon_fstest_stack =
      leon_main_registerCallbacks ignoreSockets ignorePipes excludePaths excludeUids excludeGids)
    (hl : node.lstatErrno = 0) (hroot : ¬ rootExcluded cfg node.st)
    (hage : governingTime cfg.leon_checkPathFn node.st < cfg.leon_fstest_temporalThreshold) :
    (leon_checkPathFn cfg path node pathInfo).1 =
        (if ((node.st.st_mode &&& S_IFMT) = S_IFSOCK ∧ ignoreSockets = false) ∨
            ((node.st.st_mode &&& S_IFMT) = S_IFIFO ∧ ignorePipes = false) then
          kLeonResultNo
        else
          (leon_checkPathFn
            { cfg with leon_fstest_stack :=
                leon_main_registerCallbacks true true excludePaths excludeUids excludeGids }
            path node pathInfo).1) ∧
      ((leon_checkPathFn
          { cfg with leon_fstest_stack :=
              leon_main_registerCallbacks true true excludePaths excludeUids excludeGids }
          path node pathInfo).1 = kLeonResultYes →
        (leon_checkPathFn cfg path node pathInfo).1 =
          if ((node.st.st_mode &&& S_IFMT) = S_IFSOCK ∧ ignoreSockets = false) ∨
              ((node.st.st_mode &&& S_IFMT) = S_IFIFO ∧ ignorePipes = false) then
            kLeonResultNo
          else
            kLeonResultYes) ∧
      (excludePaths = none → excludeUids = none → excludeGids = none →
        (leon_checkPathFn
          { cfg with leon_fstest_stack :=
              leon_main_registerCallbacks true true excludePaths excludeUids excludeGids }
          path node pathInfo).1 = kLeonResultYes) := by
  have hrest : (leon_checkPathFn
      { cfg with leon_fstest_stack :=
          leon_main_registerCallbacks true true excludePaths excludeUids excludeGids }
      path node pathInfo).1 =
      leon_fstest_chain path node.st
        (leon_main_registerCallbacks true true excludePaths excludeUids excludeGids)
        kLeonResultYes :=
    checkPath_of_pass _ path node pathInfo hl hroot hage
  have hmain : (leon_checkPathFn cfg path node pathInfo).1 =
      (if ((node.st.st_mode &&& S_IFMT) = S_IFSOCK ∧ ignoreSockets = false) ∨
          ((node.st.st_mode &&& S_IFMT) = S_IFIFO ∧ ignorePipes = false) then
        kLeonResultNo
      else
        (leon_checkPathFn
          { cfg with leon_fstest_stack :=
              leon_main_registerCallbacks true true excludePaths excludeUids excludeGids }
          path node pathInfo).1) := by
    rw [hrest, checkPath_of_pass cfg path node pathInfo hl hroot hage, hstack]
    exact registerCallbacks_chain ignoreSockets ignorePipes excludePaths excludeUids excludeGids
      path node.st
  refine ⟨hmain, fun hy => ?_, fun h1 h2 h3 => ?_⟩
  · rw [hmain, hy]
  · rw [hrest, h1, h2, h3]
    rfl

theorem C39_socket_fifo_policy_witness :
    ((⟨S_IFSOCK, 1000, 1000, 0, 5, 5⟩ : stat).st_mode &&& S_IFMT) = S_IFSOCK ∧
      (leon_checkPathFn
        { sampleCfg true with
          leon_fstest_stack :=
            leon_main_registerCallbacks false true none (some [0, 7]) none }
        "/s/sock".toList (.mk 0 ⟨S_IFSOCK, 1000, 1000, 0, 5, 5⟩ ENOTDIR .nil 0 0 0)
        ⟨0, 0, 0, 0, 0, 0⟩).1 = kLeonResultNo ∧
      (leon_checkPathFn
        { sampleCfg true with
          leon_fstest_stack :=
            leon_main_registerCallbacks true false none (some [0, 7]) none }
        "/s/sock".toList (.mk 0 ⟨S_IFSOCK, 1000, 1000, 0, 5, 5⟩ ENOTDIR .nil 0 0 0)
        ⟨0, 0, 0, 0, 0, 0⟩).1 = kLeonResultYes ∧
      (leon_checkPathFn
        { sampleCfg true with
          leon_fstest_stack :=
            leon_main_registerCallbacks true false none (some [1000]) none }
        "/s/sock".toList (.mk 0 ⟨S_IFSOCK, 1000, 1000, 0, 5, 5⟩ ENOTDIR .nil 0 0 0)
        ⟨0, 0, 0, 0, 0, 0⟩).1 = kLeonResultNo :=
  ⟨by decide,
    ((C39_socket_fifo_policy
      { sampleCfg true with
        leon_fstest_stack := leon_main_registerCallbacks false true none (some [0, 7]) none }
      false true none (some [0, 7]) none "/s/sock".toList
      (.mk 0 ⟨S_IFSOCK, 1000, 1000, 0, 5, 5⟩ ENOTDIR .nil 0 0 0)
      ⟨0, 0, 0, 0, 0, 0⟩ rfl (by decide) (by unfold rootExcluded; decide) (by decide)).1).trans
      (by decide),
    by decide, by decide⟩

/-- C40: for every entity, buffer contents, threshold, root-exclusion setting and chain of
callbacks, `leon_fstest_checkPathMaxTimes` returns Yes if and only if
`leon_fstest_checkPathModificationTimes` and `leon_fstest_checkPathAccessTimes` both do. -/
theorem C40_max_yes_iff_both (cfg : Config) (path : CString) (node : FsNode)
    (f f1 f2 : stat) :
    (leon_fstest_checkPathMaxTimes cfg path node f).1 = kLeonResultYes ↔
      (leon_fstest_checkPathModificationTimes cfg path node f1).1 = kLeonResultYes ∧
        (leon_fstest_checkPathAccessTimes cfg path node f2).1 = kLeonResultYes := by
  unfold leon_fstest_checkPathMaxTimes leon_fstest_checkPathModificationTimes
    leon_fstest_checkPathAccessTimes leon_stat
  by_cases hl : node.lstatErrno = 0
  · simp only [hl, if_true]
    by_cases hr : (cfg.leon_fstest_excludeRoot &&
        (node.st.st_uid == 0 || node.st.st_gid == 0)) = true
    · simp [hr]
    · simp only [hr, if_false, lastUpdate_eq_max]
      by_cases hm : node.st.st_mtime ≥ cfg.leon_fstest_temporalThreshold
      · have hx : max node.st.st_atime node.st.st_mtime ≥ cfg.leon_fstest_temporalThreshold :=
          le_trans hm (le_max_right _ _)
        simp [hm, hx]
      · by_cases ha : node.st.st_atime ≥ cfg.leon_fstest_temporalThreshold
        · have hx : max node.st.st_atime node.st.st_mtime ≥ cfg.leon_fstest_temporalThreshold :=
            le_trans ha (le_max_left _ _)
          simp [ha, hx]
        · have hx : ¬ max node.st.st_atime node.st.st_mtime ≥
              cfg.leon_fstest_temporalThreshold := by
            intro h
            rcases le_max_iff.1 h with h1 | h1
            · exact ha h1
            · exact hm h1
          simp [hm, ha, hx]
  · simp [hl]

/-! ### The path object -/

theorem path_push_cString (p : leon_path_t) (c : CString) :
    leon_path_cString (p.push c) = leon_path_push p.cString c := by
  unfold leon_path_t.push leon_path_push leon_path_cString
  by_cases h : c.length = 0 <;> simp [h]

theorem path_pop_push (p : leon_path_t) (c : CString) (hc : c ≠ []) :
    leon_path_pop (p.push c) = p := by
  have hl : c.length ≠ 0 := fun h => hc (List.length_eq_zero.1 h)
  unfold leon_path_t.push leon_path_pop
  simp [hl]

theorem path_run_append (u v : List PathOp) :
    ∀ p : leon_path_t, leon_path_run p (u ++ v) = leon_path_run (leon_path_run p u) v := by
  induction u with
  | nil => intro p; rfl
  | cons op rest ih =>
    intro p
    cases op with
    | push c => exact ih (p.push c)
    | pop => exact ih (leon_path_pop p)

theorem path_run_balanced (ops : List PathOp) (hb : Balanced ops) :
    (∀ c, PathOp.push c ∈ ops → c ≠ []) → ∀ p : leon_path_t, leon_path_run p ops = p := by
  induction hb with
  | nil => intro _ p; rfl
  | wrap c w _ ih =>
    intro hne p
    have hc : c ≠ [] := hne c (List.mem_cons_self _ _)
    have hw : ∀ d, PathOp.push d ∈ w → d ≠ [] := fun d hd =>
      hne d (List.mem_cons_of_mem _ (List.mem_append_left _ hd))
    simp only [leon_path_run]
    rw [path_run_append, ih hw]
    simp only [leon_path_run]
    exact path_pop_push p c hc
  | append u v _ _ ihu ihv =>
    intro hne p
    rw [path_run_append, ihu (fun d hd => hne d (List.mem_append_left _ hd)),
      ihv (fun d hd => hne d (List.mem_append_right _ hd))]

/-- C31 (as stated) fails: on the path `/a` with `b` pushed, pushing the empty component does
nothing, so the pop that follows removes `b`: the string is `/a` and the depth 0, not `/a/b`
and 1 as before the push. -/
theorem C31_counterexample :
    leon_path_pop (((leon_path_createWithCString "/a".toList).push "b".toList).push []) =
        ⟨"/a".toList, []⟩ ∧
      (leon_path_createWithCString "/a".toList).push "b".toList = ⟨"/a/b".toList, [2]⟩ ∧
      leon_path_depth (leon_path_pop
        (((leon_path_createWithCString "/a".toList).push "b".toList).push [])) ≠
        leon_path_depth ((leon_path_createWithCString "/a".toList).push "b".toList) := by
  decide

/-- C31 (amended): for every path object and every component of non-zero length, a push followed
by a pop leaves the C string and the push depth as they were; and after any balanced sequence
of pushes and pops in which every pushed component has non-zero length the path object is as it
was before. -/
theorem C31_push_pop_restores (p : leon_path_t) (c : CString) (ops : List PathOp)
    (hc : c ≠ []) (hb : Balanced ops) (hne : ∀ d, PathOp.push d ∈ ops → d ≠ []) :
    leon_path_cString (leon_path_pop (p.push c)) = leon_path_cString p ∧
      leon_path_depth (leon_path_pop (p.push c)) = leon_path_depth p ∧
      leon_path_depth (p.push c) = leon_path_depth p + 1 ∧
      leon_path_cString (p.push c) = leon_path_cString p ++ '/' :: c ∧
      leon_path_run p ops = p := by
  refine ⟨by rw [path_pop_push p c hc], by rw [path_pop_push p c hc], ?_, ?_,
    path_run_balanced ops hb hne p⟩
  · have hl : c.length ≠ 0 := fun h => hc (List.length_eq_zero.1 h)
    simp [leon_path_t.push, leon_path_depth, hl]
  · have hl : c.length ≠ 0 := fun h => hc (List.length_eq_zero.1 h)
    simp [leon_path_t.push, leon_path_cString, hl]

theorem C31_push_pop_restores_witness :
    Balanced [PathOp.push "d".toList, PathOp.push "f".toList, PathOp.pop, PathOp.pop,
        PathOp.push "e".toList, PathOp.pop] ∧
      leon_path_run (leon_path_createWithCString "/q".toList)
        [PathOp.push "d".toList, PathOp.push "f".toList, PathOp.pop, PathOp.pop,
          PathOp.push "e".toList, PathOp.pop] = leon_path_createWithCString "/q".toList ∧
      leon_path_cString (leon_path_pop
        ((leon_path_createWithCString "/q".toList).push "d".toList)) = "/q".toList :=
  have hb : Balanced [PathOp.push "d".toList, PathOp.push "f".toList, PathOp.pop, PathOp.pop,
      PathOp.push "e".toList, PathOp.pop] :=
    Balanced.append [PathOp.push "d".toList, PathOp.push "f".toList, PathOp.pop, PathOp.pop]
      [PathOp.push "e".toList, PathOp.pop]
      (Balanced.wrap "d".toList [PathOp.push "f".toList, PathOp.pop]
        (Balanced.wrap "f".toList [] Balanced.nil))
      (Balanced.wrap "e".toList [] Balanced.nil)
  have h := C31_push_pop_restores (leon_path_createWithCString "/q".toList) "d".toList
    [PathOp.push "d".toList, PathOp.push "f".toList, PathOp.pop, PathOp.pop,
      PathOp.push "e".toList, PathOp.pop] (by decide) hb
    (by
      intro d hd
      simp only [List.mem_cons, PathOp.push.injEq, List.mem_singleton, reduceCtorEq, or_false,
        false_or, List.not_mem_nil] at hd
      rcases hd with rfl | rfl | rfl <;> decide)
  ⟨hb, h.2.2.2.2, h.1⟩

/-! ### Recursive delete: the path object on return -/

/-- C38 (the code at the failing input): `/q` holds the directory `d`, which holds a file whose
unlink fails with EACCES.  The inner call pops the file and returns false; the outer call
returns false from inside its loop without a pop, so on return the path object holds `/q/d` at
depth 1 and not `/q` at depth 0.  When the failing file is listed in `/q` itself the path is
popped before the return, as it is on success. -/
theorem C38_failed_recursion_leaves_push :
    leon_rm_path (sampleCfg false) (leon_path_createWithCString "/q".toList)
        (oldDir (.cons "d".toList DT_DIR (oldDir (.cons "stuck".toList DT_REG stuckFile .nil))
          .nil))
        false ⟨0, none, []⟩ =
        (false, ⟨"/q/d".toList, [2]⟩,
          ⟨13, none, [Syscall.unlink "/q/d/stuck".toList EACCES]⟩) ∧
      leon_rm_path (sampleCfg false) (leon_path_createWithCString "/q".toList)
        (oldDir (.cons "stuck".toList DT_REG stuckFile .nil)) false ⟨0, none, []⟩ =
        (false, leon_path_createWithCString "/q".toList,
          ⟨13, none, [Syscall.unlink "/q/stuck".toList EACCES]⟩) ∧
      leon_rm_path (sampleCfg false) (leon_path_createWithCString "/q".toList)
        (oldDir (.cons "d".toList DT_DIR (oldDir (.cons "f".toList DT_REG oldFile .nil)) .nil))
        false ⟨0, none, []⟩ =
        (true, leon_path_createWithCString "/q".toList,
          ⟨0, none, [Syscall.unlink "/q/d/f".toList 0, Syscall.rmdir "/q/d".toList 0,
            Syscall.rmdir "/q".toList 0]⟩) ∧
      leon_rm (sampleCfg false) "/q".toList
        (oldDir (.cons "d".toList DT_DIR (oldDir (.cons "stuck".toList DT_REG stuckFile .nil))
          .nil))
        false ⟨0, none, []⟩ =
        (false, ⟨13, none, [Syscall.unlink "/q/d/stuck".toList EACCES]⟩) := by
  decide

/-! ### The index set and the hash table -/

theorem addIndex_scan_none (index : Nat) :
    ∀ (vs : List Nat) (i : Nat), leon_indexset_addIndex_scan index vs i = none → index ∈ vs := by
  intro vs
  induction vs with
  | nil => intro i h; simp [leon_indexset_addIndex_scan] at h
  | cons v rest ih =>
    intro i h
    by_cases hv : v = index
    · simp [hv]
    · simp only [leon_indexset_addIndex_scan, hv, if_false] at h
      by_cases hg : v > index
      · simp [hg] at h
      · simp only [hg, if_false] at h
        exact List.mem_cons_of_mem _ (ih (i + 1) h)

/-- C32 (the code at the failing input): on a new index set, `leon_indexset_addIndex(set, 5)`
stores 5, and `leon_indexset_containsIndex` reports it, but the call returns false: every path
that inserts falls through to the closing `return false`.  Only a call for an index already
there returns true (without adding it again), and an index outside the range is not added.  In
general a call for an index in range that is not yet in the set returns false. -/
theorem C32_addIndex_returns_false :
    leon_indexset_addIndex leon_indexset_create 5 =
        (false, { leon_indexset_create with
          capacity := 32, values := [5], enumIdx := leon_undefIndex }) ∧
      (leon_indexset_addIndex leon_indexset_create 5).2.containsIndex 5 = true ∧
      leon_indexset_addIndex (leon_indexset_addIndex leon_indexset_create 5).2 5 =
        (true, (leon_indexset_addIndex leon_indexset_create 5).2) ∧
      (leon_indexset_addIndex
        (leon_indexset_addIndex
          (leon_indexset_addIndex
            (leon_indexset_addIndex
              (leon_indexset_addIndex
                (leon_indexset_addIndex
                  (leon_indexset_addIndex (leon_indexset_createWithRange 10 1024) 0).2 192).2
                54).2 1920).2 512).2 54).2 1000).2.values = [54, 192, 512, 1000] ∧
      (∀ (anIndexSet : leon_indexset_t) (index : Nat),
        anIndexSet.min ≤ index → index ≤ anIndexSet.max → index ∉ anIndexSet.values →
        (leon_indexset_addIndex anIndexSet index).1 = false ∧
          index ∈ (leon_indexset_addIndex anIndexSet index).2.values) := by
  refine ⟨by decide, by decide, by decide, by decide, ?_⟩
  intro s index hmin hmax hnot
  unfold leon_indexset_addIndex
  have hr : (decide (index ≥ s.min) && decide (index ≤ s.max)) = true := by simp [hmin, hmax]
  rw [if_pos hr]
  cases hscan : leon_indexset_addIndex_scan index s.values 0 with
  | none => exact absurd (addIndex_scan_none index s.values 0 hscan) hnot
  | some i => simp

/-- C33 (the code at the failing input): the keys `x`, `y` and `z` are set, then `y` is set
again.  The second call for `y` replaces the value where it stands, and then reads its local
`node`, which that path never assigned.  When the read finds the node that the first call for
`y` allocated, `leon_hash_pairCount` goes from 3 to 4 with three keys in the table; when it
finds NULL the count stays 3.  Setting a key that is absent adds one pair, and the value
looked up afterwards is the new one either way. -/
theorem C33_replace_reads_unset_node :
    leon_hash_pairCount
        (leon_hash_setValueForKey
          (leon_hash_setValueForKey
            (leon_hash_setValueForKey (leon_hash_create 0) "x".toList "Letmein".toList none)
            "y".toList "Dummy".toList none)
          "z".toList "Lorem ipsum".toList none) = 3 ∧
      leon_hash_pairCount
        (leon_hash_setValueForKey
          (leon_hash_setValueForKey
            (leon_hash_setValueForKey
              (leon_hash_setValueForKey (leon_hash_create 0) "x".toList "Letmein".toList none)
              "y".toList "Dummy".toList none)
            "z".toList "Lorem ipsum".toList none)
          "y".toList "No dummy".toList
          (some (leon_hash_hashCString "y".toList % 33, 0))) = 4 ∧
      (leon_hash_setValueForKey
          (leon_hash_setValueForKey
            (leon_hash_setValueForKey
              (leon_hash_setValueForKey (leon_hash_create 0) "x".toList "Letmein".toList none)
              "y".toList "Dummy".toList none)
            "z".toList "Lorem ipsum".toList none)
          "y".toList "No dummy".toList
          (some (leon_hash_hashCString "y".toList % 33, 0))).keyCount = 3 ∧
      leon_hash_valueForKey
        (leon_hash_setValueForKey
          (leon_hash_setValueForKey
            (leon_hash_setValueForKey
              (leon_hash_setValueForKey (leon_hash_create 0) "x".toList "Letmein".toList none)
              "y".toList "Dummy".toList none)
            "z".toList "Lorem ipsum".toList none)
          "y".toList "No dummy".toList
          (some (leon_hash_hashCString "y".toList % 33, 0))) "y".toList =
        some "No dummy".toList ∧
      leon_hash_pairCount
        (leon_hash_setValueForKey
          (leon_hash_setValueForKey
            (leon_hash_setValueForKey
              (leon_hash_setValueForKey (leon_hash_create 0) "x".toList "Letmein".toList none)
              "y".toList "Dummy".toList none)
            "z".toList "Lorem ipsum".toList none)
          "y".toList "No dummy".toList none) = 3 := by
  decide

/-! ### Interactive delete with every prompt answered yes -/

theorem prompt_yes (path : CString) (s : RmiState) (k : Nat)
    (h : s.stdin = List.replicate (k + 1) true) :
    __leon_rm_interactivePrompt path s =
      (true, { s with prompts := s.prompts ++ [path], stdin := List.replicate k true }) := by
  unfold __leon_rm_interactivePrompt
  rw [h]
  rfl

theorem rmi_loop_failed (cfg : Config) (p : CString) (es : DirEntries) (r d : Bool) (f : stat)
    (s : RmiState) :
    leon_rm_interactive_loop cfg p es r d kLeonRMStatusFailed f s =
      (kLeonRMStatusFailed, f, s) := by
  cases es with
  | nil => simp [leon_rm_interactive_loop]
  | cons n t node rest => simp [leon_rm_interactive_loop]

theorem entityKind_indep (cfg : Config) (t : Nat) (n : FsNode) (f f' : stat) :
    (leon_rm_entityKind cfg t n f).1 = (leon_rm_entityKind cfg t n f').1 ∧
      (leon_rm_entityKind cfg t n f).2.1 = (leon_rm_entityKind cfg t n f').2.1 := by
  unfold leon_rm_entityKind leon_stat
  by_cases h1 : (cfg.dirent_have_d_type && t == DT_DIR) = true
  · simp [h1]
  · by_cases h2 : n.lstatErrno = 0 <;> simp [h1, h2]
theorem rmAlike_mono (ok : Bool) (trace : List Syscall) (status : leon_rm_status_t)
    (si : RmiState) (k k0 size size0 : Nat) (hk : k ≤ k0 + (size - size0)) (hs : size0 ≤ size)
    (h : RmAlike ok trace status si k0 size0) : RmAlike ok trace status si k size := by
  obtain ⟨h1, h2, h3, k', h4, h5⟩ := h
  exact ⟨h1, h2, h3, k', h4, by omega⟩

theorem fsNode_size_pos (n : FsNode) : 1 ≤ n.size := by
  cases n
  simp [FsNode.size]

mutual
theorem rmi_all_yes (cfg : Config) :
    ∀ (p : CString) (n : FsNode) (s : RmState) (si : RmiState) (k : Nat),
      n.Openable → si.trace = s.trace → si.stdin = List.replicate k true → n.size ≤ k →
      RmAlike (leon_rm cfg p n false s).1 (leon_rm cfg p n false s).2.trace
        (leon_rm_interactive cfg p n true false si).1
        (leon_rm_interactive cfg p n true false si).2 k n.size
  | p, .mk l st o entries r u m, s, si, k, hopen, htr, hin, hk => by
    simp only [FsNode.Openable] at hopen
    simp only [FsNode.size] at hk ⊢
    obtain ⟨k0, rfl⟩ : ∃ k0, k = k0 + 1 := ⟨k - 1, by omega⟩
    by_cases hl : l = 0
    · by_cases hd : S_ISDIR st = true
      · have ho : o = 0 := hopen.1 hl hd
        have ihl := rmi_loop_all_yes cfg p entries st st s si (k0 + 1) hopen.2 htr hin (by omega)
        obtain ⟨t1, t2, t3, k', t4, t5⟩ := ihl
        simp only [leon_rm, leon_rm_interactive, hl, hd, ho, if_true, Bool.not_false]
        cases hlr : (leon_rm_loop cfg p entries false st s).1 with
        | false =>
          have hst : (leon_rm_interactive_loop cfg p entries true false kLeonRMStatusSucceeded
              st si).1 = kLeonRMStatusFailed := by
            rcases t3 with h | h
            · rw [hlr] at t2
              exact absurd (t2.1 h) (by decide)
            · exact h
          simp only [hst, Bool.not_false, if_true, Bool.false_eq_true, if_false, reduceCtorEq]
          exact ⟨t1, by simp, Or.inr rfl, k', t4, by omega⟩
        | true =>
          have hst : (leon_rm_interactive_loop cfg p entries true false kLeonRMStatusSucceeded
              st si).1 = kLeonRMStatusSucceeded := t2.2 hlr
          obtain ⟨k1, rfl⟩ : ∃ k1, k' = k1 + 1 := ⟨k' - 1, by omega⟩
          simp only [hst, Bool.not_true, Bool.false_eq_true, if_false, if_true,
            prompt_yes p _ k1 t4]
          by_cases hm : (m ≠ 0 && m ≠ ENOENT) = true
          · simp only [hm, if_true]
            exact ⟨by simp [t1], by simp, Or.inr rfl, k1, rfl, by omega⟩
          · simp only [hm, if_false]
            exact ⟨by simp [t1], by simp, Or.inl rfl, k1, rfl, by omega⟩
      · simp only [leon_rm, leon_rm_interactive, hl, hd, if_true, if_false, Bool.false_eq_true,
          prompt_yes p si k0 hin]
        by_cases hu : (u ≠ 0 && u ≠ ENOENT) = true
        · simp only [hu, if_true]
          exact ⟨by simp [htr], by simp, Or.inr rfl, k0, rfl, by omega⟩
        · simp only [hu, if_false]
          exact ⟨by simp [htr], by simp, Or.inl rfl, k0, rfl, by omega⟩
    · simp only [leon_rm, leon_rm_interactive, hl, if_false]
      exact ⟨htr, by simp, Or.inr rfl, k0 + 1, hin, by omega⟩
theorem rmi_loop_all_yes (cfg : Config) :
    ∀ (p : CString) (es : DirEntries) (f fi : stat) (s : RmState) (si : RmiState) (k : Nat),
      es.Openable → si.trace = s.trace → si.stdin = List.replicate k true → es.size ≤ k →
      RmAlike (leon_rm_loop cfg p es false f s).1 (leon_rm_loop cfg p es false f s).2.2.trace
        (leon_rm_interactive_loop cfg p es true false kLeonRMStatusSucceeded fi si).1
        (leon_rm_interactive_loop cfg p es true false kLeonRMStatusSucceeded fi si).2.2
        k es.size
  | p, .nil, f, fi, s, si, k, _, htr, hin, _ => by
    simp only [leon_rm_loop, leon_rm_interactive_loop, DirEntries.size]
    exact ⟨htr, by simp, Or.inl rfl, k, hin, by omega⟩
  | p, .cons d t node rest, f, fi, s, si, k, hopen, htr, hin, hk => by
    simp only [DirEntries.Openable] at hopen
    simp only [DirEntries.size] at hk ⊢
    have hpos := fsNode_size_pos node
    by_cases hdot : isDotOrDotDot d = true
    · simp only [leon_rm_loop, leon_rm_interactive_loop, hdot, if_true, reduceCtorEq, if_false]
      exact rmAlike_mono _ _ _ _ _ k _ rest.size (by omega) (by omega)
        (rmi_loop_all_yes cfg p rest f fi s si k hopen.2 htr hin (by omega))
    · obtain ⟨e1, e2⟩ := entityKind_indep cfg t node fi f
      simp only [leon_rm_loop, leon_rm_interactive_loop, hdot, if_false, reduceCtorEq, e1, e2,
        Bool.not_false, if_true]
      cases hok : (leon_rm_entityKind cfg t node f).2.1 with
      | false =>
        simp only [Bool.false_eq_true, if_false]
        exact rmAlike_mono _ _ _ _ _ k _ rest.size (by omega) (by omega)
          (rmi_loop_all_yes cfg p rest _ _ s si k hopen.2 htr hin (by omega))
      | true =>
        simp only [if_true]
        cases hdir : (leon_rm_entityKind cfg t node f).1 with
        | true =>
          simp only [if_true]
          obtain ⟨t1, t2, t3, k', t4, t5⟩ :=
            rmi_all_yes cfg (leon_path_push p d) node s si k hopen.1 htr hin (by omega)
          cases hr : (leon_rm cfg (leon_path_push p d) node false s).1 with
          | false =>
            have hst : (leon_rm_interactive cfg (leon_path_push p d) node true false si).1 =
                kLeonRMStatusFailed := by
              rcases t3 with h | h
              · rw [hr] at t2
                exact absurd (t2.1 h) (by decide)
              · exact h
            simp only [hst, rmi_loop_failed, Bool.not_false, if_true]
            exact ⟨t1, by simp, Or.inr rfl, k', t4, by omega⟩
          | true =>
            have hst : (leon_rm_interactive cfg (leon_path_push p d) node true false si).1 =
                kLeonRMStatusSucceeded := t2.2 hr
            simp only [hst, Bool.not_true, Bool.false_eq_true, if_false]
            exact rmAlike_mono _ _ _ _ _ k' _ rest.size (by omega) (by omega)
              (rmi_loop_all_yes cfg p rest _ _ _ _ k' hopen.2 t1 t4 (by omega))
        | false =>
          obtain ⟨k0, rfl⟩ : ∃ k0, k = k0 + 1 := ⟨k - 1, by omega⟩
          simp only [Bool.false_eq_true, if_false, prompt_yes (leon_path_push p d) si k0 hin,
            if_true]
          by_cases hu : (node.unlinkErrno ≠ 0 && node.unlinkErrno ≠ ENOENT) = true
          · simp only [hu, if_true, rmi_loop_failed]
            exact ⟨by simp [htr], by simp, Or.inr rfl, k0, rfl, by omega⟩
          · simp only [hu, if_false]
            exact rmAlike_mono _ _ _ _ _ k0 _ rest.size (by omega) (by omega)
              (rmi_loop_all_yes cfg p rest _ _ _ _ k0 hopen.2 (by simp [htr]) rfl (by omega))
end

/-- C37 (as stated) fails: on a directory that cannot be opened `leon_rm` goes on to the rmdir of
the directory (which here succeeds, so it returns true), while `leon_rm_interactive` with every
answer yes issues no call and returns Failed. -/
theorem C37_counterexample :
    leon_rm (sampleCfg false) "/q".toList lockedDir false ⟨0, none, []⟩ =
        (true, ⟨13, none, [Syscall.rmdir "/q".toList 0]⟩) ∧
      leon_rm_interactive (sampleCfg false) "/q".toList lockedDir true false
        ⟨0, none, [], [], [true, true]⟩ =
        (kLeonRMStatusFailed, ⟨13, none, [], [], [true, true]⟩) := by
  decide

/-- C37 (amended): for every tree in which every entity that `lstat` reports as a directory can
be opened, `leon_rm_interactive` with `isRecursive` true, `dryRun` false and every prompt
answered yes issues the same sequence of unlink and rmdir calls as `leon_rm`, and returns
Succeeded exactly when `leon_rm` returns true. -/
theorem C37_interactive_all_yes_alike (cfg : Config) (aPath : CString) (node : FsNode)
    (s : RmState) (si : RmiState) (k : Nat) (hopen : node.Openable)
    (htrace : si.trace = s.trace) (hyes : si.stdin = List.replicate k true)
    (hk : node.size ≤ k) :
    (leon_rm_interactive cfg aPath node true false si).2.trace =
        (leon_rm cfg aPath node false s).2.trace ∧
      ((leon_rm_interactive cfg aPath node true false si).1 = kLeonRMStatusSucceeded ↔
        (leon_rm cfg aPath node false s).1 = true) := by
  obtain ⟨h1, h2, _, _⟩ := rmi_all_yes cfg aPath node s si k hopen htrace hyes hk
  exact ⟨h1, h2⟩

theorem C37_interactive_all_yes_alike_witness :
    (oldDir (.cons "d".toList DT_DIR (oldDir (.cons "f".toList DT_REG oldFile .nil))
        (.cons "stuck".toList DT_REG stuckFile .nil))).Openable ∧
      (leon_rm_interactive (sampleCfg false) "/q".toList
        (oldDir (.cons "d".toList DT_DIR (oldDir (.cons "f".toList DT_REG oldFile .nil))
          (.cons "stuck".toList DT_REG stuckFile .nil)))
        true false ⟨0, none, [], [], List.replicate 4 true⟩).2.trace =
        [Syscall.unlink "/q/d/f".toList 0, Syscall.rmdir "/q/d".toList 0,
          Syscall.unlink "/q/stuck".toList EACCES] ∧
      (leon_rm_interactive (sampleCfg false) "/q".toList
        (oldDir (.cons "d".toList DT_DIR (oldDir (.cons "f".toList DT_REG oldFile .nil))
          (.cons "stuck".toList DT_REG stuckFile .nil)))
        true false ⟨0, none, [], [], List.replicate 4 true⟩).1 ≠ kLeonRMStatusSucceeded :=
  have hopen : (oldDir (.cons "d".toList DT_DIR (oldDir (.cons "f".toList DT_REG oldFile .nil))
      (.cons "stuck".toList DT_REG stuckFile .nil))).Openable := by
    simp only [oldDir, oldFile, stuckFile, FsNode.Openable, DirEntries.Openable]
    decide
  have h := C37_interactive_all_yes_alike (sampleCfg false) "/q".toList
    (oldDir (.cons "d".toList DT_DIR (oldDir (.cons "f".toList DT_REG oldFile .nil))
      (.cons "stuck".toList DT_REG stuckFile .nil)))
    ⟨0, none, []⟩ ⟨0, none, [], [], List.replicate 4 true⟩ 4 hopen rfl rfl (by decide)
  ⟨hopen, h.1.trans (by decide), fun hs => absurd (h.2.1 hs) (by decide)⟩

/-! ### The attributes of directories play no part in a scan -/

theorem sameStat_isdir (a b : stat) (h : SameButDirMetaStat a b) : S_ISDIR a = S_ISDIR b := by
  rcases h with h | ⟨_, hm, _⟩
  · rw [h]
  · unfold S_ISDIR
    rw [hm]

theorem checkPath_congr (cfg : Config) (p : CString) (n n' : FsNode) (f : stat)
    (hl : n.lstatErrno = n'.lstatErrno) (hs : n.st = n'.st) :
    leon_checkPathFn cfg p n f = leon_checkPathFn cfg p n' f := by
  unfold leon_checkPathFn leon_fstest_checkPathModificationTimes
    leon_fstest_checkPathAccessTimes leon_fstest_checkPathMaxTimes leon_stat
  rw [hl, hs]

theorem checkPath_of_lstat_fail (cfg : Config) (p : CString) (n : FsNode) (f : stat)
    (hl : n.lstatErrno ≠ 0) : leon_checkPathFn cfg p n f = (kLeonResultUnknown, f) := by
  unfold leon_checkPathFn leon_fstest_checkPathModificationTimes
    leon_fstest_checkPathAccessTimes leon_fstest_checkPathMaxTimes leon_stat
  cases cfg.leon_checkPathFn <;> simp [hl]

theorem sameNode_fields (n n' : FsNode) (h : n.SameButDirMeta n') :
    n.lstatErrno = n'.lstatErrno ∧ n.opendirErrno = n'.opendirErrno ∧
      n.renameErrno = n'.renameErrno ∧ SameButDirMetaStat n.st n'.st ∧
      n.entries.SameButDirMeta n'.entries := by
  obtain ⟨l, st, o, es, r, u, m⟩ := n
  obtain ⟨l', st', o', es', r', u', m'⟩ := n'
  simp only [FsNode.SameButDirMeta] at h
  exact ⟨h.1, h.2.1, h.2.2.1, h.2.2.2.2.2.1, h.2.2.2.2.2.2⟩

theorem checkPath_same (cfg : Config) (p : CString) (n n' : FsNode) (f f' : stat)
    (h : n.SameButDirMeta n') (hf : SameButDirMetaStat f f') :
    SameButDirMetaStat (leon_checkPathFn cfg p n f).2 (leon_checkPathFn cfg p n' f').2 ∧
      (S_ISDIR (leon_checkPathFn cfg p n f).2 = false →
        (leon_checkPathFn cfg p n f).1 = (leon_checkPathFn cfg p n' f').1) := by
  obtain ⟨hl, _, _, hs, _⟩ := sameNode_fields n n' h
  by_cases h0 : n.lstatErrno = 0
  · have h0' : n'.lstatErrno = 0 := hl ▸ h0
    rw [checkPath_snd_of_lstat cfg p n f h0, checkPath_snd_of_lstat cfg p n' f' h0']
    refine ⟨hs, fun hd => ?_⟩
    rcases hs with he | ⟨hdir, _⟩
    · rw [checkPath_fresh cfg p n f f' h0, checkPath_congr cfg p n n' f' hl he]
    · rw [hdir] at hd
      exact absurd hd (by decide)
  · have h0' : n'.lstatErrno ≠ 0 := hl ▸ h0
    rw [checkPath_of_lstat_fail cfg p n f h0, checkPath_of_lstat_fail cfg p n' f' h0']
    exact ⟨hf, fun _ => rfl⟩

theorem loop1_same (cfg : Config) (p : CString) :
    ∀ (es es' : DirEntries) (l l' : Loop1State), es.SameButDirMeta es' →
      l.should_delete = l'.should_delete → l.foundSubdir = l'.foundSubdir →
      SameButDirMetaStat l.fInfo l'.fInfo →
      (leon_cleanup_dir_loop1 cfg p es l).should_delete =
          (leon_cleanup_dir_loop1 cfg p es' l').should_delete ∧
        (leon_cleanup_dir_loop1 cfg p es l).foundSubdir =
          (leon_cleanup_dir_loop1 cfg p es' l').foundSubdir
  | .nil, .nil, l, l', _, h1, h2, _ => by
    simp only [leon_cleanup_dir_loop1]
    exact ⟨h1, h2⟩
  | .nil, .cons _ _ _ _, _, _, h, _, _, _ => by simp [DirEntries.SameButDirMeta] at h
  | .cons _ _ _ _, .nil, _, _, h, _, _, _ => by simp [DirEntries.SameButDirMeta] at h
  | .cons d t n rest, .cons d' t' n' rest', l, l', h, h1, h2, h3 => by
    simp only [DirEntries.SameButDirMeta] at h
    obtain ⟨rfl, rfl, hn, hrest⟩ := h
    obtain ⟨c1, c2⟩ := checkPath_same cfg (leon_path_push p d) n n' l.fInfo l'.fInfo hn h3
    have cdir := sameStat_isdir _ _ c1
    simp only [leon_cleanup_dir_loop1, ← h1]
    by_cases hy : l.should_delete ≠ kLeonResultYes
    · rw [if_pos hy, if_pos hy]
      exact ⟨h1, h2⟩
    · rw [if_neg hy, if_neg hy]
      by_cases hdot : isDotOrDotDot d = true
      · rw [if_pos hdot, if_pos hdot]
        exact loop1_same cfg p rest rest' l l' hrest h1 h2 h3
      · rw [if_neg hdot, if_neg hdot, ← cdir]
        by_cases hdir : S_ISDIR (leon_checkPathFn cfg (leon_path_push p d) n l.fInfo).2 = true
        · rw [if_pos hdir, if_pos hdir]
          exact loop1_same cfg p rest rest' _ _ hrest rfl rfl c1
        · rw [if_neg hdir, if_neg hdir, ← c2 (by simpa using hdir)]
          by_cases hno : (leon_checkPathFn cfg (leon_path_push p d) n l.fInfo).1 = kLeonResultNo
          · rw [if_pos hno, if_pos hno]
            exact loop1_same cfg p rest rest' _ _ hrest rfl h2 c1
          · rw [if_neg hno, if_neg hno]
            exact loop1_same cfg p rest rest' _ _ hrest rfl h2 c1

theorem isSubdirEntry_same (cfg : Config) (t : Nat) (n n' : FsNode) (h : n.SameButDirMeta n') :
    isSubdirEntry cfg t n = isSubdirEntry cfg t n' := by
  obtain ⟨hl, _, _, hs, _⟩ := sameNode_fields n n' h
  have hd := sameStat_isdir _ _ hs
  unfold isSubdirEntry leon_isDirectory leon_stat
  rw [hl]
  by_cases h0 : n'.lstatErrno = 0
  · simp only [h0, if_true, hd]
  · simp only [h0, if_false]

mutual
theorem cleanup_same (cfg : Config) :
    ∀ (p : CString) (n n' : FsNode) (s : ScanState), n.SameButDirMeta n' →
      leon_cleanup_dir cfg p n s = leon_cleanup_dir cfg p n' s
  | p, .mk l st o es r u m, .mk l' st' o' es' r' u' m', s, h => by
    simp only [FsNode.SameButDirMeta] at h
    obtain ⟨_, rfl, _, _, _, _, hes⟩ := h
    obtain ⟨e1, e2⟩ := loop1_same cfg p es es' ⟨kLeonResultYes, cfg.fInfoInit p, false⟩
      ⟨kLeonResultYes, cfg.fInfoInit p, false⟩ hes rfl rfl (Or.inl rfl)
    simp only [leon_cleanup_dir, e1, e2]
    split
    · rfl
    · split
      · exact loop2_same cfg p es es' _ s hes
      · rfl
theorem loop2_same (cfg : Config) :
    ∀ (p : CString) (es es' : DirEntries) (sd : leon_result_t) (s : ScanState),
      es.SameButDirMeta es' →
      leon_cleanup_dir_loop2 cfg p es sd s = leon_cleanup_dir_loop2 cfg p es' sd s
  | _, .nil, .nil, _, _, _ => rfl
  | _, .nil, .cons _ _ _ _, _, _, h => by simp [DirEntries.SameButDirMeta] at h
  | _, .cons _ _ _ _, .nil, _, _, h => by simp [DirEntries.SameButDirMeta] at h
  | p, .cons d t n rest, .cons d' t' n' rest', sd, s, h => by
    simp only [DirEntries.SameButDirMeta] at h
    obtain ⟨rfl, rfl, hn, hrest⟩ := h
    have hr := (sameNode_fields n n' hn).2.2.1
    simp only [leon_cleanup_dir_loop2, ← isSubdirEntry_same cfg t n n' hn,
      ← cleanup_same cfg (leon_path_push p d) n n' s hn, leon_cleanup_dir_quarantine, ← hr]
    split
    · exact loop2_same cfg p rest rest' sd s hrest
    · split
      · exact loop2_same cfg p rest rest' _ _ hrest
      · exact loop2_same cfg p rest rest' sd s hrest
end

/-- C35: two trees that differ only in the owner, group, access time or modification time of
directories give the same result of `leon_cleanup_dir` from the same state: the same verdict,
the same worklog and the same calls issued. -/
theorem C35_directory_attributes_ignored (cfg : Config) (basePath : CString)
    (node node' : FsNode) (s : ScanState) (h : node.SameButDirMeta node') :
    leon_cleanup_dir cfg basePath node s = leon_cleanup_dir cfg basePath node' s :=
  cleanup_same cfg basePath node node' s h

theorem C35_directory_attributes_ignored_witness :
    (oldDir (.cons "r".toList DT_DIR
        (sizedDir 0 1000 0 (.cons "f".toList DT_REG oldFile .nil)) .nil)).SameButDirMeta
      (oldDir (.cons "r".toList DT_DIR
        (.mk 0 ⟨S_IFDIR, 0, 0, 0, 5000, 5000⟩ 0 (.cons "f".toList DT_REG oldFile .nil) 0 0 0)
        .nil)) ∧
      leon_cleanup_dir (sampleCfg false) "/s".toList
        (oldDir (.cons "r".toList DT_DIR
          (.mk 0 ⟨S_IFDIR, 0, 0, 0, 5000, 5000⟩ 0 (.cons "f".toList DT_REG oldFile .nil) 0 0 0)
          .nil))
        ⟨leon_worklog_create, []⟩ =
        (kLeonResultYes,
          ⟨⟨[⟨1, "/s/r".toList, "/s/.leon201503041640-r".toList⟩], [], true, none, SQLITE_OK, []⟩,
            [Syscall.rename "/s/r".toList "/s/.leon201503041640-r".toList 0]⟩) :=
  have h : (oldDir (.cons "r".toList DT_DIR
        (sizedDir 0 1000 0 (.cons "f".toList DT_REG oldFile .nil)) .nil)).SameButDirMeta
      (oldDir (.cons "r".toList DT_DIR
        (.mk 0 ⟨S_IFDIR, 0, 0, 0, 5000, 5000⟩ 0 (.cons "f".toList DT_REG oldFile .nil) 0 0 0)
        .nil)) := by
    simp only [FsNode.SameButDirMeta, DirEntries.SameButDirMeta, SameButDirMetaStat, oldDir,
      sizedDir, oldFile]
    decide
  ⟨h, (C35_directory_attributes_ignored (sampleCfg false) "/s".toList _ _
    ⟨leon_worklog_create, []⟩ h).symm.trans (by decide)⟩

/-! ### Paths of siblings and of descendants -/

theorem slashPrefix_trans (a b c : CString) (h1 : IsSlashPrefix a b) (h2 : IsSlashPrefix b c) :
    IsSlashPrefix a c := by
  obtain ⟨r1, rfl⟩ := h1
  obtain ⟨r2, rfl⟩ := h2
  exact ⟨r1 ++ '/' :: r2, by simp⟩

theorem slashPrefix_length (a b : CString) (h : IsSlashPrefix a b) : a.length < b.length := by
  obtain ⟨r, rfl⟩ := h
  simp

theorem slashPrefix_irrefl (a : CString) : ¬ IsSlashPrefix a a :=
  fun h => absurd (slashPrefix_length a a h) (lt_irrefl _)

theorem slashPrefix_asymm (a b : CString) (h : IsSlashPrefix a b) : ¬ IsSlashPrefix b a :=
  fun h' => absurd (lt_trans (slashPrefix_length a b h) (slashPrefix_length b a h'))
    (lt_irrefl _)

theorem push_eq (p d : CString) (hd : d ≠ []) : leon_path_push p d = p ++ '/' :: d := by
  have hl : d.length ≠ 0 := fun h => hd (List.length_eq_zero.1 h)
  simp [leon_path_push, hl]

theorem slashPrefix_push (p d : CString) (hd : d ≠ []) : IsSlashPrefix p (leon_path_push p d) :=
  ⟨d, push_eq p d hd⟩

/-- Two paths that start alike and go on with a slash share a slash-bounded prefix relation or
are equal. -/
theorem slash_split (a b x y : CString) (h : a ++ '/' :: x = b ++ '/' :: y) :
    a = b ∨ IsSlashPrefix a b ∨ IsSlashPrefix b a := by
  rcases List.append_eq_append_iff.1 h with ⟨a', hb, hx⟩ | ⟨c', ha, hy⟩
  · cases a' with
    | nil => left; simpa using hb.symm
    | cons c t =>
      simp only [List.cons_append, List.cons.injEq] at hx
      right; left
      exact ⟨t, by rw [hb, hx.1]⟩
  · cases c' with
    | nil => left; simpa using ha
    | cons c t =>
      simp only [List.cons_append, List.cons.injEq] at hy
      right; right
      exact ⟨t, by rw [ha, hy.1]⟩

theorem apart_not_above (r base o : CString) (h : Apart r base) (ho : IsSlashPrefix base o) :
    ¬ IsSlashPrefix r o := by
  intro hr
  obtain ⟨x, hx⟩ := hr
  obtain ⟨y, hy⟩ := ho
  rcases slash_split r base x y (hx.symm.trans hy) with h1 | h1 | h1
  · exact h.2.1 h1
  · exact h.1 h1
  · exact h.2.2 h1

theorem apart_below (r base q : CString) (h : Apart r base) (hq : IsSlashPrefix base q) :
    Apart r q := by
  refine ⟨apart_not_above r base q h hq, ?_, ?_⟩
  · intro he
    exact h.2.2 (he ▸ hq)
  · intro hqr
    exact h.2.2 (slashPrefix_trans _ _ _ hq hqr)

/-- Names without a slash that, followed by nothing or by a slash and more, give the same string
are the same name. -/
theorem name_cancel :
    ∀ (d e r1 r2 : CString), '/' ∉ d → '/' ∉ e → (r1 = [] ∨ ∃ z, r1 = '/' :: z) →
      (r2 = [] ∨ ∃ z, r2 = '/' :: z) → d ++ r1 = e ++ r2 → d = e
  | [], [], _, _, _, _, _, _, _ => rfl
  | [], c :: e, r1, r2, _, he, h1, _, h => by
    exfalso
    rcases h1 with rfl | ⟨z, rfl⟩
    · simp at h
    · simp only [List.nil_append, List.cons_append, List.cons.injEq] at h
      exact he (h.1 ▸ List.mem_cons_self _ _)
  | c :: d, [], r1, r2, hd, _, _, h2, h => by
    exfalso
    rcases h2 with rfl | ⟨z, rfl⟩
    · simp at h
    · simp only [List.nil_append, List.cons_append, List.cons.injEq] at h
      exact hd (h.1 ▸ List.mem_cons_self _ _)
  | c :: d, c' :: e, r1, r2, hd, he, h1, h2, h => by
    simp only [List.cons_append, List.cons.injEq] at h
    rw [h.1, name_cancel d e r1 r2 (fun hm => hd (List.mem_cons_of_mem _ hm))
      (fun hm => he (List.mem_cons_of_mem _ hm)) h1 h2 h.2]

theorem atOrUnder_tail (q x : CString) (h : AtOrUnder q x) :
    ∃ r, (r = [] ∨ ∃ z, r = '/' :: z) ∧ x = q ++ r := by
  rcases h with rfl | ⟨z, rfl⟩
  · exact ⟨[], Or.inl rfl, by simp⟩
  · exact ⟨'/' :: z, Or.inr ⟨z, rfl⟩, rfl⟩

/-- What lies at or below one entry of a directory is apart from every other entry of it. -/
theorem sibling_apart (base d e x : CString) (hd : GoodName d) (he : GoodName e) (hne : d ≠ e)
    (hx : AtOrUnder (leon_path_push base d) x) : Apart x (leon_path_push base e) := by
  rw [push_eq base d hd.1] at hx
  rw [push_eq base e he.1]
  obtain ⟨r, hr, rfl⟩ := atOrUnder_tail _ _ hx
  have key : ∀ r1 r2 : CString, (r1 = [] ∨ ∃ z, r1 = '/' :: z) → (r2 = [] ∨ ∃ z, r2 = '/' :: z) →
      (base ++ '/' :: d) ++ r1 = (base ++ '/' :: e) ++ r2 → False := by
    intro r1 r2 h1 h2 h
    simp only [List.append_assoc, List.cons_append, List.append_cancel_left_eq,
      List.cons.injEq, true_and] at h
    exact hne (name_cancel d e r1 r2 hd.2 he.2 h1 h2 h)
  refine ⟨?_, ?_, ?_⟩
  · rintro ⟨z, hz⟩
    refine key (r ++ '/' :: z) [] ?_ (Or.inl rfl) (by simpa using hz.symm)
    rcases hr with rfl | ⟨y, rfl⟩
    · exact Or.inr ⟨z, rfl⟩
    · exact Or.inr ⟨y ++ '/' :: z, rfl⟩
  · intro h
    exact key r [] hr (Or.inl rfl) (by simpa using h)
  · rintro ⟨z, hz⟩
    exact key r ('/' :: z) hr (Or.inr ⟨z, rfl⟩) (by simpa using hz)

/-! ### The worklog of a scan is the worklog of its calls of `leon_worklog_addPath` -/

theorem addPaths_append (c1 : List (CString × CString)) :
    ∀ (w : leon_worklog_t) (c2 : List (CString × CString)),
      addPaths w (c1 ++ c2) = addPaths (addPaths w c1) c2 := by
  induction c1 with
  | nil => intro w c2; rfl
  | cons c rest ih =>
    intro w c2
    obtain ⟨o, a⟩ := c
    simp only [List.cons_append, addPaths]
    exact ih _ c2

theorem descendantsFirst_append (c1 : List (CString × CString)) :
    ∀ (w : leon_worklog_t) (c2 : List (CString × CString)),
      DescendantsFirst w c1 → DescendantsFirst (addPaths w c1) c2 →
        DescendantsFirst w (c1 ++ c2) := by
  induction c1 with
  | nil => intro w c2 _ h; exact h
  | cons c rest ih =>
    intro w c2 h1 h2
    obtain ⟨o, a⟩ := c
    simp only [List.cons_append, DescendantsFirst, addPaths] at h1 h2 ⊢
    exact ⟨h1.1, ih _ c2 h1.2 h2⟩

theorem mv_dir_adds_cases (cfg : Config) (b o d : CString) (e : Nat) :
    leon_mv_dir_adds cfg b o d e = [] ∨
      leon_mv_dir_adds cfg b o d e =
        [(o, leon_path_pushFormat b (__leon_mv_dir_format cfg.now_s ++ d))] := by
  unfold leon_mv_dir_adds
  by_cases hf : leon_mv_dir_flagged d = true
  · simp [hf]
  · by_cases hd : cfg.leon_shouldDryRun = true
    · simp [hf, hd]
    · by_cases he : e = 0
      · simp [hf, hd, he]
      · simp [hf, hd, he]

theorem mv_dir_worklog (cfg : Config) (b o d : CString) (e : Nat) (s : ScanState) :
    (leon_mv_dir cfg b o d e s).2.worklog = addPaths s.worklog (leon_mv_dir_adds cfg b o d e) := by
  unfold leon_mv_dir leon_mv_dir_adds
  by_cases hf : leon_mv_dir_flagged d = true
  · simp [hf, addPaths]
  · by_cases hd : cfg.leon_shouldDryRun = true
    · simp [hf, hd, addPaths]
    · by_cases he : e = 0
      · simp [hf, hd, he, addPaths]
      · simp [hf, hd, he, addPaths]

theorem quarantine_worklog (cfg : Config) (b d : CString) (n : FsNode)
    (r : leon_result_t × ScanState) (hr : r.1 = verdictOf cfg (leon_path_push b d) n) :
    (leon_cleanup_dir_quarantine cfg b (leon_path_push b d) d n r).2.worklog =
      addPaths r.2.worklog
        (if verdictOf cfg (leon_path_push b d) n = kLeonResultYes then
          leon_mv_dir_adds cfg b (leon_path_push b d) d n.renameErrno
        else []) := by
  unfold leon_cleanup_dir_quarantine
  rw [hr]
  by_cases hy : verdictOf cfg (leon_path_push b d) n = kLeonResultYes
  · rw [if_pos hy, if_pos hy]
    have h := mv_dir_worklog cfg b (leon_path_push b d) d n.renameErrno r.2
    by_cases hm : (leon_mv_dir cfg b (leon_path_push b d) d n.renameErrno r.2).1 = 0
    · simp only [hm, ne_eq, not_true_eq_false, if_false]
      exact h
    · simp only [hm, ne_eq, not_false_eq_true, if_true]
      exact h
  · rw [if_neg hy, if_neg hy]
    rfl

mutual
theorem cleanup_worklog (cfg : Config) :
    ∀ (p : CString) (n : FsNode) (s : ScanState),
      (leon_cleanup_dir cfg p n s).2.worklog =
        addPaths s.worklog (leon_cleanup_dir_adds cfg p n)
  | p, .mk _ _ c entries _ _ _, s => by
    simp only [leon_cleanup_dir, leon_cleanup_dir_adds]
    split
    · rfl
    · split
      · exact loop2_worklog cfg p entries _ s
      · rfl
theorem loop2_worklog (cfg : Config) :
    ∀ (p : CString) (es : DirEntries) (sd : leon_result_t) (s : ScanState),
      (leon_cleanup_dir_loop2 cfg p es sd s).2.worklog =
        addPaths s.worklog (leon_cleanup_dir_loop2_adds cfg p es)
  | _, .nil, _, _ => by simp [leon_cleanup_dir_loop2, leon_cleanup_dir_loop2_adds, addPaths]
  | p, .cons d t node rest, sd, s => by
    simp only [leon_cleanup_dir_loop2, leon_cleanup_dir_loop2_adds]
    split
    · exact loop2_worklog cfg p rest _ s
    · split
      · rw [loop2_worklog cfg p rest _ _,
          quarantine_worklog cfg p d node _ (cleanup_verdict_eq cfg _ node s),
          cleanup_worklog cfg _ node s, addPaths_append, addPaths_append]
      · exact loop2_worklog cfg p rest _ s
end

/-! ### A scan adds descendants before their ancestors -/

theorem addPath_rows_frame (w : leon_worklog_t) (o a : CString) :
    ∀ r ∈ (leon_worklog_addPath w o a).2.rows, r ∈ w.rows ∨ r.origPath = o := by
  intro r hr
  cases hres : (leon_worklog_addPath w o a).1 with
  | false =>
    rw [addPath_rows_of_fail w o a hres] at hr
    exact Or.inl hr
  | true =>
    rw [addPath_rows_of_success w o a hres] at hr
    rcases List.mem_append.1 hr with h1 | h1
    · exact Or.inl (List.mem_filter.1 h1).1
    · right
      simp only [List.mem_singleton] at h1
      rw [h1]

theorem wellListed_goodName :
    ∀ es : DirEntries, es.WellListed → ∀ e ∈ es.names, GoodName e
  | .nil, _, e, he => by simp [DirEntries.names] at he
  | .cons d t n rest, h, e, he => by
    simp only [DirEntries.WellListed] at h
    simp only [DirEntries.names, List.mem_cons] at he
    rcases he with rfl | he
    · exact h.1
    · exact wellListed_goodName rest h.2.2.2 e he

/-- One subdirectory in the second loop: the calls of its scan, the call for the subdirectory
itself, and the calls for the entries after it. -/
theorem loop2_df_step (p d : CString) (names : List CString) (w : leon_worklog_t)
    (A M R : List (CString × CString))
    (hg : GoodName d) (hnot : d ∉ names) (hgn : ∀ e ∈ names, GoodName e)
    (hap : ∀ r ∈ w.rows, ∀ e ∈ d :: names, Apart r.origPath (leon_path_push p e))
    (hA : DescendantsFirst w A ∧
      ∀ r ∈ (addPaths w A).rows, r ∈ w.rows ∨ IsSlashPrefix (leon_path_push p d) r.origPath)
    (hM : M = [] ∨ ∃ a, M = [(leon_path_push p d, a)])
    (hR : ∀ w2 : leon_worklog_t,
      (∀ r ∈ w2.rows, ∀ e ∈ names, Apart r.origPath (leon_path_push p e)) →
        DescendantsFirst w2 R ∧
          ∀ r ∈ (addPaths w2 R).rows,
            r ∈ w2.rows ∨ ∃ e ∈ names, AtOrUnder (leon_path_push p e) r.origPath) :
    DescendantsFirst w (A ++ M ++ R) ∧
      ∀ r ∈ (addPaths w (A ++ M ++ R)).rows,
        r ∈ w.rows ∨ ∃ e ∈ d :: names, AtOrUnder (leon_path_push p e) r.origPath := by
  have hM2 : DescendantsFirst (addPaths w A) M ∧
      ∀ r ∈ (addPaths (addPaths w A) M).rows,
        r ∈ w.rows ∨ AtOrUnder (leon_path_push p d) r.origPath := by
    rcases hM with rfl | ⟨a, rfl⟩
    · exact ⟨trivial, fun r hr => (hA.2 r hr).imp id Or.inr⟩
    · refine ⟨⟨fun r hr => ?_, trivial⟩, fun r hr => ?_⟩
      · rcases hA.2 r hr with h1 | h1
        · exact (hap r h1 d (List.mem_cons_self _ _)).1
        · exact slashPrefix_asymm _ _ h1
      · rcases addPath_rows_frame _ _ _ r hr with h1 | h1
        · exact (hA.2 r h1).imp id Or.inr
        · exact Or.inr (Or.inl h1)
  have hR2 := hR (addPaths (addPaths w A) M) (fun r hr e he => by
    rcases hM2.2 r hr with h1 | h1
    · exact hap r h1 e (List.mem_cons_of_mem _ he)
    · exact sibling_apart p d e r.origPath hg (hgn e he) (fun h => hnot (h ▸ he)) h1)
  refine ⟨descendantsFirst_append _ w R (descendantsFirst_append A w M hA.1 hM2.1)
    (by rw [addPaths_append]; exact hR2.1), fun r hr => ?_⟩
  rw [addPaths_append, addPaths_append] at hr
  rcases hR2.2 r hr with h1 | ⟨e, he, h1⟩
  · rcases hM2.2 r h1 with h2 | h2
    · exact Or.inl h2
    · exact Or.inr ⟨d, List.mem_cons_self _ _, h2⟩
  · exact Or.inr ⟨e, List.mem_cons_of_mem _ he, h1⟩

mutual
theorem cleanup_df (cfg : Config) :
    ∀ (p : CString) (n : FsNode) (w : leon_worklog_t), n.WellListed →
      (∀ r ∈ w.rows, Apart r.origPath p) →
        DescendantsFirst w (leon_cleanup_dir_adds cfg p n) ∧
          ∀ r ∈ (addPaths w (leon_cleanup_dir_adds cfg p n)).rows,
            r ∈ w.rows ∨ IsSlashPrefix p r.origPath
  | p, .mk _ _ c entries _ _ _, w, hwl, hap => by
    simp only [FsNode.WellListed] at hwl
    simp only [leon_cleanup_dir_adds]
    split
    · exact ⟨trivial, fun r hr => Or.inl hr⟩
    · split
      · have h := loop2_df cfg p entries w hwl (fun r hr e he =>
          apart_below _ _ _ (hap r hr)
            (slashPrefix_push p e (wellListed_goodName entries hwl e he).1))
        refine ⟨h.1, fun r hr => ?_⟩
        rcases h.2 r hr with h1 | ⟨e, he, h1⟩
        · exact Or.inl h1
        · right
          have hp := slashPrefix_push p e (wellListed_goodName entries hwl e he).1
          rcases h1 with h1 | h1
          · rw [h1]
            exact hp
          · exact slashPrefix_trans _ _ _ hp h1
      · exact ⟨trivial, fun r hr => Or.inl hr⟩
theorem loop2_df (cfg : Config) :
    ∀ (p : CString) (es : DirEntries) (w : leon_worklog_t), es.WellListed →
      (∀ r ∈ w.rows, ∀ e ∈ es.names, Apart r.origPath (leon_path_push p e)) →
        DescendantsFirst w (leon_cleanup_dir_loop2_adds cfg p es) ∧
          ∀ r ∈ (addPaths w (leon_cleanup_dir_loop2_adds cfg p es)).rows,
            r ∈ w.rows ∨ ∃ e ∈ es.names, AtOrUnder (leon_path_push p e) r.origPath
  | _, .nil, w, _, _ => by
    simp only [leon_cleanup_dir_loop2_adds]
    exact ⟨trivial, fun r hr => Or.inl hr⟩
  | p, .cons d t node rest, w, hwl, hap => by
    simp only [DirEntries.WellListed] at hwl
    obtain ⟨hg, hnot, hn, hrest⟩ := hwl
    simp only [DirEntries.names] at hap ⊢
    have hskip : DescendantsFirst w (leon_cleanup_dir_loop2_adds cfg p rest) ∧
        ∀ r ∈ (addPaths w (leon_cleanup_dir_loop2_adds cfg p rest)).rows,
          r ∈ w.rows ∨ ∃ e ∈ d :: rest.names, AtOrUnder (leon_path_push p e) r.origPath := by
      have h := loop2_df cfg p rest w hrest
        (fun r hr e he => hap r hr e (List.mem_cons_of_mem _ he))
      exact ⟨h.1, fun r hr => (h.2 r hr).imp id
        (fun ⟨e, he, h1⟩ => ⟨e, List.mem_cons_of_mem _ he, h1⟩)⟩
    simp only [leon_cleanup_dir_loop2_adds]
    split
    · exact hskip
    · split
      · refine loop2_df_step p d rest.names w _ _ _ hg hnot (wellListed_goodName rest hrest) hap
          (cleanup_df cfg (leon_path_push p d) node w hn
            (fun r hr => hap r hr d (List.mem_cons_self _ _)))
          ?_ (fun w2 h2 => loop2_df cfg p rest w2 hrest h2)
        split
        · rcases mv_dir_adds_cases cfg p (leon_path_push p d) d node.renameErrno with h | h
          · exact Or.inl h
          · exact Or.inr ⟨_, h⟩
        · exact Or.inl rfl
      · exact hskip
end

/-! ### Scans into a fresh worklog -/

/-- C34: in a tree whose listings name each entry once, by a name that is not empty and holds no
slash, the calls of `leon_worklog_addPath` that `leon_cleanup_dir` makes on a freshly created
worklog build the worklog the scan returns, none of them adds a path below an entry live at the
time of the call, and in the worklog after the scan no entry's origPath is a slash-bounded
prefix of another's. -/
theorem C34_scan_adds_descendants_first (cfg : Config) (basePath : CString) (node : FsNode)
    (trace : List Syscall) (h : node.WellListed) :
    (leon_cleanup_dir cfg basePath node ⟨leon_worklog_create, trace⟩).2.worklog =
        addPaths leon_worklog_create (leon_cleanup_dir_adds cfg basePath node) ∧
      DescendantsFirst leon_worklog_create (leon_cleanup_dir_adds cfg basePath node) ∧
      NoOverlap (leon_cleanup_dir cfg basePath node ⟨leon_worklog_create, trace⟩).2.worklog := by
  have hdf := (cleanup_df cfg basePath node leon_worklog_create h
    (fun r hr => by simp [leon_worklog_create] at hr)).1
  refine ⟨cleanup_worklog cfg basePath node _, hdf, ?_⟩
  rw [cleanup_worklog cfg basePath node _]
  exact addPaths_preserves_noOverlap _ _
    (fun r hr => by simp [leon_worklog_create] at hr) hdf

theorem C34_scan_adds_descendants_first_witness :
    (oldDir (.cons "a".toList DT_DIR
        (oldDir (.cons "b".toList DT_DIR (oldDir .nil) .nil)) .nil)).WellListed ∧
      ((leon_cleanup_dir (sampleCfg true) "/s".toList
          (oldDir (.cons "a".toList DT_DIR
            (oldDir (.cons "b".toList DT_DIR (oldDir .nil) .nil)) .nil))
          ⟨leon_worklog_create, []⟩).2.worklog =
        addPaths leon_worklog_create (leon_cleanup_dir_adds (sampleCfg true) "/s".toList
          (oldDir (.cons "a".toList DT_DIR
            (oldDir (.cons "b".toList DT_DIR (oldDir .nil) .nil)) .nil))) ∧
      DescendantsFirst leon_worklog_create (leon_cleanup_dir_adds (sampleCfg true) "/s".toList
        (oldDir (.cons "a".toList DT_DIR
          (oldDir (.cons "b".toList DT_DIR (oldDir .nil) .nil)) .nil))) ∧
      NoOverlap (leon_cleanup_dir (sampleCfg true) "/s".toList
        (oldDir (.cons "a".toList DT_DIR
          (oldDir (.cons "b".toList DT_DIR (oldDir .nil) .nil)) .nil))
        ⟨leon_worklog_create, []⟩).2.worklog) ∧
      leon_cleanup_dir_adds (sampleCfg true) "/s".toList
        (oldDir (.cons "a".toList DT_DIR
          (oldDir (.cons "b".toList DT_DIR (oldDir .nil) .nil)) .nil)) =
        [("/s/a/b".toList, "/s/a/.leon201503041640-b".toList),
         ("/s/a".toList, "/s/.leon201503041640-a".toList)] :=
  have hw : (oldDir (.cons "a".toList DT_DIR
      (oldDir (.cons "b".toList DT_DIR (oldDir .nil) .nil)) .nil)).WellListed := by
    simp only [oldDir, FsNode.WellListed, DirEntries.WellListed, DirEntries.names, GoodName]
    decide
  ⟨hw, C34_scan_adds_descendants_first (sampleCfg true) "/s".toList _ [] hw, by decide⟩

/-! ### The pairs a scan adds -/

/-- The last slash of a path splits it in one way only. -/
theorem last_slash (a b x y : CString) (hx : '/' ∉ x) (hy : '/' ∉ y)
    (h : a ++ '/' :: x = b ++ '/' :: y) : a = b ∧ x = y := by
  rcases slash_split a b x y h with h1 | ⟨t, h1⟩ | ⟨t, h1⟩
  · subst h1
    exact ⟨rfl, by simpa using h⟩
  · exfalso
    rw [h1] at h
    simp only [List.append_assoc, List.cons_append, List.append_cancel_left_eq,
      List.cons.injEq, true_and] at h
    exact hx (h ▸ List.mem_append_right _ (List.mem_cons_self _ _))
  · exfalso
    rw [h1] at h
    simp only [List.append_assoc, List.cons_append, List.append_cancel_left_eq,
      List.cons.injEq, true_and] at h
    exact hy (h ▸ List.mem_append_right _ (List.mem_cons_self _ _))

theorem pushFormat_eq (cfg : Config) (b d : CString) :
    leon_path_pushFormat b (__leon_mv_dir_format cfg.now_s ++ d) =
      b ++ '/' :: (__leon_mv_dir_format cfg.now_s ++ d) := by
  unfold leon_path_pushFormat
  have : (__leon_mv_dir_format cfg.now_s ++ d).length > 0 := by
    unfold __leon_mv_dir_format
    simp
  rw [if_pos this]

/-- The original path of a pair tells its quarantine path. -/
theorem quarantinePair_alt (cfg : Config) (x : CString × CString) (b n : CString)
    (hq : QuarantinePair cfg x) (hn : GoodName n) (h : x.1 = leon_path_push b n) :
    x.2 = leon_path_pushFormat b (__leon_mv_dir_format cfg.now_s ++ n) := by
  obtain ⟨X, m, hm, h1, h2⟩ := hq
  rw [push_eq b n hn.1, h1] at h
  obtain ⟨hX, hmn⟩ := last_slash X b _ _ hm.2 hn.2 h
  rw [h2, pushFormat_eq, hX, hmn]

theorem mv_dir_adds_pair (cfg : Config) (b d : CString) (e : Nat) (hd : GoodName d) :
    ∀ x ∈ leon_mv_dir_adds cfg b (leon_path_push b d) d e,
      x.1 = leon_path_push b d ∧ QuarantinePair cfg x := by
  intro x hx
  rcases mv_dir_adds_cases cfg b (leon_path_push b d) d e with h | h
  · rw [h] at hx
    exact absurd hx (List.not_mem_nil _)
  · rw [h, List.mem_singleton] at hx
    subst hx
    exact ⟨rfl, b, d, hd, push_eq b d hd.1, pushFormat_eq cfg b d⟩

mutual
theorem cleanup_adds_under (cfg : Config) :
    ∀ (p : CString) (n : FsNode), n.WellListed →
      ∀ x ∈ leon_cleanup_dir_adds cfg p n, IsSlashPrefix p x.1 ∧ QuarantinePair cfg x
  | p, .mk _ _ c entries _ _ _, hwl, x, hx => by
    simp only [FsNode.WellListed] at hwl
    simp only [leon_cleanup_dir_adds] at hx
    split at hx
    · exact absurd hx (List.not_mem_nil _)
    · split at hx
      · obtain ⟨⟨e, he, h1⟩, hq⟩ := loop2_adds_under cfg p entries hwl x hx
        refine ⟨?_, hq⟩
        have hp := slashPrefix_push p e (wellListed_goodName entries hwl e he).1
        rcases h1 with h1 | h1
        · rw [h1]
          exact hp
        · exact slashPrefix_trans _ _ _ hp h1
      · exact absurd hx (List.not_mem_nil _)
theorem loop2_adds_under (cfg : Config) :
    ∀ (p : CString) (es : DirEntries), es.WellListed →
      ∀ x ∈ leon_cleanup_dir_loop2_adds cfg p es,
        (∃ e ∈ es.names, AtOrUnder (leon_path_push p e) x.1) ∧ QuarantinePair cfg x
  | _, .nil, _, x, hx => by
    simp only [leon_cleanup_dir_loop2_adds] at hx
    exact absurd hx (List.not_mem_nil _)
  | p, .cons d t node rest, hwl, x, hx => by
    simp only [DirEntries.WellListed] at hwl
    obtain ⟨hg, _, hn, hrest⟩ := hwl
    simp only [DirEntries.names]
    have hskip : x ∈ leon_cleanup_dir_loop2_adds cfg p rest →
        (∃ e ∈ d :: rest.names, AtOrUnder (leon_path_push p e) x.1) ∧ QuarantinePair cfg x := by
      intro h
      obtain ⟨⟨e, he, h1⟩, hq⟩ := loop2_adds_under cfg p rest hrest x h
      exact ⟨⟨e, List.mem_cons_of_mem _ he, h1⟩, hq⟩
    simp only [leon_cleanup_dir_loop2_adds] at hx
    split at hx
    · exact hskip hx
    · split at hx
      · rcases List.mem_append.1 hx with h1 | h1
        · rcases List.mem_append.1 h1 with h2 | h2
          · obtain ⟨hu, hq⟩ := cleanup_adds_under cfg (leon_path_push p d) node hn x h2
            exact ⟨⟨d, List.mem_cons_self _ _, Or.inr hu⟩, hq⟩
          · split at h2
            · obtain ⟨he, hq⟩ := mv_dir_adds_pair cfg p d node.renameErrno hg x h2
              exact ⟨⟨d, List.mem_cons_self _ _, Or.inl he⟩, hq⟩
            · exact absurd h2 (List.not_mem_nil _)
        · exact hskip h1
      · exact hskip hx
end

/-! ### Live entries while a scan adds paths -/

mutual
theorem cleanup_adds_pairwise (cfg : Config) :
    ∀ (p : CString) (n : FsNode), n.WellListed →
      (leon_cleanup_dir_adds cfg p n).Pairwise (fun x y => x.1 ≠ y.1)
  | p, .mk _ _ c entries _ _ _, hwl => by
    simp only [FsNode.WellListed] at hwl
    simp only [leon_cleanup_dir_adds]
    split
    · exact List.Pairwise.nil
    · split
      · exact loop2_adds_pairwise cfg p entries hwl
      · exact List.Pairwise.nil
theorem loop2_adds_pairwise (cfg : Config) :
    ∀ (p : CString) (es : DirEntries), es.WellListed →
      (leon_cleanup_dir_loop2_adds cfg p es).Pairwise (fun x y => x.1 ≠ y.1)
  | _, .nil, _ => by
    simp only [leon_cleanup_dir_loop2_adds]
    exact List.Pairwise.nil
  | p, .cons d t node rest, hwl => by
    simp only [DirEntries.WellListed] at hwl
    obtain ⟨hg, hnot, hn, hrest⟩ := hwl
    simp only [leon_cleanup_dir_loop2_adds]
    split
    · exact loop2_adds_pairwise cfg p rest hrest
    · split
      · have hM : ∀ y ∈ (if verdictOf cfg (leon_path_push p d) node = kLeonResultYes then
            leon_mv_dir_adds cfg p (leon_path_push p d) d node.renameErrno else []),
            y.1 = leon_path_push p d := by
          intro y hy
          split at hy
          · exact (mv_dir_adds_pair cfg p d node.renameErrno hg y hy).1
          · exact absurd hy (List.not_mem_nil _)
        rw [List.pairwise_append, List.pairwise_append]
        refine ⟨⟨cleanup_adds_pairwise cfg _ node hn, ?_, ?_⟩,
          loop2_adds_pairwise cfg p rest hrest, ?_⟩
        · split
          · rcases mv_dir_adds_cases cfg p (leon_path_push p d) d node.renameErrno with h | h
            · rw [h]
              exact List.Pairwise.nil
            · rw [h]
              exact List.pairwise_singleton _ _
          · exact List.Pairwise.nil
        · intro x hx y hy he
          have hu := (cleanup_adds_under cfg _ node hn x hx).1
          rw [he, hM y hy] at hu
          exact slashPrefix_irrefl _ hu
        · intro x hx y hy he
          have hxu : AtOrUnder (leon_path_push p d) x.1 := by
            rcases List.mem_append.1 hx with h | h
            · exact Or.inr (cleanup_adds_under cfg _ node hn x h).1
            · exact Or.inl (hM x h)
          obtain ⟨⟨e, hem, hyu⟩, _⟩ := loop2_adds_under cfg p rest hrest y hy
          have hap := sibling_apart p d e x.1 hg (wellListed_goodName rest hrest e hem)
            (fun h => hnot (h ▸ hem)) hxu
          rcases hyu with hyu | hyu
          · exact hap.2.1 (he.trans hyu)
          · exact hap.2.2 (he ▸ hyu)
      · exact loop2_adds_pairwise cfg p rest hrest
end

/-! ### A directory and its subdirectory both queued -/

end Leon
